import Mathlib

/-!
# Credit2 scheduler (`xen/common/sched_credit2.c`, Xen 4.7.0)

A shallow embedding of the credit accounting and runqueue ordering code of the
Credit2 scheduler, followed by theorems about it.

Conventions of the embedding

* C objects reached through pointers (`struct csched2_vcpu *`) live in a heap
  `vcpu_heap`, a map from references (natural numbers) to records.  The
  intrusive lists `rqd->runq` and `rqd->svc` are lists of references, so that an
  update of an entity is seen through every list the entity is linked on.
* `int` is 32-bit, `s_time_t` is `int64_t`.  Signed fields are `Int`, unsigned
  fields are `Nat`; every arithmetic result is reduced to the width of its C
  type by `to_int`, `to_s64`, `to_u64`, `to_u32` (two's complement wrap-around,
  which is what the compiled code does).
* `BUG_ON(c)` and a division by zero end the execution: the function returns
  `none`.  `ASSERT`, which exists in debug builds only, and tracing
  (`trace_var`, `SCHED_STAT_CRANK`, `d2printk`) are not modelled.
-/

namespace Credit2

/-! ## Machine integers -/

/-- Conversion of a mathematical integer to C `int` (32 bits, two's complement). -/
def to_int (x : Int) : Int := (x + 2147483648) % 4294967296 - 2147483648

/-- Conversion of a mathematical integer to `s_time_t` (`int64_t`). -/
def to_s64 (x : Int) : Int :=
  (x + 9223372036854775808) % 18446744073709551616 - 9223372036854775808

/-- Conversion of a mathematical integer to `uint64_t`. -/
def to_u64 (x : Int) : Nat := (x % 18446744073709551616).toNat

/-- Conversion of a mathematical integer to `unsigned int` (32 bits). -/
def to_u32 (x : Int) : Nat := (x % 4294967296).toNat

/-- The values of C `int`. -/
def int_range (x : Int) : Prop := -2147483648 ≤ x ∧ x ≤ 2147483647

instance (x : Int) : Decidable (int_range x) := by
  unfold int_range; infer_instance

/-! ## Constants -/

/-- Modelled from the spec: the macro `MICROSECS` of `xen/time.h` is not part of
the sources at hand; system time and credit are counted in nanoseconds
(one credit per nanosecond for the highest weight, 500 us and 2 ms timers). -/
def MICROSECS (us : Int) : Int := us * 1000

/-- Modelled from the spec: the macro `MILLISECS` of `xen/time.h` is not part of
the sources at hand; system time and credit are counted in nanoseconds. -/
def MILLISECS (ms : Int) : Int := ms * 1000000

def CSCHED2_DEFAULT_WEIGHT : Nat := 256
def CSCHED2_MIN_TIMER : Int := MICROSECS 500
def CSCHED2_CREDIT_INIT : Int := MILLISECS 10
def CSCHED2_CARRYOVER_MAX : Int := CSCHED2_MIN_TIMER
def CSCHED2_MIGRATE_COMPENSATION : Int := MICROSECS 50
def CSCHED2_CREDIT_RESET : Int := 0
def CSCHED2_MAX_TIMER : Int := MILLISECS 2
def CSCHED2_IDLE_CREDIT : Int := -(1 <<< 30 : Nat)

def __CSFLAG_scheduled : Nat := 1
def CSFLAG_scheduled : Nat := 1 <<< __CSFLAG_scheduled
def __CSFLAG_delayed_runq_add : Nat := 2
def CSFLAG_delayed_runq_add : Nat := 1 <<< __CSFLAG_delayed_runq_add
def __CSFLAG_runq_migrate_request : Nat := 3
def CSFLAG_runq_migrate_request : Nat := 1 <<< __CSFLAG_runq_migrate_request

/-! ## Data model -/

/-- The record `struct csched2_vcpu`, with the fields of the `struct vcpu` behind
its up-pointer that the scheduler reads: `is_idle` for `is_idle_vcpu`,
`is_running`, `processor`, `cpu_hard_affinity`, `runnable` for `vcpu_runnable`
and `vpf_migrating` for the bit `_VPF_migrating` of `pause_flags`.
`rqd` and `migrate_rqd` point to a runqueue: they hold its slot in the array
`prv->rqd`, which is also its `id` while the runqueue is active, `none` for
`NULL`.  `sdom` points to the record of the domain, `none` for `NULL`. -/
structure csched2_vcpu where
  vcpu : Nat
  is_idle : Bool
  is_running : Bool
  processor : Nat
  rqd : Option Int
  weight : Nat
  residual : Nat
  credit : Int
  start_time : Int
  flags : Nat
  load_last_update : Int
  avgload : Int
  migrate_rqd : Option Int
  cpu_hard_affinity : List Nat := []
  runnable : Bool := true
  vpf_migrating : Bool := false
  sdom : Option Nat := none
deriving DecidableEq, Repr

/-- References to `struct csched2_vcpu` objects and the memory holding them. -/
abbrev vcpu_heap := Nat → csched2_vcpu

/-- The record `struct csched2_runqueue_data`; cpumasks are lists of processor
numbers, `runq` and `svc` are the lists of the entities linked through
`runq_elem` and `rqd_elem`, in list order.  `id` is an `int`: the slot of the
runqueue while it is active, -1 otherwise. -/
structure csched2_runqueue_data where
  id : Int
  active : List Nat
  runq : List Nat
  svc : List Nat
  max_weight : Nat
  idle : List Nat
  tickled : List Nat
  load : Int
  load_last_update : Int
  avgload : Int
  b_avgload : Int
deriving DecidableEq, Repr

/-- The ordering invariant of a runnable list: credits never increase along it. -/
def runq_sorted (heap : vcpu_heap) (runq : List Nat) : Prop :=
  runq.Pairwise (fun a b => (heap b).credit ≤ (heap a).credit)

instance (heap : vcpu_heap) (runq : List Nat) : Decidable (runq_sorted heap runq) := by
  unfold runq_sorted; infer_instance

/-! ## Runqueue insertion -/

/-- The loop of `__runq_insert` followed by its `list_add_tail(&svc->runq_elem, iter)`:
walk the list counting in `pos` the elements passed, stop at the first element
whose credit is below that of `svc`, and link `svc` in front of the element the
walk stopped at (the list head when the walk ran off the end, which appends). -/
def runq_insert_scan (heap : vcpu_heap) (svc : Nat) : List Nat → Nat → List Nat × Nat
  | [], pos => ([svc], pos)
  | iter :: rest, pos =>
    if (heap svc).credit > (heap iter).credit then
      (svc :: iter :: rest, pos)
    else
      let r := runq_insert_scan heap svc rest (pos + 1)
      (iter :: r.1, r.2)

/-- The function `__runq_insert(runq, svc)`, where `runq` is the runnable list of
`rqd`: the four `BUG_ON` checks, then the scan.  Returns the runqueue with the
new runnable list and the position `pos`. -/
def __runq_insert (heap : vcpu_heap) (rqd : csched2_runqueue_data) (svc : Nat) :
    Option (csched2_runqueue_data × Nat) :=
  if (heap svc).rqd ≠ some rqd.id then none
  else if (heap svc).is_idle then none
  else if (heap svc).is_running then none
  else if (heap svc).flags &&& CSFLAG_scheduled ≠ 0 then none
  else
    let r := runq_insert_scan heap svc rqd.runq 0
    some ({ rqd with runq := r.1 }, r.2)

/-! ## Time-to-credit, credit-to-time -/

/-- Modelled from the spec: the macro `do_div` of `asm/div64.h` is not part of
the sources at hand.  `do_div(val, base)` divides the 64-bit `val` by the 32-bit
`base`, leaves the quotient, rounded down, in `val` and returns the remainder;
here it returns the pair of the new `val` and the remainder, `none` for a
division by zero. -/
def do_div (val : Nat) (base : Nat) : Option (Nat × Nat) :=
  if base = 0 then none else some (val / base, val % base)

/-- The function `t2c_update(rqd, time, svc)`.  It reads `rqd->max_weight` and
reads and writes `*svc` only; the record of `svc` is passed and returned.
`time * rqd->max_weight + svc->residual` is computed in `s_time_t` and converted
to `uint64_t`; `svc->credit -= val` is computed in `uint64_t` and converted to
`int`. -/
def t2c_update (rqd : csched2_runqueue_data) (time : Int) (svc : csched2_vcpu) :
    Option csched2_vcpu :=
  let val : Nat := to_u64 (to_s64 (to_s64 (time * rqd.max_weight) + svc.residual))
  match do_div val svc.weight with
  | none => none
  | some (q, r) =>
    some { svc with
      residual := to_u32 r
      credit := to_int (to_u64 ((to_u64 svc.credit : Int) - q)) }

/-- The function `c2t(rqd, credit, svc)`: `credit * svc->weight / rqd->max_weight`
in `s_time_t`, the division rounding toward zero. -/
def c2t (rqd : csched2_runqueue_data) (credit : Int) (svc : csched2_vcpu) : Option Int :=
  if rqd.max_weight = 0 then none
  else some ((to_s64 (credit * svc.weight)).tdiv rqd.max_weight)

/-- The function `burn_credits(rqd, svc, now)`; like `t2c_update` it writes
`*svc` only. -/
def burn_credits (rqd : csched2_runqueue_data) (svc : csched2_vcpu) (now : Int) :
    Option csched2_vcpu :=
  if svc.is_idle then
    if svc.credit ≠ CSCHED2_IDLE_CREDIT then none else some svc
  else
    let delta := to_s64 (now - svc.start_time)
    if delta > 0 then
      match t2c_update rqd delta svc with
      | none => none
      | some svc1 => some { svc1 with start_time := now }
    else
      some svc

/-! ## Time slice -/

/-- The function `csched2_runtime(ops, cpu, snext)`, with `rqd = RQD(ops, cpu)`. -/
def csched2_runtime (heap : vcpu_heap) (rqd : csched2_runqueue_data) (snext : Nat) :
    Option Int :=
  if (heap snext).is_idle then some (-1)
  else
    let rt_credit : Int :=
      match rqd.runq with
      | [] => (heap snext).credit
      | swait :: _ =>
        if !(heap swait).is_idle && decide ((heap swait).credit > 0) then
          to_int ((heap snext).credit - (heap swait).credit)
        else (heap snext).credit
    if rt_credit ≤ 0 then some CSCHED2_MIN_TIMER
    else
      match c2t rqd rt_credit (heap snext) with
      | none => none
      | some time =>
        if time < CSCHED2_MIN_TIMER then some CSCHED2_MIN_TIMER
        else if time > CSCHED2_MAX_TIMER then some CSCHED2_MAX_TIMER
        else some time

/-! ## Credit reset -/

/-- Writing the record `v` through the reference `i`. -/
def heap_store (heap : vcpu_heap) (i : Nat) (v : csched2_vcpu) : vcpu_heap :=
  fun j => if j = i then v else heap j

/-- The multiplier `m` computed at the start of `reset_credit`: `-snext->credit`
is an `int`, the division is done in `s_time_t` and rounds toward zero, and the
sum is stored in an `int`. -/
def reset_credit_m (credit : Int) : Int :=
  if credit < -CSCHED2_CREDIT_INIT then
    to_int (1 + (to_int (-credit)).tdiv CSCHED2_CREDIT_INIT)
  else 1

/-- The credit one entity leaves the loop body of `reset_credit` with: the
addition is done in `s_time_t` (it cannot overflow 64 bits) and stored into the
`int` field, then the field is clipped. -/
def reset_credit_one (m : Int) (credit : Int) : Int :=
  let c1 :=
    if m = 1 then to_int (credit + CSCHED2_CREDIT_INIT)
    else to_int (credit + m * CSCHED2_CREDIT_INIT)
  if c1 > CSCHED2_CREDIT_INIT + CSCHED2_CARRYOVER_MAX then
    CSCHED2_CREDIT_INIT + CSCHED2_CARRYOVER_MAX
  else c1

/-- The loop of `reset_credit` over the list `rqd->svc`. -/
def reset_credit_loop (rqd_id : Int) (m : Int) (now : Int) :
    List Nat → vcpu_heap → Option vcpu_heap
  | [], heap => some heap
  | iter :: rest, heap =>
    if (heap iter).is_idle then none
    else if (heap iter).rqd ≠ some rqd_id then none
    else
      reset_credit_loop rqd_id m now rest
        (heap_store heap iter
          { heap iter with
            credit := reset_credit_one m (heap iter).credit
            start_time := now })

/-- The function `reset_credit(ops, cpu, now, snext)`, with `rqd = RQD(ops, cpu)`. -/
def reset_credit (heap : vcpu_heap) (rqd : csched2_runqueue_data) (now : Int) (snext : Nat) :
    Option vcpu_heap :=
  reset_credit_loop rqd.id (reset_credit_m (heap snext).credit) now rqd.svc heap

/-- The multiplier as the specification words it. -/
def spec_reset_m (credit : Int) : Int :=
  if credit < -CSCHED2_CREDIT_INIT then 1 + (-credit) / CSCHED2_CREDIT_INIT else 1

/-! ## Processor masks -/

/-- Modelled from the spec: the helpers of `xen/cpumask.h` are not part of the
sources at hand.  A `cpumask_t` is kept as the list of the processors whose bit
is set; the helpers look at the bits below `nr_cpu_ids`, in increasing order.
This is the list `for_each_cpu` walks. -/
def cpumask_cpus (nr_cpu_ids : Nat) (m : List Nat) : List Nat :=
  (List.range nr_cpu_ids).filter (fun c => decide (c ∈ m))

/-- Modelled from the spec: `cpumask_test_cpu` of `xen/cpumask.h`, the bit of a
processor. -/
def cpumask_test_cpu (cpu : Nat) (m : List Nat) : Bool := decide (cpu ∈ m)

/-- Modelled from the spec: `cpumask_and` of `xen/cpumask.h`, the intersection. -/
def cpumask_and (a b : List Nat) : List Nat := a.filter (fun c => decide (c ∈ b))

/-- Modelled from the spec: `cpumask_andnot` of `xen/cpumask.h`, the bits of `a`
that are not in `b`. -/
def cpumask_andnot (a b : List Nat) : List Nat := a.filter (fun c => !decide (c ∈ b))

/-- Modelled from the spec: `cpumask_set_cpu` of `xen/cpumask.h`. -/
def cpumask_set_cpu (cpu : Nat) (m : List Nat) : List Nat :=
  if cpu ∈ m then m else cpu :: m

/-- Modelled from the spec: `cpumask_clear_cpu` of `xen/cpumask.h`. -/
def cpumask_clear_cpu (cpu : Nat) (m : List Nat) : List Nat :=
  m.filter (fun c => !decide (c = cpu))

/-- Modelled from the spec: `cpumask_first` of `xen/cpumask.h`, the lowest
processor of the mask, `nr_cpu_ids` for an empty mask. -/
def cpumask_first (nr_cpu_ids : Nat) (m : List Nat) : Nat :=
  (cpumask_cpus nr_cpu_ids m).headD nr_cpu_ids

/-- Modelled from the spec: `cpumask_next` of `xen/cpumask.h`, the lowest
processor of the mask above `n`, `nr_cpu_ids` if there is none. -/
def cpumask_next (nr_cpu_ids : Nat) (n : Nat) (m : List Nat) : Nat :=
  ((cpumask_cpus nr_cpu_ids m).filter (fun c => decide (n < c))).headD nr_cpu_ids

/-- Modelled from the spec: `cpumask_cycle` of `xen/cpumask.h`, the next
processor of the mask after `n`, wrapping around to the first one (the cyclic
starting point of the tickle protocol); `nr_cpu_ids` for an empty mask. -/
def cpumask_cycle (nr_cpu_ids : Nat) (n : Nat) (m : List Nat) : Nat :=
  let nxt := cpumask_next nr_cpu_ids n m
  if nxt = nr_cpu_ids then cpumask_first nr_cpu_ids m else nxt

/-- Modelled from the spec: `cpumask_any` of `xen/cpumask.h`, some processor of
the mask (the first one), `nr_cpu_ids` for an empty mask. -/
def cpumask_any (nr_cpu_ids : Nat) (m : List Nat) : Nat := cpumask_first nr_cpu_ids m

/-- Modelled from the spec: `cpumask_empty` of `xen/cpumask.h`. -/
def cpumask_empty (nr_cpu_ids : Nat) (m : List Nat) : Bool :=
  (cpumask_cpus nr_cpu_ids m).isEmpty

/-- Modelled from the spec: `cpumask_intersects` of `xen/cpumask.h`. -/
def cpumask_intersects (nr_cpu_ids : Nat) (a b : List Nat) : Bool :=
  !(cpumask_cpus nr_cpu_ids (cpumask_and a b)).isEmpty

/-- Modelled from the spec: `cpumask_weight` of `xen/cpumask.h`, the number of
processors of the mask. -/
def cpumask_weight (nr_cpu_ids : Nat) (m : List Nat) : Nat :=
  (cpumask_cpus nr_cpu_ids m).length

/-! ## Scheduler state -/

/-- The record `struct csched2_private`; the array `rqd` and the map `runq_map`
are functions of the slot and of the processor. -/
structure csched2_private where
  initialized : List Nat
  runq_map : Nat → Int
  active_queues : List Nat
  rqd : Int → csched2_runqueue_data
  load_window_shift : Nat

/-- The record `struct csched2_dom`; `weight` and `nr_vcpus` are `uint16_t`.
`vcpus` lists the entities of the domain behind the up-pointer `dom`, in the
order in which `for_each_vcpu` walks them. -/
structure csched2_dom where
  weight : Nat
  nr_vcpus : Nat
  vcpus : List Nat
deriving DecidableEq, Repr

/-- Everything the scheduler code reads and writes: the private data, the
entities, the per-processor current entity (`CSCHED2_VCPU(curr_on_cpu(cpu))`),
the processors on which `SCHEDULE_SOFTIRQ` was raised (latest first), the
number of processors, the boot parameters, the cpupool mask of the domain of
each entity, the outcome of the `spin_trylock` attempts on the private
lock and on the lock of each runqueue, the records of the domains, and the
array `idle_vcpu` of the idle entity of each processor. -/
structure sched_state where
  prv : csched2_private
  heap : vcpu_heap
  curr_on_cpu : Nat → Nat
  softirq : List Nat
  nr_cpu_ids : Nat
  opt_migrate_resist : Nat
  opt_underload_balance_tolerance : Int
  opt_overload_balance_tolerance : Int
  cpupool_domain_cpumask : Nat → List Nat
  trylock_prv : Bool
  trylock_rqd : Int → Bool
  dom : Nat → csched2_dom := fun _ => { weight := 0, nr_vcpus := 0, vcpus := [] }
  idle_vcpu : Nat → Nat := fun cpu => cpu

/-- The macro `CSCHED2_MIGRATE_RESIST`, `opt_migrate_resist * MICROSECS(1)`. -/
def CSCHED2_MIGRATE_RESIST (opt_migrate_resist : Nat) : Int :=
  (opt_migrate_resist : Int) * MICROSECS 1

/-- Writing the record `r` into the slot `q` of the array `prv->rqd`. -/
def rqd_store (prv : csched2_private) (q : Int) (r : csched2_runqueue_data) :
    csched2_private :=
  { prv with rqd := fun j => if j = q then r else prv.rqd j }

/-- The macro `c2r(ops, cpu)`. -/
def c2r (st : sched_state) (cpu : Nat) : Int := st.prv.runq_map cpu

/-- The macro `RQD(ops, cpu)`. -/
def RQD (st : sched_state) (cpu : Nat) : csched2_runqueue_data := st.prv.rqd (c2r st cpu)

/-- The function `__vcpu_on_runq(svc)`, `!list_empty(&svc->runq_elem)`.  An
entity is only ever linked into the runnable list of the runqueue `svc->rqd`
points to (`__runq_insert` checks it, `__runq_deassign` wants the entity off
the list), so its node is linked exactly when that list holds it. -/
def __vcpu_on_runq (st : sched_state) (svc : Nat) : Bool :=
  match (st.heap svc).rqd with
  | none => false
  | some q => decide (svc ∈ (st.prv.rqd q).runq)

/-! ## Load tracking -/

def LOADAVG_GRANULARITY_SHIFT : Nat := 10
def LOADAVG_WINDOW_SHIFT_MIN : Nat := 4

/-- The left shift of an `unsigned long long`. -/
def shl64 (x k : Nat) : Nat := (x * 2 ^ k) % 18446744073709551616

/-- The test `last_update + (1ULL << shift) < now` of the load updates; the sum
and the comparison are done in `unsigned long long`. -/
def load_window_elapsed (shift : Nat) (last_update now : Int) : Bool :=
  decide (to_u64 (last_update + shl64 1 shift) < to_u64 now)

/-- The sample `(unsigned long long)load << shift`, stored into an `s_time_t`. -/
def load_sample (shift : Nat) (load : Int) : Int :=
  to_s64 (shl64 (to_u64 load) shift)

/-- The blend
`(delta * ((unsigned long long)load << shift) + ((1ULL << shift) - delta) * avg) >> shift`
of the load updates: every operand is converted to `unsigned long long`, the
arithmetic is modulo 2^64, and the result is stored into an `s_time_t`. -/
def load_blend (shift : Nat) (delta load avg : Int) : Int :=
  to_s64 (((to_u64 delta * shl64 (to_u64 load) shift
      + to_u64 ((shl64 1 shift : Int) - delta) * to_u64 avg) % 18446744073709551616)
    / 2 ^ shift)

/-- The function `__update_runq_load(ops, rqd, change, now)`. -/
def __update_runq_load (prv : csched2_private) (rqd : csched2_runqueue_data)
    (change now : Int) : csched2_runqueue_data :=
  let now1 := now >>> LOADAVG_GRANULARITY_SHIFT
  let shift := prv.load_window_shift
  if load_window_elapsed shift rqd.load_last_update now1 then
    { rqd with
      avgload := load_sample shift rqd.load
      b_avgload := load_sample shift rqd.load
      load := to_int (rqd.load + change)
      load_last_update := now1 }
  else
    let delta := to_s64 (now1 - rqd.load_last_update)
    { rqd with
      avgload := load_blend shift delta rqd.load rqd.avgload
      b_avgload := load_blend shift delta rqd.load rqd.b_avgload
      load := to_int (rqd.load + change)
      load_last_update := now1 }

/-- The function `__update_svc_load(ops, svc, change, now)`, on the record of
`svc`. -/
def __update_svc_load (prv : csched2_private) (svc : csched2_vcpu) (change now : Int) :
    csched2_vcpu :=
  let vcpu_load : Int :=
    if change = -1 then 1
    else if change = 1 then 0
    else if svc.runnable then 1 else 0
  let now1 := now >>> LOADAVG_GRANULARITY_SHIFT
  let shift := prv.load_window_shift
  if load_window_elapsed shift svc.load_last_update now1 then
    { svc with
      avgload := load_sample shift vcpu_load
      load_last_update := now1 }
  else
    let delta := to_s64 (now1 - svc.load_last_update)
    { svc with
      avgload := load_blend shift delta vcpu_load svc.avgload
      load_last_update := now1 }

/-- The function `update_load(ops, rqd, svc, change, now)`; `q` is the slot of
`rqd`, `svc` is `none` for `NULL`. -/
def update_load (st : sched_state) (q : Int) (svc : Option Nat) (change now : Int) :
    sched_state :=
  let st1 := { st with
    prv := rqd_store st.prv q (__update_runq_load st.prv (st.prv.rqd q) change now) }
  match svc with
  | none => st1
  | some s =>
    { st1 with heap := heap_store st1.heap s (__update_svc_load st1.prv (st1.heap s) change now) }

/-! ## Runqueue assignment -/

/-- The brute-force search of `update_max_weight`: the largest weight on the
list, at least 1. -/
def max_weight_search (heap : vcpu_heap) : List Nat → Nat → Nat
  | [], max_weight => max_weight
  | iter :: rest, max_weight =>
    if (heap iter).weight > max_weight then max_weight_search heap rest (heap iter).weight
    else max_weight_search heap rest max_weight

/-- The function `update_max_weight(rqd, new_weight, old_weight)`.  The weights
are below 2^31, so the conversions between `int` and `unsigned int` of the
comparisons do not change them. -/
def update_max_weight (heap : vcpu_heap) (rqd : csched2_runqueue_data)
    (new_weight old_weight : Nat) : csched2_runqueue_data :=
  if new_weight > rqd.max_weight then
    { rqd with max_weight := new_weight }
  else if old_weight = rqd.max_weight then
    { rqd with max_weight := max_weight_search heap rqd.svc 1 }
  else rqd

/-- The function `__runq_assign(svc, rqd)`; `q` is the slot of `rqd`. -/
def __runq_assign (st : sched_state) (svc : Nat) (q : Int) : sched_state :=
  let heap1 := heap_store st.heap svc { st.heap svc with rqd := some q }
  let r0 := st.prv.rqd q
  let r1 := { r0 with svc := r0.svc ++ [svc] }
  let r2 := update_max_weight heap1 r1 (heap1 svc).weight 0
  let r3 := { r2 with b_avgload := to_s64 (r2.b_avgload + (heap1 svc).avgload) }
  { st with heap := heap1, prv := rqd_store st.prv q r3 }

/-- The function `runq_assign(ops, vc)`. -/
def runq_assign (st : sched_state) (svc : Nat) : Option sched_state :=
  if (st.heap svc).rqd ≠ none then none
  else some (__runq_assign st svc (c2r st (st.heap svc).processor))

/-- The function `__runq_deassign(svc)`; a `NULL` `svc->rqd` is dereferenced,
which ends the execution. -/
def __runq_deassign (st : sched_state) (svc : Nat) : Option sched_state :=
  if __vcpu_on_runq st svc then none
  else if (st.heap svc).flags &&& CSFLAG_scheduled ≠ 0 then none
  else
    match (st.heap svc).rqd with
    | none => none
    | some q =>
      let r0 := st.prv.rqd q
      let r1 := { r0 with svc := r0.svc.erase svc }
      let r2 := update_max_weight st.heap r1 0 (st.heap svc).weight
      let r3 := { r2 with b_avgload := to_s64 (r2.b_avgload - (st.heap svc).avgload) }
      some { st with
        heap := heap_store st.heap svc { st.heap svc with rqd := none }
        prv := rqd_store st.prv q r3 }

/-- The function `runq_deassign(ops, vc)`. -/
def runq_deassign (st : sched_state) (svc : Nat) : Option sched_state :=
  if (st.heap svc).rqd ≠ some (c2r st (st.heap svc).processor) then none
  else __runq_deassign st svc

/-- The function `runq_insert(ops, cpu, svc)`: the two `BUG_ON` checks, then
`__runq_insert` on the runnable list of `RQD(ops, cpu)`. -/
def runq_insert (st : sched_state) (cpu : Nat) (svc : Nat) : Option sched_state :=
  if __vcpu_on_runq st svc then none
  else if c2r st cpu ≠ c2r st (st.heap svc).processor then none
  else
    match __runq_insert st.heap (RQD st cpu) svc with
    | none => none
    | some (rqd1, _) => some { st with prv := rqd_store st.prv (c2r st cpu) rqd1 }

/-- The function `__runq_remove(svc)`: `list_del_init` unlinks the entity from
the runnable list it is on, that of the runqueue `svc->rqd` points to. -/
def __runq_remove (st : sched_state) (svc : Nat) : Option sched_state :=
  if !__vcpu_on_runq st svc then none
  else
    match (st.heap svc).rqd with
    | none => none
    | some q =>
      some { st with
        prv := rqd_store st.prv q { st.prv.rqd q with runq := (st.prv.rqd q).runq.erase svc } }

/-! ## Tickling -/

/-- The label `tickle:` of `runq_tickle` with `ipid` set: the bit of `ipid` is
set in the tickled mask of the runqueue in slot `q` and `SCHEDULE_SOFTIRQ` is
raised on `ipid`. -/
def tickle_cpu (st : sched_state) (q : Int) (ipid : Nat) : sched_state :=
  { st with
    prv := rqd_store st.prv q
      { st.prv.rqd q with tickled := cpumask_set_cpu ipid (st.prv.rqd q).tickled }
    softirq := ipid :: st.softirq }

/-- The loop of `runq_tickle` over the busy, not tickled, allowed processors:
it skips `cpu`, burns the credit of the entity running on each other processor
and keeps in `ipid` the first processor whose entity has the lowest credit seen,
in `lowest` that credit.  `ipid` is `none` for -1. -/
def runq_tickle_scan (rqd : csched2_runqueue_data) (curr_on_cpu : Nat → Nat) (cpu : Nat)
    (now : Int) : List Nat → vcpu_heap → Option Nat → Int →
    Option (vcpu_heap × Option Nat × Int)
  | [], heap, ipid, lowest => some (heap, ipid, lowest)
  | i :: rest, heap, ipid, lowest =>
    if i = cpu then runq_tickle_scan rqd curr_on_cpu cpu now rest heap ipid lowest
    else if (heap (curr_on_cpu i)).is_idle then none
    else
      match burn_credits rqd (heap (curr_on_cpu i)) now with
      | none => none
      | some cur =>
        if cur.credit < lowest then
          runq_tickle_scan rqd curr_on_cpu cpu now rest
            (heap_store heap (curr_on_cpu i) cur) (some i) cur.credit
        else
          runq_tickle_scan rqd curr_on_cpu cpu now rest
            (heap_store heap (curr_on_cpu i) cur) ipid lowest

/-- The mask of the idle, not tickled processors `new` is allowed on. -/
def tickle_idle_mask (rqd : csched2_runqueue_data) (affinity : List Nat) : List Nat :=
  cpumask_and (cpumask_andnot rqd.idle rqd.tickled) affinity

/-- The mask of the busy, not tickled processors `new` is allowed on. -/
def tickle_busy_mask (rqd : csched2_runqueue_data) (affinity : List Nat) : List Nat :=
  cpumask_and (cpumask_andnot (cpumask_andnot rqd.active rqd.idle) rqd.tickled) affinity

/-- The function `runq_tickle(ops, cpu, new, now)`. -/
def runq_tickle (st : sched_state) (cpu : Nat) (new : Nat) (now : Int) : Option sched_state :=
  let q := c2r st cpu
  let rqd := st.prv.rqd q
  if (st.heap new).processor ≠ cpu then none
  else if (st.heap new).rqd ≠ some q then none
  else
    match burn_credits rqd (st.heap (st.curr_on_cpu cpu)) now with
    | none => none
    | some cur =>
      let heap1 := heap_store st.heap (st.curr_on_cpu cpu) cur
      if cur.credit < (heap1 new).credit then
        some (tickle_cpu { st with heap := heap1 } q cpu)
      else
        let i := cpumask_cycle st.nr_cpu_ids cpu
          (tickle_idle_mask rqd (heap1 new).cpu_hard_affinity)
        if i < st.nr_cpu_ids then
          some (tickle_cpu { st with heap := heap1 } q i)
        else
          match runq_tickle_scan rqd st.curr_on_cpu cpu now
              (cpumask_cpus st.nr_cpu_ids (tickle_busy_mask rqd (heap1 new).cpu_hard_affinity))
              heap1 none (1 <<< 30 : Nat) with
          | none => none
          | some (heap2, ipid, lowest) =>
            match ipid with
            | none => some { st with heap := heap2 }
            | some ip =>
              if lowest + CSCHED2_MIGRATE_RESIST st.opt_migrate_resist > (heap2 new).credit then
                some { st with heap := heap2 }
              else
                some (tickle_cpu { st with heap := heap2 } q ip)

/-- The processors the last loop of `runq_tickle` compares: busy, not tickled,
allowed for `new`, and not `cpu`. -/
def tickle_candidates (st : sched_state) (cpu new : Nat) : List Nat :=
  (cpumask_cpus st.nr_cpu_ids
    (tickle_busy_mask (RQD st cpu) (st.heap new).cpu_hard_affinity)).filter
    (fun i => !decide (i = cpu))

/-! ## Waking -/

/-- The function `csched2_vcpu_wake(ops, vc)`; `now` is the value `NOW()`
returns. -/
def csched2_vcpu_wake (st : sched_state) (svc : Nat) (now : Int) : Option sched_state :=
  if (st.heap svc).is_idle then none
  else if st.curr_on_cpu (st.heap svc).processor = svc then some st
  else if __vcpu_on_runq st svc then some st
  else if (st.heap svc).flags &&& CSFLAG_scheduled ≠ 0 then
    some { st with
      heap := heap_store st.heap svc
        { st.heap svc with flags := (st.heap svc).flags ||| CSFLAG_delayed_runq_add } }
  else
    let assigned : Option sched_state :=
      if (st.heap svc).rqd = none then runq_assign st svc
      else if some (c2r st (st.heap svc).processor) ≠ (st.heap svc).rqd then none
      else some st
    match assigned with
    | none => none
    | some st1 =>
      match (st1.heap svc).rqd with
      | none => none
      | some q =>
        let st2 := update_load st1 q (some svc) 1 now
        match runq_insert st2 (st2.heap svc).processor svc with
        | none => none
        | some st3 => runq_tickle st3 (st3.heap svc).processor svc now

/-! ## Picking a processor -/

/-- The constant `MAX_LOAD`, `1ULL<<60`. -/
def MAX_LOAD : Int := 1152921504606846976

/-- The flags word with the bits of `bit` cleared (`clear_bit`,
`test_and_clear_bit`). -/
def clear_flag (flags bit : Nat) : Nat := flags ^^^ (flags &&& bit)

/-- The function `get_fallback_cpu(svc)`; a `NULL` `svc->rqd` is dereferenced,
which ends the execution. -/
def get_fallback_cpu (st : sched_state) (svc : Nat) : Option Nat :=
  if cpumask_test_cpu (st.heap svc).processor (st.heap svc).cpu_hard_affinity then
    some (st.heap svc).processor
  else
    match (st.heap svc).rqd with
    | none => none
    | some q =>
      let cpu := cpumask_first st.nr_cpu_ids
        (cpumask_and (st.heap svc).cpu_hard_affinity (st.prv.rqd q).active)
      if cpu < st.nr_cpu_ids then some cpu
      else
        some (cpumask_first st.nr_cpu_ids
          (cpumask_and (st.heap svc).cpu_hard_affinity (st.cpupool_domain_cpumask svc)))

/-- The value `rqd_avgload` one iteration of the loop of `choose_cpu` computes
for the runqueue in slot `i`: `MAX_LOAD` unless the runqueue is the one of `svc`
or its lock is taken, and its active processors intersect the hard affinity. -/
def choose_cpu_avgload (st : sched_state) (svc : Nat) (i : Int) : Int :=
  if (st.heap svc).rqd = some i then
    if cpumask_intersects st.nr_cpu_ids (st.heap svc).cpu_hard_affinity (st.prv.rqd i).active then
      to_s64 ((st.prv.rqd i).b_avgload - (st.heap svc).avgload)
    else MAX_LOAD
  else if st.trylock_rqd i then
    if cpumask_intersects st.nr_cpu_ids (st.heap svc).cpu_hard_affinity (st.prv.rqd i).active then
      (st.prv.rqd i).b_avgload
    else MAX_LOAD
  else MAX_LOAD

/-- The loop of `choose_cpu` over the active runqueues, from the current
`min_avgload` and `min_rqi`. -/
def choose_cpu_scan (st : sched_state) (svc : Nat) : List Nat → Int → Int → Int × Int
  | [], min_avgload, min_rqi => (min_avgload, min_rqi)
  | i :: rest, min_avgload, min_rqi =>
    if choose_cpu_avgload st svc i < min_avgload then
      choose_cpu_scan st svc rest (choose_cpu_avgload st svc i) i
    else
      choose_cpu_scan st svc rest min_avgload min_rqi

/-- The state after `test_and_clear_bit(__CSFLAG_runq_migrate_request, &svc->flags)`. -/
def clear_migrate_request (st : sched_state) (svc : Nat) : sched_state :=
  { st with
    heap := heap_store st.heap svc
      { st.heap svc with
        flags := clear_flag (st.heap svc).flags CSFLAG_runq_migrate_request } }

/-- The function `choose_cpu(ops, vc)`: the state it leaves and the processor
it returns.  A `NULL` `svc->migrate_rqd` is dereferenced when a migration was
requested, which ends the execution. -/
def choose_cpu (st : sched_state) (svc : Nat) : Option (sched_state × Nat) :=
  if cpumask_empty st.nr_cpu_ids st.prv.active_queues then none
  else if !st.trylock_prv then
    match get_fallback_cpu (clear_migrate_request st svc) svc with
    | none => none
    | some cpu => some (clear_migrate_request st svc, cpu)
  else
    let st1 := clear_migrate_request st svc
    let suggested : Option (Option Nat) :=
      if (st.heap svc).flags &&& CSFLAG_runq_migrate_request ≠ 0 then
        match (st1.heap svc).migrate_rqd with
        | none => none
        | some m =>
          if (st1.prv.rqd m).id < 0 then some none
          else
            let new_cpu := cpumask_any st1.nr_cpu_ids
              (cpumask_and (st1.heap svc).cpu_hard_affinity (st1.prv.rqd m).active)
            if new_cpu < st1.nr_cpu_ids then some (some new_cpu) else some none
      else some none
    match suggested with
    | none => none
    | some (some new_cpu) => some (st1, new_cpu)
    | some none =>
      let r := choose_cpu_scan st1 svc (cpumask_cpus st1.nr_cpu_ids st1.prv.active_queues)
        MAX_LOAD (-1)
      if r.2 = -1 then
        match get_fallback_cpu st1 svc with
        | none => none
        | some cpu => some (st1, cpu)
      else
        let new_cpu := cpumask_any st1.nr_cpu_ids
          (cpumask_and (st1.heap svc).cpu_hard_affinity (st1.prv.rqd r.2).active)
        if new_cpu ≥ st1.nr_cpu_ids then none else some (st1, new_cpu)

/-! ## Migration and load balancing -/

/-- The first half of the branch of `migrate` that moves an entity: the entity
is taken off the runnable list it is on, with the load update, and
`__runq_deassign` takes it off its runqueue.  A `NULL` `svc->rqd` is
dereferenced, which ends the execution. -/
def migrate_detach (st : sched_state) (svc : Nat) (now : Int) : Option sched_state :=
  let removed : Option sched_state :=
    if __vcpu_on_runq st svc then
      match __runq_remove st svc with
      | none => none
      | some st1 =>
        match (st1.heap svc).rqd with
        | none => none
        | some q => some (update_load st1 q none (-1) now)
    else some st
  match removed with
  | none => none
  | some st2 => __runq_deassign st2 svc

/-- The second half of the branch of `migrate` that moves an entity: a
processor of the target runqueue is picked, `__runq_assign` puts the entity on
the runqueue in slot `trqd`, and an entity that was on a runnable list
(`on_runq`) is inserted and tickled there. -/
def migrate_attach (st : sched_state) (svc : Nat) (trqd : Int) (now : Int) (on_runq : Bool) :
    Option sched_state :=
  let processor := cpumask_any st.nr_cpu_ids
    (cpumask_and (st.heap svc).cpu_hard_affinity (st.prv.rqd trqd).active)
  if processor ≥ st.nr_cpu_ids then none
  else
    let st4 := { st with
      heap := heap_store st.heap svc { st.heap svc with processor := processor } }
    let st5 := __runq_assign st4 svc trqd
    if on_runq then
      let st6 := update_load st5 trqd none 1 now
      match runq_insert st6 processor svc with
      | none => none
      | some st7 => runq_tickle st7 processor svc now
    else some st5

/-- The function `migrate(ops, svc, trqd, now)`; `trqd` is the slot of the
target runqueue. -/
def migrate (st : sched_state) (svc : Nat) (trqd : Int) (now : Int) : Option sched_state :=
  if (st.heap svc).flags &&& CSFLAG_scheduled ≠ 0 then
    some { st with
      heap := heap_store st.heap svc
        { st.heap svc with
          migrate_rqd := some trqd
          vpf_migrating := true
          flags := (st.heap svc).flags ||| CSFLAG_runq_migrate_request } }
  else
    match migrate_detach st svc now with
    | none => none
    | some st3 => migrate_attach st3 svc trqd now (__vcpu_on_runq st svc)

/-- The function `vcpu_is_migrateable(svc, rqd)`; `q` is the slot of `rqd`. -/
def vcpu_is_migrateable (st : sched_state) (svc : Nat) (q : Int) : Bool :=
  decide ((st.heap svc).flags &&& CSFLAG_runq_migrate_request = 0) &&
    cpumask_intersects st.nr_cpu_ids (st.heap svc).cpu_hard_affinity (st.prv.rqd q).active

/-- The record `balance_state_t`; the runqueues are given by their slots. -/
structure balance_state_t where
  load_delta : Int
  best_push_svc : Option Nat
  best_pull_svc : Option Nat
  lrqd : Int
  orqd : Int

/-- The loads `l_load` and `o_load` of `consider` after the push and the pull
were taken into account. -/
def consider_loads (st : sched_state) (lrqd orqd : Int) (push_svc pull_svc : Option Nat) :
    Int × Int :=
  let l_load := (st.prv.rqd lrqd).b_avgload
  let o_load := (st.prv.rqd orqd).b_avgload
  let pushed : Int × Int :=
    match push_svc with
    | some p => (to_s64 (l_load - (st.heap p).avgload), to_s64 (o_load + (st.heap p).avgload))
    | none => (l_load, o_load)
  match pull_svc with
  | some p =>
    (to_s64 (pushed.1 + (st.heap p).avgload), to_s64 (pushed.2 - (st.heap p).avgload))
  | none => pushed

/-- The value `delta` of `consider`: the distance of the two loads. -/
def consider_delta (st : sched_state) (lrqd orqd : Int) (push_svc pull_svc : Option Nat) :
    Int :=
  let loads := consider_loads st lrqd orqd push_svc pull_svc
  let delta := to_s64 (loads.1 - loads.2)
  if delta < 0 then to_s64 (-delta) else delta

/-- The function `consider(st, push_svc, pull_svc)`; `bs` is the balance state
`st` of the source, `none` stands for `NULL`. -/
def consider (st : sched_state) (bs : balance_state_t) (push_svc pull_svc : Option Nat) :
    balance_state_t :=
  if consider_delta st bs.lrqd bs.orqd push_svc pull_svc < bs.load_delta then
    { bs with
      load_delta := consider_delta st bs.lrqd bs.orqd push_svc pull_svc
      best_push_svc := push_svc
      best_pull_svc := pull_svc }
  else bs

/-- The statement `__update_svc_load(ops, svc, 0, now)` on the entity `svc`. -/
def refresh_svc_load (st : sched_state) (svc : Nat) (now : Int) : sched_state :=
  { st with heap := heap_store st.heap svc (__update_svc_load st.prv (st.heap svc) 0 now) }

/-- The statement `__update_runq_load(ops, rqd, 0, now)` on the runqueue in
slot `q`. -/
def refresh_runq_load (st : sched_state) (q : Int) (now : Int) : sched_state :=
  { st with prv := rqd_store st.prv q (__update_runq_load st.prv (st.prv.rqd q) 0 now) }

/-- The distance `delta` the first loop of `balance_load` computes between the
balancing averages of the local runqueue and of the runqueue in slot `i`. -/
def balance_distance (st : sched_state) (lrqd i : Int) : Int :=
  let d := to_s64 ((st.prv.rqd lrqd).b_avgload - (st.prv.rqd i).b_avgload)
  if d < 0 then to_s64 (-d) else d

/-- The first loop of `balance_load`, over the active runqueues: `orqd` is the
runqueue looked at last (`none` for `NULL`), also when it was skipped;
`max_delta_rqi` is -1 while no runqueue was further than `load_delta`. -/
def balance_scan (lrqd : Int) (now : Int) :
    List Nat → sched_state → Int → Int → Option Int → sched_state × Int × Int × Option Int
  | [], st, load_delta, max_delta_rqi, orqd => (st, load_delta, max_delta_rqi, orqd)
  | i :: rest, st, load_delta, max_delta_rqi, _ =>
    if (i : Int) = lrqd ∨ st.trylock_rqd (i : Int) = false then
      balance_scan lrqd now rest st load_delta max_delta_rqi (some (i : Int))
    else
      let st1 := refresh_runq_load st (i : Int) now
      if balance_distance st1 lrqd (i : Int) > load_delta then
        balance_scan lrqd now rest st1 (balance_distance st1 lrqd (i : Int)) (i : Int)
          (some (i : Int))
      else
        balance_scan lrqd now rest st1 load_delta max_delta_rqi (some (i : Int))

/-- The tolerance test of `balance_load`, true when the pass stops (`goto out`):
`orqd` is the runqueue the first loop looked at last.  The products and the
shifts are done in `unsigned long long`, the sum of the window shift and a
tolerance in `unsigned int`. -/
def balance_within_tolerance (st : sched_state) (lrqd orqd : Int) (load_delta : Int) : Bool :=
  let load_max :=
    if (st.prv.rqd orqd).b_avgload > (st.prv.rqd lrqd).b_avgload then
      (st.prv.rqd orqd).b_avgload
    else (st.prv.rqd lrqd).b_avgload
  let cpus_max :=
    if cpumask_weight st.nr_cpu_ids (st.prv.rqd orqd).active
        > cpumask_weight st.nr_cpu_ids (st.prv.rqd lrqd).active then
      cpumask_weight st.nr_cpu_ids (st.prv.rqd orqd).active
    else cpumask_weight st.nr_cpu_ids (st.prv.rqd lrqd).active
  if to_u64 load_max < (shl64 1 st.prv.load_window_shift * cpus_max) % 18446744073709551616 then
    decide (to_u64 load_delta
      < shl64 1 (to_u32 (st.prv.load_window_shift + st.opt_underload_balance_tolerance)))
  else
    decide (to_u64 load_delta
      < shl64 1 (to_u32 (st.prv.load_window_shift + st.opt_overload_balance_tolerance)))

/-- The inner loop of the search of `balance_load`, over the entities of the
other runqueue, for the entity `push_svc`.  `inner_load_updated` is declared in
the body of the outer loop and is 0 whenever this loop runs, so the load of
every entity walked is refreshed. -/
def balance_pull_loop (push_svc : Nat) (now : Int) :
    List Nat → sched_state → balance_state_t → sched_state × balance_state_t
  | [], st, bs => (st, bs)
  | pull_svc :: rest, st, bs =>
    let st1 := refresh_svc_load st pull_svc now
    if vcpu_is_migrateable st1 pull_svc bs.lrqd then
      balance_pull_loop push_svc now rest st1 (consider st1 bs (some push_svc) (some pull_svc))
    else
      balance_pull_loop push_svc now rest st1 bs

/-- The outer loop of the search of `balance_load`, over the entities of the
local runqueue; `pull_list` is the list of the entities of the other one. -/
def balance_push_loop (pull_list : List Nat) (now : Int) :
    List Nat → sched_state → balance_state_t → sched_state × balance_state_t
  | [], st, bs => (st, bs)
  | push_svc :: rest, st, bs =>
    let st1 := refresh_svc_load st push_svc now
    if vcpu_is_migrateable st1 push_svc bs.orqd then
      let r := balance_pull_loop push_svc now pull_list st1 bs
      balance_push_loop pull_list now rest r.1 (consider r.1 r.2 (some push_svc) none)
    else
      balance_push_loop pull_list now rest st1 bs

/-- The last loop of the search of `balance_load`: pull only. -/
def balance_pull_only_loop (st : sched_state) : List Nat → balance_state_t → balance_state_t
  | [], bs => bs
  | pull_svc :: rest, bs =>
    if vcpu_is_migrateable st pull_svc bs.lrqd then
      balance_pull_only_loop st rest (consider st bs none (some pull_svc))
    else
      balance_pull_only_loop st rest bs

/-- The candidate search of `balance_load`: the three loops, from the balance
state `bs`. -/
def balance_search (st : sched_state) (bs : balance_state_t) (now : Int) :
    sched_state × balance_state_t :=
  let r := balance_push_loop (st.prv.rqd bs.orqd).svc now (st.prv.rqd bs.lrqd).svc st bs
  (r.1, balance_pull_only_loop r.1 (r.1.prv.rqd bs.orqd).svc r.2)

/-- The moves at the end of `balance_load`: the best push goes to the other
runqueue, then the best pull comes to the local one. -/
def balance_migrate (st : sched_state) (bs : balance_state_t) (now : Int) : Option sched_state :=
  let pushed : Option sched_state :=
    match bs.best_push_svc with
    | some p => migrate st p bs.orqd now
    | none => some st
  match pushed with
  | none => none
  | some st1 =>
    match bs.best_pull_svc with
    | some p => migrate st1 p bs.lrqd now
    | none => some st1

/-- The function `balance_load` from its label `retry` on.  Every jump back to
`retry` uses one unit of `fuel`; `max_delta_rqi` and `orqd` keep their values
across the jump. -/
def balance_load_retry (lrqd : Int) (now : Int) :
    Nat → sched_state → Int → Option Int → Option sched_state
  | 0, _, _, _ => none
  | fuel + 1, st, max_delta_rqi, orqd =>
    if st.trylock_prv = false then some st
    else
      let r := balance_scan lrqd now (cpumask_cpus st.nr_cpu_ids st.prv.active_queues) st 0
        max_delta_rqi orqd
      if r.2.2.1 = -1 then some r.1
      else
        match r.2.2.2 with
        | none => none
        | some last =>
          if balance_within_tolerance r.1 lrqd last r.2.1 then some r.1
          else if r.1.trylock_rqd r.2.2.1 = false then
            balance_load_retry lrqd now fuel r.1 r.2.2.1 r.2.2.2
          else if (r.1.prv.rqd r.2.2.1).id < 0 then some r.1
          else
            let s := balance_search r.1
              { load_delta := r.2.1, best_push_svc := none, best_pull_svc := none,
                lrqd := lrqd, orqd := r.2.2.1 } now
            balance_migrate s.1 s.2 now

/-- The function `balance_load(ops, cpu, now)`, with `fuel` jumps to `retry`
allowed. -/
def balance_load (fuel : Nat) (st : sched_state) (cpu : Nat) (now : Int) : Option sched_state :=
  balance_load_retry (c2r st cpu) now fuel (refresh_runq_load st (c2r st cpu) now) (-1) none

/-! ## Well-formed states -/

/-- The state lets `runq_tickle` run on the runqueue in slot `q` without a
`BUG_ON`: on every active processor of the runqueue the current entity is
either an idle entity that holds the idle credit, on a processor marked idle or
tickled, or an entity with a weight. -/
def tickle_safe (st : sched_state) (q : Int) : Prop :=
  ∀ p ∈ cpumask_cpus st.nr_cpu_ids (st.prv.rqd q).active,
    if (st.heap (st.curr_on_cpu p)).is_idle = true then
      (st.heap (st.curr_on_cpu p)).credit = CSCHED2_IDLE_CREDIT ∧
        (p ∈ (st.prv.rqd q).idle ∨ p ∈ (st.prv.rqd q).tickled)
    else (st.heap (st.curr_on_cpu p)).weight ≠ 0

instance (st : sched_state) (q : Int) : Decidable (tickle_safe st q) := by
  unfold tickle_safe; infer_instance

/-- The state `f` comes from `st` by refreshing the load of some entities at
`now` (`__update_svc_load(ops, svc, 0, now)`): every record is the old one or
its refreshed form, and nothing but the records changed. -/
def refresh_extends (now : Int) (st f : sched_state) : Prop :=
  f = { st with heap := f.heap } ∧
    ∀ s, f.heap s = st.heap s ∨ f.heap s = __update_svc_load st.prv (st.heap s) 0 now

/-- The load of the entity `s` is up to date at `now`: a refresh changes
nothing. -/
def load_fresh (now : Int) (st : sched_state) (s : Nat) : Prop :=
  __update_svc_load st.prv (st.heap s) 0 now = st.heap s

/-- The combinations the candidate search of `balance_load` looks at, in its
order: for every entity of the local runqueue that may move to the other one,
the swaps with the entities of the other runqueue that may move to the local
one, then the push alone; at the end the pulls alone. -/
def balance_candidates (st : sched_state) (lrqd orqd : Int) : List (Option Nat × Option Nat) :=
  ((st.prv.rqd lrqd).svc.flatMap (fun p =>
      if vcpu_is_migrateable st p orqd then
        ((st.prv.rqd orqd).svc.filter (fun q => vcpu_is_migrateable st q lrqd)).map
          (fun q => (some p, some q)) ++ [(some p, none)]
      else []))
    ++ ((st.prv.rqd orqd).svc.filter (fun q => vcpu_is_migrateable st q lrqd)).map
      (fun q => (none, some q))

/-- The entity `svc` can be moved from the runqueue in slot `q0` to the one in
slot `t` by `migrate` without a `BUG_ON`: it points to `q0`, the runnable list
of `q0` holds no entity twice, the active processors of `t` intersect its hard
affinity and, if it is on the runnable list, it is on no list of `t`, neither
idle nor running, the slot `t` is the `id` of the runqueue, the processors of
`t` map to it and `t` is safe to tickle. -/
def migrate_ready (st : sched_state) (svc : Nat) (q0 t : Int) : Prop :=
  (st.heap svc).rqd = some q0 ∧ (st.prv.rqd q0).runq.Nodup ∧
  cpumask_intersects st.nr_cpu_ids (st.heap svc).cpu_hard_affinity (st.prv.rqd t).active = true ∧
  (svc ∈ (st.prv.rqd q0).runq →
    svc ∉ (st.prv.rqd t).runq ∧ (st.heap svc).is_idle = false ∧
    (st.heap svc).is_running = false ∧ (st.prv.rqd t).id = t ∧
    (∀ p ∈ cpumask_cpus st.nr_cpu_ids (st.prv.rqd t).active, st.prv.runq_map p = t) ∧
    tickle_safe st t)

instance (st : sched_state) (svc : Nat) (q0 t : Int) : Decidable (migrate_ready st svc q0 t) := by
  unfold migrate_ready; infer_instance

/-- The state `st1` is `st` after the entity `svc`, not flagged scheduled, was
moved by `migrate` from the runqueue in slot `q0` to a different one in slot
`t`: the record `rD` was written into the slot `q0`, `rA` into the slot `t`,
and the records of entities and the reschedule requests were rewritten. -/
def migrate_moved (now : Int) (st : sched_state) (svc : Nat) (q0 t : Int)
    (st1 : sched_state) : Prop :=
  ∃ heap1 rD rA sq,
    st1 = { st with
      heap := heap1, prv := rqd_store (rqd_store st.prv q0 rD) t rA, softirq := sq } ∧
    (rD.id = (st.prv.rqd q0).id ∧ rD.active = (st.prv.rqd q0).active ∧
      rD.idle = (st.prv.rqd q0).idle ∧ rD.tickled = (st.prv.rqd q0).tickled ∧
      rD.runq = (st.prv.rqd q0).runq.erase svc ∧ rD.svc = (st.prv.rqd q0).svc.erase svc ∧
      rD.b_avgload = to_s64
        ((if svc ∈ (st.prv.rqd q0).runq then
            (__update_runq_load st.prv (st.prv.rqd q0) (-1) now).b_avgload
          else (st.prv.rqd q0).b_avgload) - (st.heap svc).avgload) ∧
      rD.load_last_update =
        (if svc ∈ (st.prv.rqd q0).runq then now >>> LOADAVG_GRANULARITY_SHIFT
          else (st.prv.rqd q0).load_last_update)) ∧
    (rA.id = (st.prv.rqd t).id ∧ rA.active = (st.prv.rqd t).active ∧
      rA.idle = (st.prv.rqd t).idle ∧
      (∀ p, p ∈ (st.prv.rqd t).tickled → p ∈ rA.tickled) ∧
      rA.svc = (st.prv.rqd t).svc ++ [svc] ∧
      (if svc ∈ (st.prv.rqd q0).runq then rA.runq.Perm (svc :: (st.prv.rqd t).runq)
        else rA.runq = (st.prv.rqd t).runq) ∧
      rA.b_avgload =
        (if svc ∈ (st.prv.rqd q0).runq then
          (__update_runq_load st.prv
            { st.prv.rqd t with
              b_avgload := to_s64 ((st.prv.rqd t).b_avgload + (st.heap svc).avgload) }
            1 now).b_avgload
        else to_s64 ((st.prv.rqd t).b_avgload + (st.heap svc).avgload)) ∧
      rA.load_last_update =
        (if svc ∈ (st.prv.rqd q0).runq then now >>> LOADAVG_GRANULARITY_SHIFT
          else (st.prv.rqd t).load_last_update)) ∧
    (∀ x, heap1 x =
      { st.heap x with
        rqd := if x = svc then some t else (st.heap x).rqd
        processor :=
          if x = svc then
            cpumask_any st.nr_cpu_ids
              (cpumask_and (st.heap svc).cpu_hard_affinity (st.prv.rqd t).active)
          else (st.heap x).processor
        credit := (heap1 x).credit
        start_time := (heap1 x).start_time
        residual := (heap1 x).residual }) ∧
    (∀ x, (st.heap x).is_idle = true → (heap1 x).credit = (st.heap x).credit)

/-- The state `st1` is `st` after `balance_load` dealt with the entity it
picked to leave the runqueue in slot `q0` for the one in slot `t`: nothing
without an entity, the mark of a migration request on an entity that is
flagged scheduled, the move of any other entity. -/
def migrate_done (now : Int) (st : sched_state) (svc : Option Nat) (q0 t : Int)
    (st1 : sched_state) : Prop :=
  match svc with
  | none => st1 = st
  | some s =>
    if (st.heap s).flags &&& CSFLAG_scheduled ≠ 0 then
      st1 = { st with
        heap := heap_store st.heap s
          { st.heap s with
            migrate_rqd := some t
            vpf_migrating := true
            flags := (st.heap s).flags ||| CSFLAG_runq_migrate_request } }
    else migrate_moved now st s q0 t st1

/-- The states `st` and `f` differ in load averages, loads and times of load
updates only: the lists, masks and `id` of every runqueue and the other fields
of every entity are the same. -/
def loads_differ (st f : sched_state) : Prop :=
  f.nr_cpu_ids = st.nr_cpu_ids ∧ f.curr_on_cpu = st.curr_on_cpu ∧
  f.prv.runq_map = st.prv.runq_map ∧
  (∀ q, (f.prv.rqd q).id = (st.prv.rqd q).id ∧ (f.prv.rqd q).active = (st.prv.rqd q).active ∧
    (f.prv.rqd q).idle = (st.prv.rqd q).idle ∧ (f.prv.rqd q).tickled = (st.prv.rqd q).tickled ∧
    (f.prv.rqd q).runq = (st.prv.rqd q).runq ∧ (f.prv.rqd q).svc = (st.prv.rqd q).svc) ∧
  (∀ x, (f.heap x).rqd = (st.heap x).rqd ∧ (f.heap x).flags = (st.heap x).flags ∧
    (f.heap x).is_idle = (st.heap x).is_idle ∧ (f.heap x).is_running = (st.heap x).is_running ∧
    (f.heap x).weight = (st.heap x).weight ∧ (f.heap x).credit = (st.heap x).credit ∧
    (f.heap x).cpu_hard_affinity = (st.heap x).cpu_hard_affinity)

/-! ## Domain parameters and entity removal -/

/-- The commands `csched2_dom_cntl` tells apart in `op->cmd`:
`XEN_DOMCTL_SCHEDOP_getinfo`, `XEN_DOMCTL_SCHEDOP_putinfo`, and any other
value. -/
inductive schedop_cmd where
  | getinfo
  | putinfo
  | other
deriving DecidableEq, Repr

/-- The fields of `struct xen_domctl_scheduler_op` that `csched2_dom_cntl` uses:
`cmd` and `u.credit2.weight`, a `uint16_t`. -/
structure xen_domctl_scheduler_op where
  cmd : schedop_cmd
  weight : Nat
deriving DecidableEq, Repr

/-- Modelled from the spec: the error number `EINVAL` of `xen/errno.h`, which is
not part of the sources at hand. -/
def EINVAL : Int := 22

/-- Writing the record `v` of a domain through the reference `d`. -/
def dom_store (dom : Nat → csched2_dom) (d : Nat) (v : csched2_dom) : Nat → csched2_dom :=
  fun j => if j = d then v else dom j

/-- The loop `for_each_vcpu ( d, v )` of `csched2_dom_cntl`, with `weight` the
new `sdom->weight`. -/
def dom_cntl_loop (weight old_weight : Nat) : List Nat → sched_state → Option sched_state
  | [], st => some st
  | v :: rest, st =>
    if (st.heap v).rqd ≠ some (c2r st (st.heap v).processor) then none
    else
      let q := c2r st (st.heap v).processor
      let heap1 := heap_store st.heap v { st.heap v with weight := weight }
      dom_cntl_loop weight old_weight rest
        { st with
          heap := heap1
          prv := rqd_store st.prv q (update_max_weight heap1 (st.prv.rqd q) weight old_weight) }

/-- The function `csched2_dom_cntl(ops, d, op)`; it returns `rc`, the request
record `*op` and the state. -/
def csched2_dom_cntl (st : sched_state) (d : Nat) (op : xen_domctl_scheduler_op) :
    Option (Int × xen_domctl_scheduler_op × sched_state) :=
  match op.cmd with
  | schedop_cmd.getinfo => some (0, { op with weight := (st.dom d).weight }, st)
  | schedop_cmd.putinfo =>
    if op.weight ≠ 0 then
      let old_weight := (st.dom d).weight
      let st1 := { st with dom := dom_store st.dom d { st.dom d with weight := op.weight } }
      match dom_cntl_loop (st1.dom d).weight old_weight (st1.dom d).vcpus st1 with
      | none => none
      | some st2 => some (0, op, st2)
    else some (0, op, st)
  | schedop_cmd.other => some (-EINVAL, op, st)

/-- The function `csched2_vcpu_remove(ops, vc)`; `nr_vcpus` is a `uint16_t`. -/
def csched2_vcpu_remove (st : sched_state) (svc : Nat) : Option sched_state :=
  match (st.heap svc).sdom with
  | none => none
  | some _ =>
    if __vcpu_on_runq st svc then none
    else if !(st.heap svc).is_idle then
      match runq_deassign st svc with
      | none => none
      | some st1 =>
        match (st1.heap svc).sdom with
        | none => none
        | some d =>
          some { st1 with
            dom := dom_store st1.dom d
              { st1.dom d with nr_vcpus := ((st1.dom d).nr_vcpus + 65535) % 65536 } }
    else some st

/-- The cached largest weight of a runqueue is the largest weight among the
entities on its assignment list. -/
def max_weight_exact (heap : vcpu_heap) (rqd : csched2_runqueue_data) : Prop :=
  (∀ s ∈ rqd.svc, (heap s).weight ≤ rqd.max_weight) ∧
    ∃ s ∈ rqd.svc, (heap s).weight = rqd.max_weight

instance (heap : vcpu_heap) (rqd : csched2_runqueue_data) :
    Decidable (max_weight_exact heap rqd) := by
  unfold max_weight_exact; infer_instance

/-- The entities of a domain are where the loop of `csched2_dom_cntl` expects
them: each is assigned to the runqueue of its processor and is on the
assignment list of that runqueue and of no other runqueue of the domain, they
all carry the weight of the domain, and each of these runqueues caches its
largest weight. -/
def dom_entities_placed (st : sched_state) (d : Nat) : Prop :=
  (st.dom d).vcpus.Nodup ∧
  (∀ v ∈ (st.dom d).vcpus,
    (st.heap v).rqd = some (c2r st (st.heap v).processor) ∧
    v ∈ (st.prv.rqd (c2r st (st.heap v).processor)).svc ∧
    (st.heap v).weight = (st.dom d).weight ∧
    max_weight_exact st.heap (st.prv.rqd (c2r st (st.heap v).processor))) ∧
  ∀ v ∈ (st.dom d).vcpus, ∀ u ∈ (st.dom d).vcpus,
    v ∈ (st.prv.rqd (c2r st (st.heap u).processor)).svc →
      c2r st (st.heap u).processor = c2r st (st.heap v).processor

instance (st : sched_state) (d : Nat) : Decidable (dom_entities_placed st d) := by
  unfold dom_entities_placed; infer_instance

/-! ## The scheduling decision -/

/-- The loop of `runq_candidate` over the runnable list; `snext` is the default
candidate. -/
def runq_candidate_scan (st : sched_state) (cpu : Nat) (snext : Nat) : List Nat → Nat
  | [] => snext
  | svc :: rest =>
    if !cpumask_test_cpu cpu (st.heap svc).cpu_hard_affinity then
      runq_candidate_scan st cpu snext rest
    else if (st.heap svc).processor ≠ cpu ∧
        (st.heap snext).credit + CSCHED2_MIGRATE_RESIST st.opt_migrate_resist
          > (st.heap svc).credit then
      runq_candidate_scan st cpu snext rest
    else if (st.heap svc).credit > (st.heap snext).credit then svc
    else snext

/-- The default candidate of `runq_candidate`: the current entity if it is
runnable, the idle entity of the processor otherwise. -/
def runq_candidate_default (st : sched_state) (scurr cpu : Nat) : Nat :=
  if (st.heap scurr).runnable then scurr else st.idle_vcpu cpu

/-- The function `runq_candidate(rqd, scurr, cpu, now)`; `q` is the slot of
`rqd`.  The sum `snext->credit + CSCHED2_MIGRATE_RESIST` is computed in
`s_time_t`. -/
def runq_candidate (st : sched_state) (q : Int) (scurr cpu : Nat) (_now : Int) : Nat :=
  runq_candidate_scan st cpu (runq_candidate_default st scurr cpu) (st.prv.rqd q).runq

/-- The record `struct task_slice` that `csched2_schedule` returns. -/
structure task_slice where
  time : Int
  task : Nat
  migrated : Bool
deriving DecidableEq, Repr

/-- The statements of `csched2_schedule` under `if ( snext != scurr )` for a
selected entity `snext` that is not idle: the entity leaves the runnable list
and is flagged scheduled.  `q` is the slot of `RQD(ops, cpu)`. -/
def schedule_switch (st : sched_state) (q : Int) (scurr snext : Nat) : Option sched_state :=
  if snext ≠ scurr then
    if (st.heap snext).rqd ≠ some q then none
    else
      match __runq_remove st snext with
      | none => none
      | some s1 =>
        if (s1.heap snext).is_running then none
        else
          some { s1 with
            heap := heap_store s1.heap snext
              { s1.heap snext with flags := (s1.heap snext).flags ||| CSFLAG_scheduled } }
  else some st

/-- The check for the reset condition in `csched2_schedule`: `reset_credit`,
then `balance_load`. -/
def schedule_reset (fuel : Nat) (st : sched_state) (snext cpu : Nat) (now : Int) :
    Option sched_state :=
  if (st.heap snext).credit ≤ CSCHED2_CREDIT_RESET then
    match reset_credit st.heap (RQD st cpu) now snext with
    | none => none
    | some heap1 => balance_load fuel { st with heap := heap1 } cpu now
  else some st

/-- The end of the accounting of `csched2_schedule` for an entity that is not
idle: the idle bit of the processor is cleared, the start time is set, and an
entity that comes from another processor gets the compensation.  It returns the
state and `ret.migrated`. -/
def schedule_start (st : sched_state) (q : Int) (snext cpu : Nat) (now : Int) :
    sched_state × Bool :=
  let s4 :=
    if cpumask_test_cpu cpu (st.prv.rqd q).idle then
      { st with
        prv := rqd_store st.prv q
          { st.prv.rqd q with idle := cpumask_clear_cpu cpu (st.prv.rqd q).idle } }
    else st
  let s5 := { s4 with
    heap := heap_store s4.heap snext { s4.heap snext with start_time := now } }
  if (s5.heap snext).processor ≠ cpu then
    ({ s5 with
      heap := heap_store s5.heap snext
        { s5.heap snext with
          credit := to_int ((s5.heap snext).credit + CSCHED2_MIGRATE_COMPENSATION)
          processor := cpu } }, true)
  else (s5, false)

/-- The branch of `csched2_schedule` that accounts for a selected entity
`snext` that is not idle; `q` is the slot of `RQD(ops, cpu)`. -/
def schedule_account (fuel : Nat) (st : sched_state) (q : Int) (scurr snext cpu : Nat)
    (now : Int) : Option (sched_state × Bool) :=
  match schedule_switch st q scurr snext with
  | none => none
  | some s2 =>
    match schedule_reset fuel s2 snext cpu now with
    | none => none
    | some s3 => some (schedule_start s3 q snext cpu now)

/-- The branch of `csched2_schedule` for a selected idle entity: the idle bit of
the processor is set and the load of the runqueue is updated. -/
def schedule_idle (st : sched_state) (q : Int) (cpu : Nat) (now : Int) : sched_state :=
  let s4 :=
    if !cpumask_test_cpu cpu (st.prv.rqd q).idle then
      { st with
        prv := rqd_store st.prv q
          { st.prv.rqd q with idle := cpumask_set_cpu cpu (st.prv.rqd q).idle } }
    else st
  update_load s4 q none 0 now

/-- The start of `csched2_schedule` after its checks: the tickled bit of the
processor is cleared and the credit of the current entity is burned. -/
def schedule_burn (st : sched_state) (q : Int) (scurr cpu : Nat) (now : Int) :
    Option sched_state :=
  let s1 :=
    if cpumask_test_cpu cpu (st.prv.rqd q).tickled then
      { st with
        prv := rqd_store st.prv q
          { st.prv.rqd q with tickled := cpumask_clear_cpu cpu (st.prv.rqd q).tickled } }
    else st
  match burn_credits (s1.prv.rqd q) (s1.heap scurr) now with
  | none => none
  | some cur => some { s1 with heap := heap_store s1.heap scurr cur }

/-- The statement of `csched2_schedule` that flags the current entity for a
delayed requeue when another entity was selected and the current one is
neither idle nor blocked. -/
def schedule_flag (st : sched_state) (scurr snext : Nat) : sched_state :=
  if snext ≠ scurr ∧ !(st.heap scurr).is_idle ∧ (st.heap scurr).runnable then
    { st with
      heap := heap_store st.heap scurr
        { st.heap scurr with flags := (st.heap scurr).flags ||| CSFLAG_delayed_runq_add } }
  else st

/-- The function `csched2_schedule(ops, now, tasklet_work_scheduled)` on the
processor `cpu` (`smp_processor_id()`); `current` is the entity
`curr_on_cpu(cpu)`.  `fuel` bounds the jumps to `retry` of `balance_load`. -/
def csched2_schedule (fuel : Nat) (st : sched_state) (cpu : Nat) (now : Int)
    (tasklet_work_scheduled : Bool) : Option (sched_state × task_slice) :=
  let scurr := st.curr_on_cpu cpu
  let q := c2r st cpu
  if !cpumask_test_cpu cpu st.prv.initialized then none
  else if !cpumask_test_cpu cpu (st.prv.rqd q).active then none
  else if !(st.heap scurr).is_idle ∧ (st.heap scurr).rqd ≠ some q then none
  else
    match schedule_burn st q scurr cpu now with
    | none => none
    | some s2 =>
      let snext :=
        if tasklet_work_scheduled then s2.idle_vcpu cpu
        else runq_candidate s2 q scurr cpu now
      let s3 := schedule_flag s2 scurr snext
      let accounted : Option (sched_state × Bool) :=
        if !(s3.heap snext).is_idle then schedule_account fuel s3 q scurr snext cpu now
        else some (schedule_idle s3 q cpu now, false)
      match accounted with
      | none => none
      | some (s5, migrated) =>
        match csched2_runtime s5.heap (RQD s5 cpu) snext with
        | none => none
        | some time => some (s5, { time := time, task := snext, migrated := migrated })

/-- The function `csched2_context_saved(ops, vc)`; `now` is the value `NOW()`
returns. -/
def csched2_context_saved (st : sched_state) (svc : Nat) (now : Int) : Option sched_state :=
  if !(st.heap svc).is_idle ∧ (st.heap svc).rqd ≠ some (c2r st (st.heap svc).processor) then none
  else
    let flags1 := clear_flag (st.heap svc).flags CSFLAG_scheduled
    let s1 := { st with
      heap := heap_store st.heap svc
        { st.heap svc with flags := clear_flag flags1 CSFLAG_delayed_runq_add } }
    if flags1 &&& CSFLAG_delayed_runq_add ≠ 0 ∧ (s1.heap svc).runnable then
      if __vcpu_on_runq s1 svc then none
      else
        match runq_insert s1 (s1.heap svc).processor svc with
        | none => none
        | some s2 => runq_tickle s2 (s2.heap svc).processor svc now
    else if !(s1.heap svc).is_idle then
      match (s1.heap svc).rqd with
      | none => none
      | some q => some (update_load s1 q (some svc) (-1) now)
    else some s1

/-- Between the states `st` and `st1` no entity changed its flags and no
runnable list gained an entity. -/
def runq_shrinks (st st1 : sched_state) : Prop :=
  (∀ x, (st1.heap x).flags = (st.heap x).flags) ∧
    ∀ x q, x ∈ (st1.prv.rqd q).runq → x ∈ (st.prv.rqd q).runq

/-- Between the states `st` and `st1` no entity changed its flags and no
runnable list gained an entity other than `svc`. -/
def runq_others_kept (svc : Nat) (st st1 : sched_state) : Prop :=
  (∀ x, (st1.heap x).flags = (st.heap x).flags) ∧
    ∀ x, x ≠ svc → ∀ q, x ∈ (st1.prv.rqd q).runq → x ∈ (st.prv.rqd q).runq

/-- Between the states `st` and `st1` no entity changed its delayed-requeue
flag, and an entity that is on a runnable list in `st1` was on a runnable list
in `st`. -/
def requeue_kept (st st1 : sched_state) : Prop :=
  (∀ x, (st1.heap x).flags &&& CSFLAG_delayed_runq_add
      = (st.heap x).flags &&& CSFLAG_delayed_runq_add) ∧
    ∀ x, (∃ q, x ∈ (st1.prv.rqd q).runq) → ∃ q, x ∈ (st.prv.rqd q).runq

/-- The entity `svc` can be put back on the runnable list of the runqueue of
its processor and tickled without a `BUG_ON`: it is neither idle nor running,
it is assigned to that runqueue, whose `id` is its slot, it is not on the
runnable list, its processor is an active one of the runqueue, and the
runqueue is safe to tickle. -/
def requeue_ready (st : sched_state) (svc : Nat) : Prop :=
  (st.heap svc).is_idle = false ∧ (st.heap svc).is_running = false ∧
  (st.heap svc).rqd = some (c2r st (st.heap svc).processor) ∧
  (st.prv.rqd (c2r st (st.heap svc).processor)).id = c2r st (st.heap svc).processor ∧
  svc ∉ (st.prv.rqd (c2r st (st.heap svc).processor)).runq ∧
  (st.heap svc).processor ∈
    cpumask_cpus st.nr_cpu_ids (st.prv.rqd (c2r st (st.heap svc).processor)).active ∧
  tickle_safe st (c2r st (st.heap svc).processor)

instance (st : sched_state) (svc : Nat) : Decidable (requeue_ready st svc) := by
  unfold requeue_ready; infer_instance

/-- The state of `csched2_context_saved` after its two `clear_bit`
statements. -/
def context_saved_cleared (st : sched_state) (svc : Nat) : sched_state :=
  { st with
    heap := heap_store st.heap svc
      { st.heap svc with
        flags := clear_flag (clear_flag (st.heap svc).flags CSFLAG_scheduled)
          CSFLAG_delayed_runq_add } }

/-! ## The runqueue registry -/

def OPT_RUNQUEUE_CORE : Nat := 0
def OPT_RUNQUEUE_SOCKET : Nat := 1
def OPT_RUNQUEUE_NODE : Nat := 2
def OPT_RUNQUEUE_ALL : Nat := 3

/-- Modelled from the spec: the constant `XEN_INVALID_SOCKET_ID` of the public
headers, `(~0U)`, is not part of the sources at hand. -/
def XEN_INVALID_SOCKET_ID : Nat := 4294967295

/-- What the registry code reads of the host: `nr_cpu_ids`, the boot parameter
`opt_runqueue`, and the topology helpers `cpu_to_socket`, `cpu_to_core` and
`cpu_to_node` of the architecture, which are not part of the sources at hand
and are taken as given functions. -/
structure host_info where
  nr_cpu_ids : Nat
  opt_runqueue : Nat
  cpu_to_socket : Nat → Nat
  cpu_to_core : Nat → Nat
  cpu_to_node : Nat → Nat

/-- The function `same_node(cpua, cpub)`. -/
def same_node (h : host_info) (cpua cpub : Nat) : Bool :=
  decide (h.cpu_to_node cpua = h.cpu_to_node cpub)

/-- The function `same_socket(cpua, cpub)`. -/
def same_socket (h : host_info) (cpua cpub : Nat) : Bool :=
  decide (h.cpu_to_socket cpua = h.cpu_to_socket cpub)

/-- The function `same_core(cpua, cpub)`. -/
def same_core (h : host_info) (cpua cpub : Nat) : Bool :=
  same_socket h cpua cpub && decide (h.cpu_to_core cpua = h.cpu_to_core cpub)

/-- The test of `cpu_to_runqueue` that the processor `peer_cpu` of a runqueue
and `cpu` are in the configured topology relation. -/
def runqueue_matches (h : host_info) (peer_cpu cpu : Nat) : Bool :=
  decide (h.opt_runqueue = OPT_RUNQUEUE_ALL) ||
  (decide (h.opt_runqueue = OPT_RUNQUEUE_CORE) && same_core h peer_cpu cpu) ||
  (decide (h.opt_runqueue = OPT_RUNQUEUE_SOCKET) && same_socket h peer_cpu cpu) ||
  (decide (h.opt_runqueue = OPT_RUNQUEUE_NODE) && same_node h peer_cpu cpu)

/-- The function `activate_runqueue(prv, rqi)`. -/
def activate_runqueue (nr_cpu_ids : Nat) (prv : csched2_private) (rqi : Nat) :
    Option csched2_private :=
  if !cpumask_empty nr_cpu_ids (prv.rqd rqi).active then none
  else
    some { rqd_store prv rqi
        { prv.rqd rqi with max_weight := 1, id := rqi, svc := [], runq := [] } with
      active_queues := cpumask_set_cpu rqi prv.active_queues }

/-- The function `deactivate_runqueue(prv, rqi)`. -/
def deactivate_runqueue (nr_cpu_ids : Nat) (prv : csched2_private) (rqi : Nat) :
    Option csched2_private :=
  if !cpumask_empty nr_cpu_ids (prv.rqd rqi).active then none
  else
    some { rqd_store prv rqi { prv.rqd rqi with id := -1 } with
      active_queues := cpumask_clear_cpu rqi prv.active_queues }

/-- The loop of `cpu_to_runqueue` over the slots `rqi`: the slot at which it
breaks, `nr_cpu_ids` when it runs to its end, `none` for a `BUG_ON`. -/
def cpu_to_runqueue_loop (h : host_info) (prv : csched2_private) (cpu : Nat) :
    List Nat → Option Nat
  | [] => some h.nr_cpu_ids
  | rqi :: rest =>
    if (prv.rqd rqi).id = -1 then some rqi
    else if cpumask_empty h.nr_cpu_ids (prv.rqd rqi).active then none
    else
      let peer_cpu := cpumask_first h.nr_cpu_ids (prv.rqd rqi).active
      if h.cpu_to_socket cpu = XEN_INVALID_SOCKET_ID ∨
          h.cpu_to_socket peer_cpu = XEN_INVALID_SOCKET_ID then none
      else if runqueue_matches h peer_cpu cpu then some rqi
      else cpu_to_runqueue_loop h prv cpu rest

/-- The function `cpu_to_runqueue(prv, cpu)`. -/
def cpu_to_runqueue (h : host_info) (prv : csched2_private) (cpu : Nat) : Option Nat :=
  match cpu_to_runqueue_loop h prv cpu (List.range h.nr_cpu_ids) with
  | none => none
  | some rqi => if rqi ≥ h.nr_cpu_ids then none else some rqi

/-- The function `init_pdata(prv, cpu)`; it returns the private data and the
slot of the runqueue. -/
def init_pdata (h : host_info) (prv : csched2_private) (cpu : Nat) :
    Option (csched2_private × Nat) :=
  match cpu_to_runqueue h prv cpu with
  | none => none
  | some rqi =>
    let activated : Option csched2_private :=
      if !cpumask_test_cpu rqi prv.active_queues then activate_runqueue h.nr_cpu_ids prv rqi
      else some prv
    match activated with
    | none => none
    | some prv1 =>
      let prv2 := { prv1 with runq_map := fun c => if c = cpu then (rqi : Int) else prv1.runq_map c }
      let prv3 := rqd_store prv2 rqi
        { prv2.rqd rqi with
          idle := cpumask_set_cpu cpu (prv2.rqd rqi).idle
          active := cpumask_set_cpu cpu (prv2.rqd rqi).active }
      some ({ prv3 with initialized := cpumask_set_cpu cpu prv3.initialized }, rqi)

/-- The function `csched2_deinit_pdata(ops, pcpu, cpu)` on the private data.  A
negative `runq_map[cpu]`, which no initialized processor has, indexes the
array `prv->rqd` out of bounds and ends the execution. -/
def csched2_deinit_pdata (nr_cpu_ids : Nat) (prv : csched2_private) (cpu : Nat) :
    Option csched2_private :=
  if prv.runq_map cpu < 0 then none
  else
    let rqi := (prv.runq_map cpu).toNat
    if !cpumask_test_cpu cpu (prv.rqd rqi).idle then none
    else
      let prv1 := rqd_store prv rqi
        { prv.rqd rqi with
          idle := cpumask_clear_cpu cpu (prv.rqd rqi).idle
          active := cpumask_clear_cpu cpu (prv.rqd rqi).active }
      let deactivated : Option csched2_private :=
        if cpumask_empty nr_cpu_ids (prv1.rqd rqi).active then
          deactivate_runqueue nr_cpu_ids prv1 rqi
        else some prv1
      match deactivated with
      | none => none
      | some prv2 =>
        some { prv2 with initialized := cpumask_clear_cpu cpu prv2.initialized }

/-- The private data `csched2_init` sets up when its allocation succeeds:
zeroed, with the runqueues and the map entries below `nr_cpu_ids` marked -1. -/
def csched2_init (nr_cpu_ids : Nat) (opt_load_window_shift : Nat) : csched2_private :=
  { initialized := []
    runq_map := fun i => if i < nr_cpu_ids then -1 else 0
    active_queues := []
    rqd := fun i =>
      { id := if 0 ≤ i ∧ i < nr_cpu_ids then -1 else 0, active := [], runq := [], svc := [],
        max_weight := 0, idle := [], tickled := [], load := 0, load_last_update := 0,
        avgload := 0, b_avgload := 0 }
    load_window_shift :=
      if opt_load_window_shift < LOADAVG_WINDOW_SHIFT_MIN then LOADAVG_WINDOW_SHIFT_MIN
      else opt_load_window_shift }

/-- A call that activates or deactivates a processor. -/
inductive pdata_call where
  | init (cpu : Nat)
  | deinit (cpu : Nat)
deriving DecidableEq, Repr

/-- One call made as the `ASSERT`s of the callee require: `init_pdata` for a
processor that is not initialized (and whose number is below `nr_cpu_ids`),
`csched2_deinit_pdata` for an initialized one.  Any other call is not made. -/
def registry_step (h : host_info) (prv : csched2_private) : pdata_call → Option csched2_private
  | pdata_call.init cpu =>
    if cpu < h.nr_cpu_ids ∧ cpu ∉ prv.initialized then
      match init_pdata h prv cpu with
      | none => none
      | some r => some r.1
    else none
  | pdata_call.deinit cpu =>
    if cpu ∈ prv.initialized then csched2_deinit_pdata h.nr_cpu_ids prv cpu else none

/-- A sequence of calls, from the private data `prv`. -/
def registry_run (h : host_info) : List pdata_call → csched2_private → Option csched2_private
  | [], prv => some prv
  | c :: rest, prv =>
    match registry_step h prv c with
    | none => none
    | some prv1 => registry_run h rest prv1

/-- The registry invariant: every initialized processor is below `nr_cpu_ids`
and in the active mask of the runqueue `runq_map` gives for it, a processor in
the active mask of a runqueue is initialized and mapped to that runqueue, and a
slot is in `active_queues` exactly when the active mask of its runqueue is not
empty and exactly when the `id` of the runqueue is not -1. -/
def registry_inv (nr_cpu_ids : Nat) (prv : csched2_private) : Prop :=
  (∀ cpu ∈ prv.initialized, cpu < nr_cpu_ids ∧
    ∃ q, q < nr_cpu_ids ∧ prv.runq_map cpu = (q : Int) ∧ cpu ∈ (prv.rqd q).active) ∧
  (∀ q, q < nr_cpu_ids → ∀ cpu ∈ (prv.rqd q).active,
    cpu ∈ prv.initialized ∧ prv.runq_map cpu = (q : Int)) ∧
  (∀ q, q < nr_cpu_ids →
    (q ∈ prv.active_queues ↔ cpumask_empty nr_cpu_ids (prv.rqd q).active = false) ∧
    (q ∈ prv.active_queues ↔ (prv.rqd q).id ≠ -1))

/-! ## The selection as the specification words it -/

/-- A waiting entity that `runq_candidate` does not pass over: it may run on
`cpu` and, if it was last placed on another processor, the migration resistance
does not hold it back against the default candidate `snext`. -/
def candidate_eligible (st : sched_state) (cpu snext svc : Nat) : Bool :=
  cpumask_test_cpu cpu (st.heap svc).cpu_hard_affinity &&
    !(decide ((st.heap svc).processor ≠ cpu) &&
      decide ((st.heap snext).credit + CSCHED2_MIGRATE_RESIST st.opt_migrate_resist
        > (st.heap svc).credit))

/-- The selection in the words of the specification: the first eligible entity
of the runnable list if it has more credit than the default candidate, the
default candidate otherwise. -/
def runq_candidate_spec (st : sched_state) (q : Int) (scurr cpu : Nat) : Nat :=
  match (st.prv.rqd q).runq.find? (candidate_eligible st cpu (runq_candidate_default st scurr cpu)) with
  | none => runq_candidate_default st scurr cpu
  | some svc =>
    if (st.heap svc).credit > (st.heap (runq_candidate_default st scurr cpu)).credit then svc
    else runq_candidate_default st scurr cpu

/-- The largest weight among the entities of an assignment list, and at least
1: what the cached `max_weight` of a runqueue stands for. -/
def max_weight_spec (heap : vcpu_heap) (svc : List Nat) : Nat :=
  (svc.map (fun s => (heap s).weight)).foldr max 1

/-- The record of an entity with the fields that the bookkeeping writes
blanked: credit, start time, residual, load average and time of the load
update. -/
def vcpu_fixed (v : csched2_vcpu) : csched2_vcpu :=
  { v with credit := 0, start_time := 0, residual := 0, avgload := 0, load_last_update := 0 }

/-- The record of a runqueue with the fields that the bookkeeping writes
blanked: the tickled mask, the load, the load averages and the time of the
load update. -/
def rqd_fixed (r : csched2_runqueue_data) : csched2_runqueue_data :=
  { r with tickled := [], load := 0, load_last_update := 0, avgload := 0, b_avgload := 0 }

/-- Between the states `st` and `st1` only bookkeeping was written: credits,
start times, residuals, loads and load averages, tickled masks and reschedule
requests.  The lists, the other masks and the other fields of every entity are
the same. -/
def bookkeeping_only (st st1 : sched_state) : Prop :=
  st1.nr_cpu_ids = st.nr_cpu_ids ∧ st1.curr_on_cpu = st.curr_on_cpu ∧
  st1.idle_vcpu = st.idle_vcpu ∧ st1.prv.runq_map = st.prv.runq_map ∧
  st1.prv.active_queues = st.prv.active_queues ∧
  (∀ q, rqd_fixed (st1.prv.rqd q) = rqd_fixed (st.prv.rqd q)) ∧
  (∀ x, vcpu_fixed (st1.heap x) = vcpu_fixed (st.heap x))

/-- Between the states `st` and `st1` no entity changed its runqueue, and the
assignment lists, the idle and active masks and the maps are the same. -/
def placement_kept (st st1 : sched_state) : Prop :=
  st1.nr_cpu_ids = st.nr_cpu_ids ∧ st1.curr_on_cpu = st.curr_on_cpu ∧
  st1.idle_vcpu = st.idle_vcpu ∧ st1.prv.runq_map = st.prv.runq_map ∧
  st1.prv.active_queues = st.prv.active_queues ∧
  (∀ q, (st1.prv.rqd q).id = (st.prv.rqd q).id ∧
    (st1.prv.rqd q).active = (st.prv.rqd q).active ∧
    (st1.prv.rqd q).idle = (st.prv.rqd q).idle ∧
    (st1.prv.rqd q).svc = (st.prv.rqd q).svc) ∧
  (∀ x, (st1.heap x).is_idle = (st.heap x).is_idle ∧
    (st1.heap x).cpu_hard_affinity = (st.heap x).cpu_hard_affinity ∧
    (st1.heap x).rqd = (st.heap x).rqd)

/-- Between the states `st` and `st1` the idle and active masks of the
runqueues, the maps and the idle entities are the same. -/
def idle_kept (st st1 : sched_state) : Prop :=
  st1.nr_cpu_ids = st.nr_cpu_ids ∧ st1.curr_on_cpu = st.curr_on_cpu ∧
  st1.idle_vcpu = st.idle_vcpu ∧ st1.prv.runq_map = st.prv.runq_map ∧
  st1.prv.active_queues = st.prv.active_queues ∧
  (∀ q, (st1.prv.rqd q).id = (st.prv.rqd q).id ∧
    (st1.prv.rqd q).active = (st.prv.rqd q).active ∧
    (st1.prv.rqd q).idle = (st.prv.rqd q).idle) ∧
  (∀ x, (st1.heap x).is_idle = (st.heap x).is_idle ∧
    (st1.heap x).cpu_hard_affinity = (st.heap x).cpu_hard_affinity)

/-- The balance state `bs` is between the runqueues in the slots `l` and `o`
and holds entities of the lists `ps` and `qs` only. -/
def balance_picks (l o : Int) (ps qs : List Nat) (bs : balance_state_t) : Prop :=
  bs.lrqd = l ∧ bs.orqd = o ∧
  (∀ p, bs.best_push_svc = some p → p ∈ ps) ∧
  (∀ p, bs.best_pull_svc = some p → p ∈ qs)

/-- The assignment list `l` without the entity `s`, if there is one
(`list_del_init(&svc->rqd_elem)`). -/
def svc_without (l : List Nat) (s : Option Nat) : List Nat :=
  match s with
  | some p => l.erase p
  | none => l

/-- The assignment list `l` with the entity `s`, if there is one, at its tail
(`list_add_tail(&svc->rqd_elem, &rqd->svc)`). -/
def svc_with (l : List Nat) (s : Option Nat) : List Nat :=
  match s with
  | some p => l ++ [p]
  | none => l

/-- The function `csched2_vcpu_sleep(ops, vc)`; `now` is the value `NOW()`
returns, `cpu_raise_softirq(cpu, SCHEDULE_SOFTIRQ)` records the processor. -/
def csched2_vcpu_sleep (st : sched_state) (svc : Nat) (now : Int) : Option sched_state :=
  if (st.heap svc).is_idle then none
  else if st.curr_on_cpu (st.heap svc).processor = svc then
    some { st with softirq := (st.heap svc).processor :: st.softirq }
  else if __vcpu_on_runq st svc then
    if (st.heap svc).rqd ≠ some (c2r st (st.heap svc).processor) then none
    else
      match (st.heap svc).rqd with
      | none => none
      | some q => __runq_remove (update_load st q (some svc) (-1) now) svc
  else if (st.heap svc).flags &&& CSFLAG_delayed_runq_add ≠ 0 then
    some { st with
      heap := heap_store st.heap svc
        { st.heap svc with flags := clear_flag (st.heap svc).flags CSFLAG_delayed_runq_add } }
  else some st

/-- The entity `s` is a thread that is not idle and is flagged scheduled: it
runs, or it is being switched out. -/
def counts_running (st : sched_state) (s : Nat) : Bool :=
  !(st.heap s).is_idle && decide ((st.heap s).flags &&& CSFLAG_scheduled ≠ 0)

/-- The instantaneous load of the runqueue in slot `j` as its comment words it:
the length of the runnable list plus the number of assigned entities that are
not idle and flagged scheduled. -/
def load_counts (st : sched_state) (j : Int) : Nat :=
  (st.prv.rqd j).runq.length + ((st.prv.rqd j).svc.filter (counts_running st)).length

/-- The field `load` of the runqueue in slot `j`, an `int`, holds the
instantaneous load. -/
def load_exact (st : sched_state) (j : Int) : Prop :=
  (st.prv.rqd j).load = to_int (load_counts st j)

instance (st : sched_state) (j : Int) : Decidable (load_exact st j) := by
  unfold load_exact; infer_instance

/-- The field `load` of the runqueue in slot `j` is `d` above the
instantaneous load, as an `int`: the state in the middle of an operation. -/
def load_off (st : sched_state) (j : Int) (d : Int) : Prop :=
  (st.prv.rqd j).load = to_int ((load_counts st j : Int) + d)

/-- The active processors of the runqueue in slot `t` map to `t`. -/
def maps_to (st : sched_state) (t : Int) : Prop :=
  ∀ p ∈ cpumask_cpus st.nr_cpu_ids (st.prv.rqd t).active, c2r st p = t

instance (st : sched_state) (t : Int) : Decidable (maps_to st t) := by
  unfold maps_to; infer_instance

/-! ## Sample states -/

/-- A sample heap: entities 1, 2, 3 and 4 are queued with credits 5, 3, 3 and 1,
entity 7 has credit 3 and is about to be queued. -/
def ex_heap : vcpu_heap := fun i =>
  { vcpu := i, is_idle := false, is_running := false, processor := 0, rqd := some 0,
    weight := 256, residual := 0,
    credit := if i = 1 then 5 else if i = 2 then 3 else if i = 3 then 3 else if i = 4 then 1
      else if i = 7 then 3 else 0,
    start_time := 0, flags := 0, load_last_update := 0, avgload := 0, migrate_rqd := none }

/-- A sample runqueue over `ex_heap`. -/
def ex_rqd : csched2_runqueue_data :=
  { id := 0, active := [0], runq := [1, 2, 3, 4], svc := [1, 2, 3, 4, 7], max_weight := 256,
    idle := [], tickled := [], load := 0, load_last_update := 0, avgload := 0, b_avgload := 0 }

/-- An entity of the given weight, residual and credit, not idle, started at
time 0 on runqueue 0. -/
def ex_svc (weight residual : Nat) (credit : Int) : csched2_vcpu :=
  { vcpu := 1, is_idle := false, is_running := true, processor := 0, rqd := some 0,
    weight := weight, residual := residual, credit := credit,
    start_time := 0, flags := CSFLAG_scheduled, load_last_update := 0, avgload := 0,
    migrate_rqd := none }

/-- Runqueue 0 with the given maximum weight. -/
def ex_rqd_w (max_weight : Nat) : csched2_runqueue_data :=
  { ex_rqd with max_weight := max_weight }

/-- A heap in which entity 1, of credit -25000000, is the one selected to run
while entities 2 and 3, of credit 3000000 and -1000000, wait on the runnable
list. -/
def rst_heap : vcpu_heap := fun i =>
  { vcpu := i, is_idle := false, is_running := decide (i = 1), processor := 0, rqd := some 0,
    weight := 256, residual := 0,
    credit := if i = 1 then -25000000 else if i = 2 then 3000000 else -1000000,
    start_time := 0, flags := if i = 1 then CSFLAG_scheduled else 0,
    load_last_update := 0, avgload := 0, migrate_rqd := none }

/-- A heap in which entity 1, of credit -2140000000, is the one selected to run
while entities 2 and 3, of credit 10000000 and -5000000, wait on the runnable
list. -/
def ovf_heap : vcpu_heap := fun i =>
  { vcpu := i, is_idle := false, is_running := decide (i = 1), processor := 0, rqd := some 0,
    weight := 256, residual := 0,
    credit := if i = 1 then -2140000000 else if i = 2 then 10000000 else -5000000,
    start_time := 0, flags := if i = 1 then CSFLAG_scheduled else 0,
    load_last_update := 0, avgload := 0, migrate_rqd := none }

/-- The runqueue of `rst_heap` and of `ovf_heap`. -/
def ovf_rqd : csched2_runqueue_data :=
  { id := 0, active := [0, 1], runq := [2, 3], svc := [1, 2, 3], max_weight := 256,
    idle := [], tickled := [], load := 3, load_last_update := 0, avgload := 0, b_avgload := 0 }

/-- An entity for the sample scheduler states: not idle, weight 256, assigned to
runqueue 0, last placed on `processor`, allowed on `affinity`, started at
time 1000. -/
def tk_svc (i processor : Nat) (credit : Int) (affinity : List Nat) (flags : Nat) :
    csched2_vcpu :=
  { vcpu := i, is_idle := false, is_running := decide (flags &&& CSFLAG_scheduled ≠ 0),
    processor := processor, rqd := some 0, weight := 256, residual := 0, credit := credit,
    start_time := 1000, flags := flags, load_last_update := 0, avgload := 0,
    migrate_rqd := none, cpu_hard_affinity := affinity }

/-- The idle entity of a processor. -/
def tk_idle (i processor : Nat) : csched2_vcpu :=
  { vcpu := i, is_idle := true, is_running := true, processor := processor, rqd := none,
    weight := 0, residual := 0, credit := CSCHED2_IDLE_CREDIT, start_time := 0, flags := 0,
    load_last_update := 0, avgload := 0, migrate_rqd := none }

/-- A runqueue in slot 0 over the processors 0, 1, 2 and 3, with the given idle
and tickled masks and the given runnable and assignment lists. -/
def tk_rqd (idle tickled runq svc : List Nat) : csched2_runqueue_data :=
  { id := 0, active := [0, 1, 2, 3], runq := runq, svc := svc, max_weight := 256,
    idle := idle, tickled := tickled, load := 3, load_last_update := 0, avgload := 0,
    b_avgload := 0 }

/-- A scheduler state with one runqueue over four processors; entity `10 + p`
is the one running on processor `p`. -/
def tk_state (heap : vcpu_heap) (rqd : csched2_runqueue_data) : sched_state :=
  { prv := { initialized := [0, 1, 2, 3], runq_map := fun _ => 0, active_queues := [0],
             rqd := fun _ => rqd, load_window_shift := 18 },
    heap := heap, curr_on_cpu := fun p => 10 + p, softirq := [], nr_cpu_ids := 4,
    opt_migrate_resist := 500, opt_underload_balance_tolerance := 0,
    opt_overload_balance_tolerance := -3, cpupool_domain_cpumask := fun _ => [0, 1, 2, 3],
    trylock_prv := true, trylock_rqd := fun _ => true }

/-- All four processors are busy: the entities 10, 11, 12 and 13 run with
credit 1000, 400, 300 and 900.  Entity 1, of credit 500, was last placed on
processor 0 and is allowed on processor 1 only. -/
def tk_heap_pinned : vcpu_heap := fun i =>
  if i = 1 then tk_svc 1 0 500 [1] 0
  else if i = 10 then tk_svc 10 0 1000 [0, 1, 2, 3] CSFLAG_scheduled
  else if i = 11 then tk_svc 11 1 400 [0, 1, 2, 3] CSFLAG_scheduled
  else if i = 12 then tk_svc 12 2 300 [0, 1, 2, 3] CSFLAG_scheduled
  else tk_svc 13 3 900 [0, 1, 2, 3] CSFLAG_scheduled

/-- All four processors are busy: the entities 10, 11, 12 and 13 run with
credit 1000, 400, 300 and 900.  Entity 1, of credit 5000, was last placed on
processor 0 and is allowed on the processors 0 and 1. -/
def tk_heap_wake : vcpu_heap := fun i =>
  if i = 1 then tk_svc 1 0 5000 [0, 1] 0
  else if i = 10 then tk_svc 10 0 1000 [0, 1, 2, 3] CSFLAG_scheduled
  else if i = 11 then tk_svc 11 1 400 [0, 1, 2, 3] CSFLAG_scheduled
  else if i = 12 then tk_svc 12 2 300 [0, 1, 2, 3] CSFLAG_scheduled
  else tk_svc 13 3 900 [0, 1, 2, 3] CSFLAG_scheduled

/-- The processors 0 and 1 are busy with the entities 10 and 11 of credit 1000
and 400, the processors 2 and 3 are idle.  Entity 1, of credit 500, was last
placed on processor 0 and is allowed on every processor. -/
def tk_heap_idlers : vcpu_heap := fun i =>
  if i = 1 then tk_svc 1 0 500 [0, 1, 2, 3] 0
  else if i = 10 then tk_svc 10 0 1000 [0, 1, 2, 3] CSFLAG_scheduled
  else if i = 11 then tk_svc 11 1 400 [0, 1, 2, 3] CSFLAG_scheduled
  else if i = 12 then tk_idle 12 2
  else tk_idle 13 3

/-- All four processors are busy: the entities 10, 11, 12 and 13 run with
credit 600000, 400000, 0 and 900000 and were started at time 1000.  Entity 1,
of the given credit, was last placed on processor 0 and is allowed on every
processor. -/
def tk_heap_busy (credit : Int) : vcpu_heap := fun i =>
  if i = 1 then tk_svc 1 0 credit [0, 1, 2, 3] 0
  else if i = 10 then tk_svc 10 0 600000 [0, 1, 2, 3] CSFLAG_scheduled
  else if i = 11 then tk_svc 11 1 400000 [0, 1, 2, 3] CSFLAG_scheduled
  else if i = 12 then tk_svc 12 2 0 [0, 1, 2, 3] CSFLAG_scheduled
  else tk_svc 13 3 900000 [0, 1, 2, 3] CSFLAG_scheduled

/-- Processor 0 runs entity 10, the processors 1, 2 and 3 are idle.  Entity 1
is being switched out on processor 1: it is still flagged as scheduled but the
idle entity already is the current one there.  Entity 2 waits on the runnable
list. -/
def tk_heap_switching : vcpu_heap := fun i =>
  if i = 1 then tk_svc 1 1 500 [0, 1, 2, 3] CSFLAG_scheduled
  else if i = 2 then tk_svc 2 0 300 [0, 1, 2, 3] 0
  else if i = 10 then tk_svc 10 0 1000 [0, 1, 2, 3] CSFLAG_scheduled
  else tk_idle i (i - 10)

/-- A runqueue that was never activated. -/
def bl_inactive : csched2_runqueue_data :=
  { id := -1, active := [], runq := [], svc := [], max_weight := 0, idle := [], tickled := [],
    load := 0, load_last_update := 0, avgload := 0, b_avgload := 0 }

/-- A runqueue in slot `q` of a four-processor host with two runqueues of two
processors each: slot 0 has the processors 0 and 1, slot 1 has 2 and 3. -/
def bl_rqd (q : Int) (svc runq idle : List Nat) (load b_avgload : Int) :
    csched2_runqueue_data :=
  { id := q, active := if q = 0 then [0, 1] else [2, 3], runq := runq, svc := svc,
    max_weight := 256, idle := idle, tickled := [],
    load := load, load_last_update := 1000, avgload := b_avgload, b_avgload := b_avgload }

/-- A state of the four-processor host with the runqueues `r0` and `r1` in the
slots 0 and 1, a load window of 2^18, the default tolerances, every lock free
and the time of the last load update 1000 (in units of 1024 ns). -/
def bl_state (heap : vcpu_heap) (r0 r1 : csched2_runqueue_data) : sched_state :=
  { prv :=
      { initialized := [0, 1, 2, 3], runq_map := fun p => if p < 2 then 0 else 1,
        active_queues := [0, 1],
        rqd := fun q => if q = 0 then r0 else if q = 1 then r1 else bl_inactive,
        load_window_shift := 18 }
    heap := heap
    curr_on_cpu := fun p => 100 + p
    softirq := []
    nr_cpu_ids := 4
    opt_migrate_resist := 500
    opt_underload_balance_tolerance := 0
    opt_overload_balance_tolerance := -3
    cpupool_domain_cpumask := fun _ => [0, 1, 2, 3]
    trylock_prv := true
    trylock_rqd := fun _ => true }

/-- An entity of the four-processor host: the entities `100 + p` are the idle
entities of the processors, the others are assigned to the runqueue in slot
`q`, last ran on `processor`, and carry the load average `avgload`. -/
def bl_svc (i : Nat) (q : Int) (processor : Nat) (avgload : Int) (affinity : List Nat)
    (flags : Nat) : csched2_vcpu :=
  { vcpu := i, is_idle := decide (100 ≤ i), is_running := decide (100 ≤ i),
    processor := if 100 ≤ i then i - 100 else processor,
    rqd := some q, weight := if 100 ≤ i then 0 else 256, residual := 0,
    credit := if 100 ≤ i then CSCHED2_IDLE_CREDIT else 10000000,
    start_time := 1024000, flags := flags, load_last_update := 1000,
    avgload := avgload, migrate_rqd := none, cpu_hard_affinity := affinity }

/-- The entity 1 sits on runqueue 0 with half a processor of load and may run
anywhere. -/
def bl_heap_pick : vcpu_heap := fun i =>
  if 100 ≤ i then bl_svc i (if i < 102 then 0 else 1) 0 0 [i - 100] 0
  else bl_svc i 0 0 131072 [0, 1, 2, 3] 0

/-- Entity 1 on runqueue 0, whose balancing load 400000 drops to 268928 without
the entity; runqueue 1 carries 262144. -/
def bl_state_pick : sched_state :=
  bl_state bl_heap_pick (bl_rqd 0 [1] [] [0, 1] 0 400000) (bl_rqd 1 [] [] [2, 3] 0 262144)

/-- Entity 1 waits on the runnable list of runqueue 0; the processors of
runqueue 1 are idle. -/
def bl_state_move : sched_state :=
  bl_state bl_heap_pick (bl_rqd 0 [1] [1] [0, 1] 1 400000) (bl_rqd 1 [] [] [2, 3] 0 262144)

/-- Six entities with the same weight and a full processor of load each, all
assigned to runqueue 0 and allowed on every processor: the entities 5 and 6 run
on the processors 0 and 1, the entities 1 to 4 wait. -/
def bl_heap_six : vcpu_heap := fun i =>
  if 100 ≤ i then bl_svc i (if i < 102 then 0 else 1) 0 0 [i - 100] 0
  else if i = 5 then
    { bl_svc 5 0 0 262144 [0, 1, 2, 3] CSFLAG_scheduled with is_running := true }
  else if i = 6 then
    { bl_svc 6 0 1 262144 [0, 1, 2, 3] CSFLAG_scheduled with is_running := true }
  else bl_svc i 0 0 262144 [0, 1, 2, 3] 0

/-- The four-processor host with the six entities on runqueue 0, four of them
on its runnable list, and nothing on runqueue 1, whose processors are idle. -/
def bl_state_six : sched_state :=
  { bl_state bl_heap_six (bl_rqd 0 [1, 2, 3, 4, 5, 6] [1, 2, 3, 4] [] 6 1572864)
      (bl_rqd 1 [] [] [2, 3] 0 0) with
    curr_on_cpu := fun p => if p = 0 then 5 else if p = 1 then 6 else 100 + p }

/-- The entity 1 sits on runqueue 0 with a load average of 250000, close to a
whole processor, and may run anywhere. -/
def bl_heap_heavy : vcpu_heap := fun i =>
  if 100 ≤ i then bl_svc i (if i < 102 then 0 else 1) 0 0 [i - 100] 0
  else bl_svc i 0 0 250000 [0, 1, 2, 3] 0

/-- Entity 1 waits on the runnable list of runqueue 0, whose balancing average
is 600000; runqueue 1 has no entity and a balancing average of 400000. -/
def bl_state_heavy : sched_state :=
  bl_state bl_heap_heavy (bl_rqd 0 [1] [1] [0, 1] 1 600000) (bl_rqd 1 [] [] [2, 3] 0 400000)

/-- Entities 1 and 2 of runqueue 0 both run, on processors 0 and 1, each with a
whole processor of load. -/
def bl_heap_busy : vcpu_heap := fun i =>
  if 100 ≤ i then bl_svc i (if i < 102 then 0 else 1) 0 0 [i - 100] 0
  else if i = 2 then
    { bl_svc 2 0 1 262144 [0, 1, 2, 3] CSFLAG_scheduled with is_running := true }
  else { bl_svc i 0 0 262144 [0, 1, 2, 3] CSFLAG_scheduled with is_running := true }

/-- Runqueue 0 runs entities 1 and 2 and has nothing waiting; runqueue 1 has no
entity and both of its processors are idle. -/
def bl_state_busy : sched_state :=
  { bl_state bl_heap_busy (bl_rqd 0 [1, 2] [] [] 2 524288) (bl_rqd 1 [] [] [2, 3] 0 0) with
    curr_on_cpu := fun p => if p = 0 then 1 else if p = 1 then 2 else 100 + p }

/-- Entities 1 and 2 belong to domain 1 and have weight 256, entity 3 belongs to
domain 2 and has weight 100; entity `i` was last placed on processor `i - 1`.
Entity 2 carries the given flags. -/
def dc_heap (flags : Nat) : vcpu_heap := fun i =>
  if 10 ≤ i then tk_idle i (i - 10)
  else if i = 3 then { tk_svc 3 2 5000000 [0, 1, 2, 3] 0 with weight := 100, sdom := some 2 }
  else { tk_svc i (i - 1) 5000000 [0, 1, 2, 3] (if i = 2 then flags else 0) with
    sdom := some 1 }

/-- One runqueue over four idle processors, with the entities 1, 2 and 3
assigned to it, the given runnable list, and the domains 1, of weight 256 with
the entities 1 and 2, and 2, of weight 100 with the entity 3. -/
def dc_state (runq : List Nat) (flags : Nat) : sched_state :=
  { tk_state (dc_heap flags) (tk_rqd [0, 1, 2, 3] [] runq [1, 2, 3]) with
    dom := fun d =>
      if d = 1 then { weight := 256, nr_vcpus := 2, vcpus := [1, 2] }
      else if d = 2 then { weight := 100, nr_vcpus := 1, vcpus := [3] }
      else { weight := 0, nr_vcpus := 0, vcpus := [] } }

/-- The entities 10 to 13 run on the processors 0 to 3 with credit 1000000,
the entity `20 + p` is the idle entity of the processor `p`; entity 1, of
credit 2000000, was last placed on processor 1 and every other entity, of
credit 1200000, on processor 0. -/
def sd_heap : vcpu_heap := fun i =>
  if 20 ≤ i then tk_idle i (i - 20)
  else if 10 ≤ i then tk_svc i (i - 10) 1000000 [0, 1, 2, 3] CSFLAG_scheduled
  else if i = 1 then tk_svc 1 1 2000000 [0, 1, 2, 3] 0
  else tk_svc i 0 1200000 [0, 1, 2, 3] 0

/-- One runqueue over four busy processors with the given runnable list. -/
def sd_state (runq : List Nat) : sched_state :=
  { tk_state sd_heap (tk_rqd [] [] runq [1, 2, 10, 11, 12, 13]) with
    idle_vcpu := fun p => 20 + p }

/-- Like `sd_heap`, but entity 3, of credit 1500000 and last placed on processor
0, carries the given flags and is blocked unless `runnable`. -/
def cs_heap (flags : Nat) (runnable : Bool) : vcpu_heap := fun i =>
  if i = 3 then
    { tk_svc 3 0 1500000 [0, 1, 2, 3] flags with is_running := false, runnable := runnable }
  else sd_heap i

/-- One runqueue over four busy processors; entity 10 has just been switched in
on processor 0 in place of entity 3, and the entities 1 and 2 wait on the
runnable list. -/
def cs_state (flags : Nat) (runnable : Bool) : sched_state :=
  { tk_state (cs_heap flags runnable) (tk_rqd [] [] [1, 2] [1, 2, 3, 10, 11, 12, 13]) with
    idle_vcpu := fun p => 20 + p }

/-- A host with four processors on one socket and one node, two per core
(processors 0 and 1 on core 0, processors 2 and 3 on core 1), and one runqueue
per core. -/
def rg_host : host_info :=
  { nr_cpu_ids := 4, opt_runqueue := OPT_RUNQUEUE_CORE, cpu_to_socket := fun _ => 0,
    cpu_to_core := fun c => c / 2, cpu_to_node := fun _ => 0 }

/-- Like `rst_heap`, with entity 1 at a credit of exactly minus the initial
credit. -/
def edge_heap : vcpu_heap := fun i =>
  if i = 1 then { rst_heap 1 with credit := -10000000 } else rst_heap i

/-- Every entity below 100 is assigned to runqueue 0 with a quarter of a
processor of load and may run anywhere. -/
def bl_heap_cap : vcpu_heap := fun i =>
  if 100 ≤ i then bl_svc i (if i < 102 then 0 else 1) 0 0 [i - 100] 0
  else bl_svc i 0 0 65536 [0, 1, 2, 3] 0

/-- Runqueue 0, of two processors, carries the balancing load 589824 (2.25
processors) and the waiting entity 1; runqueue 1, of two processors, carries
458752 (1.75 processors). -/
def bl_state_cap : sched_state :=
  bl_state bl_heap_cap (bl_rqd 0 [1] [1] [] 1 589824) (bl_rqd 1 [] [] [2, 3] 0 458752)

/-- Entity 1, out of credit, is assigned to runqueue 0 and was last placed on
processor 0; entity 2 is assigned to runqueue 1 with a load average of 250000;
the entities 12 and 13 run on the processors 2 and 3. -/
def bl_heap_pull : vcpu_heap := fun i =>
  if 100 ≤ i then bl_svc i (if i < 102 then 0 else 1) 0 0 [i - 100] 0
  else if i = 1 then { bl_svc 1 0 0 50000 [0, 1, 2, 3] 0 with credit := -1000 }
  else if i = 2 then bl_svc 2 1 2 250000 [0, 1, 2, 3] 0
  else { bl_svc i 1 (i - 10) 100000 [0, 1, 2, 3] CSFLAG_scheduled with is_running := true }

/-- Processor 0 is idle while entity 1 waits on its runqueue, whose balancing
load is 50000; runqueue 1, with the balancing load 600000, is busy on both
processors and entity 2 waits there. -/
def bl_state_pull : sched_state :=
  { bl_state bl_heap_pull (bl_rqd 0 [1] [1] [0, 1] 1 50000)
      (bl_rqd 1 [2, 12, 13] [2] [] 3 600000) with
    curr_on_cpu := fun p => if p < 2 then 100 + p else 10 + p
    idle_vcpu := fun p => 100 + p }

/-! ## Theorems -/

theorem runq_insert_scan_perm (heap : vcpu_heap) (svc : Nat) (l : List Nat) (pos : Nat) :
    (runq_insert_scan heap svc l pos).1.Perm (svc :: l) := by
  induction l generalizing pos with
  | nil => simp [runq_insert_scan]
  | cons a t ih =>
    unfold runq_insert_scan
    split
    · exact List.Perm.refl _
    · exact ((ih (pos + 1)).cons a).trans (List.Perm.swap svc a t)

theorem runq_insert_scan_mem (heap : vcpu_heap) (svc : Nat) (l : List Nat) (pos x : Nat) :
    x ∈ (runq_insert_scan heap svc l pos).1 ↔ x = svc ∨ x ∈ l := by
  rw [(runq_insert_scan_perm heap svc l pos).mem_iff]; simp

theorem runq_insert_scan_sorted (heap : vcpu_heap) (svc : Nat) (l : List Nat) (pos : Nat)
    (hs : runq_sorted heap l) : runq_sorted heap (runq_insert_scan heap svc l pos).1 := by
  induction l generalizing pos with
  | nil => simp [runq_insert_scan, runq_sorted]
  | cons a t ih =>
    unfold runq_sorted at hs
    rw [List.pairwise_cons] at hs
    unfold runq_insert_scan
    split
    · rename_i hlt
      show List.Pairwise _ (svc :: a :: t)
      refine List.Pairwise.cons ?_ (List.Pairwise.cons hs.1 hs.2)
      intro b hb
      rcases List.mem_cons.mp hb with rfl | hb
      · omega
      · have := hs.1 b hb; omega
    · rename_i hge
      show List.Pairwise _ (a :: (runq_insert_scan heap svc t (pos + 1)).1)
      refine List.Pairwise.cons ?_ (ih (pos + 1) hs.2)
      intro b hb
      rcases (runq_insert_scan_mem heap svc t (pos + 1) b).mp hb with rfl | hb
      · omega
      · exact hs.1 b hb

/-- C1: inserting into a runnable list sorted by non-increasing credit gives a
runnable list sorted by non-increasing credit that holds exactly the old
entities and the new one; the insertion runs to completion whenever none of the
`BUG_ON` checks of `__runq_insert` fires. -/
theorem runq_insert_keeps_sorted (heap : vcpu_heap) (rqd : csched2_runqueue_data) (svc : Nat)
    (hsorted : runq_sorted heap rqd.runq)
    (hrqd : (heap svc).rqd = some rqd.id)
    (hidle : (heap svc).is_idle = false)
    (hrun : (heap svc).is_running = false)
    (hflag : (heap svc).flags &&& CSFLAG_scheduled = 0) :
    ∃ rqd1 pos, __runq_insert heap rqd svc = some (rqd1, pos) ∧
      runq_sorted heap rqd1.runq ∧ rqd1.runq.Perm (svc :: rqd.runq) := by
  refine ⟨{ rqd with runq := (runq_insert_scan heap svc rqd.runq 0).1 },
    (runq_insert_scan heap svc rqd.runq 0).2, ?_, ?_, ?_⟩
  · simp [__runq_insert, hrqd, hidle, hrun, hflag]
  · exact runq_insert_scan_sorted heap svc rqd.runq 0 hsorted
  · exact runq_insert_scan_perm heap svc rqd.runq 0

theorem runq_insert_scan_spec (heap : vcpu_heap) (svc : Nat) (l : List Nat) (pos : Nat) :
    ∃ k, (runq_insert_scan heap svc l pos).2 = pos + k ∧ k ≤ l.length ∧
      (runq_insert_scan heap svc l pos).1 = l.take k ++ svc :: l.drop k ∧
      (∀ x ∈ l.take k, (heap svc).credit ≤ (heap x).credit) ∧
      (∀ y, (l.drop k).head? = some y → (heap y).credit < (heap svc).credit) := by
  induction l generalizing pos with
  | nil => exact ⟨0, by simp [runq_insert_scan]⟩
  | cons a t ih =>
    unfold runq_insert_scan
    split
    · rename_i hlt
      refine ⟨0, by simp, by simp, by simp, by simp, ?_⟩
      intro y hy
      simp at hy
      subst hy
      omega
    · rename_i hge
      obtain ⟨k, h2, hk, h1, hpre, hnext⟩ := ih (pos + 1)
      refine ⟨k + 1, ?_, by simpa using hk, ?_, ?_, ?_⟩
      · show (runq_insert_scan heap svc t (pos + 1)).2 = pos + (k + 1)
        omega
      · show a :: (runq_insert_scan heap svc t (pos + 1)).1 = _
        rw [h1]; simp
      · intro x hx
        simp only [List.take_succ_cons, List.mem_cons] at hx
        rcases hx with rfl | hx
        · omega
        · exact hpre x hx
      · simpa using hnext

/-- C1, witness: entity 7 (credit 3) joins the sorted runnable list of entities
1, 2, 3 and 4 (credits 5, 3, 3 and 1). -/
theorem runq_insert_keeps_sorted_witness :
    ∃ rqd1 pos, __runq_insert ex_heap ex_rqd 7 = some (rqd1, pos) ∧
      runq_sorted ex_heap rqd1.runq ∧ rqd1.runq.Perm (7 :: ex_rqd.runq) :=
  runq_insert_keeps_sorted ex_heap ex_rqd 7 (by decide) (by decide) (by decide) (by decide)
    (by decide)

/-- C2: the position returned by `__runq_insert` is the number of entities ahead
of the new one, the other entities keep their order, every entity ahead of the
new one has at least its credit, and the entity right behind it (if any) has
strictly lower credit: the new entity stands immediately before the first
entity of strictly lower credit, at the tail if there is none.  On a sorted
runnable list every entity behind it has strictly lower credit, so it stands
behind all entities of equal credit. -/
theorem runq_insert_position (heap : vcpu_heap) (rqd : csched2_runqueue_data) (svc : Nat)
    (hrqd : (heap svc).rqd = some rqd.id)
    (hidle : (heap svc).is_idle = false)
    (hrun : (heap svc).is_running = false)
    (hflag : (heap svc).flags &&& CSFLAG_scheduled = 0) :
    ∃ rqd1 pos, __runq_insert heap rqd svc = some (rqd1, pos) ∧
      pos ≤ rqd.runq.length ∧
      rqd1.runq = rqd.runq.take pos ++ svc :: rqd.runq.drop pos ∧
      (∀ x ∈ rqd.runq.take pos, (heap svc).credit ≤ (heap x).credit) ∧
      (∀ y, (rqd.runq.drop pos).head? = some y → (heap y).credit < (heap svc).credit) ∧
      (runq_sorted heap rqd.runq →
        ∀ y ∈ rqd.runq.drop pos, (heap y).credit < (heap svc).credit) := by
  obtain ⟨k, h2, hk, h1, hpre, hnext⟩ := runq_insert_scan_spec heap svc rqd.runq 0
  refine ⟨{ rqd with runq := (runq_insert_scan heap svc rqd.runq 0).1 },
    (runq_insert_scan heap svc rqd.runq 0).2, ?_, ?_, ?_, ?_, ?_, ?_⟩
  · simp [__runq_insert, hrqd, hidle, hrun, hflag]
  · omega
  · rw [h2]; simpa using h1
  · rw [h2]; simpa using hpre
  · rw [h2]; simpa using hnext
  · rw [h2, Nat.zero_add]
    intro hs y hy
    unfold runq_sorted at hs
    rw [← List.take_append_drop k rqd.runq, List.pairwise_append] at hs
    cases hd : rqd.runq.drop k with
    | nil => rw [hd] at hy; simp at hy
    | cons z zs =>
      have hz := hnext z (by rw [hd]; rfl)
      rw [hd] at hy hs
      rcases List.mem_cons.mp hy with rfl | hy
      · exact hz
      · have := (List.pairwise_cons.mp hs.2.1).1 y hy
        omega

/-- C2, witness: entity 7 (credit 3) is queued behind entities 2 and 3 of equal
credit and before entity 4 of credit 1, at position 3. -/
theorem runq_insert_position_witness :
    ∃ rqd1 pos, __runq_insert ex_heap ex_rqd 7 = some (rqd1, pos) ∧
      pos ≤ ex_rqd.runq.length ∧
      rqd1.runq = ex_rqd.runq.take pos ++ 7 :: ex_rqd.runq.drop pos ∧
      (∀ x ∈ ex_rqd.runq.take pos, (ex_heap 7).credit ≤ (ex_heap x).credit) ∧
      (∀ y, (ex_rqd.runq.drop pos).head? = some y → (ex_heap y).credit < (ex_heap 7).credit) ∧
      (∀ y ∈ ex_rqd.runq.drop pos, (ex_heap y).credit < (ex_heap 7).credit) :=
  match runq_insert_position ex_heap ex_rqd 7 (by decide) (by decide) (by decide) (by decide) with
  | ⟨r, p, h1, h2, h3, h4, h5, h6⟩ => ⟨r, p, h1, h2, h3, h4, h5, h6 (by decide)⟩

/-! ### Machine integer facts -/

theorem to_int_of_range (x : Int) (h : int_range x) : to_int x = x := by
  unfold int_range at h
  unfold to_int
  omega

theorem to_int_range (x : Int) : int_range (to_int x) := by
  unfold int_range to_int
  omega

theorem to_int_u64_sub (c : Int) (q : Nat) :
    to_int (to_u64 ((to_u64 c : Int) - q)) = to_int (c - q) := by
  unfold to_int to_u64
  omega

theorem to_int_sub_to_int (x : Int) (q : Int) : to_int (to_int x - q) = to_int (x - q) := by
  unfold to_int
  omega

theorem to_u64_s64_add (a b : Int) :
    to_u64 (to_s64 (to_s64 a + b)) = ((a + b) % 18446744073709551616).toNat := by
  unfold to_u64 to_s64
  omega

theorem to_u32_of_lt (n : Nat) (h : n < 4294967296) : to_u32 n = n := by
  unfold to_u32
  omega

theorem to_s64_of_range (x : Int) (h0 : -9223372036854775808 ≤ x)
    (h1 : x < 9223372036854775808) : to_s64 x = x := by
  unfold to_s64
  omega

/-- Splitting a dividend: the quotient and remainder of `a + b` from those of `a`. -/
theorem ediv_emod_split (a b w : Int) (hw : 0 < w) :
    (a + b) / w = a / w + (b + a % w) / w ∧ (a + b) % w = (b + a % w) % w := by
  have key : a + b = (b + a % w) + w * (a / w) := by
    have := Int.emod_add_ediv a w
    linarith
  constructor
  · rw [key, Int.add_mul_ediv_left _ _ (by omega)]
    ring
  · rw [key, Int.add_mul_emod_self_left]

/-! ### Time-to-credit -/

/-- The value of `val` before `do_div` in `t2c_update`. -/
theorem t2c_val_eq (rqd : csched2_runqueue_data) (time : Int) (svc : csched2_vcpu)
    (h0 : 0 ≤ time * rqd.max_weight + svc.residual)
    (h64 : time * rqd.max_weight + svc.residual < 18446744073709551616) :
    to_u64 (to_s64 (to_s64 (time * rqd.max_weight) + svc.residual)) =
      (time * rqd.max_weight + svc.residual).toNat := by
  rw [to_u64_s64_add]
  generalize time * (rqd.max_weight : Int) + (svc.residual : Int) = x at *
  omega

/-- What `t2c_update` computes when the 64-bit `val` does not wrap: the credit
is reduced modulo 2^32. -/
theorem t2c_update_eq (rqd : csched2_runqueue_data) (time : Int) (svc : csched2_vcpu)
    (hw : 1 ≤ svc.weight) (hw32 : svc.weight < 4294967296)
    (h0 : 0 ≤ time * rqd.max_weight + svc.residual)
    (h64 : time * rqd.max_weight + svc.residual < 18446744073709551616) :
    t2c_update rqd time svc = some { svc with
      residual := ((time * rqd.max_weight + svc.residual) % svc.weight).toNat
      credit := to_int (svc.credit - (time * rqd.max_weight + svc.residual) / svc.weight) } := by
  have hval := t2c_val_eq rqd time svc h0 h64
  have hwne : svc.weight ≠ 0 := by omega
  unfold t2c_update do_div
  simp only [hval, hwne, if_false]
  generalize hx : time * (rqd.max_weight : Int) + (svc.residual : Int) = x at *
  obtain ⟨n, rfl⟩ := Int.eq_ofNat_of_zero_le h0
  have hmod : n % svc.weight < svc.weight := Nat.mod_lt _ (by omega)
  have h1 : to_u32 ((n % svc.weight : Nat) : Int) = n % svc.weight := to_u32_of_lt _ (by omega)
  have h2 : ((n : Int) % (svc.weight : Int)).toNat = n % svc.weight := by omega
  have h3 : ((n / svc.weight : Nat) : Int) = (n : Int) / (svc.weight : Int) := Int.ofNat_ediv _ _
  simp only [Int.toNat_ofNat, to_int_u64_sub]
  rw [h1, h2, h3]

theorem t2c_nonneg (time : Int) (mw r : Nat) (h : 0 ≤ time) : 0 ≤ time * (mw : Int) + (r : Int) := by
  have : 0 ≤ time * (mw : Int) := Int.mul_nonneg h (Int.ofNat_nonneg _)
  omega

/-- When the reduced credit still fits an `int`, the quotient is below 2^32 and
the dividend below `w * 2^32`. -/
theorem val_lt_of_credit_fits (x credit : Int) (w : Nat) (hw : 1 ≤ w)
    (hc : credit ≤ 2147483647) (hlo : -2147483648 ≤ credit - x / w) :
    x < (w : Int) * 4294967296 := by
  have hwpos : (0 : Int) < w := by omega
  have h1 := Int.lt_mul_ediv_self_add (x := x) hwpos
  have h2 : (w : Int) * (x / w) ≤ (w : Int) * 4294967295 :=
    Int.mul_le_mul_of_nonneg_left (by omega) (le_of_lt hwpos)
  omega

/-- C3, amended: for `T > 0`, weight `w >= 1` and residual `r`, when the reduced
credit fits the 32-bit `credit` field (`credit - floor((T * max_weight + r) / w)
>= -2^31`), `t2c_update` decreases the credit by `floor((T * max_weight + r) / w)`
and sets the residual to `(T * max_weight + r) mod w`.  The bound on the weight
and the range of the credit are those of the C types `unsigned int` and `int`. -/
theorem t2c_update_exact (rqd : csched2_runqueue_data) (T : Int) (svc : csched2_vcpu)
    (hT : 0 < T) (hw : 1 ≤ svc.weight) (hw32 : svc.weight < 4294967296)
    (hc : int_range svc.credit)
    (hlo : -2147483648 ≤ svc.credit - (T * rqd.max_weight + svc.residual) / svc.weight) :
    t2c_update rqd T svc = some { svc with
      residual := ((T * rqd.max_weight + svc.residual) % svc.weight).toNat
      credit := svc.credit - (T * rqd.max_weight + svc.residual) / svc.weight } := by
  have h0 := t2c_nonneg T rqd.max_weight svc.residual (le_of_lt hT)
  have h64 := val_lt_of_credit_fits _ _ _ hw hc.2 hlo
  rw [t2c_update_eq rqd T svc hw hw32 h0 (by omega)]
  have hq : 0 ≤ (T * rqd.max_weight + svc.residual) / (svc.weight : Int) :=
    Int.ediv_nonneg h0 (Int.ofNat_nonneg _)
  rw [to_int_of_range]
  unfold int_range at hc ⊢
  omega

/-- C3, witness: weight 256 on a runqueue of maximum weight 512, 1 ms of run
time and residual 3 take 2000000 credits and leave residual 3. -/
theorem t2c_update_exact_witness :
    t2c_update (ex_rqd_w 512) 1000000 (ex_svc 256 3 10000000) =
      some { ex_svc 256 3 10000000 with
        residual := ((1000000 * (ex_rqd_w 512).max_weight + (ex_svc 256 3 10000000).residual : Int)
          % (ex_svc 256 3 10000000).weight).toNat
        credit := (ex_svc 256 3 10000000).credit -
          (1000000 * (ex_rqd_w 512).max_weight + (ex_svc 256 3 10000000).residual : Int)
            / (ex_svc 256 3 10000000).weight } :=
  t2c_update_exact (ex_rqd_w 512) 1000000 (ex_svc 256 3 10000000)
    (by decide) (by decide) (by decide) (by decide) (by decide)

/-- C3, counterexample: an entity of weight 1 on a runqueue of maximum weight
65535 that ran for 500 us from credit 0 should be at credit -32767500000; the
32-bit credit field holds 1592238368 instead. -/
theorem t2c_update_wraps :
    ∃ s, t2c_update (ex_rqd_w 65535) 500000 (ex_svc 1 0 0) = some s ∧
      s.credit = 1592238368 ∧
      s.credit ≠ (ex_svc 1 0 0).credit -
        (500000 * (ex_rqd_w 65535).max_weight + (ex_svc 1 0 0).residual : Int)
          / (ex_svc 1 0 0).weight :=
  ⟨_, rfl, by decide, by decide⟩

/-- C4, amended: for weight `w >= 1`, any residual and `T1, T2 > 0` with
`(T1 + T2) * max_weight + residual` below 2^64, `t2c_update` for `T1` followed by
`t2c_update` for `T2` gives the same entity record, credit and residual
included, as one `t2c_update` for `T1 + T2`. -/
theorem t2c_update_split (rqd : csched2_runqueue_data) (T1 T2 : Int) (svc : csched2_vcpu)
    (hw : 1 ≤ svc.weight) (hw32 : svc.weight < 4294967296)
    (hT1 : 0 < T1) (hT2 : 0 < T2)
    (h64 : (T1 + T2) * rqd.max_weight + svc.residual < 18446744073709551616) :
    ∃ s1 s2, t2c_update rqd T1 svc = some s1 ∧ t2c_update rqd T2 s1 = some s2 ∧
      t2c_update rqd (T1 + T2) svc = some s2 := by
  have hm : (0 : Int) ≤ rqd.max_weight := Int.ofNat_nonneg _
  have hA0 := t2c_nonneg T1 rqd.max_weight svc.residual (le_of_lt hT1)
  have hB0 : 0 ≤ T2 * (rqd.max_weight : Int) := Int.mul_nonneg (le_of_lt hT2) hm
  have hsum : (T1 + T2) * (rqd.max_weight : Int) + svc.residual =
      (T1 * rqd.max_weight + svc.residual) + T2 * rqd.max_weight := by ring
  have hwpos : (0 : Int) < svc.weight := by omega
  obtain ⟨hdiv, hmod⟩ :=
    ediv_emod_split (T1 * rqd.max_weight + svc.residual) (T2 * rqd.max_weight) svc.weight hwpos
  have hr0 : 0 ≤ (T1 * rqd.max_weight + svc.residual) % (svc.weight : Int) :=
    Int.emod_nonneg _ (by omega)
  have hq0 : 0 ≤ (T1 * rqd.max_weight + svc.residual) / (svc.weight : Int) :=
    Int.ediv_nonneg hA0 (by omega)
  have hrle : (T1 * rqd.max_weight + svc.residual) % (svc.weight : Int) ≤
      T1 * rqd.max_weight + svc.residual := by
    have h1 := Int.emod_add_ediv (T1 * rqd.max_weight + svc.residual) (svc.weight : Int)
    have h2 := Int.mul_nonneg (le_of_lt hwpos) hq0
    omega
  have hcast : (((T1 * rqd.max_weight + svc.residual) % (svc.weight : Int)).toNat : Int) =
      (T1 * rqd.max_weight + svc.residual) % (svc.weight : Int) := Int.toNat_of_nonneg hr0
  have e1 := t2c_update_eq rqd T1 svc hw hw32 hA0 (by omega)
  have e12 := t2c_update_eq rqd (T1 + T2) svc hw hw32 (by omega) h64
  have e2 := t2c_update_eq rqd T2
    { svc with
      residual := ((T1 * rqd.max_weight + svc.residual) % svc.weight).toNat
      credit := to_int (svc.credit - (T1 * rqd.max_weight + svc.residual) / svc.weight) }
    hw hw32 (by simp only [hcast]; omega) (by simp only [hcast]; omega)
  refine ⟨_, _, e1, ?_, e12⟩
  rw [e2]
  simp only [hcast, to_int_sub_to_int]
  rw [hsum, hdiv, hmod]
  congr 3
  ring

/-- C4, witness: 300 ns and then 700 ns at weight 3 under maximum weight 4,
starting from residual 2. -/
theorem t2c_update_split_witness :
    ∃ s1 s2, t2c_update (ex_rqd_w 4) 300 (ex_svc 3 2 1000) = some s1 ∧
      t2c_update (ex_rqd_w 4) 700 s1 = some s2 ∧
      t2c_update (ex_rqd_w 4) (300 + 700) (ex_svc 3 2 1000) = some s2 :=
  t2c_update_split (ex_rqd_w 4) 300 700 (ex_svc 3 2 1000)
    (by decide) (by decide) (by decide) (by decide) (by decide)

/-- C4, counterexample: at weight 3 under maximum weight 65535, two quanta of
2^48 ns leave residual 0, one quantum of 2^49 ns leaves residual 2 and another
credit, because `time * max_weight` exceeds 64 bits. -/
theorem t2c_update_split_overflow :
    ∃ s1 s2 s, t2c_update (ex_rqd_w 65535) 281474976710656 (ex_svc 3 0 0) = some s1 ∧
      t2c_update (ex_rqd_w 65535) 281474976710656 s1 = some s2 ∧
      t2c_update (ex_rqd_w 65535) (281474976710656 + 281474976710656) (ex_svc 3 0 0) = some s ∧
      s2.residual = 0 ∧ s.residual = 2 ∧ s2.credit = 0 ∧ s.credit = 1431655766 :=
  ⟨_, _, _, rfl, rfl, rfl, by decide, by decide, by decide, by decide⟩

/-- C5, amended: for `T >= 0`, weights `1 <= w1 <= w2` and residual 0, when the
credit reduced at weight `w1` fits the 32-bit `credit` field
(`credit - floor(T * max_weight / w1) >= -2^31`), the credit `t2c_update` takes
(old credit minus new credit) at weight `w2` is at most the credit it takes at
weight `w1`.  The bound on the weights and the range of the credit are those
of the C types `unsigned int` and `int`. -/
theorem t2c_update_weight_mono (rqd : csched2_runqueue_data) (T : Int) (svc : csched2_vcpu)
    (w1 w2 : Nat) (hT : 0 ≤ T) (hw1 : 1 ≤ w1) (hw12 : w1 ≤ w2) (hw32 : w2 < 4294967296)
    (hc : int_range svc.credit)
    (hlo : -2147483648 ≤ svc.credit - T * rqd.max_weight / w1) :
    ∃ s1 s2, t2c_update rqd T { svc with weight := w1, residual := 0 } = some s1 ∧
      t2c_update rqd T { svc with weight := w2, residual := 0 } = some s2 ∧
      svc.credit - s2.credit ≤ svc.credit - s1.credit := by
  have hm : (0 : Int) ≤ rqd.max_weight := Int.ofNat_nonneg _
  have hX0 : 0 ≤ T * (rqd.max_weight : Int) := Int.mul_nonneg hT hm
  have h64 : T * (rqd.max_weight : Int) < 18446744073709551616 := by
    have := val_lt_of_credit_fits _ _ _ hw1 hc.2 hlo
    omega
  have e1 := t2c_update_eq rqd T { svc with weight := w1, residual := 0 } hw1
    (show w1 < 4294967296 by omega) (by simpa using hX0) (by simpa using h64)
  have e2 := t2c_update_eq rqd T { svc with weight := w2, residual := 0 }
    (show 1 ≤ w2 by omega) hw32 (by simpa using hX0) (by simpa using h64)
  refine ⟨_, _, e1, e2, ?_⟩
  simp only [Nat.cast_zero, add_zero]
  obtain ⟨n, hn⟩ := Int.eq_ofNat_of_zero_le hX0
  rw [hn] at hlo ⊢
  have hq : n / w2 ≤ n / w1 := Nat.div_le_div_left hw12 (by omega)
  have hq1 : ((n / w1 : Nat) : Int) = (n : Int) / (w1 : Int) := Int.ofNat_ediv _ _
  have hq2 : ((n / w2 : Nat) : Int) = (n : Int) / (w2 : Int) := Int.ofNat_ediv _ _
  have hn1 : (0 : Int) ≤ (n : Int) / (w1 : Int) := hq1 ▸ Int.ofNat_nonneg _
  have hn2 : (0 : Int) ≤ (n : Int) / (w2 : Int) := hq2 ▸ Int.ofNat_nonneg _
  unfold int_range at hc
  rw [to_int_of_range _ (by unfold int_range; omega),
    to_int_of_range _ (by unfold int_range; omega)]
  omega

/-- C5, witness: 1 ms under maximum weight 512 takes 2000000 credits at weight
256 and 1000000 credits at weight 512. -/
theorem t2c_update_weight_mono_witness :
    ∃ s1 s2,
      t2c_update (ex_rqd_w 512) 1000000
        { ex_svc 512 0 10000000 with weight := 256, residual := 0 } = some s1 ∧
      t2c_update (ex_rqd_w 512) 1000000
        { ex_svc 512 0 10000000 with weight := 512, residual := 0 } = some s2 ∧
      (ex_svc 512 0 10000000).credit - s2.credit ≤ (ex_svc 512 0 10000000).credit - s1.credit :=
  t2c_update_weight_mono (ex_rqd_w 512) 1000000 (ex_svc 512 0 10000000) 256 512
    (by decide) (by decide) (by decide) (by decide) (by decide) (by decide)

/-- C5, counterexample: under maximum weight 65535 a 500 us quantum from credit
0 leaves credit 1592238368 at weight 1 and 796119184 at weight 2: the credit
taken, old minus new, is larger at the higher weight. -/
theorem t2c_update_weight_wraps :
    ∃ s1 s2, t2c_update (ex_rqd_w 65535) 500000 (ex_svc 1 0 0) = some s1 ∧
      t2c_update (ex_rqd_w 65535) 500000 (ex_svc 2 0 0) = some s2 ∧
      s1.credit = 1592238368 ∧ s2.credit = 796119184 ∧
      ¬ ((0 : Int) - s2.credit ≤ 0 - s1.credit) :=
  ⟨_, _, rfl, rfl, by decide, by decide, by decide⟩

/-! ### Burning credit -/

/-- C6, amended: for a non-idle entity whose weight equals the `max_weight` of
its runqueue and whose residual is below its weight, `burn_credits` over an
elapsed time `T = now - start_time > 0` takes exactly `T` credits and leaves the
residual unchanged, provided the reduced credit fits the 32-bit `credit` field
(`credit - T >= -2^31`).  At the values of tenant B of the scenario (weight
512 = `max_weight`, credit 10 ms, residual 0, 10 ms of run time) the credit
becomes 0; the function writes the entity passed to it only, so the record of
tenant A is not touched. -/
theorem burn_credits_max_weight (rqd : csched2_runqueue_data) (svc : csched2_vcpu) (now : Int)
    (hidle : svc.is_idle = false)
    (hw : svc.weight = rqd.max_weight)
    (hr : svc.residual < svc.weight)
    (hw32 : svc.weight < 4294967296)
    (hT : 0 < now - svc.start_time)
    (hc : int_range svc.credit)
    (hlo : -2147483648 ≤ svc.credit - (now - svc.start_time)) :
    burn_credits rqd svc now =
      some { svc with credit := svc.credit - (now - svc.start_time), start_time := now } := by
  unfold int_range at hc
  have hT32 : now - svc.start_time ≤ 4294967295 := by omega
  have hdelta : to_s64 (now - svc.start_time) = now - svc.start_time :=
    to_s64_of_range _ (by omega) (by omega)
  have hwpos : (0 : Int) < svc.weight := by omega
  have hmul : (now - svc.start_time) * (svc.weight : Int) ≤ 4294967295 * (svc.weight : Int) :=
    Int.mul_le_mul_of_nonneg_right hT32 (le_of_lt hwpos)
  have hw1 : 1 ≤ svc.weight := by omega
  have h0 := t2c_nonneg (now - svc.start_time) rqd.max_weight svc.residual (le_of_lt hT)
  have e := t2c_update_eq rqd (now - svc.start_time) svc hw1 hw32 h0 (by rw [← hw]; omega)
  have hq : ((now - svc.start_time) * (rqd.max_weight : Int) + svc.residual) / (svc.weight : Int)
      = now - svc.start_time := by
    rw [← hw, Int.add_comm, Int.add_mul_ediv_right _ _ (by omega),
      Int.ediv_eq_zero_of_lt (by omega) (by omega)]
    omega
  have hrem : (((now - svc.start_time) * (rqd.max_weight : Int) + svc.residual)
      % (svc.weight : Int)).toNat = svc.residual := by
    rw [← hw, Int.add_comm, Int.add_mul_emod_self, Int.emod_eq_of_lt (by omega) (by omega)]
    omega
  unfold burn_credits
  simp only [hidle, hdelta, hT, e, hq, hrem, if_true, Bool.false_eq_true, if_false]
  rw [to_int_of_range _ (by unfold int_range; omega)]

/-- C6, witness: tenant B of the scenario, weight 512 on a runqueue of maximum
weight 512, credit 10 ms, residual 0, started at time 0, burns 10 ms and is
left with credit `10 ms - 10 ms`. -/
theorem burn_credits_max_weight_witness :
    burn_credits (ex_rqd_w 512) (ex_svc 512 0 (MILLISECS 10)) (MILLISECS 10) =
      some { ex_svc 512 0 (MILLISECS 10) with
        credit := (ex_svc 512 0 (MILLISECS 10)).credit -
          (MILLISECS 10 - (ex_svc 512 0 (MILLISECS 10)).start_time)
        start_time := MILLISECS 10 } :=
  burn_credits_max_weight (ex_rqd_w 512) (ex_svc 512 0 (MILLISECS 10)) (MILLISECS 10)
    (by decide) (by decide) (by decide) (by decide) (by decide) (by decide) (by decide)

/-- C6, counterexample: an entity of the maximum weight 256 with credit 0 that
ran for 2^32 ns still has credit 0: nothing was taken, the 32-bit credit field
wrapped. -/
theorem burn_credits_wraps :
    ∃ s, burn_credits (ex_rqd_w 256) (ex_svc 256 0 0) 4294967296 = some s ∧
      s.credit = 0 ∧
      s.credit ≠ (ex_svc 256 0 0).credit - (4294967296 - (ex_svc 256 0 0).start_time) :=
  ⟨_, rfl, by decide, by decide⟩

/-! ### Time to credit and back -/

/-- C7, amended: for `T > 0`, weight `1 <= w <= max_weight` and residual 0, when
the reduced credit fits the 32-bit `credit` field
(`credit - floor(T * max_weight / w) >= -2^31`), the credit taken by
`t2c_update` (old credit minus new credit) converted back by `c2t` is a time `t`
with `T - 1 <= t <= T`.  The range of the credit is that of `int`; weights are
copies of the 16-bit weight of a domain, hence at most 65535. -/
theorem t2c_c2t_round_trip (rqd : csched2_runqueue_data) (T : Int) (svc : csched2_vcpu)
    (hT : 0 < T) (hw : 1 ≤ svc.weight) (hwm : svc.weight ≤ rqd.max_weight)
    (hm16 : rqd.max_weight ≤ 65535) (hr : svc.residual = 0)
    (hc : int_range svc.credit)
    (hlo : -2147483648 ≤ svc.credit - T * rqd.max_weight / svc.weight) :
    ∃ s1 t, t2c_update rqd T svc = some s1 ∧
      c2t rqd (svc.credit - s1.credit) svc = some t ∧ T - 1 ≤ t ∧ t ≤ T := by
  have h63 : T * (rqd.max_weight : Int) < 9223372036854775808 := by
    have := val_lt_of_credit_fits _ _ _ hw hc.2 hlo
    omega
  have hm : (0 : Int) < rqd.max_weight := by omega
  have hwpos : (0 : Int) < svc.weight := by omega
  have hX0 : 0 ≤ T * (rqd.max_weight : Int) := Int.mul_nonneg (le_of_lt hT) (le_of_lt hm)
  have e := t2c_update_eq rqd T svc hw (by omega) (by rw [hr]; simpa using hX0)
    (by rw [hr]; simp only [Nat.cast_zero, add_zero]; omega)
  simp only [hr, Nat.cast_zero, add_zero] at e
  have hq0 : 0 ≤ T * (rqd.max_weight : Int) / (svc.weight : Int) :=
    Int.ediv_nonneg hX0 (le_of_lt hwpos)
  unfold int_range at hc
  rw [to_int_of_range _ (by unfold int_range; omega)] at e
  -- the bounds of the quotient `q = floor (T * max_weight / w)`
  have hqle : T * (rqd.max_weight : Int) / (svc.weight : Int) * (svc.weight : Int)
      ≤ T * (rqd.max_weight : Int) := by
    have := Int.mul_ediv_self_le (x := T * (rqd.max_weight : Int)) (k := (svc.weight : Int))
      (by omega)
    linarith
  have hqgt : T * (rqd.max_weight : Int)
      < T * (rqd.max_weight : Int) / (svc.weight : Int) * (svc.weight : Int) + svc.weight := by
    have := Int.lt_mul_ediv_self_add (x := T * (rqd.max_weight : Int)) hwpos
    linarith
  have hprod0 : 0 ≤ T * (rqd.max_weight : Int) / (svc.weight : Int) * (svc.weight : Int) :=
    Int.mul_nonneg hq0 (le_of_lt hwpos)
  refine ⟨_, T * (rqd.max_weight : Int) / (svc.weight : Int) * (svc.weight : Int)
    / (rqd.max_weight : Int), e, ?_, ?_, ?_⟩
  · unfold c2t
    rw [if_neg (by omega)]
    simp only [sub_sub_cancel]
    rw [to_s64_of_range _ (by omega) (by omega),
      Int.tdiv_eq_ediv hprod0 (le_of_lt hm)]
  · apply Int.le_ediv_of_mul_le hm
    have hwm1 : (svc.weight : Int) ≤ rqd.max_weight := by exact_mod_cast hwm
    linarith
  · apply Int.ediv_le_of_le_mul hm
    linarith

/-- C7, witness: 1000 ns at weight 3 under maximum weight 7. -/
theorem t2c_c2t_round_trip_witness :
    ∃ s1 t, t2c_update (ex_rqd_w 7) 1000 (ex_svc 3 0 5000) = some s1 ∧
      c2t (ex_rqd_w 7) ((ex_svc 3 0 5000).credit - s1.credit) (ex_svc 3 0 5000) = some t ∧
      1000 - 1 ≤ t ∧ t ≤ 1000 :=
  t2c_c2t_round_trip (ex_rqd_w 7) 1000 (ex_svc 3 0 5000)
    (by decide) (by decide) (by decide) (by decide) (by decide) (by decide) (by decide)

/-- C7, counterexample: at weight 1 under maximum weight 65535 a 500 us quantum
from the initial credit of 10 ms leaves credit 1602238368; the credit taken,
-1592238368, converts back to -24296 ns, not to a time between 499999 and
500000. -/
theorem t2c_c2t_round_trip_wraps :
    ∃ s1 t, t2c_update (ex_rqd_w 65535) 500000 (ex_svc 1 0 10000000) = some s1 ∧
      c2t (ex_rqd_w 65535) ((ex_svc 1 0 10000000).credit - s1.credit) (ex_svc 1 0 10000000)
        = some t ∧
      t = -24296 ∧ ¬ (500000 - 1 ≤ t ∧ t ≤ 500000) :=
  ⟨_, _, rfl, rfl, by decide, by decide⟩

/-! ### Time slice -/

/-- C8: on a runqueue with `max_weight >= 1` (it is 1 from `activate_runqueue` on
and `update_max_weight` never lowers it below 1), `csched2_runtime` returns for
every non-idle `snext`, whatever its credit and whatever waits at the head of
the runnable list, a time between `CSCHED2_MIN_TIMER` (500 us) and
`CSCHED2_MAX_TIMER` (2 ms); for an idle `snext` it returns -1. -/
theorem csched2_runtime_bounds (heap : vcpu_heap) (rqd : csched2_runqueue_data) (snext : Nat)
    (hmw : 1 ≤ rqd.max_weight) :
    ∃ t, csched2_runtime heap rqd snext = some t ∧
      (if (heap snext).is_idle = true then t = -1
        else CSCHED2_MIN_TIMER ≤ t ∧ t ≤ CSCHED2_MAX_TIMER) ∧
      CSCHED2_MIN_TIMER = 500000 ∧ CSCHED2_MAX_TIMER = 2000000 := by
  have hmin : CSCHED2_MIN_TIMER = 500000 := by decide
  have hmax : CSCHED2_MAX_TIMER = 2000000 := by decide
  have hne : rqd.max_weight ≠ 0 := by omega
  cases hidle : (heap snext).is_idle with
  | true =>
    refine ⟨-1, ?_, by simp, hmin, hmax⟩
    unfold csched2_runtime
    simp only [hidle, if_true]
  | false =>
    unfold csched2_runtime c2t
    simp only [hidle, hne, Bool.false_eq_true, if_false]
    split_ifs with h1 h2 h3
    · exact ⟨_, rfl, by omega, hmin, hmax⟩
    · exact ⟨_, rfl, by omega, hmin, hmax⟩
    · exact ⟨_, rfl, by omega, hmin, hmax⟩
    · exact ⟨_, rfl, by omega, hmin, hmax⟩

/-- C8, witness: on the sample runqueue, where entity 1 with credit 5 waits at
the head of the runnable list, entity 7 gets a time slice within the two
timers. -/
theorem csched2_runtime_bounds_witness :
    ∃ t, csched2_runtime ex_heap ex_rqd 7 = some t ∧
      (if (ex_heap 7).is_idle = true then t = -1
        else CSCHED2_MIN_TIMER ≤ t ∧ t ≤ CSCHED2_MAX_TIMER) ∧
      CSCHED2_MIN_TIMER = 500000 ∧ CSCHED2_MAX_TIMER = 2000000 :=
  csched2_runtime_bounds ex_heap ex_rqd 7 (by decide)

/-! ### Credit reset -/

theorem heap_store_same (heap : vcpu_heap) (i : Nat) (v : csched2_vcpu) :
    heap_store heap i v i = v := by
  simp [heap_store]

theorem heap_store_other (heap : vcpu_heap) (i j : Nat) (v : csched2_vcpu) (h : j ≠ i) :
    heap_store heap i v j = heap j := by
  simp [heap_store, h]

/-- The loop of `reset_credit` runs to completion when no `BUG_ON` fires; it
rewrites credit and start time of the entities on the list and nothing else. -/
theorem reset_credit_loop_spec (rqd_id : Int) (m now : Int) (l : List Nat) (heap : vcpu_heap)
    (hnodup : l.Nodup)
    (hok : ∀ i ∈ l, (heap i).is_idle = false ∧ (heap i).rqd = some rqd_id) :
    ∃ heap1, reset_credit_loop rqd_id m now l heap = some heap1 ∧
      (∀ i ∈ l, heap1 i =
        { heap i with credit := reset_credit_one m (heap i).credit, start_time := now }) ∧
      (∀ i, i ∉ l → heap1 i = heap i) := by
  induction l generalizing heap with
  | nil => exact ⟨heap, rfl, by simp, by simp⟩
  | cons a t ih =>
    obtain ⟨hat, hnd⟩ := List.nodup_cons.mp hnodup
    have hoka := hok a (List.mem_cons_self a t)
    have hok1 : ∀ i ∈ t,
        (heap_store heap a { heap a with
            credit := reset_credit_one m (heap a).credit, start_time := now } i).is_idle = false ∧
        (heap_store heap a { heap a with
            credit := reset_credit_one m (heap a).credit, start_time := now } i).rqd
          = some rqd_id := by
      intro i hi
      have hne : i ≠ a := fun h => hat (h ▸ hi)
      rw [heap_store_other _ _ _ _ hne]
      exact hok i (List.mem_cons_of_mem a hi)
    obtain ⟨heap1, hrun, hin, hout⟩ := ih _ hnd hok1
    refine ⟨heap1, ?_, ?_, ?_⟩
    · unfold reset_credit_loop
      rw [if_neg (by simp [hoka.1]), if_neg (by simp [hoka.2])]
      exact hrun
    · intro i hi
      rcases List.mem_cons.mp hi with rfl | hi
      · rw [hout i hat, heap_store_same]
      · have hne : i ≠ a := fun h => hat (h ▸ hi)
        rw [hin i hi, heap_store_other _ _ _ _ hne]
    · intro i hi
      have hne : i ≠ a := fun h => hi (h ▸ List.mem_cons_self a t)
      have hnt : i ∉ t := fun h => hi (List.mem_cons_of_mem a h)
      rw [hout i hnt, heap_store_other _ _ _ _ hne]

theorem credit_init_eq : CSCHED2_CREDIT_INIT = 10000000 := by decide

theorem carryover_max_eq : CSCHED2_CARRYOVER_MAX = 500000 := by decide

/-- One step of the reset without 32-bit overflow: add `m` times the initial
credit, then clip. -/
theorem reset_credit_one_eq (m credit : Int)
    (h : int_range (credit + m * CSCHED2_CREDIT_INIT)) :
    reset_credit_one m credit =
      min (credit + m * CSCHED2_CREDIT_INIT) (CSCHED2_CREDIT_INIT + CSCHED2_CARRYOVER_MAX) := by
  unfold reset_credit_one
  by_cases hm : m = 1
  · subst hm
    rw [one_mul] at h ⊢
    simp only [if_true, to_int_of_range _ h]
    split_ifs with hc
    · rw [min_eq_right (le_of_lt hc)]
    · rw [min_eq_left (not_lt.mp hc)]
  · simp only [hm, if_false, to_int_of_range _ h]
    split_ifs with hc
    · rw [min_eq_right (le_of_lt hc)]
    · rw [min_eq_left (not_lt.mp hc)]

/-- The multiplier computed by the code is the multiplier of the specification
for every credit above `INT_MIN`. -/
theorem reset_credit_m_eq (credit : Int) (h : -2147483648 < credit) :
    reset_credit_m credit = spec_reset_m credit := by
  unfold reset_credit_m spec_reset_m
  rw [credit_init_eq]
  split_ifs with hc
  · have h1 : to_int (-credit) = -credit := to_int_of_range _ (by unfold int_range; omega)
    rw [h1, Int.tdiv_eq_ediv (by omega) (by omega)]
    exact to_int_of_range _ (by unfold int_range; omega)
  · rfl

/-- C9, amended: `reset_credit` sets the credit of every entity assigned to the
runqueue to `min (c_i + m * CSCHED2_CREDIT_INIT) (CSCHED2_CREDIT_INIT +
CSCHED2_CARRYOVER_MAX)`, with `m = 1 + floor (-snext.credit / CSCHED2_CREDIT_INIT)`
if the credit of `snext` is below `-CSCHED2_CREDIT_INIT` and `m = 1` otherwise,
provided the credit of `snext` is above `INT_MIN` and no sum
`c_i + m * CSCHED2_CREDIT_INIT` leaves the range of the 32-bit `credit` field.
The hypotheses on the list say that it is a list (no entity twice) and that the
two `BUG_ON` checks of the loop pass. -/
theorem reset_credit_adds_m_init (heap : vcpu_heap) (rqd : csched2_runqueue_data) (now : Int)
    (snext : Nat)
    (hnodup : rqd.svc.Nodup)
    (hok : ∀ i ∈ rqd.svc, (heap i).is_idle = false ∧ (heap i).rqd = some rqd.id)
    (hsn : -2147483648 < (heap snext).credit)
    (hrange : ∀ i ∈ rqd.svc,
      int_range ((heap i).credit + spec_reset_m (heap snext).credit * CSCHED2_CREDIT_INIT)) :
    ∃ heap1, reset_credit heap rqd now snext = some heap1 ∧
      (∀ i ∈ rqd.svc, (heap1 i).credit =
        min ((heap i).credit + spec_reset_m (heap snext).credit * CSCHED2_CREDIT_INIT)
          (CSCHED2_CREDIT_INIT + CSCHED2_CARRYOVER_MAX)) ∧
      (∀ i, i ∉ rqd.svc → heap1 i = heap i) := by
  obtain ⟨heap1, hrun, hin, hout⟩ := reset_credit_loop_spec rqd.id
    (reset_credit_m (heap snext).credit) now rqd.svc heap hnodup hok
  refine ⟨heap1, hrun, ?_, hout⟩
  intro i hi
  rw [hin i hi, reset_credit_m_eq _ hsn]
  exact reset_credit_one_eq _ _ (hrange i hi)

/-- C9, witness: entity 1 of credit -25000000 triggers the reset, so `m = 3`;
entities 2 and 3 of credit 3000000 and -1000000 are clipped to the ceiling and
entity 1 ends at 5000000. -/
theorem reset_credit_adds_m_init_witness :
    ∃ heap1, reset_credit rst_heap ovf_rqd 1000 1 = some heap1 ∧
      (∀ i ∈ ovf_rqd.svc, (heap1 i).credit =
        min ((rst_heap i).credit + spec_reset_m (rst_heap 1).credit * CSCHED2_CREDIT_INIT)
          (CSCHED2_CREDIT_INIT + CSCHED2_CARRYOVER_MAX)) ∧
      (∀ i, i ∉ ovf_rqd.svc → heap1 i = rst_heap i) :=
  reset_credit_adds_m_init rst_heap ovf_rqd 1000 1 (by decide) (by decide) (by decide)
    (by decide)

/-- C9, counterexample: the reset triggered by entity 1 of credit -2140000000
uses `m = 215`; entity 2 of credit 10000000 should end at the ceiling 10500000,
but 10000000 + 2150000000 exceeds `INT_MAX` and the entity ends at
-2134967296. -/
theorem reset_credit_overflow :
    ∃ heap1, reset_credit ovf_heap ovf_rqd 0 1 = some heap1 ∧
      spec_reset_m (ovf_heap 1).credit = 215 ∧
      (heap1 2).credit = -2134967296 ∧
      (heap1 2).credit ≠
        min ((ovf_heap 2).credit + spec_reset_m (ovf_heap 1).credit * CSCHED2_CREDIT_INIT)
          (CSCHED2_CREDIT_INIT + CSCHED2_CARRYOVER_MAX) :=
  ⟨_, rfl, by decide, by decide, by decide⟩
theorem reset_credit_one_mono (m a b : Int) (hab : b ≤ a)
    (ha : int_range (a + m * CSCHED2_CREDIT_INIT))
    (hb : int_range (b + m * CSCHED2_CREDIT_INIT)) :
    reset_credit_one m b ≤ reset_credit_one m a := by
  rw [reset_credit_one_eq m a ha, reset_credit_one_eq m b hb]
  exact min_le_min (by omega) (le_refl _)

/-- C10, amended: when the runnable list is sorted by non-increasing credit and
adding `m * CSCHED2_CREDIT_INIT` (`m` the multiplier `reset_credit` computes) to
the credit of a queued entity never leaves the range of the 32-bit `credit`
field, `reset_credit` leaves the runnable list sorted by non-increasing credit,
clipped credits included; it changes credit and start time of the assigned
entities only, so the list holds the same entities in the same order.  The
other hypotheses say that the queued entities are assigned to the runqueue,
that the assignment list holds no entity twice and that the two `BUG_ON`
checks of the loop pass. -/
theorem reset_credit_keeps_sorted (heap : vcpu_heap) (rqd : csched2_runqueue_data) (now : Int)
    (snext : Nat)
    (hsorted : runq_sorted heap rqd.runq)
    (hsub : ∀ i ∈ rqd.runq, i ∈ rqd.svc)
    (hnodup : rqd.svc.Nodup)
    (hok : ∀ i ∈ rqd.svc, (heap i).is_idle = false ∧ (heap i).rqd = some rqd.id)
    (hrange : ∀ i ∈ rqd.runq,
      int_range ((heap i).credit + reset_credit_m (heap snext).credit * CSCHED2_CREDIT_INIT)) :
    ∃ heap1, reset_credit heap rqd now snext = some heap1 ∧
      runq_sorted heap1 rqd.runq ∧
      (∀ i, heap1 i =
        { heap i with credit := (heap1 i).credit, start_time := (heap1 i).start_time }) := by
  obtain ⟨heap1, hrun, hin, hout⟩ := reset_credit_loop_spec rqd.id
    (reset_credit_m (heap snext).credit) now rqd.svc heap hnodup hok
  refine ⟨heap1, hrun, ?_, ?_⟩
  · unfold runq_sorted at hsorted ⊢
    have hmono : ∀ a ∈ rqd.runq, ∀ b ∈ rqd.runq,
        (heap b).credit ≤ (heap a).credit → (heap1 b).credit ≤ (heap1 a).credit := by
      intro a ha b hb hab
      rw [hin a (hsub a ha), hin b (hsub b hb)]
      exact reset_credit_one_mono _ _ _ hab (hrange a ha) (hrange b hb)
    exact hsorted.imp_of_mem (fun {a b} ha hb hab => hmono a ha b hb hab)
  · intro i
    by_cases hi : i ∈ rqd.svc
    · rw [hin i hi]
    · rw [hout i hi]

/-- C10, witness: the reset triggered by entity 1 of credit -25000000 clips
both queued entities, of credit 3000000 and -1000000, to the ceiling; the
runnable list stays sorted. -/
theorem reset_credit_keeps_sorted_witness :
    ∃ heap1, reset_credit rst_heap ovf_rqd 1000 1 = some heap1 ∧
      runq_sorted heap1 ovf_rqd.runq ∧
      (∀ i, heap1 i =
        { rst_heap i with credit := (heap1 i).credit, start_time := (heap1 i).start_time }) :=
  reset_credit_keeps_sorted rst_heap ovf_rqd 1000 1 (by decide) (by decide) (by decide)
    (by decide) (by decide)

/-- C10, counterexample: the runnable list holds entity 2 of credit 10000000
before entity 3 of credit -5000000 and is sorted; after the reset triggered by
entity 1 of credit -2140000000 entity 2 has credit -2134967296 (the sum left
the 32-bit range) and entity 3 has credit 10500000: the list is no longer
sorted. -/
theorem reset_credit_breaks_order :
    runq_sorted ovf_heap ovf_rqd.runq ∧
    ∃ heap1, reset_credit ovf_heap ovf_rqd 0 1 = some heap1 ∧
      (heap1 2).credit = -2134967296 ∧ (heap1 3).credit = 10500000 ∧
      ¬ runq_sorted heap1 ovf_rqd.runq :=
  ⟨by decide, _, rfl, by decide, by decide, by decide⟩

/-! ### Processor masks -/

theorem mem_cpumask_cpus (nr c : Nat) (m : List Nat) :
    c ∈ cpumask_cpus nr m ↔ c < nr ∧ c ∈ m := by
  simp [cpumask_cpus]

theorem mem_cpumask_and (c : Nat) (a b : List Nat) :
    c ∈ cpumask_and a b ↔ c ∈ a ∧ c ∈ b := by
  simp [cpumask_and]

theorem mem_cpumask_andnot (c : Nat) (a b : List Nat) :
    c ∈ cpumask_andnot a b ↔ c ∈ a ∧ c ∉ b := by
  simp [cpumask_andnot]

theorem mem_cpumask_set_cpu (c cpu : Nat) (m : List Nat) :
    c ∈ cpumask_set_cpu cpu m ↔ c = cpu ∨ c ∈ m := by
  unfold cpumask_set_cpu
  split_ifs with h
  · constructor
    · exact fun hc => Or.inr hc
    · rintro (rfl | hc)
      · exact h
      · exact hc
  · simp

theorem cpumask_cpus_sorted (nr : Nat) (m : List Nat) :
    (cpumask_cpus nr m).Pairwise (fun a b => a < b) := by
  unfold cpumask_cpus
  exact List.Pairwise.filter _ (List.pairwise_lt_range nr)

/-- The head of an increasing list is its least element. -/
theorem headD_least (l : List Nat) (d : Nat) (hs : l.Pairwise (fun a b => a < b))
    (hne : l ≠ []) : l.headD d ∈ l ∧ ∀ x ∈ l, l.headD d ≤ x := by
  cases l with
  | nil => exact absurd rfl hne
  | cons a t =>
    refine ⟨List.mem_cons_self a t, ?_⟩
    intro x hx
    rcases List.mem_cons.mp hx with rfl | hx
    · exact le_refl _
    · exact le_of_lt ((List.pairwise_cons.mp hs).1 x hx)

theorem cpumask_first_spec (nr : Nat) (m : List Nat) :
    (cpumask_first nr m = nr ∧ ∀ c, c < nr → c ∉ m) ∨
    (cpumask_first nr m < nr ∧ cpumask_first nr m ∈ m ∧
      ∀ c, c < nr → c ∈ m → cpumask_first nr m ≤ c) := by
  unfold cpumask_first
  by_cases hne : cpumask_cpus nr m = []
  · left
    refine ⟨by rw [hne]; rfl, ?_⟩
    intro c hc hm
    have : c ∈ cpumask_cpus nr m := (mem_cpumask_cpus nr c m).mpr ⟨hc, hm⟩
    rw [hne] at this
    exact absurd this (List.not_mem_nil c)
  · right
    obtain ⟨hmem, hle⟩ := headD_least _ nr (cpumask_cpus_sorted nr m) hne
    have h1 := (mem_cpumask_cpus nr _ m).mp hmem
    exact ⟨h1.1, h1.2, fun c hc hm => hle c ((mem_cpumask_cpus nr c m).mpr ⟨hc, hm⟩)⟩

theorem cpumask_next_spec (nr n : Nat) (m : List Nat) :
    (cpumask_next nr n m = nr ∧ ∀ c, c < nr → c ∈ m → c ≤ n) ∨
    (cpumask_next nr n m < nr ∧ cpumask_next nr n m ∈ m ∧ n < cpumask_next nr n m ∧
      ∀ c, c < nr → c ∈ m → n < c → cpumask_next nr n m ≤ c) := by
  unfold cpumask_next
  have hs : ((cpumask_cpus nr m).filter (fun c => decide (n < c))).Pairwise
      (fun a b => a < b) := List.Pairwise.filter _ (cpumask_cpus_sorted nr m)
  have hmem : ∀ c, c ∈ (cpumask_cpus nr m).filter (fun c => decide (n < c)) ↔
      (c < nr ∧ c ∈ m) ∧ n < c := by
    intro c
    simp [List.mem_filter, mem_cpumask_cpus]
  by_cases hne : (cpumask_cpus nr m).filter (fun c => decide (n < c)) = []
  · left
    refine ⟨by rw [hne]; rfl, ?_⟩
    intro c hc hm
    by_contra hlt
    have : c ∈ (cpumask_cpus nr m).filter (fun c => decide (n < c)) :=
      (hmem c).mpr ⟨⟨hc, hm⟩, by omega⟩
    rw [hne] at this
    exact absurd this (List.not_mem_nil c)
  · right
    obtain ⟨h1, hle⟩ := headD_least _ nr hs hne
    have h2 := (hmem _).mp h1
    exact ⟨h2.1.1, h2.1.2, h2.2, fun c hc hm hn => hle c ((hmem c).mpr ⟨⟨hc, hm⟩, hn⟩)⟩

/-- The processor `cpumask_cycle` returns: none if the mask is empty, else the
first processor of the mask above `n`, or the first processor of the mask if
none is above `n`. -/
theorem cpumask_cycle_spec (nr n : Nat) (m : List Nat) :
    ((∀ c, c < nr → c ∉ m) ∧ cpumask_cycle nr n m = nr) ∨
    (cpumask_cycle nr n m < nr ∧ cpumask_cycle nr n m ∈ m ∧
      (∀ c, c < nr → c ∈ m → n < c → n < cpumask_cycle nr n m ∧ cpumask_cycle nr n m ≤ c) ∧
      ((∀ c, c < nr → c ∈ m → c ≤ n) → ∀ c, c < nr → c ∈ m → cpumask_cycle nr n m ≤ c)) := by
  unfold cpumask_cycle
  rcases cpumask_next_spec nr n m with ⟨hn, hnone⟩ | ⟨hlt, hm, hgt, hleast⟩
  · simp only [hn, if_true]
    rcases cpumask_first_spec nr m with ⟨hf, hempty⟩ | ⟨hflt, hfm, hfle⟩
    · exact Or.inl ⟨hempty, hf⟩
    · refine Or.inr ⟨hflt, hfm, ?_, fun _ => hfle⟩
      intro c hc hcm hnc
      have := hnone c hc hcm
      omega
  · have hne : cpumask_next nr n m ≠ nr := by omega
    simp only [hne, if_false]
    refine Or.inr ⟨hlt, hm, fun c hc hcm hnc => ⟨hgt, hleast c hc hcm hnc⟩, ?_⟩
    intro hall c hc hcm
    have := hall _ hlt hm
    omega

/-! ### Tickling -/

theorem rqd_store_same (prv : csched2_private) (q : Int) (r : csched2_runqueue_data) :
    (rqd_store prv q r).rqd q = r := by
  simp [rqd_store]

theorem rqd_store_other (prv : csched2_private) (q j : Int) (r : csched2_runqueue_data)
    (h : j ≠ q) : (rqd_store prv q r).rqd j = prv.rqd j := by
  simp [rqd_store, h]

theorem tickle_cpu_tickled (st : sched_state) (q : Int) (ipid : Nat) :
    ((tickle_cpu st q ipid).prv.rqd q).tickled = cpumask_set_cpu ipid (st.prv.rqd q).tickled ∧
    (tickle_cpu st q ipid).softirq = ipid :: st.softirq := by
  simp [tickle_cpu, rqd_store_same]

/-- C11, amended: when the processor the woken entity was last placed on is in
its allowed set and its credit is strictly higher than the current credit (the
credit `burn_credits` leaves at `now`, which is what `runq_tickle` compares) of
the entity running on each processor of that set, `runq_tickle` sets a tickled
bit and raises a reschedule request on a processor.  The other hypotheses are
the two `BUG_ON` checks of `runq_tickle` and that the woken entity is not the
one running on its processor. -/
theorem runq_tickle_higher_credit (st : sched_state) (cpu new : Nat) (now : Int)
    (hproc : (st.heap new).processor = cpu)
    (hrqd : (st.heap new).rqd = some (c2r st cpu))
    (hnew : st.curr_on_cpu cpu ≠ new)
    (hallowed : cpu ∈ (st.heap new).cpu_hard_affinity)
    (hhigh : ∀ p ∈ (st.heap new).cpu_hard_affinity,
      ∃ cur, burn_credits (RQD st p) (st.heap (st.curr_on_cpu p)) now = some cur ∧
        cur.credit < (st.heap new).credit) :
    ∃ st1 ipid, runq_tickle st cpu new now = some st1 ∧
      ipid ∈ (st1.prv.rqd (c2r st cpu)).tickled ∧ st1.softirq = ipid :: st.softirq := by
  obtain ⟨cur, hburn, hlt⟩ := hhigh cpu hallowed
  have hnew1 : heap_store st.heap (st.curr_on_cpu cpu) cur new = st.heap new :=
    heap_store_other _ _ _ _ (Ne.symm hnew)
  refine ⟨tickle_cpu { st with heap := heap_store st.heap (st.curr_on_cpu cpu) cur }
    (c2r st cpu) cpu, cpu, ?_, ?_, ?_⟩
  · unfold runq_tickle
    unfold RQD at hburn
    simp only [hproc, hrqd, hburn, hnew1, hlt, ne_eq, not_true_eq_false, if_false, if_true]
  · rw [(tickle_cpu_tickled _ _ _).1]
    exact (mem_cpumask_set_cpu _ _ _).mpr (Or.inl rfl)
  · rw [(tickle_cpu_tickled _ _ _).2]

/-- C11, witness: entity 1 of credit 5000, placed on processor 0 and allowed on
the processors 0 and 1, wakes while the entities of credit 1000 and 400 run
there. -/
theorem runq_tickle_higher_credit_witness :
    ∃ st1 ipid,
      runq_tickle (tk_state tk_heap_wake (tk_rqd [] [] [1] [1, 10, 11, 12, 13])) 0 1 1000
        = some st1 ∧
      ipid ∈ (st1.prv.rqd (c2r (tk_state tk_heap_wake (tk_rqd [] [] [1] [1, 10, 11, 12, 13])) 0)).tickled ∧
      st1.softirq = ipid :: (tk_state tk_heap_wake (tk_rqd [] [] [1] [1, 10, 11, 12, 13])).softirq :=
  runq_tickle_higher_credit (tk_state tk_heap_wake (tk_rqd [] [] [1] [1, 10, 11, 12, 13])) 0 1 1000
    (by decide) (by decide) (by decide) (by decide) (by decide)

/-- C11, counterexample: entity 1 of credit 500 was last placed on processor 0
and is allowed on processor 1 only, where an entity of credit 400 runs; all
processors are busy.  Its credit is higher than the credit of every entity
running on its allowed processors, yet the gap to processor 1 is below the
migration resistance of 500000 and `runq_tickle` tickles nobody. -/
theorem runq_tickle_pinned_elsewhere :
    (∀ p ∈ (tk_heap_pinned 1).cpu_hard_affinity,
      (tk_heap_pinned (10 + p)).credit < (tk_heap_pinned 1).credit ∧
      ∃ cur, burn_credits (tk_rqd [] [] [1] [1, 10, 11, 12, 13]) (tk_heap_pinned (10 + p)) 1000
          = some cur ∧ cur.credit < (tk_heap_pinned 1).credit) ∧
    ∃ st1,
      runq_tickle (tk_state tk_heap_pinned (tk_rqd [] [] [1] [1, 10, 11, 12, 13])) 0 1 1000
        = some st1 ∧
      st1.softirq = [] ∧ (st1.prv.rqd 0).tickled = [] :=
  ⟨by decide, _, rfl, by decide, by decide⟩

theorem tickle_cpu_RQD (st : sched_state) (ipid cpu : Nat) :
    (RQD (tickle_cpu st (c2r st cpu) ipid) cpu).tickled =
      cpumask_set_cpu ipid (RQD st cpu).tickled ∧
    (RQD (tickle_cpu st (c2r st cpu) ipid) cpu).idle = (RQD st cpu).idle := by
  simp [RQD, c2r, tickle_cpu, rqd_store]

/-- C12: when the entity running on the processor of the woken entity does not
have lower current credit (its credit after `burn_credits`, which is what
`runq_tickle` compares) than the woken entity and some processor is idle, not
tickled and allowed, `runq_tickle` tickles exactly one processor `i` and `i` is
such a processor: the first one after `cpu` in cyclic order.  The tickled mask
gains the bit of `i` and nothing else, so no busy processor is tickled.  The
other hypotheses are the `BUG_ON` checks of `runq_tickle` and `burn_credits`
and that the woken entity is not the one running on its processor. -/
theorem runq_tickle_prefers_idle (st : sched_state) (cpu new : Nat) (now : Int)
    (cur : csched2_vcpu)
    (hproc : (st.heap new).processor = cpu)
    (hrqd : (st.heap new).rqd = some (c2r st cpu))
    (hnew : st.curr_on_cpu cpu ≠ new)
    (hburn : burn_credits (RQD st cpu) (st.heap (st.curr_on_cpu cpu)) now = some cur)
    (hnotlower : ¬ cur.credit < (st.heap new).credit)
    (hidle : ∃ p, p < st.nr_cpu_ids ∧ p ∈ (RQD st cpu).idle ∧ p ∉ (RQD st cpu).tickled ∧
      p ∈ (st.heap new).cpu_hard_affinity) :
    ∃ st1 i, runq_tickle st cpu new now = some st1 ∧
      i < st.nr_cpu_ids ∧ i ∈ (RQD st cpu).idle ∧ i ∉ (RQD st cpu).tickled ∧
      i ∈ (st.heap new).cpu_hard_affinity ∧
      st1.softirq = i :: st.softirq ∧
      (RQD st1 cpu).tickled = cpumask_set_cpu i (RQD st cpu).tickled ∧
      (RQD st1 cpu).idle = (RQD st cpu).idle ∧
      (∀ p, p < st.nr_cpu_ids → p ∈ (RQD st cpu).idle → p ∉ (RQD st cpu).tickled →
        p ∈ (st.heap new).cpu_hard_affinity → cpu < p → cpu < i ∧ i ≤ p) ∧
      ((∀ p, p < st.nr_cpu_ids → p ∈ (RQD st cpu).idle → p ∉ (RQD st cpu).tickled →
          p ∈ (st.heap new).cpu_hard_affinity → p ≤ cpu) →
        ∀ p, p < st.nr_cpu_ids → p ∈ (RQD st cpu).idle → p ∉ (RQD st cpu).tickled →
          p ∈ (st.heap new).cpu_hard_affinity → i ≤ p) := by
  have hnew1 : heap_store st.heap (st.curr_on_cpu cpu) cur new = st.heap new :=
    heap_store_other _ _ _ _ (Ne.symm hnew)
  have hmask : ∀ c, c ∈ tickle_idle_mask (RQD st cpu) (st.heap new).cpu_hard_affinity ↔
      (c ∈ (RQD st cpu).idle ∧ c ∉ (RQD st cpu).tickled) ∧
        c ∈ (st.heap new).cpu_hard_affinity := by
    intro c
    unfold tickle_idle_mask
    rw [mem_cpumask_and, mem_cpumask_andnot]
  obtain ⟨p0, hp0, hp0i, hp0t, hp0a⟩ := hidle
  rcases cpumask_cycle_spec st.nr_cpu_ids cpu
      (tickle_idle_mask (RQD st cpu) (st.heap new).cpu_hard_affinity) with
    ⟨hempty, _⟩ | ⟨hlt, hmem, hafter, hwrap⟩
  · exact absurd ((hmask p0).mpr ⟨⟨hp0i, hp0t⟩, hp0a⟩) (hempty p0 hp0)
  · have hm := (hmask _).mp hmem
    refine ⟨tickle_cpu { st with heap := heap_store st.heap (st.curr_on_cpu cpu) cur }
      (c2r st cpu) (cpumask_cycle st.nr_cpu_ids cpu
        (tickle_idle_mask (RQD st cpu) (st.heap new).cpu_hard_affinity)), _, ?_, hlt,
      hm.1.1, hm.1.2, hm.2, ?_, ?_, ?_, ?_, ?_⟩
    · unfold runq_tickle
      unfold RQD at hburn hlt
      simp only [hproc, hrqd, hburn, hnew1, hnotlower, hlt, ne_eq, not_true_eq_false,
        if_false, if_true]
      rfl
    · exact (tickle_cpu_tickled _ _ _).2
    · exact (tickle_cpu_RQD
        { st with heap := heap_store st.heap (st.curr_on_cpu cpu) cur } _ cpu).1
    · exact (tickle_cpu_RQD
        { st with heap := heap_store st.heap (st.curr_on_cpu cpu) cur } _ cpu).2
    · intro p hp hpi hpt hpa hcp
      exact hafter p hp ((hmask p).mpr ⟨⟨hpi, hpt⟩, hpa⟩) hcp
    · intro hall p hp hpi hpt hpa
      exact hwrap (fun c hc hcm => hall c hc ((hmask c).mp hcm).1.1 ((hmask c).mp hcm).1.2
        ((hmask c).mp hcm).2) p hp ((hmask p).mpr ⟨⟨hpi, hpt⟩, hpa⟩)

/-- C12, witness: the processors 0 and 1 are busy, 2 and 3 idle; entity 1 of
credit 500 wakes on processor 0, where an entity of credit 1000 runs. -/
theorem runq_tickle_prefers_idle_witness :
    ∃ st1 i,
      runq_tickle (tk_state tk_heap_idlers (tk_rqd [2, 3] [] [1] [1, 10, 11])) 0 1 1000
        = some st1 ∧
      i < (tk_state tk_heap_idlers (tk_rqd [2, 3] [] [1] [1, 10, 11])).nr_cpu_ids ∧
      i ∈ (RQD (tk_state tk_heap_idlers (tk_rqd [2, 3] [] [1] [1, 10, 11])) 0).idle ∧
      i ∉ (RQD (tk_state tk_heap_idlers (tk_rqd [2, 3] [] [1] [1, 10, 11])) 0).tickled ∧
      i ∈ (tk_heap_idlers 1).cpu_hard_affinity ∧
      st1.softirq = [i] ∧
      (RQD st1 0).tickled = cpumask_set_cpu i [] ∧
      (RQD st1 0).idle = [2, 3] ∧
      (∀ p, p < 4 → p ∈ [2, 3] → p ∉ ([] : List Nat) →
        p ∈ (tk_heap_idlers 1).cpu_hard_affinity → 0 < p → 0 < i ∧ i ≤ p) :=
  match runq_tickle_prefers_idle (tk_state tk_heap_idlers (tk_rqd [2, 3] [] [1] [1, 10, 11]))
      0 1 1000 (tk_heap_idlers 10) (by decide) (by decide) (by decide) (by decide)
      (by decide) ⟨2, by decide, by decide, by decide, by decide⟩ with
  | ⟨st1, i, h1, h2, h3, h4, h5, h6, h7, h8, h9, _⟩ => ⟨st1, i, h1, h2, h3, h4, h5, h6, h7, h8, h9⟩

theorem t2c_update_is_idle (rqd : csched2_runqueue_data) (time : Int) (s c : csched2_vcpu)
    (h : t2c_update rqd time s = some c) : c.is_idle = s.is_idle := by
  unfold t2c_update do_div at h
  by_cases hw : s.weight = 0
  · simp [hw] at h
  · simp only [hw, if_false, Option.some.injEq] at h
    rw [← h]

/-- Burning twice at the same time is burning once, and burning keeps an
entity idle or not idle. -/
theorem burn_credits_idem (rqd : csched2_runqueue_data) (now : Int) (s c : csched2_vcpu)
    (h : burn_credits rqd s now = some c) :
    burn_credits rqd c now = some c ∧ c.is_idle = s.is_idle := by
  unfold burn_credits at h
  cases hidle : s.is_idle with
  | true =>
    simp only [hidle, if_true] at h
    split_ifs at h with hc
    simp only [Option.some.injEq] at h
    subst h
    refine ⟨?_, hidle⟩
    unfold burn_credits
    simp only [hidle, if_true, hc, if_false]
  | false =>
    simp only [hidle, Bool.false_eq_true, if_false] at h
    by_cases hd : to_s64 (now - s.start_time) > 0
    · simp only [hd, if_true] at h
      cases ht : t2c_update rqd (to_s64 (now - s.start_time)) s with
      | none => rw [ht] at h; exact absurd h (by simp)
      | some svc1 =>
        rw [ht] at h
        simp only [Option.some.injEq] at h
        have hi := t2c_update_is_idle _ _ _ _ ht
        rw [hidle] at hi
        subst h
        refine ⟨?_, hi⟩
        unfold burn_credits
        have hz : ¬ to_s64 (now - now) > 0 := by unfold to_s64; omega
        simp only [hi, Bool.false_eq_true, if_false, hz]
    · simp only [hd, if_false, Option.some.injEq] at h
      subst h
      refine ⟨?_, hidle⟩
      unfold burn_credits
      simp only [hidle, Bool.false_eq_true, if_false, hd]

/-- The last loop of `runq_tickle`, relative to the heap `h0` before any credit
was burned: it runs to completion, leaves every scanned entity with its credit
burned, and returns the lowest credit below `lowest` with the first processor
that has it. -/
theorem runq_tickle_scan_spec (rqd : csched2_runqueue_data) (curr : Nat → Nat) (cpu : Nat)
    (now : Int) (h0 : vcpu_heap) :
    ∀ (l : List Nat) (h : vcpu_heap) (ipid : Option Nat) (lowest : Int),
      (∀ e, h e = h0 e ∨ burn_credits rqd (h0 e) now = some (h e)) →
      (∀ i ∈ l, i ≠ cpu → (h0 (curr i)).is_idle = false ∧
        ∃ c, burn_credits rqd (h0 (curr i)) now = some c) →
      ∃ h2 ipid2 lowest2,
        runq_tickle_scan rqd curr cpu now l h ipid lowest = some (h2, ipid2, lowest2) ∧
        (∀ e, h2 e = h0 e ∨ burn_credits rqd (h0 e) now = some (h2 e)) ∧
        (∀ e, burn_credits rqd (h0 e) now = some (h e) → h2 e = h e) ∧
        (∀ i ∈ l, i ≠ cpu → burn_credits rqd (h0 (curr i)) now = some (h2 (curr i))) ∧
        (∀ e, (∀ i ∈ l, i ≠ cpu → curr i ≠ e) → h2 e = h e) ∧
        lowest2 ≤ lowest ∧
        (∀ i ∈ l, i ≠ cpu → lowest2 ≤ (h2 (curr i)).credit) ∧
        ((ipid2 = ipid ∧ lowest2 = lowest) ∨
          (∃ ip ∈ l, ip ≠ cpu ∧ ipid2 = some ip ∧ lowest2 = (h2 (curr ip)).credit ∧
            lowest2 < lowest)) := by
  intro l
  induction l with
  | nil =>
    intro h ipid lowest hclosed _
    exact ⟨h, ipid, lowest, rfl, hclosed, fun _ _ => rfl, by simp, fun _ _ => rfl,
      le_refl _, by simp, Or.inl ⟨rfl, rfl⟩⟩
  | cons i rest ih =>
    intro h ipid lowest hclosed hok
    have hokrest : ∀ j ∈ rest, j ≠ cpu → (h0 (curr j)).is_idle = false ∧
        ∃ c, burn_credits rqd (h0 (curr j)) now = some c :=
      fun j hj => hok j (List.mem_cons_of_mem i hj)
    by_cases hi : i = cpu
    · obtain ⟨h2, ipid2, lowest2, hrun, hcl, hpre, hdone, hframe, hle, hmin, hsel⟩ :=
        ih h ipid lowest hclosed hokrest
      refine ⟨h2, ipid2, lowest2, ?_, hcl, hpre, ?_, ?_, hle, ?_, ?_⟩
      · rw [runq_tickle_scan, if_pos hi]; exact hrun
      · intro j hj hjc
        rcases List.mem_cons.mp hj with rfl | hj
        · exact absurd hi hjc
        · exact hdone j hj hjc
      · intro e he
        exact hframe e (fun j hj => he j (List.mem_cons_of_mem i hj))
      · intro j hj hjc
        rcases List.mem_cons.mp hj with rfl | hj
        · exact absurd hi hjc
        · exact hmin j hj hjc
      · rcases hsel with hs | ⟨ip, hip, hipc, h1, h2', h3⟩
        · exact Or.inl hs
        · exact Or.inr ⟨ip, List.mem_cons_of_mem i hip, hipc, h1, h2', h3⟩
    · obtain ⟨hidle0, c, hc⟩ := hok i (List.mem_cons_self i rest) hi
      -- the entity running on `i`, as the loop finds it
      have hburn : burn_credits rqd (h (curr i)) now = some c := by
        rcases hclosed (curr i) with heq | hb
        · rw [heq]; exact hc
        · rw [hc] at hb
          simp only [Option.some.injEq] at hb
          rw [← hb]
          exact (burn_credits_idem rqd now _ _ hc).1
      have hidle : (h (curr i)).is_idle = false := by
        rcases hclosed (curr i) with heq | hb
        · rw [heq]; exact hidle0
        · rw [← hidle0]; exact (burn_credits_idem rqd now _ _ hb).2
      have hclosed1 : ∀ e, heap_store h (curr i) c e = h0 e ∨
          burn_credits rqd (h0 e) now = some (heap_store h (curr i) c e) := by
        intro e
        by_cases he : e = curr i
        · subst he
          rw [heap_store_same]
          exact Or.inr hc
        · rw [heap_store_other _ _ _ _ he]
          exact hclosed e
      have hstep : ∀ ipid1 lowest1, ∃ h2 ipid2 lowest2,
          runq_tickle_scan rqd curr cpu now rest (heap_store h (curr i) c) ipid1 lowest1
            = some (h2, ipid2, lowest2) ∧
          (∀ e, h2 e = h0 e ∨ burn_credits rqd (h0 e) now = some (h2 e)) ∧
          (∀ e, burn_credits rqd (h0 e) now = some (h e) → h2 e = h e) ∧
          (∀ j ∈ i :: rest, j ≠ cpu → burn_credits rqd (h0 (curr j)) now = some (h2 (curr j))) ∧
          (∀ e, (∀ j ∈ i :: rest, j ≠ cpu → curr j ≠ e) → h2 e = h e) ∧
          (h2 (curr i)).credit = c.credit ∧
          lowest2 ≤ lowest1 ∧
          (∀ j ∈ rest, j ≠ cpu → lowest2 ≤ (h2 (curr j)).credit) ∧
          ((ipid2 = ipid1 ∧ lowest2 = lowest1) ∨
            (∃ ip ∈ rest, ip ≠ cpu ∧ ipid2 = some ip ∧ lowest2 = (h2 (curr ip)).credit ∧
              lowest2 < lowest1)) := by
        intro ipid1 lowest1
        obtain ⟨h2, ipid2, lowest2, hrun, hcl, hpre, hdone, hframe, hle, hmin, hsel⟩ :=
          ih (heap_store h (curr i) c) ipid1 lowest1 hclosed1 hokrest
        have hci : h2 (curr i) = c := by
          rw [hpre (curr i) (by rw [heap_store_same]; exact hc), heap_store_same]
        refine ⟨h2, ipid2, lowest2, hrun, hcl, ?_, ?_, ?_, by rw [hci], hle, hmin, hsel⟩
        · intro e he
          by_cases hee : e = curr i
          · subst hee
            rw [hci]
            rw [hc] at he
            exact Option.some.inj he
          · rw [hpre e (by rw [heap_store_other _ _ _ _ hee]; exact he),
              heap_store_other _ _ _ _ hee]
        · intro j hj hjc
          rcases List.mem_cons.mp hj with rfl | hj
          · rw [hci]; exact hc
          · exact hdone j hj hjc
        · intro e he
          have hee : e ≠ curr i := fun h' => he i (List.mem_cons_self i rest) hi h'.symm
          rw [hframe e (fun j hj => he j (List.mem_cons_of_mem i hj)),
            heap_store_other _ _ _ _ hee]
      by_cases hlow : c.credit < lowest
      · obtain ⟨h2, ipid2, lowest2, hrun, hcl, hpre, hdone, hframe, hci, hle, hmin, hsel⟩ :=
          hstep (some i) c.credit
        refine ⟨h2, ipid2, lowest2, ?_, hcl, hpre, hdone, hframe, by omega, ?_, ?_⟩
        · rw [runq_tickle_scan, if_neg hi, if_neg (by simp [hidle])]
          simp only [hburn, hlow, if_true]
          exact hrun
        · intro j hj hjc
          rcases List.mem_cons.mp hj with rfl | hj
          · omega
          · exact hmin j hj hjc
        · right
          rcases hsel with ⟨h1, h2'⟩ | ⟨ip, hip, hipc, h1, h2', h3⟩
          · exact ⟨i, List.mem_cons_self i rest, hi, h1, by omega, by omega⟩
          · exact ⟨ip, List.mem_cons_of_mem i hip, hipc, h1, h2', by omega⟩
      · obtain ⟨h2, ipid2, lowest2, hrun, hcl, hpre, hdone, hframe, hci, hle, hmin, hsel⟩ :=
          hstep ipid lowest
        refine ⟨h2, ipid2, lowest2, ?_, hcl, hpre, hdone, hframe, hle, ?_, ?_⟩
        · rw [runq_tickle_scan, if_neg hi, if_neg (by simp [hidle])]
          simp only [hburn, hlow, if_false]
          exact hrun
        · intro j hj hjc
          rcases List.mem_cons.mp hj with rfl | hj
          · omega
          · exact hmin j hj hjc
        · rcases hsel with hs | ⟨ip, hip, hipc, h1, h2', h3⟩
          · exact Or.inl hs
          · exact Or.inr ⟨ip, List.mem_cons_of_mem i hip, hipc, h1, h2', h3⟩

theorem mem_tickle_candidates (st : sched_state) (cpu new i : Nat) :
    i ∈ tickle_candidates st cpu new ↔
      i ∈ cpumask_cpus st.nr_cpu_ids
        (tickle_busy_mask (RQD st cpu) (st.heap new).cpu_hard_affinity) ∧ i ≠ cpu := by
  simp [tickle_candidates]

/-- Step (c) of `runq_tickle` as the code runs it.  When the entity on the
processor of the woken entity has no lower current credit and no idle, not
tickled, allowed processor exists, the candidates are the busy, not tickled, allowed processors
other than `cpu`; their entities get their credit burned.  Either a candidate
`ip` is tickled, and then it has the lowest current credit of all candidates,
that credit is below 2^30 and the credit of the woken entity exceeds it by at
least `CSCHED2_MIGRATE_RESIST`; or nobody is tickled, the tickled mask and the
rest of the private data are unchanged, and no candidate with credit below 2^30
is exceeded by at least `CSCHED2_MIGRATE_RESIST`.  The other hypotheses are the
`BUG_ON` checks of `runq_tickle` and `burn_credits` and that the woken entity
runs nowhere. -/
theorem runq_tickle_resists (st : sched_state) (cpu new : Nat) (now : Int)
    (cur : csched2_vcpu)
    (hproc : (st.heap new).processor = cpu)
    (hrqd : (st.heap new).rqd = some (c2r st cpu))
    (hnew : st.curr_on_cpu cpu ≠ new)
    (hnowhere : ∀ i ∈ tickle_candidates st cpu new, st.curr_on_cpu i ≠ new)
    (hburn : burn_credits (RQD st cpu) (st.heap (st.curr_on_cpu cpu)) now = some cur)
    (hnotlower : ¬ cur.credit < (st.heap new).credit)
    (hnoidle : ∀ p, p < st.nr_cpu_ids → p ∈ (RQD st cpu).idle → p ∉ (RQD st cpu).tickled →
      p ∉ (st.heap new).cpu_hard_affinity)
    (hbusy : ∀ i ∈ tickle_candidates st cpu new,
      (st.heap (st.curr_on_cpu i)).is_idle = false ∧
      (burn_credits (RQD st cpu) (st.heap (st.curr_on_cpu i)) now).isSome = true) :
    ∃ st1, runq_tickle st cpu new now = some st1 ∧
      (∀ i ∈ tickle_candidates st cpu new,
        burn_credits (RQD st cpu) (st.heap (st.curr_on_cpu i)) now
          = some (st1.heap (st.curr_on_cpu i))) ∧
      ((∃ ip ∈ tickle_candidates st cpu new,
          st1.softirq = ip :: st.softirq ∧
          (RQD st1 cpu).tickled = cpumask_set_cpu ip (RQD st cpu).tickled ∧
          (∀ j ∈ tickle_candidates st cpu new,
            (st1.heap (st.curr_on_cpu ip)).credit ≤ (st1.heap (st.curr_on_cpu j)).credit) ∧
          (st1.heap (st.curr_on_cpu ip)).credit < 1073741824 ∧
          (st1.heap (st.curr_on_cpu ip)).credit + CSCHED2_MIGRATE_RESIST st.opt_migrate_resist
            ≤ (st.heap new).credit) ∨
        (st1.softirq = st.softirq ∧ st1.prv = st.prv ∧
          ∀ i ∈ tickle_candidates st cpu new,
            (st1.heap (st.curr_on_cpu i)).credit < 1073741824 →
            (st.heap new).credit <
              (st1.heap (st.curr_on_cpu i)).credit
                + CSCHED2_MIGRATE_RESIST st.opt_migrate_resist)) := by
  have hnew1 : heap_store st.heap (st.curr_on_cpu cpu) cur new = st.heap new :=
    heap_store_other _ _ _ _ (Ne.symm hnew)
  -- step (b) finds nobody
  have hcycle : ¬ cpumask_cycle st.nr_cpu_ids cpu
      (tickle_idle_mask (RQD st cpu) (st.heap new).cpu_hard_affinity) < st.nr_cpu_ids := by
    rcases cpumask_cycle_spec st.nr_cpu_ids cpu
        (tickle_idle_mask (RQD st cpu) (st.heap new).cpu_hard_affinity) with
      ⟨_, heq⟩ | ⟨hlt, hmem, _, _⟩
    · omega
    · unfold tickle_idle_mask at hmem
      rw [mem_cpumask_and, mem_cpumask_andnot] at hmem
      exact absurd hmem.2 (hnoidle _ hlt hmem.1.1 hmem.1.2)
  -- the scan, started from the heap in which `cur` was burned
  have hclosed : ∀ e, heap_store st.heap (st.curr_on_cpu cpu) cur e = st.heap e ∨
      burn_credits (RQD st cpu) (st.heap e) now
        = some (heap_store st.heap (st.curr_on_cpu cpu) cur e) := by
    intro e
    by_cases he : e = st.curr_on_cpu cpu
    · subst he
      rw [heap_store_same]
      exact Or.inr hburn
    · exact Or.inl (heap_store_other _ _ _ _ he)
  have hok : ∀ i ∈ cpumask_cpus st.nr_cpu_ids
      (tickle_busy_mask (RQD st cpu) (st.heap new).cpu_hard_affinity), i ≠ cpu →
      (st.heap (st.curr_on_cpu i)).is_idle = false ∧
      ∃ c, burn_credits (RQD st cpu) (st.heap (st.curr_on_cpu i)) now = some c :=
    fun i hi hic =>
      ⟨(hbusy i ((mem_tickle_candidates st cpu new i).mpr ⟨hi, hic⟩)).1,
        Option.isSome_iff_exists.mp
          (hbusy i ((mem_tickle_candidates st cpu new i).mpr ⟨hi, hic⟩)).2⟩
  obtain ⟨h2, ipid2, lowest2, hrun, _, _, hdone, hframe, hle, hmin, hsel⟩ :=
    runq_tickle_scan_spec (RQD st cpu) st.curr_on_cpu cpu now st.heap _ _ none
      ((1 <<< 30 : Nat) : Int) hclosed hok
  have h30 : ((1 <<< 30 : Nat) : Int) = 1073741824 := by decide
  rw [h30] at hrun hle hsel
  have hnew2 : h2 new = st.heap new := by
    rw [hframe new (fun i hi hic =>
      hnowhere i ((mem_tickle_candidates st cpu new i).mpr ⟨hi, hic⟩)), hnew1]
  have hdone1 : ∀ i ∈ tickle_candidates st cpu new,
      burn_credits (RQD st cpu) (st.heap (st.curr_on_cpu i)) now
        = some (h2 (st.curr_on_cpu i)) :=
    fun i hi => hdone i ((mem_tickle_candidates st cpu new i).mp hi).1
      ((mem_tickle_candidates st cpu new i).mp hi).2
  have hmin1 : ∀ i ∈ tickle_candidates st cpu new, lowest2 ≤ (h2 (st.curr_on_cpu i)).credit :=
    fun i hi => hmin i ((mem_tickle_candidates st cpu new i).mp hi).1
      ((mem_tickle_candidates st cpu new i).mp hi).2
  have hburn1 := hburn
  have hcycle1 := hcycle
  have hrun1 := hrun
  unfold RQD at hburn1 hcycle1 hrun1
  rcases hsel with ⟨hnone, hl⟩ | ⟨ip, hip, hipc, hsome, hl, hlt⟩
  · -- no candidate has credit below 2^30
    subst hnone
    refine ⟨{ st with heap := h2 }, ?_, hdone1, Or.inr ⟨rfl, rfl, ?_⟩⟩
    · unfold runq_tickle
      simp only [hproc, hrqd, hburn1, hnew1, hnotlower, hcycle1, ne_eq, not_true_eq_false,
        if_false, h30, hrun1]
    · intro i hi hlow
      have := hmin1 i hi
      change (h2 (st.curr_on_cpu i)).credit < 1073741824 at hlow
      omega
  · subst hsome
    have hipm : ip ∈ tickle_candidates st cpu new :=
      (mem_tickle_candidates st cpu new ip).mpr ⟨hip, hipc⟩
    by_cases hres : lowest2 + CSCHED2_MIGRATE_RESIST st.opt_migrate_resist > (h2 new).credit
    · refine ⟨{ st with heap := h2 }, ?_, hdone1, Or.inr ⟨rfl, rfl, ?_⟩⟩
      · unfold runq_tickle
        simp only [hproc, hrqd, hburn1, hnew1, hnotlower, hcycle1, ne_eq, not_true_eq_false,
          if_false, h30, hrun1, hres, if_true]
      · intro i hi _
        have := hmin1 i hi
        rw [hnew2] at hres
        show (st.heap new).credit < (h2 (st.curr_on_cpu i)).credit + _
        omega
    · refine ⟨tickle_cpu { st with heap := h2 } (c2r st cpu) ip, ?_, hdone1,
        Or.inl ⟨ip, hipm, (tickle_cpu_tickled _ _ _).2,
          (tickle_cpu_RQD { st with heap := h2 } ip cpu).1, ?_, ?_, ?_⟩⟩
      · unfold runq_tickle
        simp only [hproc, hrqd, hburn1, hnew1, hnotlower, hcycle1, ne_eq, not_true_eq_false,
          if_false, h30, hrun1, hres]
      · intro j hj
        have := hmin1 j hj
        show (h2 (st.curr_on_cpu ip)).credit ≤ (h2 (st.curr_on_cpu j)).credit
        omega
      · show (h2 (st.curr_on_cpu ip)).credit < 1073741824
        omega
      · rw [hnew2] at hres
        show (h2 (st.curr_on_cpu ip)).credit + _ ≤ _
        omega

/-- Step (c) on a sample: every processor is busy; entity 1 of credit 550000 wakes on
processor 0, where an entity of credit 600000 runs.  The lowest credit of the
other processors is 0, on processor 2, and 550000 exceeds it by at least the
resistance of 500000. -/
theorem runq_tickle_resists_witness :
    ∃ st1,
      runq_tickle (tk_state (tk_heap_busy 550000) (tk_rqd [] [] [1] [1, 10, 11, 12, 13]))
        0 1 1000 = some st1 ∧
      st1.softirq = [2] ∧ (RQD st1 0).tickled = [2] :=
  match runq_tickle_resists
      (tk_state (tk_heap_busy 550000) (tk_rqd [] [] [1] [1, 10, 11, 12, 13])) 0 1 1000
      (tk_heap_busy 550000 10) (by decide) (by decide) (by decide) (by decide) (by decide)
      (by decide) (by decide) (by decide) with
  | ⟨st1, h1, _, _⟩ => ⟨st1, h1, by
      have h := h1
      rw [show runq_tickle (tk_state (tk_heap_busy 550000)
        (tk_rqd [] [] [1] [1, 10, 11, 12, 13])) 0 1 1000 = some _ from rfl] at h
      cases h
      decide⟩

/-- C13: `runq_tickle` tickles at a credit gap equal to the migration
resistance, where the claim, and the comment above the test in the source
(switch to another processor only if the credit difference is greater than the
migrate resistance), ask for a greater gap.  Every processor is busy and none
is tickled; entity 1 of credit 500000 wakes on processor 0, where an entity of
credit 600000 runs, so step (c) is reached with the processors 1, 2 and 3 as
candidates.  The lowest credit among them is 0, on processor 2: the credit of
the woken entity exceeds it by exactly the resistance of 500000, not by more,
and processor 2 is tickled.  With a credit of 499999 nobody is tickled. -/
theorem runq_tickle_at_resistance :
    CSCHED2_MIGRATE_RESIST 500 = 500000 ∧
    (tk_state (tk_heap_busy 500000) (tk_rqd [] [] [1] [1, 10, 11, 12, 13])).opt_migrate_resist
      = 500 ∧
    ¬ ((tk_heap_busy 500000 10).credit < (tk_heap_busy 500000 1).credit) ∧
    tickle_idle_mask (tk_rqd [] [] [1] [1, 10, 11, 12, 13])
      (tk_heap_busy 500000 1).cpu_hard_affinity = [] ∧
    tickle_candidates (tk_state (tk_heap_busy 500000) (tk_rqd [] [] [1] [1, 10, 11, 12, 13])) 0 1
      = [1, 2, 3] ∧
    (∃ st1,
      runq_tickle (tk_state (tk_heap_busy 500000) (tk_rqd [] [] [1] [1, 10, 11, 12, 13]))
        0 1 1000 = some st1 ∧
      (st1.heap 1).credit = 500000 ∧ (st1.heap 10).credit = 600000 ∧
      (st1.heap 11).credit = 400000 ∧ (st1.heap 12).credit = 0 ∧
      (st1.heap 13).credit = 900000 ∧
      (tk_heap_busy 500000 1).credit - (st1.heap 12).credit = CSCHED2_MIGRATE_RESIST 500 ∧
      ¬ ((tk_heap_busy 500000 1).credit - (st1.heap 12).credit > CSCHED2_MIGRATE_RESIST 500) ∧
      st1.softirq = [2] ∧ (st1.prv.rqd 0).tickled = [2]) ∧
    ∃ st1,
      runq_tickle (tk_state (tk_heap_busy 499999) (tk_rqd [] [] [1] [1, 10, 11, 12, 13]))
        0 1 1000 = some st1 ∧
      st1.softirq = [] ∧ (st1.prv.rqd 0).tickled = [] :=
  ⟨by decide, by decide, by decide, by decide, by decide,
    ⟨_, rfl, by decide, by decide, by decide, by decide, by decide, by decide, by decide,
      by decide, by decide⟩,
    ⟨_, rfl, by decide, by decide⟩⟩

/-! ### Waking -/

/-- C14: `csched2_vcpu_wake` of a non-idle entity that is the one running on its
processor or is on a runnable list returns the state it was given: runnable
lists, loads, credits and flags are unchanged.  Otherwise, if the entity is
flagged `CSFLAG_scheduled`, the only change is the bit `CSFLAG_delayed_runq_add`
set in the flags of the entity: nothing is inserted and no load is updated. -/
theorem csched2_vcpu_wake_noop (st : sched_state) (svc : Nat) (now : Int)
    (hidle : (st.heap svc).is_idle = false)
    (hcase : st.curr_on_cpu (st.heap svc).processor = svc ∨ __vcpu_on_runq st svc = true ∨
      (st.heap svc).flags &&& CSFLAG_scheduled ≠ 0) :
    csched2_vcpu_wake st svc now =
      some (if st.curr_on_cpu (st.heap svc).processor = svc ∨ __vcpu_on_runq st svc = true
        then st
        else { st with
          heap := heap_store st.heap svc
            { st.heap svc with flags := (st.heap svc).flags ||| CSFLAG_delayed_runq_add } }) := by
  unfold csched2_vcpu_wake
  rw [if_neg (by simp [hidle])]
  by_cases hrun : st.curr_on_cpu (st.heap svc).processor = svc
  · rw [if_pos hrun, if_pos (Or.inl hrun)]
  · rw [if_neg hrun]
    by_cases hq : __vcpu_on_runq st svc = true
    · rw [if_pos hq, if_pos (Or.inr hq)]
    · have hflag : (st.heap svc).flags &&& CSFLAG_scheduled ≠ 0 := by
        rcases hcase with h | h | h
        · exact absurd h hrun
        · exact absurd h hq
        · exact h
      rw [if_neg hq, if_pos hflag, if_neg (not_or.mpr ⟨hrun, hq⟩)]

/-- C14, witness: entity 1 is woken while it is being switched out: the
delayed-requeue bit is set and nothing else changes. -/
theorem csched2_vcpu_wake_noop_witness :
    csched2_vcpu_wake (tk_state tk_heap_switching (tk_rqd [1, 2, 3] [] [2] [1, 2, 10])) 1 2000 =
      some (if (tk_state tk_heap_switching (tk_rqd [1, 2, 3] [] [2] [1, 2, 10])).curr_on_cpu
            ((tk_state tk_heap_switching (tk_rqd [1, 2, 3] [] [2] [1, 2, 10])).heap 1).processor
              = 1 ∨
          __vcpu_on_runq (tk_state tk_heap_switching (tk_rqd [1, 2, 3] [] [2] [1, 2, 10])) 1 = true
        then tk_state tk_heap_switching (tk_rqd [1, 2, 3] [] [2] [1, 2, 10])
        else { tk_state tk_heap_switching (tk_rqd [1, 2, 3] [] [2] [1, 2, 10]) with
          heap := heap_store
            (tk_state tk_heap_switching (tk_rqd [1, 2, 3] [] [2] [1, 2, 10])).heap 1
            { (tk_state tk_heap_switching (tk_rqd [1, 2, 3] [] [2] [1, 2, 10])).heap 1 with
              flags := ((tk_state tk_heap_switching (tk_rqd [1, 2, 3] [] [2] [1, 2, 10])).heap
                1).flags ||| CSFLAG_delayed_runq_add } }) :=
  csched2_vcpu_wake_noop (tk_state tk_heap_switching (tk_rqd [1, 2, 3] [] [2] [1, 2, 10])) 1 2000
    (by decide) (by decide)

/-! ### Load tracking -/

theorem to_u64_natCast (n : Nat) (h : n < 18446744073709551616) : to_u64 (n : Int) = n := by
  unfold to_u64
  omega

theorem shl64_eq (x k : Nat) (h : x * 2 ^ k < 18446744073709551616) :
    shl64 x k = x * 2 ^ k := by
  unfold shl64
  exact Nat.mod_eq_of_lt h

theorem two_pow_le_62 (k : Nat) (h : k ≤ 62) : 2 ^ k ≤ 4611686018427387904 := by
  calc 2 ^ k ≤ 2 ^ 62 := Nat.pow_le_pow_right (by decide) h
    _ = 4611686018427387904 := by norm_num

/-- The sample of a non-negative load that fits 63 bits is `load * 2^shift`. -/
theorem load_sample_eq (shift : Nat) (load : Nat)
    (h : load * 2 ^ shift < 9223372036854775808) :
    load_sample shift load = ((load * 2 ^ shift : Nat) : Int) := by
  unfold load_sample
  have hl : load < 18446744073709551616 := by
    have : load ≤ load * 2 ^ shift := Nat.le_mul_of_pos_right _ (Nat.two_pow_pos shift)
    omega
  rw [to_u64_natCast _ hl, shl64_eq _ _ (by omega)]
  exact to_s64_of_range _ (by omega) (by omega)

/-- The blend of a non-negative load and a non-negative average over a
non-negative `delta` of at most one window, when the products fit 63 bits. -/
theorem load_blend_eq (shift : Nat) (delta load avg : Nat) (hs : shift ≤ 62)
    (hd : delta ≤ 2 ^ shift)
    (hl : load * 2 ^ shift * 2 ^ shift < 9223372036854775808)
    (ha : avg * 2 ^ shift < 9223372036854775808) :
    load_blend shift delta load avg =
      (((delta * (load * 2 ^ shift) + (2 ^ shift - delta) * avg) / 2 ^ shift : Nat) : Int) := by
  have hW := two_pow_le_62 shift hs
  have hWpos : 0 < 2 ^ shift := Nat.two_pow_pos shift
  have hlw : load * 2 ^ shift ≤ load * 2 ^ shift * 2 ^ shift := Nat.le_mul_of_pos_right _ hWpos
  have hll : load ≤ load * 2 ^ shift := Nat.le_mul_of_pos_right _ hWpos
  have haa : avg ≤ avg * 2 ^ shift := Nat.le_mul_of_pos_right _ hWpos
  have h1 : delta * (load * 2 ^ shift) ≤ 2 ^ shift * (load * 2 ^ shift) :=
    Nat.mul_le_mul_right _ hd
  have h2 : (2 ^ shift - delta) * avg ≤ 2 ^ shift * avg :=
    Nat.mul_le_mul_right _ (Nat.sub_le _ _)
  -- the sum is a weighted mean times the window
  have hsum : delta * (load * 2 ^ shift) + (2 ^ shift - delta) * avg
      < 9223372036854775808 := by
    by_cases hc : load * 2 ^ shift ≤ avg
    · have : delta * (load * 2 ^ shift) ≤ delta * avg := Nat.mul_le_mul_left _ hc
      have he : delta * avg + (2 ^ shift - delta) * avg = 2 ^ shift * avg := by
        rw [← Nat.add_mul, Nat.add_sub_cancel' hd]
      have : 2 ^ shift * avg = avg * 2 ^ shift := Nat.mul_comm _ _
      omega
    · have hc' : avg ≤ load * 2 ^ shift := by omega
      have : (2 ^ shift - delta) * avg ≤ (2 ^ shift - delta) * (load * 2 ^ shift) :=
        Nat.mul_le_mul_left _ hc'
      have he : delta * (load * 2 ^ shift) + (2 ^ shift - delta) * (load * 2 ^ shift)
          = 2 ^ shift * (load * 2 ^ shift) := by
        rw [← Nat.add_mul, Nat.add_sub_cancel' hd]
      have : 2 ^ shift * (load * 2 ^ shift) = load * 2 ^ shift * 2 ^ shift := Nat.mul_comm _ _
      omega
  unfold load_blend
  have hsub : to_u64 (((shl64 1 shift : Nat) : Int) - (delta : Int)) = 2 ^ shift - delta := by
    rw [shl64_eq 1 shift (by omega), Nat.one_mul]
    have : ((2 ^ shift : Nat) : Int) - (delta : Int) = ((2 ^ shift - delta : Nat) : Int) := by
      omega
    rw [this, to_u64_natCast _ (by omega)]
  rw [to_u64_natCast delta (by omega), to_u64_natCast load (by omega),
    to_u64_natCast avg (by omega), shl64_eq load shift (by omega), hsub]
  have hN : ((delta : Int) * ((load * 2 ^ shift : Nat) : Int)
      + ((2 ^ shift - delta : Nat) : Int) * (avg : Int))
      = ((delta * (load * 2 ^ shift) + (2 ^ shift - delta) * avg : Nat) : Int) := by
    simp only [Nat.cast_add, Nat.cast_mul]
  have hp : ((2 : Int) ^ shift) = ((2 ^ shift : Nat) : Int) := by simp
  rw [hN, Int.emod_eq_of_lt (by omega) (by omega), hp, ← Int.ofNat_ediv]
  have hq : (delta * (load * 2 ^ shift) + (2 ^ shift - delta) * avg) / 2 ^ shift
      ≤ delta * (load * 2 ^ shift) + (2 ^ shift - delta) * avg := Nat.div_le_self _ _
  generalize (delta * (load * 2 ^ shift) + (2 ^ shift - delta) * avg) / 2 ^ shift = Q at hq ⊢
  exact to_s64_of_range _ (by omega) (by omega)

/-- The window test on non-negative times that fit 62 bits compares the exact
sum. -/
theorem load_window_elapsed_eq (shift U N : Nat) (hs : shift ≤ 62)
    (hU : U < 4611686018427387904) (hN : N < 9223372036854775808) :
    load_window_elapsed shift U N = decide (U + 2 ^ shift < N) := by
  have hW := two_pow_le_62 shift hs
  unfold load_window_elapsed
  rw [shl64_eq 1 shift (by omega), Nat.one_mul, ← Nat.cast_add,
    to_u64_natCast _ (by omega), to_u64_natCast _ (by omega)]

/-- C15 (amended): with `n = now >> 10` and `W = 2^load_window_shift`, when time
has not gone backwards (`0 ≤ load_last_update ≤ n`), the load and both averages
are non-negative, `load * W * W` and `a * W` fit 63 bits and `load + change`
fits an `int`, `__update_runq_load` sets each average to `load * W` if
`load_last_update + W < n`, and otherwise to
`floor((delta * load * W + (W - delta) * a) / W)` with
`delta = n - load_last_update`; the sample uses the load before `change` is
added; afterwards the load is `load + change` and `load_last_update` is `n`. -/
theorem update_runq_load_formula (prv : csched2_private) (rqd : csched2_runqueue_data)
    (change now : Int)
    (hshift : prv.load_window_shift ≤ 62)
    (hnow : now < 9223372036854775808)
    (hlast0 : 0 ≤ rqd.load_last_update)
    (hlast : rqd.load_last_update ≤ now >>> LOADAVG_GRANULARITY_SHIFT)
    (hload0 : 0 ≤ rqd.load) (havg0 : 0 ≤ rqd.avgload) (hbavg0 : 0 ≤ rqd.b_avgload)
    (hload : rqd.load * 2 ^ prv.load_window_shift * 2 ^ prv.load_window_shift
      < 9223372036854775808)
    (havg : rqd.avgload * 2 ^ prv.load_window_shift < 9223372036854775808)
    (hbavg : rqd.b_avgload * 2 ^ prv.load_window_shift < 9223372036854775808)
    (hchange : int_range (rqd.load + change)) :
    __update_runq_load prv rqd change now =
      { rqd with
        avgload :=
          if rqd.load_last_update + 2 ^ prv.load_window_shift
              < now >>> LOADAVG_GRANULARITY_SHIFT then
            rqd.load * 2 ^ prv.load_window_shift
          else
            ((now >>> LOADAVG_GRANULARITY_SHIFT - rqd.load_last_update) * rqd.load
                * 2 ^ prv.load_window_shift
              + (2 ^ prv.load_window_shift
                  - (now >>> LOADAVG_GRANULARITY_SHIFT - rqd.load_last_update)) * rqd.avgload)
              / 2 ^ prv.load_window_shift
        b_avgload :=
          if rqd.load_last_update + 2 ^ prv.load_window_shift
              < now >>> LOADAVG_GRANULARITY_SHIFT then
            rqd.load * 2 ^ prv.load_window_shift
          else
            ((now >>> LOADAVG_GRANULARITY_SHIFT - rqd.load_last_update) * rqd.load
                * 2 ^ prv.load_window_shift
              + (2 ^ prv.load_window_shift
                  - (now >>> LOADAVG_GRANULARITY_SHIFT - rqd.load_last_update)) * rqd.b_avgload)
              / 2 ^ prv.load_window_shift
        load := rqd.load + change
        load_last_update := now >>> LOADAVG_GRANULARITY_SHIFT } := by
  have hW := two_pow_le_62 _ hshift
  have hWpos := Nat.two_pow_pos prv.load_window_shift
  have hp : ((2 : Int) ^ prv.load_window_shift)
      = ((2 ^ prv.load_window_shift : Nat) : Int) := by simp
  have hn : now >>> LOADAVG_GRANULARITY_SHIFT = now / 1024 := by
    rw [Int.shiftRight_eq_div_pow]
    rfl
  have hnb : now >>> LOADAVG_GRANULARITY_SHIFT < 9007199254740992 := by
    rw [hn]
    omega
  unfold __update_runq_load
  simp only []
  generalize now >>> LOADAVG_GRANULARITY_SHIFT = n at hlast hnb ⊢
  obtain ⟨L, hL⟩ := Int.eq_ofNat_of_zero_le hload0
  obtain ⟨A, hA⟩ := Int.eq_ofNat_of_zero_le havg0
  obtain ⟨B, hB⟩ := Int.eq_ofNat_of_zero_le hbavg0
  obtain ⟨U, hU⟩ := Int.eq_ofNat_of_zero_le hlast0
  obtain ⟨N, hN⟩ := Int.eq_ofNat_of_zero_le (le_trans hlast0 hlast)
  rw [hp] at hload havg hbavg ⊢
  rw [hL] at hload
  rw [hA] at havg
  rw [hB] at hbavg
  rw [hU, hN] at hlast
  rw [hN] at hnb
  have hloadN : L * 2 ^ prv.load_window_shift * 2 ^ prv.load_window_shift
      < 9223372036854775808 := by
    have h : ((L * 2 ^ prv.load_window_shift * 2 ^ prv.load_window_shift : Nat) : Int)
        < 9223372036854775808 := by
      rw [Nat.cast_mul, Nat.cast_mul]
      exact hload
    exact Int.ofNat_lt.mp h
  have havgN : A * 2 ^ prv.load_window_shift < 9223372036854775808 := by
    have h : ((A * 2 ^ prv.load_window_shift : Nat) : Int) < 9223372036854775808 := by
      rw [Nat.cast_mul]
      exact havg
    exact Int.ofNat_lt.mp h
  have hbavgN : B * 2 ^ prv.load_window_shift < 9223372036854775808 := by
    have h : ((B * 2 ^ prv.load_window_shift : Nat) : Int) < 9223372036854775808 := by
      rw [Nat.cast_mul]
      exact hbavg
    exact Int.ofNat_lt.mp h
  have hLW : L * 2 ^ prv.load_window_shift < 9223372036854775808 :=
    lt_of_le_of_lt (Nat.le_mul_of_pos_right _ hWpos) hloadN
  have hUN : U ≤ N := Int.ofNat_le.mp hlast
  have hNb : N < 9007199254740992 := Int.ofNat_lt.mp hnb
  have hel := load_window_elapsed_eq prv.load_window_shift U N hshift (by omega) (by omega)
  rw [to_int_of_range _ hchange, hL, hA, hB, hU, hN, hel]
  by_cases hc : U + 2 ^ prv.load_window_shift < N
  · have hci : (U : Int) + ((2 ^ prv.load_window_shift : Nat) : Int) < (N : Int) := by
      rw [← Nat.cast_add]
      exact Int.ofNat_lt.mpr hc
    rw [if_pos (decide_eq_true hc)]
    simp only [if_pos hci]
    rw [load_sample_eq _ L hLW, Nat.cast_mul]
  · have hci : ¬ ((U : Int) + ((2 ^ prv.load_window_shift : Nat) : Int) < (N : Int)) := by
      rw [← Nat.cast_add]
      exact fun h => hc (Int.ofNat_lt.mp h)
    rw [if_neg (by simpa using hc)]
    simp only [if_neg hci]
    have hd : to_s64 ((N : Int) - (U : Int)) = ((N - U : Nat) : Int) := by
      rw [to_s64_of_range _ (by omega) (by omega)]
      omega
    have hdW : N - U ≤ 2 ^ prv.load_window_shift := by omega
    rw [hd, load_blend_eq _ (N - U) L A hshift hdW hloadN havgN,
      load_blend_eq _ (N - U) L B hshift hdW hloadN hbavgN]
    have key : ∀ X : Nat,
        ((((N - U) * (L * 2 ^ prv.load_window_shift)
          + (2 ^ prv.load_window_shift - (N - U)) * X) / 2 ^ prv.load_window_shift : Nat) : Int)
        = (((N : Int) - (U : Int)) * (L : Int) * ((2 ^ prv.load_window_shift : Nat) : Int)
          + (((2 ^ prv.load_window_shift : Nat) : Int) - ((N : Int) - (U : Int))) * (X : Int))
          / ((2 ^ prv.load_window_shift : Nat) : Int) := by
      intro X
      rw [Int.ofNat_ediv, Nat.cast_add, Nat.cast_mul, Nat.cast_mul, Nat.cast_mul,
        Nat.cast_sub hdW, Nat.cast_sub hUN, mul_assoc]
    rw [key A, key B]

theorem update_runq_load_formula_witness :
    __update_runq_load (tk_state (tk_heap_busy 0) (tk_rqd [] [] [] [])).prv
        { tk_rqd [] [] [] [] with
          load := 3, load_last_update := 100, avgload := 524288, b_avgload := 262144 }
        (-1) 1126400 =
      { tk_rqd [] [] [] [] with
        load := 2, load_last_update := 1100, avgload := 525288, b_avgload := 264144 } :=
  update_runq_load_formula (tk_state (tk_heap_busy 0) (tk_rqd [] [] [] [])).prv
    { tk_rqd [] [] [] [] with
      load := 3, load_last_update := 100, avgload := 524288, b_avgload := 262144 }
    (-1) 1126400 (by decide) (by decide) (by decide) (by decide) (by decide) (by decide)
    (by decide) (by decide) (by decide) (by decide) (by decide)

/-- C15 (as stated) fails when time has gone backwards: with
`load_last_update = 100`, `n = 99` (so `delta = -1`), load 1 and both averages 0
under a window of `2^18`, the stated formula gives
`floor((-1 * 1 * 2^18 + (2^18 + 1) * 0) / 2^18) = -1`, while the code, which
computes in `unsigned long long`, stores `2^46 - 1`. -/
theorem update_runq_load_time_backwards :
    (tk_state (tk_heap_busy 0) (tk_rqd [] [] [] [])).prv.load_window_shift = 18 ∧
    ¬ ((100 : Int) + 2 ^ 18 < (101376 : Int) >>> LOADAVG_GRANULARITY_SHIFT) ∧
    ((((101376 : Int) >>> LOADAVG_GRANULARITY_SHIFT - 100) * 1 * 2 ^ 18
      + (2 ^ 18 - ((101376 : Int) >>> LOADAVG_GRANULARITY_SHIFT - 100)) * 0) / 2 ^ 18 : Int) = -1 ∧
    (__update_runq_load (tk_state (tk_heap_busy 0) (tk_rqd [] [] [] [])).prv
        { tk_rqd [] [] [] [] with
          load := 1, load_last_update := 100, avgload := 0, b_avgload := 0 }
        0 101376).avgload = 70368744177663 := by
  decide

/-! ### Picking a processor -/

theorem cpumask_intersects_iff (nr : Nat) (a b : List Nat) :
    cpumask_intersects nr a b = true ↔ ∃ c, c < nr ∧ c ∈ a ∧ c ∈ b := by
  unfold cpumask_intersects
  constructor
  · intro h
    cases hl : cpumask_cpus nr (cpumask_and a b) with
    | nil => rw [hl] at h; simp at h
    | cons c rest =>
      have hc : c ∈ cpumask_cpus nr (cpumask_and a b) := by rw [hl]; exact List.mem_cons_self _ _
      have h1 := (mem_cpumask_cpus nr c _).mp hc
      exact ⟨c, h1.1, (mem_cpumask_and c a b).mp h1.2⟩
  · rintro ⟨c, hc, ha, hb⟩
    have hm : c ∈ cpumask_cpus nr (cpumask_and a b) :=
      (mem_cpumask_cpus nr c _).mpr ⟨hc, (mem_cpumask_and c a b).mpr ⟨ha, hb⟩⟩
    cases hl : cpumask_cpus nr (cpumask_and a b) with
    | nil => rw [hl] at hm; exact absurd hm (List.not_mem_nil c)
    | cons d rest => simp

/-- A processor picked with `cpumask_any` from the intersection of two masks
that intersect is a processor of both. -/
theorem cpumask_any_of_intersects (nr : Nat) (a b : List Nat)
    (h : cpumask_intersects nr a b = true) :
    cpumask_any nr (cpumask_and a b) < nr ∧ cpumask_any nr (cpumask_and a b) ∈ a ∧
      cpumask_any nr (cpumask_and a b) ∈ b := by
  obtain ⟨c, hc, ha, hb⟩ := (cpumask_intersects_iff nr a b).mp h
  unfold cpumask_any
  rcases cpumask_first_spec nr (cpumask_and a b) with ⟨_, hnone⟩ | ⟨hlt, hmem, _⟩
  · exact absurd ((mem_cpumask_and c a b).mpr ⟨ha, hb⟩) (hnone c hc)
  · exact ⟨hlt, ((mem_cpumask_and _ a b).mp hmem).1, ((mem_cpumask_and _ a b).mp hmem).2⟩

/-- The loop of `choose_cpu` keeps the lowest `rqd_avgload` seen: the result is
a lower bound of the start value and of the value of every runqueue walked, and
either nothing was below the start value, or the result is the value of the
runqueue returned. -/
theorem choose_cpu_scan_spec (st : sched_state) (svc : Nat) (l : List Nat) :
    ∀ (m r : Int),
      (choose_cpu_scan st svc l m r).1 ≤ m ∧
      (∀ i ∈ l, (choose_cpu_scan st svc l m r).1 ≤ choose_cpu_avgload st svc (i : Int)) ∧
      (((choose_cpu_scan st svc l m r).1 = m ∧ (choose_cpu_scan st svc l m r).2 = r) ∨
        ∃ i ∈ l, (choose_cpu_scan st svc l m r).2 = (i : Int) ∧
          choose_cpu_avgload st svc (i : Int) = (choose_cpu_scan st svc l m r).1 ∧
          (choose_cpu_scan st svc l m r).1 < m) := by
  induction l with
  | nil =>
    intro m r
    exact ⟨le_refl _, fun i hi => absurd hi (List.not_mem_nil i), Or.inl ⟨rfl, rfl⟩⟩
  | cons a rest ih =>
    intro m r
    unfold choose_cpu_scan
    by_cases hlt : choose_cpu_avgload st svc (a : Int) < m
    · rw [if_pos hlt]
      obtain ⟨h1, h2, h3⟩ := ih (choose_cpu_avgload st svc (a : Int)) (a : Int)
      refine ⟨by omega, ?_, Or.inr ?_⟩
      · intro i hi
        rcases List.mem_cons.mp hi with rfl | hi
        · exact h1
        · exact h2 i hi
      · rcases h3 with ⟨e1, e2⟩ | ⟨i, hi, e1, e2, e3⟩
        · exact ⟨a, List.mem_cons_self _ _, e2, e1.symm, by omega⟩
        · exact ⟨i, List.mem_cons_of_mem _ hi, e1, e2, by omega⟩
    · rw [if_neg hlt]
      obtain ⟨h1, h2, h3⟩ := ih m r
      refine ⟨h1, ?_, ?_⟩
      · intro i hi
        rcases List.mem_cons.mp hi with rfl | hi
        · omega
        · exact h2 i hi
      · rcases h3 with ⟨e1, e2⟩ | ⟨i, hi, e1, e2, e3⟩
        · exact Or.inl ⟨e1, e2⟩
        · exact Or.inr ⟨i, List.mem_cons_of_mem _ hi, e1, e2, e3⟩

/-- Clearing the migration request does not change what the loop of
`choose_cpu` reads. -/
theorem choose_cpu_avgload_clear (st : sched_state) (svc : Nat) (i : Int) :
    choose_cpu_avgload (clear_migrate_request st svc) svc i = choose_cpu_avgload st svc i := by
  simp [choose_cpu_avgload, clear_migrate_request, heap_store]

theorem choose_cpu_scan_clear (st : sched_state) (svc : Nat) (l : List Nat) :
    ∀ (m r : Int), choose_cpu_scan (clear_migrate_request st svc) svc l m r
      = choose_cpu_scan st svc l m r := by
  induction l with
  | nil => intro m r; rfl
  | cons a rest ih =>
    intro m r
    unfold choose_cpu_scan
    rw [choose_cpu_avgload_clear, ih, ih]

/-- C20: when no migration request is pending on the entity, the private lock
and the lock of every active runqueue are obtained, and some active runqueue
whose active processors intersect the hard affinity of the entity has an
adjusted load below `MAX_LOAD` (2^60, the start value of the search),
`choose_cpu` returns a processor `cpu` of an active runqueue `q`; `cpu` is
allowed by the hard affinity, and the adjusted load of `q` (its `b_avgload`,
minus the `avgload` of the entity if `q` is the runqueue the entity is assigned
to) is minimal among the active runqueues whose active processors intersect the
hard affinity.  The subtraction for the own runqueue is assumed to fit 64
bits. -/
theorem choose_cpu_min_load (st : sched_state) (svc : Nat)
    (hreq : (st.heap svc).flags &&& CSFLAG_runq_migrate_request = 0)
    (hprv : st.trylock_prv = true)
    (hlock : ∀ i ∈ cpumask_cpus st.nr_cpu_ids st.prv.active_queues,
      st.trylock_rqd (i : Int) = true)
    (hown : ∀ i ∈ cpumask_cpus st.nr_cpu_ids st.prv.active_queues,
      (st.heap svc).rqd = some (i : Int) →
        -9223372036854775808 ≤ (st.prv.rqd i).b_avgload - (st.heap svc).avgload ∧
        (st.prv.rqd i).b_avgload - (st.heap svc).avgload < 9223372036854775808)
    (hsome : ∃ i ∈ cpumask_cpus st.nr_cpu_ids st.prv.active_queues,
      cpumask_intersects st.nr_cpu_ids (st.heap svc).cpu_hard_affinity
        (st.prv.rqd i).active = true ∧
      (if (st.heap svc).rqd = some (i : Int) then
          (st.prv.rqd i).b_avgload - (st.heap svc).avgload
        else (st.prv.rqd i).b_avgload) < MAX_LOAD) :
    ∃ cpu q, choose_cpu st svc = some (clear_migrate_request st svc, cpu) ∧
      q ∈ cpumask_cpus st.nr_cpu_ids st.prv.active_queues ∧
      cpu < st.nr_cpu_ids ∧ cpu ∈ (st.prv.rqd q).active ∧
      cpu ∈ (st.heap svc).cpu_hard_affinity ∧
      ∀ j ∈ cpumask_cpus st.nr_cpu_ids st.prv.active_queues,
        cpumask_intersects st.nr_cpu_ids (st.heap svc).cpu_hard_affinity
          (st.prv.rqd j).active = true →
        (if (st.heap svc).rqd = some (q : Int) then
            (st.prv.rqd q).b_avgload - (st.heap svc).avgload
          else (st.prv.rqd q).b_avgload)
        ≤ (if (st.heap svc).rqd = some (j : Int) then
            (st.prv.rqd j).b_avgload - (st.heap svc).avgload
          else (st.prv.rqd j).b_avgload) := by
  -- what one iteration computes for an intersecting runqueue is its adjusted load
  have hval : ∀ j ∈ cpumask_cpus st.nr_cpu_ids st.prv.active_queues,
      cpumask_intersects st.nr_cpu_ids (st.heap svc).cpu_hard_affinity
        (st.prv.rqd j).active = true →
      choose_cpu_avgload st svc (j : Int) =
        (if (st.heap svc).rqd = some (j : Int) then
            (st.prv.rqd j).b_avgload - (st.heap svc).avgload
          else (st.prv.rqd j).b_avgload) := by
    intro j hj hint
    unfold choose_cpu_avgload
    by_cases hq : (st.heap svc).rqd = some (j : Int)
    · rw [if_pos hq, if_pos hint, if_pos hq]
      exact to_s64_of_range _ (hown j hj hq).1 (hown j hj hq).2
    · rw [if_neg hq, if_pos (hlock j hj), if_pos hint, if_neg hq]
  -- a runqueue that does not intersect the affinity counts as `MAX_LOAD`
  have hmax : ∀ j : Int,
      cpumask_intersects st.nr_cpu_ids (st.heap svc).cpu_hard_affinity
        (st.prv.rqd j).active ≠ true → choose_cpu_avgload st svc j = MAX_LOAD := by
    intro j hint
    unfold choose_cpu_avgload
    by_cases hq : (st.heap svc).rqd = some j
    · rw [if_pos hq, if_neg hint]
    · rw [if_neg hq]
      by_cases hl : st.trylock_rqd j = true
      · rw [if_pos hl, if_neg hint]
      · rw [if_neg hl]
  obtain ⟨i0, hi0, hint0, hlt0⟩ := hsome
  obtain ⟨h1, h2, h3⟩ := choose_cpu_scan_spec st svc
    (cpumask_cpus st.nr_cpu_ids st.prv.active_queues) MAX_LOAD (-1)
  have hbelow : (choose_cpu_scan st svc
      (cpumask_cpus st.nr_cpu_ids st.prv.active_queues) MAX_LOAD (-1)).1 < MAX_LOAD := by
    have := h2 i0 hi0
    rw [hval i0 hi0 hint0] at this
    omega
  rcases h3 with ⟨e1, _⟩ | ⟨q, hq, e1, e2, e3⟩
  · omega
  have hintq : cpumask_intersects st.nr_cpu_ids (st.heap svc).cpu_hard_affinity
      (st.prv.rqd q).active = true := by
    by_contra hc
    have := hmax (q : Int) hc
    omega
  obtain ⟨c1, c2, c3⟩ := cpumask_any_of_intersects _ _ _ hintq
  refine ⟨cpumask_any st.nr_cpu_ids
    (cpumask_and (st.heap svc).cpu_hard_affinity (st.prv.rqd q).active), q, ?_, hq, c1, c3, c2, ?_⟩
  · have hne : cpumask_empty st.nr_cpu_ids st.prv.active_queues = false := by
      unfold cpumask_empty
      cases hl : cpumask_cpus st.nr_cpu_ids st.prv.active_queues with
      | nil => rw [hl] at hq; exact absurd hq (List.not_mem_nil q)
      | cons d rest => rfl
    have haff : ((clear_migrate_request st svc).heap svc).cpu_hard_affinity
        = (st.heap svc).cpu_hard_affinity := by
      simp [clear_migrate_request, heap_store]
    have hr2 : (choose_cpu_scan st svc
        (cpumask_cpus st.nr_cpu_ids st.prv.active_queues) MAX_LOAD (-1)).2 ≠ -1 := by
      rw [e1]
      omega
    unfold choose_cpu
    rw [if_neg (by simp [hne]), if_neg (by simp [hprv])]
    simp only []
    rw [if_neg (by simp [hreq])]
    simp only []
    have hnr : (clear_migrate_request st svc).nr_cpu_ids = st.nr_cpu_ids := rfl
    have hpr : (clear_migrate_request st svc).prv = st.prv := rfl
    rw [choose_cpu_scan_clear, haff, hnr, hpr, if_neg hr2, e1, if_neg (by omega)]
  · intro j hj hintj
    rw [← hval q hq hintq, ← hval j hj hintj, e2]
    exact h2 j hj

theorem choose_cpu_min_load_witness :
    ∃ cpu q, choose_cpu bl_state_pick 1 = some (clear_migrate_request bl_state_pick 1, cpu) ∧
      q ∈ cpumask_cpus bl_state_pick.nr_cpu_ids bl_state_pick.prv.active_queues ∧
      cpu < bl_state_pick.nr_cpu_ids ∧ cpu ∈ (bl_state_pick.prv.rqd q).active ∧
      cpu ∈ (bl_state_pick.heap 1).cpu_hard_affinity ∧
      (if (bl_state_pick.heap 1).rqd = some (q : Int) then
          (bl_state_pick.prv.rqd q).b_avgload - (bl_state_pick.heap 1).avgload
        else (bl_state_pick.prv.rqd q).b_avgload) ≤ 400000 - 131072 ∧
      (if (bl_state_pick.heap 1).rqd = some (q : Int) then
          (bl_state_pick.prv.rqd q).b_avgload - (bl_state_pick.heap 1).avgload
        else (bl_state_pick.prv.rqd q).b_avgload) ≤ 262144 :=
  match choose_cpu_min_load bl_state_pick 1 (by decide) (by decide) (by decide) (by decide)
    (by decide) with
  | ⟨cpu, q, h, hq, hlt, hact, haff, hmin⟩ =>
    ⟨cpu, q, h, hq, hlt, hact, haff,
      hmin 0 (by decide) (by decide), hmin 1 (by decide) (by decide)⟩

/-! ### Load refresh at an unchanged time -/

theorem two_pow_le_31 (k : Nat) (h : k ≤ 31) : 2 ^ k ≤ 2147483648 := by
  calc 2 ^ k ≤ 2 ^ 31 := Nat.pow_le_pow_right (by decide) h
    _ = 2147483648 := by norm_num

/-- A blend over no time leaves a non-negative average that fits the window
unchanged. -/
theorem load_blend_zero (shift : Nat) (load : Int) (avg : Nat) (hs : shift ≤ 62)
    (ha : avg * 2 ^ shift < 18446744073709551616) (ha63 : avg < 9223372036854775808) :
    load_blend shift 0 load avg = (avg : Int) := by
  have hW := two_pow_le_62 shift hs
  have hWpos := Nat.two_pow_pos shift
  unfold load_blend
  have h0 : to_u64 0 = 0 := by decide
  have hsub : to_u64 (((shl64 1 shift : Nat) : Int) - 0) = 2 ^ shift := by
    rw [shl64_eq 1 shift (by omega), Nat.one_mul, Int.sub_zero, to_u64_natCast _ (by omega)]
  rw [h0, hsub, to_u64_natCast avg (by omega)]
  have hN : (((0 : Nat) : Int) * ((shl64 (to_u64 load) shift : Nat) : Int)
      + ((2 ^ shift : Nat) : Int) * (avg : Int))
      = ((2 ^ shift * avg : Nat) : Int) := by
    simp only [Nat.cast_mul, Nat.cast_zero, zero_mul, zero_add]
  have hp : ((2 : Int) ^ shift) = ((2 ^ shift : Nat) : Int) := by simp
  have hlt : 2 ^ shift * avg < 18446744073709551616 := by
    rw [Nat.mul_comm]
    exact ha
  rw [hN, Int.emod_eq_of_lt (by omega) (by omega), hp, ← Int.ofNat_ediv,
    Nat.mul_div_cancel_left _ hWpos]
  exact to_s64_of_range _ (by omega) (by omega)

/-- The value a blend stores is non-negative and fits the window. -/
theorem load_blend_range (shift : Nat) (delta load avg : Int) (hs1 : 1 ≤ shift) :
    ∃ v : Nat, load_blend shift delta load avg = (v : Int) ∧
      v * 2 ^ shift < 18446744073709551616 ∧ v < 9223372036854775808 := by
  unfold load_blend
  have hp : ((2 : Int) ^ shift) = ((2 ^ shift : Nat) : Int) := by simp
  have hWpos := Nat.two_pow_pos shift
  have hW2 : 2 ≤ 2 ^ shift := by
    calc 2 = 2 ^ 1 := by norm_num
      _ ≤ 2 ^ shift := Nat.pow_le_pow_right (by decide) hs1
  generalize hX : ((to_u64 delta : Int) * ((shl64 (to_u64 load) shift : Nat) : Int)
      + ((to_u64 (((shl64 1 shift : Nat) : Int) - delta) : Nat) : Int) * ((to_u64 avg : Nat) : Int))
      % 18446744073709551616 = X
  have hX0 : 0 ≤ X := by rw [← hX]; exact Int.emod_nonneg _ (by decide)
  have hX1 : X < 18446744073709551616 := by rw [← hX]; exact Int.emod_lt_of_pos _ (by decide)
  obtain ⟨x, rfl⟩ := Int.eq_ofNat_of_zero_le hX0
  have hx : x < 18446744073709551616 := by omega
  rw [hp, ← Int.ofNat_ediv]
  have hq1 : x / 2 ^ shift * 2 ^ shift ≤ x := Nat.div_mul_le_self _ _
  have hq2 : x / 2 ^ shift * 2 ≤ x / 2 ^ shift * 2 ^ shift := Nat.mul_le_mul_left _ hW2
  refine ⟨x / 2 ^ shift, ?_, by omega, by omega⟩
  exact to_s64_of_range _ (by omega) (by omega)

/-- The sample of the load of an entity, 0 or 1, fits the window when the
window shift is at most 31. -/
theorem load_sample_range (shift : Nat) (load : Int) (hs : shift ≤ 31)
    (hl : load = 0 ∨ load = 1) :
    ∃ v : Nat, load_sample shift load = (v : Int) ∧
      v * 2 ^ shift < 18446744073709551616 ∧ v < 9223372036854775808 := by
  have hW := two_pow_le_31 shift hs
  have hWpos := Nat.two_pow_pos shift
  rcases hl with rfl | rfl
  · refine ⟨0, ?_, by omega, by omega⟩
    have := load_sample_eq shift 0 (by omega)
    simpa using this
  · refine ⟨2 ^ shift, ?_, ?_, by omega⟩
    · have := load_sample_eq shift 1 (by omega)
      simpa using this
    · have : 2 ^ shift * 2 ^ shift ≤ 2147483648 * 2147483648 := Nat.mul_le_mul hW hW
      omega

/-- The window has not elapsed between a time and itself. -/
theorem load_window_elapsed_self (shift : Nat) (n : Int) (hs : shift ≤ 62) (h0 : 0 ≤ n)
    (hn : n < 4611686018427387904) : load_window_elapsed shift n n = false := by
  obtain ⟨N, rfl⟩ := Int.eq_ofNat_of_zero_le h0
  rw [load_window_elapsed_eq shift N N hs (by omega) (by omega)]
  simp

theorem now_shift_range (now : Int) (h0 : 0 ≤ now) (h1 : now < 9223372036854775808) :
    0 ≤ now >>> LOADAVG_GRANULARITY_SHIFT ∧
      now >>> LOADAVG_GRANULARITY_SHIFT < 4611686018427387904 := by
  have hn : now >>> LOADAVG_GRANULARITY_SHIFT = now / 1024 := by
    rw [Int.shiftRight_eq_div_pow]
    rfl
  rw [hn]
  omega

/-- The load update of an entity writes its average and the time of the update
only. -/
theorem update_svc_load_frame (prv : csched2_private) (s : csched2_vcpu) (change now : Int) :
    __update_svc_load prv s change now =
      { s with
        avgload := (__update_svc_load prv s change now).avgload
        load_last_update := now >>> LOADAVG_GRANULARITY_SHIFT } := by
  unfold __update_svc_load
  simp only []
  split_ifs <;> rfl

/-- The average a refresh (`change = 0`) of an entity stores is non-negative and
fits the window, for a window shift between 1 and 31. -/
theorem update_svc_load_range (prv : csched2_private) (s : csched2_vcpu) (now : Int)
    (hs1 : 1 ≤ prv.load_window_shift) (hs : prv.load_window_shift ≤ 31) :
    ∃ v : Nat, (__update_svc_load prv s 0 now).avgload = (v : Int) ∧
      v * 2 ^ prv.load_window_shift < 18446744073709551616 ∧ v < 9223372036854775808 := by
  unfold __update_svc_load
  simp only []
  have hvl : ((if (0 : Int) = -1 then (1 : Int) else if (0 : Int) = 1 then 0
      else if s.runnable = true then 1 else 0) = 0) ∨
      ((if (0 : Int) = -1 then (1 : Int) else if (0 : Int) = 1 then 0
      else if s.runnable = true then 1 else 0) = 1) := by
    cases s.runnable <;> simp
  generalize (if (0 : Int) = -1 then (1 : Int) else if (0 : Int) = 1 then 0
      else if s.runnable = true then 1 else 0) = vl at hvl ⊢
  by_cases h1 : load_window_elapsed prv.load_window_shift s.load_last_update
      (now >>> LOADAVG_GRANULARITY_SHIFT) = true
  · rw [if_pos h1]
    exact load_sample_range _ _ hs hvl
  · rw [if_neg h1]
    exact load_blend_range _ _ _ _ hs1

/-- Refreshing the load of an entity twice at the same time is refreshing it
once. -/
theorem update_svc_load_idem (prv : csched2_private) (s : csched2_vcpu) (now : Int)
    (hs1 : 1 ≤ prv.load_window_shift) (hs : prv.load_window_shift ≤ 31)
    (h0 : 0 ≤ now) (h1 : now < 9223372036854775808) :
    __update_svc_load prv (__update_svc_load prv s 0 now) 0 now
      = __update_svc_load prv s 0 now := by
  obtain ⟨v, hv, hv1, hv2⟩ := update_svc_load_range prv s now hs1 hs
  have hfr := update_svc_load_frame prv s 0 now
  obtain ⟨hn0, hn1⟩ := now_shift_range now h0 h1
  generalize __update_svc_load prv s 0 now = s1 at hv hfr ⊢
  have hllu : s1.load_last_update = now >>> LOADAVG_GRANULARITY_SHIFT := by
    rw [hfr]
  unfold __update_svc_load
  simp only []
  rw [hllu, load_window_elapsed_self _ _ (by omega) hn0 hn1]
  simp only [Bool.false_eq_true, if_false, sub_self]
  have hz : to_s64 0 = 0 := by decide
  rw [hz, hv, load_blend_zero _ _ v (by omega) hv1 hv2, ← hv, ← hllu]

/-- The load update of a runqueue writes its averages, its load and the time of
the update only. -/
theorem update_runq_load_frame (prv : csched2_private) (r : csched2_runqueue_data)
    (change now : Int) :
    __update_runq_load prv r change now =
      { r with
        avgload := (__update_runq_load prv r change now).avgload
        b_avgload := (__update_runq_load prv r change now).b_avgload
        load := to_int (r.load + change)
        load_last_update := now >>> LOADAVG_GRANULARITY_SHIFT } := by
  unfold __update_runq_load
  simp only []
  split_ifs <;> rfl

/-- A load update of a runqueue at the time of its last update leaves a
non-negative balancing average that fits the window unchanged. -/
theorem update_runq_load_same_time (prv : csched2_private) (r : csched2_runqueue_data)
    (change now : Int) (hs : prv.load_window_shift ≤ 62)
    (h0 : 0 ≤ now) (h1 : now < 9223372036854775808)
    (hllu : r.load_last_update = now >>> LOADAVG_GRANULARITY_SHIFT)
    (hb0 : 0 ≤ r.b_avgload)
    (hb : r.b_avgload * 2 ^ prv.load_window_shift < 18446744073709551616)
    (hb63 : r.b_avgload < 9223372036854775808) :
    (__update_runq_load prv r change now).b_avgload = r.b_avgload := by
  obtain ⟨hn0, hn1⟩ := now_shift_range now h0 h1
  obtain ⟨B, hB⟩ := Int.eq_ofNat_of_zero_le hb0
  have hp : ((2 : Int) ^ prv.load_window_shift)
      = ((2 ^ prv.load_window_shift : Nat) : Int) := by simp
  have hbN : B * 2 ^ prv.load_window_shift < 18446744073709551616 := by
    have h : ((B * 2 ^ prv.load_window_shift : Nat) : Int) < 18446744073709551616 := by
      rw [Nat.cast_mul, ← hp, ← hB]
      exact hb
    exact Int.ofNat_lt.mp h
  unfold __update_runq_load
  simp only []
  rw [hllu, load_window_elapsed_self _ _ hs hn0 hn1]
  simp only [Bool.false_eq_true, if_false, sub_self]
  have hz : to_s64 0 = 0 := by decide
  rw [hz, hB, load_blend_zero _ _ B hs hbN (by omega)]

/-! ### What tickling leaves alone -/

/-- Burning credit writes the credit, the residual and the start time of an
entity, and nothing of an idle entity. -/
theorem burn_credits_frame (rqd : csched2_runqueue_data) (now : Int) (s c : csched2_vcpu)
    (h : burn_credits rqd s now = some c) :
    c = { s with credit := c.credit, start_time := c.start_time, residual := c.residual } ∧
      (s.is_idle = true → c = s) := by
  unfold burn_credits at h
  by_cases hidle : s.is_idle = true
  · rw [if_pos hidle] at h
    split_ifs at h with hc
    simp only [Option.some.injEq] at h
    subst h
    exact ⟨rfl, fun _ => rfl⟩
  · rw [if_neg hidle] at h
    refine ⟨?_, fun hf => absurd hf hidle⟩
    by_cases hd : to_s64 (now - s.start_time) > 0
    · simp only [hd, if_true] at h
      unfold t2c_update do_div at h
      by_cases hw : s.weight = 0
      · simp [hw] at h
      · simp only [hw, if_false, Option.some.injEq] at h
        rw [← h]
    · simp only [hd, if_false, Option.some.injEq] at h
      subst h
      rfl

/-- Burning credit succeeds on an idle entity that holds the idle credit and on
an entity with a weight. -/
theorem burn_credits_runs (rqd : csched2_runqueue_data) (now : Int) (s : csched2_vcpu)
    (h : if s.is_idle = true then s.credit = CSCHED2_IDLE_CREDIT else s.weight ≠ 0) :
    ∃ c, burn_credits rqd s now = some c := by
  unfold burn_credits
  cases hidle : s.is_idle with
  | true =>
    rw [hidle] at h
    simp only [if_true] at h
    simp only [if_true, h, ne_eq, not_true_eq_false, if_false]
    exact ⟨s, rfl⟩
  | false =>
    rw [hidle] at h
    simp only [Bool.false_eq_true, if_false] at h
    simp only [Bool.false_eq_true, if_false]
    by_cases hd : to_s64 (now - s.start_time) > 0
    · rw [if_pos hd]
      unfold t2c_update do_div
      simp only [h, if_false]
      exact ⟨_, rfl⟩
    · rw [if_neg hd]
      exact ⟨s, rfl⟩

/-- Storing back the record that is in the slot changes nothing. -/
theorem rqd_store_self (prv : csched2_private) (q : Int) :
    rqd_store prv q (prv.rqd q) = prv := by
  unfold rqd_store
  cases prv with
  | mk i m a r l =>
    simp only [csched2_private.mk.injEq, true_and, and_true]
    funext j
    by_cases hj : j = q
    · rw [if_pos hj, hj]
    · rw [if_neg hj]

/-- In a state that is safe to tickle, `runq_tickle` runs to its end.  It
writes the tickled mask of the runqueue of `cpu`, the credit, residual and
start time of entities that are not idle, and the reschedule requests. -/
theorem runq_tickle_runs (st : sched_state) (cpu new : Nat) (now : Int)
    (hproc : (st.heap new).processor = cpu)
    (hrqd : (st.heap new).rqd = some (c2r st cpu))
    (hcpu : cpu ∈ cpumask_cpus st.nr_cpu_ids (st.prv.rqd (c2r st cpu)).active)
    (hsafe : tickle_safe st (c2r st cpu)) :
    ∃ heap1 tickled softirq,
      runq_tickle st cpu new now = some
        { st with
          heap := heap1
          prv := rqd_store st.prv (c2r st cpu)
            { st.prv.rqd (c2r st cpu) with tickled := tickled }
          softirq := softirq } ∧
      (∀ x, heap1 x = { st.heap x with
        credit := (heap1 x).credit, start_time := (heap1 x).start_time,
        residual := (heap1 x).residual }) ∧
      (∀ x, (st.heap x).is_idle = true → heap1 x = st.heap x) ∧
      (∀ p, p ∈ (st.prv.rqd (c2r st cpu)).tickled → p ∈ tickled) := by
  -- every entity of a heap the function builds is the old one or its burned form
  have hfr : ∀ h : vcpu_heap,
      (∀ e, h e = st.heap e ∨
        burn_credits (st.prv.rqd (c2r st cpu)) (st.heap e) now = some (h e)) →
      (∀ x, h x = { st.heap x with
        credit := (h x).credit, start_time := (h x).start_time,
        residual := (h x).residual }) ∧
      (∀ x, (st.heap x).is_idle = true → h x = st.heap x) := by
    intro h hcl
    constructor
    · intro x
      rcases hcl x with e | e
      · rw [e]
      · exact (burn_credits_frame _ _ _ _ e).1
    · intro x hx
      rcases hcl x with e | e
      · exact e
      · exact (burn_credits_frame _ _ _ _ e).2 hx
  have hok : ∀ p ∈ cpumask_cpus st.nr_cpu_ids (st.prv.rqd (c2r st cpu)).active,
      ∃ c, burn_credits (st.prv.rqd (c2r st cpu)) (st.heap (st.curr_on_cpu p)) now = some c := by
    intro p hp
    apply burn_credits_runs
    have := hsafe p hp
    by_cases hi : (st.heap (st.curr_on_cpu p)).is_idle = true
    · rw [if_pos hi] at this ⊢
      exact this.1
    · rw [if_neg hi] at this ⊢
      exact this
  obtain ⟨cur, hcur⟩ := hok cpu hcpu
  have hcl1 : ∀ e, heap_store st.heap (st.curr_on_cpu cpu) cur e = st.heap e ∨
      burn_credits (st.prv.rqd (c2r st cpu)) (st.heap e) now
        = some (heap_store st.heap (st.curr_on_cpu cpu) cur e) := by
    intro e
    by_cases he : e = st.curr_on_cpu cpu
    · right
      rw [he, heap_store_same]
      exact hcur
    · left
      exact heap_store_other _ _ _ _ he
  unfold runq_tickle
  simp only []
  rw [if_neg (by simp [hproc]), if_neg (by simp [hrqd]), hcur]
  simp only []
  by_cases h1 : cur.credit < (heap_store st.heap (st.curr_on_cpu cpu) cur new).credit
  · rw [if_pos h1]
    exact ⟨_, cpumask_set_cpu cpu (st.prv.rqd (c2r st cpu)).tickled, cpu :: st.softirq, rfl,
      (hfr _ hcl1).1, (hfr _ hcl1).2,
      fun p hp => (mem_cpumask_set_cpu p cpu _).mpr (Or.inr hp)⟩
  · rw [if_neg h1]
    by_cases h2 : cpumask_cycle st.nr_cpu_ids cpu
        (tickle_idle_mask (st.prv.rqd (c2r st cpu))
          (heap_store st.heap (st.curr_on_cpu cpu) cur new).cpu_hard_affinity) < st.nr_cpu_ids
    · rw [if_pos h2]
      exact ⟨_, cpumask_set_cpu _ (st.prv.rqd (c2r st cpu)).tickled, _ :: st.softirq, rfl,
        (hfr _ hcl1).1, (hfr _ hcl1).2,
        fun p hp => (mem_cpumask_set_cpu p _ _).mpr (Or.inr hp)⟩
    · rw [if_neg h2]
      have hscan : ∀ i ∈ cpumask_cpus st.nr_cpu_ids
          (tickle_busy_mask (st.prv.rqd (c2r st cpu))
            (heap_store st.heap (st.curr_on_cpu cpu) cur new).cpu_hard_affinity),
          i ≠ cpu → (st.heap (st.curr_on_cpu i)).is_idle = false ∧
            ∃ c, burn_credits (st.prv.rqd (c2r st cpu)) (st.heap (st.curr_on_cpu i)) now
              = some c := by
        intro i hi _
        obtain ⟨hlt, hm⟩ := (mem_cpumask_cpus _ _ _).mp hi
        unfold tickle_busy_mask at hm
        obtain ⟨hm1, _⟩ := (mem_cpumask_and _ _ _).mp hm
        obtain ⟨hm2, hnt⟩ := (mem_cpumask_andnot _ _ _).mp hm1
        obtain ⟨hact, hni⟩ := (mem_cpumask_andnot _ _ _).mp hm2
        have hia : i ∈ cpumask_cpus st.nr_cpu_ids (st.prv.rqd (c2r st cpu)).active :=
          (mem_cpumask_cpus _ _ _).mpr ⟨hlt, hact⟩
        refine ⟨?_, hok i hia⟩
        have := hsafe i hia
        by_cases hidle : (st.heap (st.curr_on_cpu i)).is_idle = true
        · rw [if_pos hidle] at this
          rcases this.2 with h | h
          · exact absurd h hni
          · exact absurd h hnt
        · simpa using hidle
      obtain ⟨h2', ipid2, lowest2, hrun, hcl2, _, _, _, _, _, _⟩ :=
        runq_tickle_scan_spec (st.prv.rqd (c2r st cpu)) st.curr_on_cpu cpu now st.heap _
          (heap_store st.heap (st.curr_on_cpu cpu) cur) none ((1 <<< 30 : Nat) : Int) hcl1 hscan
      rw [hrun]
      simp only []
      have hself : rqd_store st.prv (c2r st cpu)
          { st.prv.rqd (c2r st cpu) with tickled := (st.prv.rqd (c2r st cpu)).tickled }
          = st.prv := rqd_store_self st.prv (c2r st cpu)
      have hkeep : (some { st with heap := h2' } : Option sched_state) = some
          { st with
            heap := h2'
            prv := rqd_store st.prv (c2r st cpu)
              { st.prv.rqd (c2r st cpu) with tickled := (st.prv.rqd (c2r st cpu)).tickled }
            softirq := st.softirq } := by
        rw [hself]
      cases ipid2 with
      | none =>
        exact ⟨h2', (st.prv.rqd (c2r st cpu)).tickled, st.softirq, hkeep,
          (hfr _ hcl2).1, (hfr _ hcl2).2, fun p hp => hp⟩
      | some ip =>
        simp only []
        by_cases h3 : lowest2 + CSCHED2_MIGRATE_RESIST st.opt_migrate_resist
            > (h2' new).credit
        · rw [if_pos h3]
          exact ⟨h2', (st.prv.rqd (c2r st cpu)).tickled, st.softirq, hkeep,
            (hfr _ hcl2).1, (hfr _ hcl2).2, fun p hp => hp⟩
        · rw [if_neg h3]
          exact ⟨h2', cpumask_set_cpu ip (st.prv.rqd (c2r st cpu)).tickled, ip :: st.softirq,
            rfl, (hfr _ hcl2).1, (hfr _ hcl2).2,
            fun p hp => (mem_cpumask_set_cpu p _ _).mpr (Or.inr hp)⟩

/-! ### Migration -/

theorem rqd_store_overwrite (prv : csched2_private) (q : Int) (a b : csched2_runqueue_data) :
    rqd_store (rqd_store prv q a) q b = rqd_store prv q b := by
  unfold rqd_store
  simp only [csched2_private.mk.injEq, true_and, and_true]
  funext j
  by_cases hj : j = q
  · rw [if_pos hj, if_pos hj]
  · rw [if_neg hj, if_neg hj, if_neg hj]

/-- The load update of a runqueue does not read its lists. -/
theorem update_runq_load_lists (prv : csched2_private) (r : csched2_runqueue_data)
    (change now : Int) :
    (__update_runq_load prv r change now).id = r.id ∧
    (__update_runq_load prv r change now).active = r.active ∧
    (__update_runq_load prv r change now).idle = r.idle ∧
    (__update_runq_load prv r change now).tickled = r.tickled ∧
    (__update_runq_load prv r change now).runq = r.runq ∧
    (__update_runq_load prv r change now).svc = r.svc ∧
    (__update_runq_load prv r change now).max_weight = r.max_weight ∧
    (__update_runq_load prv r change now).load_last_update
      = now >>> LOADAVG_GRANULARITY_SHIFT := by
  rw [update_runq_load_frame]
  exact ⟨rfl, rfl, rfl, rfl, rfl, rfl, rfl, rfl⟩

/-- The update of the largest weight writes that field only. -/
theorem update_max_weight_frame (heap : vcpu_heap) (r : csched2_runqueue_data) (n o : Nat) :
    update_max_weight heap r n o =
      { r with max_weight := (update_max_weight heap r n o).max_weight } := by
  unfold update_max_weight
  split_ifs <;> rfl

/-- The balancing average a load update stores does not depend on the runnable
list. -/
theorem update_runq_load_b_runq (prv : csched2_private) (r : csched2_runqueue_data)
    (l : List Nat) (change now : Int) :
    (__update_runq_load prv { r with runq := l } change now).b_avgload
      = (__update_runq_load prv r change now).b_avgload := by
  unfold __update_runq_load
  simp only []
  split_ifs <;> rfl

/-- An entity that is assigned to the runqueue in slot `q0`, is not flagged
scheduled and is not on the runnable list is taken off the runqueue by
`__runq_deassign`, which writes the record of the entity and the record `rD` of
the runqueue. -/
theorem runq_deassign_runs (st : sched_state) (svc : Nat) (q0 : Int)
    (hsched : (st.heap svc).flags &&& CSFLAG_scheduled = 0)
    (hrqd : (st.heap svc).rqd = some q0)
    (hoff : svc ∉ (st.prv.rqd q0).runq) :
    ∃ rD, __runq_deassign st svc = some
        { st with
          heap := heap_store st.heap svc { st.heap svc with rqd := none }
          prv := rqd_store st.prv q0 rD } ∧
      rD.id = (st.prv.rqd q0).id ∧ rD.active = (st.prv.rqd q0).active ∧
      rD.idle = (st.prv.rqd q0).idle ∧ rD.tickled = (st.prv.rqd q0).tickled ∧
      rD.runq = (st.prv.rqd q0).runq ∧ rD.svc = (st.prv.rqd q0).svc.erase svc ∧
      rD.b_avgload = to_s64 ((st.prv.rqd q0).b_avgload - (st.heap svc).avgload) ∧
      rD.load_last_update = (st.prv.rqd q0).load_last_update := by
  have hon : __vcpu_on_runq st svc = false := by
    unfold __vcpu_on_runq
    rw [hrqd]
    simpa using hoff
  unfold __runq_deassign
  rw [if_neg (by simp [hon]), if_neg (by simp [hsched]), hrqd]
  simp only []
  refine ⟨_, rfl, ?_⟩
  simp only []
  rw [update_max_weight_frame]
  exact ⟨rfl, rfl, rfl, rfl, rfl, rfl, rfl, rfl⟩

/-- The first half of a move runs to its end for an entity that is assigned to
the runqueue in slot `q0`, is not flagged scheduled, and whose runnable list
holds no entity twice.  It writes the record of the entity, which loses its
runqueue, and the record `rD` of the runqueue. -/
theorem migrate_detach_runs (st : sched_state) (svc : Nat) (now : Int) (q0 : Int)
    (hsched : (st.heap svc).flags &&& CSFLAG_scheduled = 0)
    (hrqd : (st.heap svc).rqd = some q0)
    (hnodup : (st.prv.rqd q0).runq.Nodup) :
    ∃ rD, migrate_detach st svc now = some
        { st with
          heap := heap_store st.heap svc { st.heap svc with rqd := none }
          prv := rqd_store st.prv q0 rD } ∧
      rD.id = (st.prv.rqd q0).id ∧ rD.active = (st.prv.rqd q0).active ∧
      rD.idle = (st.prv.rqd q0).idle ∧ rD.tickled = (st.prv.rqd q0).tickled ∧
      rD.runq = (st.prv.rqd q0).runq.erase svc ∧ rD.svc = (st.prv.rqd q0).svc.erase svc ∧
      rD.b_avgload = to_s64
        ((if svc ∈ (st.prv.rqd q0).runq then
            (__update_runq_load st.prv (st.prv.rqd q0) (-1) now).b_avgload
          else (st.prv.rqd q0).b_avgload) - (st.heap svc).avgload) ∧
      rD.load_last_update =
        (if svc ∈ (st.prv.rqd q0).runq then now >>> LOADAVG_GRANULARITY_SHIFT
          else (st.prv.rqd q0).load_last_update) := by
  have hon : __vcpu_on_runq st svc = decide (svc ∈ (st.prv.rqd q0).runq) := by
    unfold __vcpu_on_runq
    rw [hrqd]
  have hnot : svc ∉ (st.prv.rqd q0).runq.erase svc := fun h => (List.Nodup.mem_erase_iff hnodup).mp h |>.1 rfl
  unfold migrate_detach
  by_cases honq : svc ∈ (st.prv.rqd q0).runq
  · rw [if_pos (by simp [hon, honq])]
    have hrem : __runq_remove st svc = some
        { st with
          prv := rqd_store st.prv q0
            { st.prv.rqd q0 with runq := (st.prv.rqd q0).runq.erase svc } } := by
      unfold __runq_remove
      rw [if_neg (by simp [hon, honq]), hrqd]
    rw [hrem]
    simp only []
    rw [hrqd]
    simp only []
    obtain ⟨rD, hD, f1, f2, f3, f4, f5, f6, f7, f8⟩ := runq_deassign_runs
      (update_load
        { st with
          prv := rqd_store st.prv q0
            { st.prv.rqd q0 with runq := (st.prv.rqd q0).runq.erase svc } }
        q0 none (-1) now) svc q0 hsched hrqd
      (by
        simp only [update_load, rqd_store_same]
        rw [(update_runq_load_lists _ _ _ _).2.2.2.2.1]
        exact hnot)
    simp only [update_load, rqd_store_same] at f1 f2 f3 f4 f5 f6 f7 f8
    refine ⟨rD, ?_, ?_, ?_, ?_, ?_, ?_, ?_, ?_, ?_⟩
    · rw [hD]
      simp only [update_load, rqd_store_overwrite]
    · rw [f1, (update_runq_load_lists _ _ _ _).1]
    · rw [f2, (update_runq_load_lists _ _ _ _).2.1]
    · rw [f3, (update_runq_load_lists _ _ _ _).2.2.1]
    · rw [f4, (update_runq_load_lists _ _ _ _).2.2.2.1]
    · rw [f5, (update_runq_load_lists _ _ _ _).2.2.2.2.1]
    · rw [f6, (update_runq_load_lists _ _ _ _).2.2.2.2.2.1]
    · rw [f7, if_pos honq]
      congr 2
      exact update_runq_load_b_runq _ _ _ _ _
    · rw [f8, if_pos honq, (update_runq_load_lists _ _ _ _).2.2.2.2.2.2.2]
  · rw [if_neg (by simp [hon, honq])]
    simp only []
    obtain ⟨rD, hD, f1, f2, f3, f4, f5, f6, f7, f8⟩ :=
      runq_deassign_runs st svc q0 hsched hrqd honq
    refine ⟨rD, hD, f1, f2, f3, f4, ?_, f6, ?_, ?_⟩
    · rw [f5, List.erase_of_not_mem honq]
    · rw [f7, if_neg honq]
    · rw [f8, if_neg honq]

/-- The record `__runq_assign` writes into the slot of the runqueue: the entity
joins the end of the assignment list and its load average is added to the
balancing average. -/
theorem runq_assign_state (st : sched_state) (svc : Nat) (q : Int) :
    ∃ rA, __runq_assign st svc q =
        { st with
          heap := heap_store st.heap svc { st.heap svc with rqd := some q }
          prv := rqd_store st.prv q rA } ∧
      rA.id = (st.prv.rqd q).id ∧ rA.active = (st.prv.rqd q).active ∧
      rA.idle = (st.prv.rqd q).idle ∧ rA.tickled = (st.prv.rqd q).tickled ∧
      rA.runq = (st.prv.rqd q).runq ∧ rA.svc = (st.prv.rqd q).svc ++ [svc] ∧
      rA.b_avgload = to_s64 ((st.prv.rqd q).b_avgload + (st.heap svc).avgload) ∧
      rA.load_last_update = (st.prv.rqd q).load_last_update ∧
      rA.load = (st.prv.rqd q).load := by
  unfold __runq_assign
  simp only []
  refine ⟨_, rfl, ?_⟩
  rw [update_max_weight_frame]
  simp [heap_store_same]

/-- An entity that is not idle, not running, not flagged scheduled, assigned to
the runqueue of `cpu` and not yet on its runnable list is put on the list by
`runq_insert`; the list gains the entity and nothing else. -/
theorem runq_insert_runs (st : sched_state) (cpu svc : Nat)
    (hproc : (st.heap svc).processor = cpu)
    (hrqd : (st.heap svc).rqd = some (c2r st cpu))
    (hid : (st.prv.rqd (c2r st cpu)).id = c2r st cpu)
    (hidle : (st.heap svc).is_idle = false)
    (hrun : (st.heap svc).is_running = false)
    (hsched : (st.heap svc).flags &&& CSFLAG_scheduled = 0)
    (hoff : svc ∉ (st.prv.rqd (c2r st cpu)).runq) :
    ∃ l, runq_insert st cpu svc = some
        { st with
          prv := rqd_store st.prv (c2r st cpu) { st.prv.rqd (c2r st cpu) with runq := l } } ∧
      l.Perm (svc :: (st.prv.rqd (c2r st cpu)).runq) := by
  have hon : __vcpu_on_runq st svc = false := by
    unfold __vcpu_on_runq
    rw [hrqd]
    simpa using hoff
  unfold runq_insert
  rw [if_neg (by simp [hon]), if_neg (by simp [hproc])]
  unfold __runq_insert RQD
  rw [if_neg (by simp [hrqd, hid]), if_neg (by simp [hidle]), if_neg (by simp [hrun]),
    if_neg (by simp [hsched])]
  exact ⟨_, rfl, runq_insert_scan_perm _ _ _ _⟩

/-- Safety of tickling carries over to a state that has the same processors,
the same current entities with the same idle flag, weight and idle credit, and
a runqueue with the same active and idle masks and no tickled bit less. -/
theorem tickle_safe_of_same (a b : sched_state) (q : Int)
    (hnr : b.nr_cpu_ids = a.nr_cpu_ids) (hcur : b.curr_on_cpu = a.curr_on_cpu)
    (hact : (b.prv.rqd q).active = (a.prv.rqd q).active)
    (hidl : (b.prv.rqd q).idle = (a.prv.rqd q).idle)
    (htk : ∀ p, p ∈ (a.prv.rqd q).tickled → p ∈ (b.prv.rqd q).tickled)
    (hheap : ∀ x, (b.heap x).is_idle = (a.heap x).is_idle ∧
      (b.heap x).weight = (a.heap x).weight ∧
      ((a.heap x).is_idle = true → (b.heap x).credit = (a.heap x).credit))
    (h : tickle_safe a q) : tickle_safe b q := by
  intro p hp
  rw [hnr, hact] at hp
  have := h p hp
  rw [hcur, (hheap _).1, (hheap _).2.1, hidl]
  by_cases hi : (a.heap (a.curr_on_cpu p)).is_idle = true
  · rw [if_pos hi] at this ⊢
    refine ⟨by rw [(hheap _).2.2 hi]; exact this.1, ?_⟩
    rcases this.2 with h1 | h1
    · exact Or.inl h1
    · exact Or.inr (htk p h1)
  · rw [if_neg hi] at this ⊢
    exact this

theorem rqd_store_runq_map (prv : csched2_private) (q : Int) (r : csched2_runqueue_data) :
    (rqd_store prv q r).runq_map = prv.runq_map := rfl

theorem rqd_store_shift (prv : csched2_private) (q : Int) (r : csched2_runqueue_data) :
    (rqd_store prv q r).load_window_shift = prv.load_window_shift := rfl

/-- Inserting and tickling an entity on the runqueue it was just assigned to:
both run to their end when the checks of `runq_insert` pass and the state is
safe to tickle.  They write the runnable list and the tickled mask of the
runqueue, records of entities that are not idle, and the reschedule
requests. -/
theorem insert_tickle_runs (s : sched_state) (svc p : Nat) (t now : Int)
    (hproc : (s.heap svc).processor = p) (hrqd : (s.heap svc).rqd = some t)
    (hmap : s.prv.runq_map p = t) (hid : (s.prv.rqd t).id = t)
    (hidle : (s.heap svc).is_idle = false) (hrun : (s.heap svc).is_running = false)
    (hsched : (s.heap svc).flags &&& CSFLAG_scheduled = 0)
    (hoff : svc ∉ (s.prv.rqd t).runq)
    (hp : p ∈ cpumask_cpus s.nr_cpu_ids (s.prv.rqd t).active)
    (hsafe : tickle_safe s t) :
    ∃ heap1 l tk sq,
      (match runq_insert s p svc with
        | none => none
        | some st7 => runq_tickle st7 p svc now) = some
        { s with
          heap := heap1
          prv := rqd_store s.prv t { s.prv.rqd t with runq := l, tickled := tk }
          softirq := sq } ∧
      l.Perm (svc :: (s.prv.rqd t).runq) ∧
      (∀ x, x ∈ (s.prv.rqd t).tickled → x ∈ tk) ∧
      (∀ x, heap1 x = { s.heap x with
        credit := (heap1 x).credit, start_time := (heap1 x).start_time,
        residual := (heap1 x).residual }) ∧
      (∀ x, (s.heap x).is_idle = true → heap1 x = s.heap x) := by
  subst hmap
  obtain ⟨l, hins, hperm⟩ := runq_insert_runs s p svc hproc hrqd hid hidle hrun hsched hoff
  rw [hins]
  simp only []
  obtain ⟨heap1, tk, sq, htk, g1, g2, g3⟩ := runq_tickle_runs
    { s with
      prv := rqd_store s.prv (c2r s p) { s.prv.rqd (c2r s p) with runq := l } }
    p svc now hproc hrqd
    (by
      simp only [c2r, rqd_store_runq_map, rqd_store_same]
      exact hp)
    (tickle_safe_of_same s _ _ rfl rfl
      (by simp only [c2r, rqd_store_runq_map, rqd_store_same]) (by simp only [c2r, rqd_store_runq_map, rqd_store_same])
      (by
        intro x hx
        simp only [c2r, rqd_store_runq_map, rqd_store_same]
        exact hx)
      (fun x => ⟨rfl, rfl, fun _ => rfl⟩) hsafe)
  refine ⟨heap1, l, tk, sq, ?_, hperm, ?_, g1, g2⟩
  · rw [htk]
    simp only [c2r, rqd_store_runq_map, rqd_store_same, rqd_store_overwrite]
  · intro x hx
    apply g3
    simp only [c2r, rqd_store_runq_map, rqd_store_same]
    exact hx

/-- The balancing average a load update stores depends on the window shift and
on the load, the time of the last update and the balancing average of the
runqueue only. -/
theorem update_runq_load_b_congr (prv prv1 : csched2_private) (r r1 : csched2_runqueue_data)
    (change now : Int) (hs : prv1.load_window_shift = prv.load_window_shift)
    (hl : r1.load = r.load) (ht : r1.load_last_update = r.load_last_update)
    (hb : r1.b_avgload = r.b_avgload) :
    (__update_runq_load prv1 r1 change now).b_avgload
      = (__update_runq_load prv r change now).b_avgload := by
  unfold __update_runq_load
  simp only []
  rw [hs, hl, ht, hb]
  split_ifs <;> rfl

/-- Assigning an entity to the runqueue in slot `t`, then inserting and tickling
it there: the steps run to their end when the checks of `runq_insert` pass and
the state is safe to tickle. -/
theorem attach_on_runq_runs (s : sched_state) (svc p : Nat) (t now : Int)
    (hproc : (s.heap svc).processor = p)
    (hmap : s.prv.runq_map p = t) (hid : (s.prv.rqd t).id = t)
    (hidle : (s.heap svc).is_idle = false) (hrun : (s.heap svc).is_running = false)
    (hsched : (s.heap svc).flags &&& CSFLAG_scheduled = 0)
    (hoff : svc ∉ (s.prv.rqd t).runq)
    (hp : p ∈ cpumask_cpus s.nr_cpu_ids (s.prv.rqd t).active)
    (hsafe : tickle_safe s t) :
    ∃ heap1 rA sq,
      (match runq_insert (update_load (__runq_assign s svc t) t none 1 now) p svc with
        | none => none
        | some st7 => runq_tickle st7 p svc now) = some
        { s with heap := heap1, prv := rqd_store s.prv t rA, softirq := sq } ∧
      rA.id = (s.prv.rqd t).id ∧ rA.active = (s.prv.rqd t).active ∧
      rA.idle = (s.prv.rqd t).idle ∧
      (∀ x, x ∈ (s.prv.rqd t).tickled → x ∈ rA.tickled) ∧
      rA.svc = (s.prv.rqd t).svc ++ [svc] ∧
      rA.runq.Perm (svc :: (s.prv.rqd t).runq) ∧
      rA.b_avgload =
        (__update_runq_load s.prv
          { s.prv.rqd t with
            b_avgload := to_s64 ((s.prv.rqd t).b_avgload + (s.heap svc).avgload) }
          1 now).b_avgload ∧
      rA.load_last_update = now >>> LOADAVG_GRANULARITY_SHIFT ∧
      (∀ x, heap1 x =
        { s.heap x with
          rqd := if x = svc then some t else (s.heap x).rqd
          credit := (heap1 x).credit
          start_time := (heap1 x).start_time
          residual := (heap1 x).residual }) ∧
      (∀ x, (s.heap x).is_idle = true → (heap1 x).credit = (s.heap x).credit) := by
  obtain ⟨rA0, hA, f1, f2, f3, f4, f5, f6, f7, f8, f9⟩ := runq_assign_state s svc t
  rw [hA]
  have hu := update_runq_load_lists (rqd_store s.prv t rA0) rA0 1 now
  obtain ⟨heap1, l, tk, sq, hrun1, hperm, htk, g1, g2⟩ := insert_tickle_runs
    (update_load
      { s with
        heap := heap_store s.heap svc { s.heap svc with rqd := some t }
        prv := rqd_store s.prv t rA0 } t none 1 now) svc p t now
    (by simp only [update_load, heap_store_same]; exact hproc)
    (by simp only [update_load, heap_store_same])
    (by simp only [update_load, rqd_store_runq_map]; exact hmap)
    (by simp only [update_load, rqd_store_same]; rw [hu.1, f1]; exact hid)
    (by simp only [update_load, heap_store_same]; exact hidle)
    (by simp only [update_load, heap_store_same]; exact hrun)
    (by simp only [update_load, heap_store_same]; exact hsched)
    (by simp only [update_load, rqd_store_same]; rw [hu.2.2.2.2.1, f5]; exact hoff)
    (by simp only [update_load, rqd_store_same]; rw [hu.2.1, f2]; exact hp)
    (tickle_safe_of_same s _ t rfl rfl
      (by simp only [update_load, rqd_store_same]; rw [hu.2.1, f2])
      (by simp only [update_load, rqd_store_same]; rw [hu.2.2.1, f3])
      (by
        intro x hx
        simp only [update_load, rqd_store_same]
        rw [hu.2.2.2.1, f4]
        exact hx)
      (by
        intro x
        by_cases hx : x = svc
        · subst hx
          simp [update_load, heap_store_same]
        · simp [update_load, heap_store_other _ _ _ _ hx])
      hsafe)
  have hfin := hrun1
  simp only [update_load, rqd_store_same, rqd_store_overwrite] at hperm htk g1 g2
  refine ⟨heap1,
    { __update_runq_load (rqd_store s.prv t rA0) rA0 1 now with runq := l, tickled := tk },
    sq, ?_, ?_, ?_, ?_, ?_, ?_, ?_, ?_, ?_, ?_, ?_⟩
  · rw [hfin]
    simp only [update_load, rqd_store_same, rqd_store_overwrite]
  · show (__update_runq_load (rqd_store s.prv t rA0) rA0 1 now).id = _
    rw [hu.1, f1]
  · show (__update_runq_load (rqd_store s.prv t rA0) rA0 1 now).active = _
    rw [hu.2.1, f2]
  · show (__update_runq_load (rqd_store s.prv t rA0) rA0 1 now).idle = _
    rw [hu.2.2.1, f3]
  · intro x hx
    apply htk
    rw [hu.2.2.2.1, f4]
    exact hx
  · show (__update_runq_load (rqd_store s.prv t rA0) rA0 1 now).svc = _
    rw [hu.2.2.2.2.2.1, f6]
  · show l.Perm _
    rw [hu.2.2.2.2.1, f5] at hperm
    exact hperm
  · show (__update_runq_load (rqd_store s.prv t rA0) rA0 1 now).b_avgload = _
    exact update_runq_load_b_congr _ _ _ _ _ _ rfl f9 f8 f7
  · show (__update_runq_load (rqd_store s.prv t rA0) rA0 1 now).load_last_update = _
    exact hu.2.2.2.2.2.2.2
  · intro x
    rw [g1 x]
    by_cases hx : x = svc
    · subst hx
      simp [heap_store_same]
    · simp [heap_store_other _ _ _ _ hx, hx]
  · intro x hx
    by_cases hxs : x = svc
    · subst hxs
      have := g2 x (by simp only [heap_store_same]; exact hx)
      rw [this, heap_store_same]
    · have := g2 x (by rw [heap_store_other _ _ _ _ hxs]; exact hx)
      rw [this, heap_store_other _ _ _ _ hxs]

/-- The second half of a move runs to its end when the active processors of the
target runqueue intersect the hard affinity of the entity and, for an entity
that was on a runnable list, the checks of `runq_insert` and `runq_tickle`
pass.  It writes the records of entities, the record `rA` of the target
runqueue and the reschedule requests. -/
theorem migrate_attach_runs (st : sched_state) (svc : Nat) (t : Int) (now : Int)
    (on_runq : Bool)
    (hint : cpumask_intersects st.nr_cpu_ids (st.heap svc).cpu_hard_affinity
      (st.prv.rqd t).active = true)
    (hon : on_runq = true →
      svc ∉ (st.prv.rqd t).runq ∧ (st.heap svc).is_idle = false ∧
      (st.heap svc).is_running = false ∧ (st.heap svc).flags &&& CSFLAG_scheduled = 0 ∧
      (st.prv.rqd t).id = t ∧
      (∀ p ∈ cpumask_cpus st.nr_cpu_ids (st.prv.rqd t).active, st.prv.runq_map p = t) ∧
      tickle_safe st t) :
    ∃ heap1 rA sq, migrate_attach st svc t now on_runq = some
        { st with heap := heap1, prv := rqd_store st.prv t rA, softirq := sq } ∧
      rA.id = (st.prv.rqd t).id ∧ rA.active = (st.prv.rqd t).active ∧
      rA.idle = (st.prv.rqd t).idle ∧
      (∀ p, p ∈ (st.prv.rqd t).tickled → p ∈ rA.tickled) ∧
      rA.svc = (st.prv.rqd t).svc ++ [svc] ∧
      (if on_runq = true then rA.runq.Perm (svc :: (st.prv.rqd t).runq)
        else rA.runq = (st.prv.rqd t).runq) ∧
      rA.b_avgload =
        (if on_runq = true then
          (__update_runq_load st.prv
            { st.prv.rqd t with
              b_avgload := to_s64 ((st.prv.rqd t).b_avgload + (st.heap svc).avgload) }
            1 now).b_avgload
        else to_s64 ((st.prv.rqd t).b_avgload + (st.heap svc).avgload)) ∧
      rA.load_last_update =
        (if on_runq = true then now >>> LOADAVG_GRANULARITY_SHIFT
          else (st.prv.rqd t).load_last_update) ∧
      (∀ x, heap1 x =
        { st.heap x with
          rqd := if x = svc then some t else (st.heap x).rqd
          processor :=
            if x = svc then
              cpumask_any st.nr_cpu_ids
                (cpumask_and (st.heap svc).cpu_hard_affinity (st.prv.rqd t).active)
            else (st.heap x).processor
          credit := (heap1 x).credit
          start_time := (heap1 x).start_time
          residual := (heap1 x).residual }) ∧
      (∀ x, (st.heap x).is_idle = true → (heap1 x).credit = (st.heap x).credit) := by
  obtain ⟨c1, c2, c3⟩ := cpumask_any_of_intersects _ _ _ hint
  unfold migrate_attach
  simp only []
  rw [if_neg (not_le.mpr c1)]
  cases on_runq with
  | false =>
    obtain ⟨rA0, hA, f1, f2, f3, f4, f5, f6, f7, f8, f9⟩ := runq_assign_state
      { st with
        heap := heap_store st.heap svc
          { st.heap svc with
            processor := cpumask_any st.nr_cpu_ids
              (cpumask_and (st.heap svc).cpu_hard_affinity (st.prv.rqd t).active) } } svc t
    rw [hA]
    simp only [heap_store_same] at f7 ⊢
    simp only [Bool.false_eq_true, if_false]
    refine ⟨_, rA0, st.softirq, rfl, f1, f2, f3, fun p hp => f4 ▸ hp, f6, f5, f7, f8, ?_, ?_⟩
    · intro x
      by_cases hx : x = svc
      · subst hx
        simp [heap_store]
      · simp [heap_store, hx]
    · intro x _
      by_cases hx : x = svc
      · subst hx
        simp [heap_store]
      · simp [heap_store, hx]
  | true =>
    simp only [if_true]
    obtain ⟨hoff, hidle, hrun, hsched, hid, hmap, hsafe⟩ := hon rfl
    obtain ⟨heap1, rA, sq, h, a1, a2, a3, a4, a5, a6, a7, a8, a9, a10⟩ := attach_on_runq_runs
      { st with
        heap := heap_store st.heap svc
          { st.heap svc with
            processor := cpumask_any st.nr_cpu_ids
              (cpumask_and (st.heap svc).cpu_hard_affinity (st.prv.rqd t).active) } }
      svc (cpumask_any st.nr_cpu_ids
        (cpumask_and (st.heap svc).cpu_hard_affinity (st.prv.rqd t).active)) t now
      (by simp only [heap_store_same])
      (hmap _ ((mem_cpumask_cpus _ _ _).mpr ⟨c1, c3⟩)) hid
      (by simp only [heap_store_same]; exact hidle)
      (by simp only [heap_store_same]; exact hrun)
      (by simp only [heap_store_same]; exact hsched)
      hoff ((mem_cpumask_cpus _ _ _).mpr ⟨c1, c3⟩)
      (tickle_safe_of_same st _ t rfl rfl rfl rfl (fun _ hx => hx)
        (by
          intro x
          by_cases hx : x = svc
          · subst hx
            simp [heap_store_same]
          · simp [heap_store_other _ _ _ _ hx])
        hsafe)
    simp only [heap_store_same] at a7
    refine ⟨heap1, rA, sq, h, a1, a2, a3, a4, a5, a6, a7, a8, ?_, ?_⟩
    · intro x
      rw [a9 x]
      by_cases hx : x = svc
      · subst hx
        simp [heap_store_same]
      · simp [heap_store_other _ _ _ _ hx, hx]
    · intro x hx
      by_cases hxs : x = svc
      · subst hxs
        have := a10 x (by simp only [heap_store_same]; exact hx)
        simpa [heap_store_same] using this
      · have := a10 x (by simp only [heap_store_other _ _ _ _ hxs]; exact hx)
        simpa [heap_store_other _ _ _ _ hxs] using this

/-- The move of an entity that is not flagged scheduled runs to its end when
the entity is assigned to the runqueue in slot `q0`, whose runnable list holds
no entity twice, the active processors of the target runqueue in slot `t`
intersect its hard affinity and, if the entity is on the runnable list, the
checks of `runq_insert` and `runq_tickle` pass on the target.  `rD` is the
record written into the slot `q0`, then `rA` into the slot `t`. -/
theorem migrate_runs (st : sched_state) (svc : Nat) (t now q0 : Int)
    (hsched : (st.heap svc).flags &&& CSFLAG_scheduled = 0)
    (hrqd : (st.heap svc).rqd = some q0)
    (hnodup : (st.prv.rqd q0).runq.Nodup)
    (hint : cpumask_intersects st.nr_cpu_ids (st.heap svc).cpu_hard_affinity
      (st.prv.rqd t).active = true)
    (hon : svc ∈ (st.prv.rqd q0).runq →
      (t ≠ q0 → svc ∉ (st.prv.rqd t).runq) ∧ (st.heap svc).is_idle = false ∧
      (st.heap svc).is_running = false ∧ (st.prv.rqd t).id = t ∧
      (∀ p ∈ cpumask_cpus st.nr_cpu_ids (st.prv.rqd t).active, st.prv.runq_map p = t) ∧
      tickle_safe st t) :
    ∃ heap1 rD rA sq, migrate st svc t now = some
        { st with
          heap := heap1, prv := rqd_store (rqd_store st.prv q0 rD) t rA, softirq := sq } ∧
      (rD.id = (st.prv.rqd q0).id ∧ rD.active = (st.prv.rqd q0).active ∧
        rD.idle = (st.prv.rqd q0).idle ∧ rD.tickled = (st.prv.rqd q0).tickled ∧
        rD.runq = (st.prv.rqd q0).runq.erase svc ∧ rD.svc = (st.prv.rqd q0).svc.erase svc ∧
        rD.b_avgload = to_s64
          ((if svc ∈ (st.prv.rqd q0).runq then
              (__update_runq_load st.prv (st.prv.rqd q0) (-1) now).b_avgload
            else (st.prv.rqd q0).b_avgload) - (st.heap svc).avgload) ∧
        rD.load_last_update =
          (if svc ∈ (st.prv.rqd q0).runq then now >>> LOADAVG_GRANULARITY_SHIFT
            else (st.prv.rqd q0).load_last_update)) ∧
      (rA.id = ((rqd_store st.prv q0 rD).rqd t).id ∧
        rA.active = ((rqd_store st.prv q0 rD).rqd t).active ∧
        rA.idle = ((rqd_store st.prv q0 rD).rqd t).idle ∧
        (∀ p, p ∈ ((rqd_store st.prv q0 rD).rqd t).tickled → p ∈ rA.tickled) ∧
        rA.svc = ((rqd_store st.prv q0 rD).rqd t).svc ++ [svc] ∧
        (if svc ∈ (st.prv.rqd q0).runq then
            rA.runq.Perm (svc :: ((rqd_store st.prv q0 rD).rqd t).runq)
          else rA.runq = ((rqd_store st.prv q0 rD).rqd t).runq) ∧
        rA.b_avgload =
          (if svc ∈ (st.prv.rqd q0).runq then
            (__update_runq_load st.prv
              { (rqd_store st.prv q0 rD).rqd t with
                b_avgload := to_s64 (((rqd_store st.prv q0 rD).rqd t).b_avgload
                  + (st.heap svc).avgload) }
              1 now).b_avgload
          else to_s64 (((rqd_store st.prv q0 rD).rqd t).b_avgload + (st.heap svc).avgload)) ∧
        rA.load_last_update =
          (if svc ∈ (st.prv.rqd q0).runq then now >>> LOADAVG_GRANULARITY_SHIFT
            else ((rqd_store st.prv q0 rD).rqd t).load_last_update)) ∧
      (∀ x, heap1 x =
        { st.heap x with
          rqd := if x = svc then some t else (st.heap x).rqd
          processor :=
            if x = svc then
              cpumask_any st.nr_cpu_ids
                (cpumask_and (st.heap svc).cpu_hard_affinity (st.prv.rqd t).active)
            else (st.heap x).processor
          credit := (heap1 x).credit
          start_time := (heap1 x).start_time
          residual := (heap1 x).residual }) ∧
      (∀ x, (st.heap x).is_idle = true → (heap1 x).credit = (st.heap x).credit) := by
  obtain ⟨rD, hD, d1, d2, d3, d4, d5, d6, d7, d8⟩ :=
    migrate_detach_runs st svc now q0 hsched hrqd hnodup
  have honq : __vcpu_on_runq st svc = decide (svc ∈ (st.prv.rqd q0).runq) := by
    unfold __vcpu_on_runq
    rw [hrqd]
  -- the target runqueue after the first half
  have hT : ((rqd_store st.prv q0 rD).rqd t).id = (st.prv.rqd t).id ∧
      ((rqd_store st.prv q0 rD).rqd t).active = (st.prv.rqd t).active ∧
      ((rqd_store st.prv q0 rD).rqd t).idle = (st.prv.rqd t).idle ∧
      ((rqd_store st.prv q0 rD).rqd t).tickled = (st.prv.rqd t).tickled := by
    by_cases htq : t = q0
    · subst htq
      rw [rqd_store_same]
      exact ⟨d1, d2, d3, d4⟩
    · rw [rqd_store_other _ _ _ _ htq]
      exact ⟨rfl, rfl, rfl, rfl⟩
  have hToff : svc ∈ (st.prv.rqd q0).runq → svc ∉ ((rqd_store st.prv q0 rD).rqd t).runq := by
    intro hmem
    by_cases htq : t = q0
    · subst htq
      rw [rqd_store_same, d5]
      exact fun h => ((List.Nodup.mem_erase_iff hnodup).mp h).1 rfl
    · rw [rqd_store_other _ _ _ _ htq]
      exact (hon hmem).1 htq
  obtain ⟨heap1, rA, sq, hA, a1, a2, a3, a4, a5, a6, a7, a8, a9, a10⟩ := migrate_attach_runs
    { st with
      heap := heap_store st.heap svc { st.heap svc with rqd := none }
      prv := rqd_store st.prv q0 rD } svc t now (decide (svc ∈ (st.prv.rqd q0).runq))
    (by
      simp only [heap_store_same]
      rw [hT.2.1]
      exact hint)
    (by
      intro hdec
      have hmem : svc ∈ (st.prv.rqd q0).runq := of_decide_eq_true hdec
      obtain ⟨_, hi, hr, hid, hmap, hsafe⟩ := hon hmem
      refine ⟨hToff hmem, ?_, ?_, ?_, ?_, ?_, ?_⟩
      · simp only [heap_store_same]; exact hi
      · simp only [heap_store_same]; exact hr
      · simp only [heap_store_same]; exact hsched
      · show ((rqd_store st.prv q0 rD).rqd t).id = t
        rw [hT.1]
        exact hid
      · show ∀ p ∈ cpumask_cpus st.nr_cpu_ids ((rqd_store st.prv q0 rD).rqd t).active,
          st.prv.runq_map p = t
        rw [hT.2.1]
        exact hmap
      · exact tickle_safe_of_same st _ t rfl rfl hT.2.1 hT.2.2.1
          (fun p hp => by
            show p ∈ ((rqd_store st.prv q0 rD).rqd t).tickled
            rw [hT.2.2.2]
            exact hp)
          (by
            intro x
            by_cases hx : x = svc
            · subst hx
              simp [heap_store_same]
            · simp [heap_store_other _ _ _ _ hx])
          hsafe)
  simp only [heap_store_same, decide_eq_true_eq] at a6 a7 a8
  refine ⟨heap1, rD, rA, sq, ?_, ⟨d1, d2, d3, d4, d5, d6, d7, d8⟩,
    ⟨a1, a2, a3, a4, a5, a6, a7, a8⟩, ?_, ?_⟩
  · unfold migrate
    rw [if_neg (by simp [hsched]), hD]
    simp only []
    rw [honq]
    exact hA
  · intro x
    rw [a9 x]
    by_cases hx : x = svc
    · subst hx
      simp only [heap_store_same, if_true]
      rw [hT.2.1]
    · simp [heap_store_other _ _ _ _ hx, hx]
  · intro x hx
    by_cases hxs : x = svc
    · subst hxs
      have := a10 x (by simp only [heap_store_same]; exact hx)
      simpa [heap_store_same] using this
    · have := a10 x (by simp only [heap_store_other _ _ _ _ hxs]; exact hx)
      simpa [heap_store_other _ _ _ _ hxs] using this

/-- C19: `migrate` of an entity that is not flagged scheduled to a runqueue
`trqd` whose active processors intersect its hard affinity runs to its end;
afterwards the entity is on the assignment list of `trqd` and of no other
runqueue, points to `trqd`, its processor is an active processor of `trqd`
that its hard affinity allows, and it is on the runnable list of `trqd` exactly
if it was on the runnable list of its old runqueue.  The state before is well
formed: the entity is assigned to the runqueue `q0` it points to and to no
other, the lists of `q0` hold no entity twice, the entity is on the runnable
list of no other runqueue, and, if it is on the runnable list, the checks of
`runq_insert` and `runq_tickle` pass on the target (the entity is not idle and
not running, the slot of the target is its `id`, the processors of the target
map to it, the current entities can have their credit burned). -/
theorem migrate_assignment (st : sched_state) (svc : Nat) (trqd now q0 : Int)
    (hsched : (st.heap svc).flags &&& CSFLAG_scheduled = 0)
    (hint : cpumask_intersects st.nr_cpu_ids (st.heap svc).cpu_hard_affinity
      (st.prv.rqd trqd).active = true)
    (hrqd : (st.heap svc).rqd = some q0)
    (hassigned : ∀ q, svc ∈ (st.prv.rqd q).svc → q = q0)
    (hsvc : (st.prv.rqd q0).svc.Nodup)
    (hnodup : (st.prv.rqd q0).runq.Nodup)
    (hother : trqd ≠ q0 → svc ∉ (st.prv.rqd trqd).runq)
    (hon : svc ∈ (st.prv.rqd q0).runq →
      (st.heap svc).is_idle = false ∧ (st.heap svc).is_running = false ∧
      (st.prv.rqd trqd).id = trqd ∧
      (∀ p ∈ cpumask_cpus st.nr_cpu_ids (st.prv.rqd trqd).active, st.prv.runq_map p = trqd) ∧
      tickle_safe st trqd) :
    ∃ st1, migrate st svc trqd now = some st1 ∧
      (∀ q, svc ∈ (st1.prv.rqd q).svc ↔ q = trqd) ∧
      (st1.heap svc).rqd = some trqd ∧
      (st1.heap svc).processor < st1.nr_cpu_ids ∧
      (st1.heap svc).processor ∈ (st1.prv.rqd trqd).active ∧
      (st1.heap svc).processor ∈ (st1.heap svc).cpu_hard_affinity ∧
      (svc ∈ (st1.prv.rqd trqd).runq ↔ svc ∈ (st.prv.rqd q0).runq) := by
  obtain ⟨heap1, rD, rA, sq, hm, ⟨d1, d2, d3, d4, d5, d6, d7, d8⟩,
    ⟨a1, a2, a3, a4, a5, a6, a7, a8⟩, hh, _⟩ :=
    migrate_runs st svc trqd now q0 hsched hrqd hnodup hint
      (fun h => ⟨hother, (hon h).1, (hon h).2.1, (hon h).2.2.1, (hon h).2.2.2.1,
        (hon h).2.2.2.2⟩)
  obtain ⟨c1, c2, c3⟩ := cpumask_any_of_intersects _ _ _ hint
  have hTact : ((rqd_store st.prv q0 rD).rqd trqd).active = (st.prv.rqd trqd).active := by
    by_cases htq : trqd = q0
    · subst htq
      rw [rqd_store_same]
      exact d2
    · rw [rqd_store_other _ _ _ _ htq]
  have hToff : svc ∉ ((rqd_store st.prv q0 rD).rqd trqd).runq := by
    by_cases htq : trqd = q0
    · subst htq
      rw [rqd_store_same, d5]
      exact fun h => ((List.Nodup.mem_erase_iff hnodup).mp h).1 rfl
    · rw [rqd_store_other _ _ _ _ htq]
      exact hother htq
  have hsv := hh svc
  simp only [if_true] at hsv
  refine ⟨_, hm, ?_, ?_, ?_, ?_, ?_, ?_⟩
  · intro q
    show svc ∈ ((rqd_store (rqd_store st.prv q0 rD) trqd rA).rqd q).svc ↔ q = trqd
    by_cases hq : q = trqd
    · subst hq
      rw [rqd_store_same, a5]
      simp
    · rw [rqd_store_other _ _ _ _ hq]
      refine ⟨fun hmem => ?_, fun h => absurd h hq⟩
      exfalso
      by_cases hq0 : q = q0
      · subst hq0
        rw [rqd_store_same, d6] at hmem
        exact ((List.Nodup.mem_erase_iff hsvc).mp hmem).1 rfl
      · rw [rqd_store_other _ _ _ _ hq0] at hmem
        exact hq0 (hassigned q hmem)
  · show (heap1 svc).rqd = some trqd
    rw [hsv]
  · show (heap1 svc).processor < st.nr_cpu_ids
    rw [hsv]
    exact c1
  · show (heap1 svc).processor ∈ ((rqd_store (rqd_store st.prv q0 rD) trqd rA).rqd trqd).active
    rw [rqd_store_same, a2, hTact, hsv]
    exact c3
  · show (heap1 svc).processor ∈ (heap1 svc).cpu_hard_affinity
    rw [hsv]
    exact c2
  · show svc ∈ ((rqd_store (rqd_store st.prv q0 rD) trqd rA).rqd trqd).runq ↔ _
    rw [rqd_store_same]
    by_cases hmem : svc ∈ (st.prv.rqd q0).runq
    · rw [if_pos hmem] at a6
      exact ⟨fun _ => hmem, fun _ => a6.mem_iff.mpr (List.mem_cons_self _ _)⟩
    · rw [if_neg hmem] at a6
      rw [a6]
      exact ⟨fun h => absurd h hToff, fun h => absurd h hmem⟩

theorem migrate_assignment_witness :
    ∃ st1, migrate bl_state_move 1 1 1024000 = some st1 ∧
      (∀ q, 1 ∈ (st1.prv.rqd q).svc ↔ q = 1) ∧
      (st1.heap 1).rqd = some 1 ∧
      (st1.heap 1).processor < st1.nr_cpu_ids ∧
      (st1.heap 1).processor ∈ (st1.prv.rqd 1).active ∧
      (st1.heap 1).processor ∈ (st1.heap 1).cpu_hard_affinity ∧
      (1 ∈ (st1.prv.rqd 1).runq ↔ 1 ∈ (bl_state_move.prv.rqd 0).runq) :=
  migrate_assignment bl_state_move 1 1 1024000 0 (by decide) (by decide) (by decide)
    (by
      intro q h
      by_contra hq
      by_cases h1 : q = 1
      · subst h1
        simp [bl_state_move, bl_state, bl_rqd] at h
      · simp [bl_state_move, bl_state, bl_rqd, bl_inactive, hq, h1] at h)
    (by decide) (by decide) (by decide) (by decide)

/-! ### The candidate search of the balancer -/

theorem refresh_extends_refl (now : Int) (st : sched_state) : refresh_extends now st st :=
  ⟨rfl, fun _ => Or.inl rfl⟩

theorem refresh_extends_prv (now : Int) (st f : sched_state) (h : refresh_extends now st f) :
    f.prv = st.prv := by
  rw [h.1]

theorem refresh_extends_refresh (now : Int) (st : sched_state) (s : Nat) :
    refresh_extends now st (refresh_svc_load st s now) := by
  refine ⟨rfl, fun x => ?_⟩
  by_cases hx : x = s
  · subst hx
    right
    simp [refresh_svc_load, heap_store_same]
  · left
    simp [refresh_svc_load, heap_store_other _ _ _ _ hx]

theorem refresh_extends_trans (now : Int) (a b c : sched_state)
    (hs1 : 1 ≤ a.prv.load_window_shift) (hs : a.prv.load_window_shift ≤ 31)
    (h0 : 0 ≤ now) (h1 : now < 9223372036854775808)
    (hab : refresh_extends now a b) (hbc : refresh_extends now b c) :
    refresh_extends now a c := by
  obtain ⟨e1, f1⟩ := hab
  obtain ⟨e2, f2⟩ := hbc
  have hprv : b.prv = a.prv := by rw [e1]
  refine ⟨?_, fun s => ?_⟩
  · rw [e2, e1]
  · rcases f2 s with h | h
    · rw [h]
      exact f1 s
    · rcases f1 s with g | g
      · right
        rw [h, g, hprv]
      · right
        rw [h, g, hprv, update_svc_load_idem a.prv _ now hs1 hs h0 h1]

theorem load_fresh_refresh (now : Int) (st : sched_state) (s : Nat)
    (hs1 : 1 ≤ st.prv.load_window_shift) (hs : st.prv.load_window_shift ≤ 31)
    (h0 : 0 ≤ now) (h1 : now < 9223372036854775808) :
    load_fresh now (refresh_svc_load st s now) s := by
  unfold load_fresh
  simp only [refresh_svc_load, heap_store_same]
  exact update_svc_load_idem st.prv _ now hs1 hs h0 h1

/-- An entity whose load is up to date keeps its record under further
refreshes. -/
theorem load_fresh_extends (now : Int) (st f : sched_state) (s : Nat)
    (hf : load_fresh now st s) (he : refresh_extends now st f) :
    f.heap s = st.heap s ∧ load_fresh now f s := by
  obtain ⟨e1, f1⟩ := he
  have hprv : f.prv = st.prv := by rw [e1]
  have hh : f.heap s = st.heap s := by
    rcases f1 s with h | h
    · exact h
    · rw [h]
      exact hf
  refine ⟨hh, ?_⟩
  unfold load_fresh
  rw [hh, hprv]
  exact hf

/-- Refreshing loads does not change which entities may move. -/
theorem vcpu_is_migrateable_extends (now : Int) (st f : sched_state) (s : Nat) (q : Int)
    (he : refresh_extends now st f) :
    vcpu_is_migrateable f s q = vcpu_is_migrateable st s q := by
  obtain ⟨e1, f1⟩ := he
  have hprv : f.prv = st.prv := by rw [e1]
  have hnr : f.nr_cpu_ids = st.nr_cpu_ids := by rw [e1]
  have hfl : (f.heap s).flags = (st.heap s).flags ∧
      (f.heap s).cpu_hard_affinity = (st.heap s).cpu_hard_affinity := by
    rcases f1 s with h | h
    · rw [h]
      exact ⟨rfl, rfl⟩
    · rw [h, update_svc_load_frame]
      exact ⟨rfl, rfl⟩
  unfold vcpu_is_migrateable
  rw [hfl.1, hfl.2, hprv, hnr]

/-- The distance `consider` computes reads the balancing averages of the two
runqueues and the records of the entities it is given. -/
theorem consider_delta_congr (st f : sched_state) (l o : Int) (ps qs : Option Nat)
    (hprv : f.prv = st.prv)
    (hp : ∀ p, ps = some p → f.heap p = st.heap p)
    (hq : ∀ q, qs = some q → f.heap q = st.heap q) :
    consider_delta f l o ps qs = consider_delta st l o ps qs := by
  unfold consider_delta consider_loads
  rw [hprv]
  cases ps with
  | none =>
    cases qs with
    | none => rfl
    | some q => simp only [hq q rfl]
  | some p =>
    cases qs with
    | none => simp only [hp p rfl]
    | some q => simp only [hp p rfl, hq q rfl]

/-- On entities whose load is up to date, `consider` gives the same result in
every state that is reached by refreshing loads. -/
theorem consider_extends (now : Int) (st f : sched_state) (bs : balance_state_t)
    (ps qs : Option Nat) (he : refresh_extends now st f)
    (hp : ∀ p, ps = some p → load_fresh now st p)
    (hq : ∀ q, qs = some q → load_fresh now st q) :
    consider st bs ps qs = consider f bs ps qs := by
  have hd : consider_delta f bs.lrqd bs.orqd ps qs = consider_delta st bs.lrqd bs.orqd ps qs :=
    consider_delta_congr st f _ _ ps qs (by rw [he.1])
      (fun p h => (load_fresh_extends now st f p (hp p h) he).1)
      (fun q h => (load_fresh_extends now st f q (hq q h) he).1)
  unfold consider
  rw [hd]

theorem consider_keeps_rqd (st : sched_state) (bs : balance_state_t) (ps qs : Option Nat) :
    (consider st bs ps qs).lrqd = bs.lrqd ∧ (consider st bs ps qs).orqd = bs.orqd := by
  unfold consider
  split_ifs <;> exact ⟨rfl, rfl⟩

theorem consider_foldl_keeps_rqd (f : sched_state) (cs : List (Option Nat × Option Nat)) :
    ∀ bs : balance_state_t,
      (cs.foldl (fun b c => consider f b c.1 c.2) bs).lrqd = bs.lrqd ∧
      (cs.foldl (fun b c => consider f b c.1 c.2) bs).orqd = bs.orqd := by
  induction cs with
  | nil => intro bs; exact ⟨rfl, rfl⟩
  | cons c rest ih =>
    intro bs
    rw [List.foldl_cons]
    obtain ⟨h1, h2⟩ := ih (consider f bs c.1 c.2)
    obtain ⟨g1, g2⟩ := consider_keeps_rqd f bs c.1 c.2
    exact ⟨h1.trans g1, h2.trans g2⟩

/-- The inner loop of the search is a run of `consider`, in the final state,
over the swaps of `push_svc` with the entities of the list that may move. -/
theorem balance_pull_loop_fold (now : Int) (f : sched_state) (push_svc : Nat)
    (hs1 : 1 ≤ f.prv.load_window_shift) (hs : f.prv.load_window_shift ≤ 31)
    (h0 : 0 ≤ now) (h1 : now < 9223372036854775808) (l : List Nat) :
    ∀ (st : sched_state) (bs : balance_state_t),
      load_fresh now st push_svc →
      refresh_extends now (balance_pull_loop push_svc now l st bs).1 f →
      refresh_extends now st (balance_pull_loop push_svc now l st bs).1 ∧
      (∀ s ∈ l, load_fresh now (balance_pull_loop push_svc now l st bs).1 s) ∧
      (balance_pull_loop push_svc now l st bs).2 =
        ((l.filter (fun q => vcpu_is_migrateable f q bs.lrqd)).map
          (fun q => (some push_svc, some q))).foldl (fun b c => consider f b c.1 c.2) bs := by
  induction l with
  | nil =>
    intro st bs _ _
    exact ⟨refresh_extends_refl now st, fun s hs => absurd hs (List.not_mem_nil s), rfl⟩
  | cons q rest ih =>
    intro st bs hp hf
    have hstep := refresh_extends_refresh now st q
    have hprv1 : (refresh_svc_load st q now).prv = st.prv := rfl
    unfold balance_pull_loop at hf ⊢
    simp only [] at hf ⊢
    have hp1 : load_fresh now (refresh_svc_load st q now) push_svc :=
      (load_fresh_extends now st _ push_svc hp hstep).2
    by_cases hm : vcpu_is_migrateable (refresh_svc_load st q now) q bs.lrqd = true
    · rw [if_pos hm] at hf ⊢
      obtain ⟨e1, e2, e3⟩ := ih (refresh_svc_load st q now)
        (consider (refresh_svc_load st q now) bs (some push_svc) (some q)) hp1 hf
      have hsf : f.prv = st.prv :=
        (refresh_extends_prv now _ _ hf).trans ((refresh_extends_prv now _ _ e1).trans hprv1)
      have hext1 : refresh_extends now (refresh_svc_load st q now) f :=
        refresh_extends_trans now _ _ f (by rw [hprv1, ← hsf]; exact hs1)
          (by rw [hprv1, ← hsf]; exact hs) h0 h1 e1 hf
      have hq1 : load_fresh now (refresh_svc_load st q now) q :=
        load_fresh_refresh now st q (by rw [← hsf]; exact hs1) (by rw [← hsf]; exact hs) h0 h1
      have hmf : vcpu_is_migrateable f q bs.lrqd = true := by
        rw [vcpu_is_migrateable_extends now _ f q _ hext1]
        exact hm
      refine ⟨?_, ?_, ?_⟩
      · exact refresh_extends_trans now st _ _ (by rw [← hsf]; exact hs1)
          (by rw [← hsf]; exact hs) h0 h1 hstep e1
      · intro s hsm
        rcases List.mem_cons.mp hsm with rfl | hsm
        · exact (load_fresh_extends now _ _ s hq1 e1).2
        · exact e2 s hsm
      · rw [e3, List.filter_cons_of_pos (by simpa using hmf), List.map_cons, List.foldl_cons,
          (consider_keeps_rqd _ bs _ _).1,
          consider_extends now _ f bs (some push_svc) (some q) hext1
            (fun p h => by cases h; exact hp1) (fun p h => by cases h; exact hq1)]
    · rw [if_neg hm] at hf ⊢
      obtain ⟨e1, e2, e3⟩ := ih (refresh_svc_load st q now) bs hp1 hf
      have hsf : f.prv = st.prv :=
        (refresh_extends_prv now _ _ hf).trans ((refresh_extends_prv now _ _ e1).trans hprv1)
      have hext1 : refresh_extends now (refresh_svc_load st q now) f :=
        refresh_extends_trans now _ _ f (by rw [hprv1, ← hsf]; exact hs1)
          (by rw [hprv1, ← hsf]; exact hs) h0 h1 e1 hf
      have hq1 : load_fresh now (refresh_svc_load st q now) q :=
        load_fresh_refresh now st q (by rw [← hsf]; exact hs1) (by rw [← hsf]; exact hs) h0 h1
      have hmf : ¬ vcpu_is_migrateable f q bs.lrqd = true := by
        rw [vcpu_is_migrateable_extends now _ f q _ hext1]
        exact hm
      refine ⟨?_, ?_, ?_⟩
      · exact refresh_extends_trans now st _ _ (by rw [← hsf]; exact hs1)
          (by rw [← hsf]; exact hs) h0 h1 hstep e1
      · intro s hsm
        rcases List.mem_cons.mp hsm with rfl | hsm
        · exact (load_fresh_extends now _ _ s hq1 e1).2
        · exact e2 s hsm
      · rw [e3, List.filter_cons_of_neg (by simpa using hmf)]

theorem balance_pull_loop_prv (now : Int) (push_svc : Nat) (l : List Nat) :
    ∀ (st : sched_state) (bs : balance_state_t),
      (balance_pull_loop push_svc now l st bs).1.prv = st.prv := by
  induction l with
  | nil => intro st bs; rfl
  | cons q rest ih =>
    intro st bs
    unfold balance_pull_loop
    simp only []
    split_ifs
    · rw [ih]
      rfl
    · rw [ih]
      rfl

theorem balance_push_loop_prv (now : Int) (pull_list : List Nat) (l : List Nat) :
    ∀ (st : sched_state) (bs : balance_state_t),
      (balance_push_loop pull_list now l st bs).1.prv = st.prv := by
  induction l with
  | nil => intro st bs; rfl
  | cons p rest ih =>
    intro st bs
    unfold balance_push_loop
    simp only []
    split_ifs
    · rw [ih, balance_pull_loop_prv]
      rfl
    · rw [ih]
      rfl

/-- The outer loop of the search is a run of `consider`, in the final state,
over the swaps and the push of every entity of the list that may move. -/
theorem balance_push_loop_fold (now : Int) (f : sched_state) (pull_list : List Nat)
    (hs1 : 1 ≤ f.prv.load_window_shift) (hs : f.prv.load_window_shift ≤ 31)
    (h0 : 0 ≤ now) (h1 : now < 9223372036854775808) (l : List Nat) :
    ∀ (st : sched_state) (bs : balance_state_t),
      refresh_extends now (balance_push_loop pull_list now l st bs).1 f →
      refresh_extends now st (balance_push_loop pull_list now l st bs).1 ∧
      (balance_push_loop pull_list now l st bs).2 =
        (l.flatMap (fun p =>
          if vcpu_is_migrateable f p bs.orqd then
            (pull_list.filter (fun q => vcpu_is_migrateable f q bs.lrqd)).map
              (fun q => (some p, some q)) ++ [(some p, none)]
          else [])).foldl (fun b c => consider f b c.1 c.2) bs := by
  induction l with
  | nil =>
    intro st bs _
    exact ⟨refresh_extends_refl now st, rfl⟩
  | cons p rest ih =>
    intro st bs hf
    have hsf : f.prv = st.prv :=
      (refresh_extends_prv now _ _ hf).trans (balance_push_loop_prv now pull_list _ st bs)
    have hst1 : 1 ≤ st.prv.load_window_shift := by rw [← hsf]; exact hs1
    have hst : st.prv.load_window_shift ≤ 31 := by rw [← hsf]; exact hs
    have hstep := refresh_extends_refresh now st p
    have hp1 : load_fresh now (refresh_svc_load st p now) p :=
      load_fresh_refresh now st p hst1 hst h0 h1
    unfold balance_push_loop at hf ⊢
    simp only [] at hf ⊢
    by_cases hm : vcpu_is_migrateable (refresh_svc_load st p now) p bs.orqd = true
    · rw [if_pos hm] at hf ⊢
      obtain ⟨e1, e3⟩ := ih _ _ hf
      have hrprv : (balance_pull_loop p now pull_list (refresh_svc_load st p now) bs).1.prv
          = st.prv := balance_pull_loop_prv now p pull_list _ bs
      have hrf : refresh_extends now
          (balance_pull_loop p now pull_list (refresh_svc_load st p now) bs).1 f :=
        refresh_extends_trans now _ _ f (by rw [hrprv]; exact hst1) (by rw [hrprv]; exact hst)
          h0 h1 e1 hf
      obtain ⟨g1, g2, g3⟩ := balance_pull_loop_fold now f p hs1 hs h0 h1 pull_list
        (refresh_svc_load st p now) bs hp1 hrf
      have hext1 : refresh_extends now (refresh_svc_load st p now) f :=
        refresh_extends_trans now _ _ f hst1 hst h0 h1 g1 hrf
      have hmf : vcpu_is_migrateable f p bs.orqd = true := by
        rw [vcpu_is_migrateable_extends now _ f p _ hext1]
        exact hm
      have hpr : load_fresh now
          (balance_pull_loop p now pull_list (refresh_svc_load st p now) bs).1 p :=
        (load_fresh_extends now _ _ p hp1 g1).2
      have hk := consider_foldl_keeps_rqd f
        ((pull_list.filter (fun q => vcpu_is_migrateable f q bs.lrqd)).map
          (fun q => (some p, some q))) bs
      refine ⟨?_, ?_⟩
      · exact refresh_extends_trans now st _ _ hst1 hst h0 h1 hstep
          (refresh_extends_trans now _ _ _ hst1 hst h0 h1 g1 e1)
      · rw [e3, List.flatMap_cons, if_pos hmf, List.foldl_append, List.foldl_append,
          List.foldl_cons, List.foldl_nil,
          consider_extends now _ f _ (some p) none hrf (fun x h => by cases h; exact hpr)
            (fun x h => by cases h),
          (consider_keeps_rqd f _ _ _).1, (consider_keeps_rqd f _ _ _).2, g3, hk.1, hk.2]
    · rw [if_neg hm] at hf ⊢
      obtain ⟨e1, e3⟩ := ih _ _ hf
      have hext1 : refresh_extends now (refresh_svc_load st p now) f :=
        refresh_extends_trans now _ _ f hst1 hst h0 h1 e1 hf
      have hmf : ¬ vcpu_is_migrateable f p bs.orqd = true := by
        rw [vcpu_is_migrateable_extends now _ f p _ hext1]
        exact hm
      refine ⟨?_, ?_⟩
      · exact refresh_extends_trans now st _ _ hst1 hst h0 h1 hstep e1
      · rw [e3, List.flatMap_cons, if_neg hmf, List.nil_append]

theorem balance_pull_only_loop_fold (st : sched_state) (l : List Nat) :
    ∀ bs : balance_state_t,
      balance_pull_only_loop st l bs =
        ((l.filter (fun q => vcpu_is_migrateable st q bs.lrqd)).map
          (fun q => (none, some q))).foldl (fun b c => consider st b c.1 c.2) bs := by
  induction l with
  | nil => intro bs; rfl
  | cons q rest ih =>
    intro bs
    unfold balance_pull_only_loop
    by_cases hm : vcpu_is_migrateable st q bs.lrqd = true
    · rw [if_pos hm, ih, List.filter_cons_of_pos (by simpa using hm), List.map_cons,
        List.foldl_cons, (consider_keeps_rqd st bs _ _).1]
    · rw [if_neg hm, ih, List.filter_cons_of_neg (by simpa using hm)]

/-- A run of `consider` over a list of combinations keeps the lowest distance:
the result is a lower bound of the start value and of the distance of every
combination, and either nothing changed or the result is the distance of the
combination it holds, below the start value. -/
theorem consider_foldl_spec (f : sched_state) (cs : List (Option Nat × Option Nat)) :
    ∀ bs : balance_state_t,
      (cs.foldl (fun b c => consider f b c.1 c.2) bs).load_delta ≤ bs.load_delta ∧
      (∀ c ∈ cs, (cs.foldl (fun b c => consider f b c.1 c.2) bs).load_delta
        ≤ consider_delta f bs.lrqd bs.orqd c.1 c.2) ∧
      (cs.foldl (fun b c => consider f b c.1 c.2) bs = bs ∨
        ∃ c ∈ cs,
          (cs.foldl (fun b c => consider f b c.1 c.2) bs).best_push_svc = c.1 ∧
          (cs.foldl (fun b c => consider f b c.1 c.2) bs).best_pull_svc = c.2 ∧
          (cs.foldl (fun b c => consider f b c.1 c.2) bs).load_delta
            = consider_delta f bs.lrqd bs.orqd c.1 c.2 ∧
          (cs.foldl (fun b c => consider f b c.1 c.2) bs).load_delta < bs.load_delta) := by
  induction cs with
  | nil =>
    intro bs
    exact ⟨le_refl _, fun c hc => absurd hc (List.not_mem_nil c), Or.inl rfl⟩
  | cons c rest ih =>
    intro bs
    rw [List.foldl_cons]
    obtain ⟨h1, h2, h3⟩ := ih (consider f bs c.1 c.2)
    obtain ⟨k1, k2⟩ := consider_keeps_rqd f bs c.1 c.2
    rw [k1, k2] at h2 h3
    have hc : (consider f bs c.1 c.2).load_delta ≤ bs.load_delta ∧
        (consider f bs c.1 c.2).load_delta ≤ consider_delta f bs.lrqd bs.orqd c.1 c.2 ∧
        (consider f bs c.1 c.2 = bs ∨
          ((consider f bs c.1 c.2).best_push_svc = c.1 ∧
            (consider f bs c.1 c.2).best_pull_svc = c.2 ∧
            (consider f bs c.1 c.2).load_delta = consider_delta f bs.lrqd bs.orqd c.1 c.2 ∧
            (consider f bs c.1 c.2).load_delta < bs.load_delta)) := by
      unfold consider
      by_cases hlt : consider_delta f bs.lrqd bs.orqd c.1 c.2 < bs.load_delta
      · rw [if_pos hlt]
        exact ⟨le_of_lt hlt, le_refl _, Or.inr ⟨rfl, rfl, rfl, hlt⟩⟩
      · rw [if_neg hlt]
        exact ⟨le_refl _, by omega, Or.inl rfl⟩
    obtain ⟨c1, c2, c3⟩ := hc
    refine ⟨le_trans h1 c1, ?_, ?_⟩
    · intro d hd
      rcases List.mem_cons.mp hd with rfl | hd
      · exact le_trans h1 c2
      · exact h2 d hd
    · rcases h3 with e | ⟨d, hd, e1, e2, e3, e4⟩
      · rcases c3 with g | ⟨g1, g2, g3, g4⟩
        · left
          rw [e, g]
        · right
          refine ⟨c, List.mem_cons_self _ _, ?_, ?_, ?_, ?_⟩
          · rw [e]; exact g1
          · rw [e]; exact g2
          · rw [e]; exact g3
          · rw [e]; exact g4
      · right
        exact ⟨d, List.mem_cons_of_mem _ hd, e1, e2, e3, lt_of_lt_of_le e4 c1⟩

theorem mem_balance_candidates (st : sched_state) (l o : Int) (c : Option Nat × Option Nat) :
    c ∈ balance_candidates st l o ↔
      (∃ p ∈ (st.prv.rqd l).svc, vcpu_is_migrateable st p o = true ∧
        ((∃ q ∈ (st.prv.rqd o).svc, vcpu_is_migrateable st q l = true ∧ c = (some p, some q)) ∨
          c = (some p, none))) ∨
      (∃ q ∈ (st.prv.rqd o).svc, vcpu_is_migrateable st q l = true ∧ c = (none, some q)) := by
  unfold balance_candidates
  rw [List.mem_append, List.mem_flatMap]
  constructor
  · rintro (⟨p, hp, hc⟩ | hc)
    · left
      by_cases hm : vcpu_is_migrateable st p o = true
      · rw [if_pos hm, List.mem_append] at hc
        refine ⟨p, hp, hm, ?_⟩
        rcases hc with hc | hc
        · left
          obtain ⟨q, hq, rfl⟩ := List.mem_map.mp hc
          obtain ⟨hq1, hq2⟩ := List.mem_filter.mp hq
          exact ⟨q, hq1, by simpa using hq2, rfl⟩
        · right
          simpa using hc
      · rw [if_neg hm] at hc
        exact absurd hc (List.not_mem_nil c)
    · right
      obtain ⟨q, hq, rfl⟩ := List.mem_map.mp hc
      obtain ⟨hq1, hq2⟩ := List.mem_filter.mp hq
      exact ⟨q, hq1, by simpa using hq2, rfl⟩
  · rintro (⟨p, hp, hm, hc⟩ | ⟨q, hq, hm, rfl⟩)
    · left
      refine ⟨p, hp, ?_⟩
      rw [if_pos hm, List.mem_append]
      rcases hc with ⟨q, hq, hmq, rfl⟩ | rfl
      · left
        exact List.mem_map.mpr ⟨q, List.mem_filter.mpr ⟨hq, by simpa using hmq⟩, rfl⟩
      · right
        simp
    · right
      exact List.mem_map.mpr ⟨q, List.mem_filter.mpr ⟨hq, by simpa using hm⟩, rfl⟩

/-- The candidate search is a run of `consider`, in the state it leaves, over
the combinations of the entities that may move; it writes records of entities
only, by refreshing loads. -/
theorem balance_search_fold (st : sched_state) (bs : balance_state_t) (now : Int)
    (hs1 : 1 ≤ st.prv.load_window_shift) (hs : st.prv.load_window_shift ≤ 31)
    (h0 : 0 ≤ now) (h1 : now < 9223372036854775808) :
    refresh_extends now st (balance_search st bs now).1 ∧
    (balance_search st bs now).2 =
      (balance_candidates (balance_search st bs now).1 bs.lrqd bs.orqd).foldl
        (fun b c => consider (balance_search st bs now).1 b c.1 c.2) bs := by
  have hprv : (balance_search st bs now).1.prv = st.prv := balance_push_loop_prv now _ _ st bs
  obtain ⟨e1, e2⟩ := balance_push_loop_fold now (balance_search st bs now).1
    (st.prv.rqd bs.orqd).svc (by rw [hprv]; exact hs1) (by rw [hprv]; exact hs) h0 h1
    (st.prv.rqd bs.lrqd).svc st bs (refresh_extends_refl now _)
  refine ⟨e1, ?_⟩
  have hk := consider_foldl_keeps_rqd (balance_search st bs now).1
    ((st.prv.rqd bs.lrqd).svc.flatMap (fun p =>
      if vcpu_is_migrateable (balance_search st bs now).1 p bs.orqd then
        ((st.prv.rqd bs.orqd).svc.filter
          (fun q => vcpu_is_migrateable (balance_search st bs now).1 q bs.lrqd)).map
          (fun q => (some p, some q)) ++ [(some p, none)]
      else [])) bs
  show balance_pull_only_loop (balance_search st bs now).1
      ((balance_search st bs now).1.prv.rqd bs.orqd).svc
      (balance_push_loop (st.prv.rqd bs.orqd).svc now (st.prv.rqd bs.lrqd).svc st bs).2 = _
  rw [balance_pull_only_loop_fold, e2, hk.1]
  unfold balance_candidates
  rw [List.foldl_append, hprv]

/-- The outcome of the candidate search: it refreshes loads only, and it either
holds no entity, with `load_delta` unchanged, or holds eligible entities of the
runqueues they leave and predicts a strictly smaller distance. -/
theorem balance_search_result (st : sched_state) (bs : balance_state_t) (now : Int)
    (hs1 : 1 ≤ st.prv.load_window_shift) (hs : st.prv.load_window_shift ≤ 31)
    (h0 : 0 ≤ now) (h1 : now < 9223372036854775808)
    (hnone : bs.best_push_svc = none ∧ bs.best_pull_svc = none) :
    refresh_extends now st (balance_search st bs now).1 ∧
    (((balance_search st bs now).2.best_push_svc = none ∧
        (balance_search st bs now).2.best_pull_svc = none ∧
        (balance_search st bs now).2.load_delta = bs.load_delta) ∨
      ((balance_search st bs now).2.load_delta < bs.load_delta ∧
        (balance_search st bs now).2.load_delta
          = consider_delta (balance_search st bs now).1 bs.lrqd bs.orqd
              (balance_search st bs now).2.best_push_svc
              (balance_search st bs now).2.best_pull_svc ∧
        ((balance_search st bs now).2.best_push_svc ≠ none ∨
          (balance_search st bs now).2.best_pull_svc ≠ none) ∧
        (match (balance_search st bs now).2.best_push_svc with
          | some p => p ∈ (st.prv.rqd bs.lrqd).svc ∧ vcpu_is_migrateable st p bs.orqd = true
          | none => True) ∧
        (match (balance_search st bs now).2.best_pull_svc with
          | some q => q ∈ (st.prv.rqd bs.orqd).svc ∧ vcpu_is_migrateable st q bs.lrqd = true
          | none => True))) := by
  obtain ⟨hext, hfold⟩ := balance_search_fold st bs now hs1 hs h0 h1
  have hprv := refresh_extends_prv now _ _ hext
  obtain ⟨_, _, hres⟩ := consider_foldl_spec (balance_search st bs now).1
    (balance_candidates (balance_search st bs now).1 bs.lrqd bs.orqd) bs
  rw [← hfold] at hres
  -- eligibility is the same before and after the search
  have hmig : ∀ s q, vcpu_is_migrateable (balance_search st bs now).1 s q
      = vcpu_is_migrateable st s q :=
    fun s q => vcpu_is_migrateable_extends now st _ s q hext
  have hmem : ∀ c, c ∈ balance_candidates (balance_search st bs now).1 bs.lrqd bs.orqd ↔
      (∃ p ∈ (st.prv.rqd bs.lrqd).svc, vcpu_is_migrateable st p bs.orqd = true ∧
        ((∃ q ∈ (st.prv.rqd bs.orqd).svc, vcpu_is_migrateable st q bs.lrqd = true ∧
            c = (some p, some q)) ∨ c = (some p, none))) ∨
      (∃ q ∈ (st.prv.rqd bs.orqd).svc, vcpu_is_migrateable st q bs.lrqd = true ∧
        c = (none, some q)) := by
    intro c
    rw [mem_balance_candidates, hprv]
    simp only [hmig]
  refine ⟨hext, ?_⟩
  · rcases hres with e | ⟨c, hc, e1, e2, e3, e4⟩
    · left
      rw [e]
      exact ⟨hnone.1, hnone.2, rfl⟩
    · right
      refine ⟨e4, ?_, ?_, ?_, ?_⟩
      · rw [e3, e1, e2]
      · rcases (hmem c).mp hc with ⟨p, _, _, ⟨q, _, _, rfl⟩ | rfl⟩ | ⟨q, _, _, rfl⟩
        · left; rw [e1]; simp
        · left; rw [e1]; simp
        · right; rw [e2]; simp
      · rw [e1]
        rcases (hmem c).mp hc with ⟨p, hp, hm, ⟨q, _, _, rfl⟩ | rfl⟩ | ⟨q, _, _, rfl⟩
        · exact ⟨hp, hm⟩
        · exact ⟨hp, hm⟩
        · trivial
      · rw [e2]
        rcases (hmem c).mp hc with ⟨p, _, _, ⟨q, hq, hm, rfl⟩ | rfl⟩ | ⟨q, hq, hm, rfl⟩
        · exact ⟨hq, hm⟩
        · trivial
        · exact ⟨hq, hm⟩

/-- An entity that is ready to move and not flagged scheduled is moved by
`migrate`. -/
theorem migrate_ready_moves (now : Int) (st : sched_state) (svc : Nat) (q0 t : Int)
    (hne : t ≠ q0) (hsched : (st.heap svc).flags &&& CSFLAG_scheduled = 0)
    (hr : migrate_ready st svc q0 t) :
    ∃ st1, migrate st svc t now = some st1 ∧ migrate_moved now st svc q0 t st1 := by
  obtain ⟨hrqd, hnodup, hint, hon⟩ := hr
  obtain ⟨heap1, rD, rA, sq, hm, hD, hA, hh, hc⟩ :=
    migrate_runs st svc t now q0 hsched hrqd hnodup hint
      (fun h => ⟨fun _ => (hon h).1, (hon h).2.1, (hon h).2.2.1, (hon h).2.2.2.1,
        (hon h).2.2.2.2.1, (hon h).2.2.2.2.2⟩)
  rw [rqd_store_other _ _ _ _ hne] at hA
  exact ⟨_, hm, heap1, rD, rA, sq, rfl, hD, hA, hh, hc⟩

/-- After an entity was moved from the runqueue `l` to the runqueue `o`, an
entity of `o` that was ready to move to `l` still is. -/
theorem migrate_ready_after_move (now : Int) (st : sched_state) (p q : Nat) (l o : Int)
    (st1 : sched_state) (hne : l ≠ o)
    (hmv : migrate_moved now st p l o st1)
    (hp : (st.heap p).rqd = some l)
    (hpoff : p ∈ (st.prv.rqd l).runq → p ∉ (st.prv.rqd o).runq)
    (hq : migrate_ready st q o l) :
    migrate_ready st1 q o l := by
  obtain ⟨heap1, rD, rA, sq, rfl, ⟨d1, d2, d3, d4, d5, d6, d7, d8⟩,
    ⟨a1, a2, a3, a4, a5, a6, a7, a8⟩, hh, hc⟩ := hmv
  obtain ⟨hqr, hqn, hqi, hqon⟩ := hq
  have hqp : q ≠ p := by
    intro h
    rw [h, hp] at hqr
    exact hne (Option.some.inj hqr)
  have hro : (rqd_store (rqd_store st.prv l rD) o rA).rqd o = rA := rqd_store_same _ _ _
  have hrl : (rqd_store (rqd_store st.prv l rD) o rA).rqd l = rD := by
    rw [rqd_store_other _ _ _ _ hne, rqd_store_same]
  have hheap : ∀ x, (heap1 x).is_idle = (st.heap x).is_idle ∧
      (heap1 x).is_running = (st.heap x).is_running ∧
      (heap1 x).weight = (st.heap x).weight ∧
      (heap1 x).cpu_hard_affinity = (st.heap x).cpu_hard_affinity := by
    intro x
    rw [hh x]
    exact ⟨rfl, rfl, rfl, rfl⟩
  have hqrqd : (heap1 q).rqd = (st.heap q).rqd := by
    rw [hh q]
    simp [hqp]
  unfold migrate_ready
  simp only [hro, hrl]
  refine ⟨by rw [hqrqd]; exact hqr, ?_, ?_, ?_⟩
  · by_cases hm : p ∈ (st.prv.rqd l).runq
    · rw [if_pos hm] at a6
      exact (List.Perm.nodup_iff a6).mpr (List.nodup_cons.mpr ⟨hpoff hm, hqn⟩)
    · rw [if_neg hm] at a6
      rw [a6]
      exact hqn
  · rw [(hheap q).2.2.2, d2]
    exact hqi
  · intro hmem
    have hmem0 : q ∈ (st.prv.rqd o).runq := by
      by_cases hm : p ∈ (st.prv.rqd l).runq
      · rw [if_pos hm] at a6
        rcases List.mem_cons.mp (a6.mem_iff.mp hmem) with h | h
        · exact absurd h hqp
        · exact h
      · rw [if_neg hm] at a6
        rw [a6] at hmem
        exact hmem
    obtain ⟨g1, g2, g3, g4, g5, g6⟩ := hqon hmem0
    refine ⟨?_, ?_, ?_, ?_, ?_, ?_⟩
    · rw [d5]
      exact fun h => g1 (List.mem_of_mem_erase h)
    · rw [(hheap q).1]
      exact g2
    · rw [(hheap q).2.1]
      exact g3
    · rw [d1]
      exact g4
    · rw [d2]
      exact g5
    · exact tickle_safe_of_same st _ l rfl rfl (by rw [hrl, d2]) (by rw [hrl, d3])
        (fun x hx => by rw [hrl, d4]; exact hx)
        (fun x => ⟨(hheap x).1, (hheap x).2.2.1, hc x⟩) g6

/-- Flagging a scheduled entity for migration leaves every other entity ready
to move. -/
theorem migrate_ready_after_flag (st : sched_state) (p q : Nat) (v : csched2_vcpu)
    (q0 t : Int) (hqp : q ≠ p)
    (hv : v.is_idle = (st.heap p).is_idle ∧ v.weight = (st.heap p).weight ∧
      v.credit = (st.heap p).credit)
    (hq : migrate_ready st q q0 t) :
    migrate_ready { st with heap := heap_store st.heap p v } q q0 t := by
  obtain ⟨hqr, hqn, hqi, hqon⟩ := hq
  unfold migrate_ready
  simp only [heap_store_other _ _ _ _ hqp]
  refine ⟨hqr, hqn, hqi, fun hmem => ?_⟩
  obtain ⟨g1, g2, g3, g4, g5, g6⟩ := hqon hmem
  refine ⟨g1, g2, g3, g4, g5, ?_⟩
  refine tickle_safe_of_same st _ t rfl rfl rfl rfl (fun _ hx => hx) ?_ g6
  intro x
  by_cases hx : x = p
  · subst hx
    simp only [heap_store_same]
    exact ⟨hv.1, hv.2.1, fun _ => hv.2.2⟩
  · simp [heap_store_other _ _ _ _ hx]

/-- The first loop of `balance_load` over two active runqueues, the local one
in slot `l` and another one in slot `o`, from the start values: the other
runqueue is refreshed if its lock is obtained, and it becomes `max_delta_rqi`
if its distance is positive.  The runqueue looked at last is the second of the
list. -/
theorem balance_scan_two (st0 : sched_state) (l o now : Int) (a b : Nat) (hne : l ≠ o)
    (hab : ((a : Int) = l ∧ (b : Int) = o) ∨ ((a : Int) = o ∧ (b : Int) = l)) :
    balance_scan l now [a, b] st0 0 (-1) none =
      if st0.trylock_rqd o = false then (st0, 0, -1, some (b : Int))
      else if balance_distance (refresh_runq_load st0 o now) l o > 0 then
        (refresh_runq_load st0 o now, balance_distance (refresh_runq_load st0 o now) l o, o,
          some (b : Int))
      else (refresh_runq_load st0 o now, 0, -1, some (b : Int)) := by
  have hne1 : o ≠ l := fun h => hne h.symm
  rcases hab with ⟨ha, hb⟩ | ⟨ha, hb⟩
  · unfold balance_scan
    rw [if_pos (Or.inl ha)]
    unfold balance_scan
    rw [hb]
    by_cases ht : st0.trylock_rqd o = false
    · rw [if_pos (Or.inr ht), if_pos ht]
      rfl
    · rw [if_neg (by simp [hne1, ht]), if_neg ht]
      simp only []
      by_cases hd : balance_distance (refresh_runq_load st0 o now) l o > 0
      · rw [if_pos hd, if_pos hd]
        rfl
      · rw [if_neg hd, if_neg hd]
        rfl
  · unfold balance_scan
    rw [ha]
    by_cases ht : st0.trylock_rqd o = false
    · rw [if_pos (Or.inr ht), if_pos ht]
      unfold balance_scan
      rw [if_pos (Or.inl hb)]
      rfl
    · rw [if_neg (by simp [hne1, ht]), if_neg ht]
      simp only []
      by_cases hd : balance_distance (refresh_runq_load st0 o now) l o > 0
      · rw [if_pos hd, if_pos hd]
        unfold balance_scan
        rw [if_pos (Or.inl hb)]
        rfl
      · rw [if_neg hd, if_neg hd]
        unfold balance_scan
        rw [if_pos (Or.inl hb)]
        rfl

/-- One pass of `balance_load` on a host with two active runqueues, the local
one in slot `l` and another one in slot `o`: the pass ends early without the
private lock, without the lock of the other runqueue, with no positive
distance, within the tolerance, or when the other runqueue was deactivated;
otherwise it searches and migrates.  The jump to `retry` is not taken. -/
theorem balance_load_two (fuel : Nat) (st : sched_state) (cpu : Nat) (now l o : Int)
    (a b : Nat) (hl : c2r st cpu = l) (hne : l ≠ o)
    (hact : cpumask_cpus st.nr_cpu_ids st.prv.active_queues = [a, b])
    (hab : ((a : Int) = l ∧ (b : Int) = o) ∨ ((a : Int) = o ∧ (b : Int) = l)) :
    balance_load (fuel + 1) st cpu now =
      if st.trylock_prv = false then some (refresh_runq_load st l now)
      else if st.trylock_rqd o = false then some (refresh_runq_load st l now)
      else if ¬ balance_distance (refresh_runq_load (refresh_runq_load st l now) o now) l o > 0
        then some (refresh_runq_load (refresh_runq_load st l now) o now)
      else if balance_within_tolerance (refresh_runq_load (refresh_runq_load st l now) o now)
          l (b : Int)
          (balance_distance (refresh_runq_load (refresh_runq_load st l now) o now) l o)
        then some (refresh_runq_load (refresh_runq_load st l now) o now)
      else if ((refresh_runq_load (refresh_runq_load st l now) o now).prv.rqd o).id < 0
        then some (refresh_runq_load (refresh_runq_load st l now) o now)
      else
        balance_migrate
          (balance_search (refresh_runq_load (refresh_runq_load st l now) o now)
            { load_delta :=
                balance_distance (refresh_runq_load (refresh_runq_load st l now) o now) l o
              best_push_svc := none, best_pull_svc := none, lrqd := l, orqd := o } now).1
          (balance_search (refresh_runq_load (refresh_runq_load st l now) o now)
            { load_delta :=
                balance_distance (refresh_runq_load (refresh_runq_load st l now) o now) l o
              best_push_svc := none, best_pull_svc := none, lrqd := l, orqd := o } now).2
          now := by
  have ho : o ≠ -1 := by
    rcases hab with ⟨_, hb⟩ | ⟨ha, _⟩
    · omega
    · omega
  have hact0 : cpumask_cpus (refresh_runq_load st l now).nr_cpu_ids
      (refresh_runq_load st l now).prv.active_queues = [a, b] := hact
  have hp0 : (refresh_runq_load st l now).trylock_prv = st.trylock_prv := rfl
  have hr0 : (refresh_runq_load st l now).trylock_rqd = st.trylock_rqd := rfl
  have hr1 : (refresh_runq_load (refresh_runq_load st l now) o now).trylock_rqd
      = st.trylock_rqd := rfl
  unfold balance_load
  rw [hl]
  unfold balance_load_retry
  simp only []
  rw [hact0, balance_scan_two _ l o now a b hne hab, hp0, hr0]
  by_cases h1 : st.trylock_prv = false
  · rw [if_pos h1, if_pos h1]
  · rw [if_neg h1, if_neg h1]
    by_cases h2 : st.trylock_rqd o = false
    · rw [if_pos h2, if_pos h2]
      simp only []
      rw [if_pos trivial]
    · rw [if_neg h2, if_neg h2]
      by_cases h3 : balance_distance (refresh_runq_load (refresh_runq_load st l now) o now) l o > 0
      · rw [if_pos h3, if_neg (not_not.mpr h3)]
        simp only []
        rw [if_neg ho, hr1, if_neg h2]
      · rw [if_neg h3, if_pos h3]
        simp only []
        rw [if_pos trivial]

/-- What `migrate` does with an entity that is ready to move: a scheduled
entity is flagged, any other is moved. -/
theorem migrate_ready_done (now : Int) (st : sched_state) (s : Nat) (q0 t : Int)
    (hne : t ≠ q0) (hr : migrate_ready st s q0 t) :
    ∃ st1, migrate st s t now = some st1 ∧ migrate_done now st (some s) q0 t st1 := by
  by_cases hsched : (st.heap s).flags &&& CSFLAG_scheduled ≠ 0
  · refine ⟨{ st with
        heap := heap_store st.heap s
          { st.heap s with
            migrate_rqd := some t
            vpf_migrating := true
            flags := (st.heap s).flags ||| CSFLAG_runq_migrate_request } }, ?_, ?_⟩
    · unfold migrate
      rw [if_pos hsched]
    · unfold migrate_done
      simp only []
      rw [if_pos hsched]
      trivial
  · obtain ⟨st1, h1, h2⟩ := migrate_ready_moves now st s q0 t hne (not_not.mp hsched) hr
    refine ⟨st1, h1, ?_⟩
    unfold migrate_done
    simp only []
    rw [if_neg hsched]
    exact h2

/-- The moves at the end of a pass run to their end when the entities picked
are ready to move: first the push, then the pull. -/
theorem balance_migrate_runs (now : Int) (f : sched_state) (bs : balance_state_t) (l o : Int)
    (hl : bs.lrqd = l) (ho : bs.orqd = o) (hne : l ≠ o)
    (hpush : ∀ p, bs.best_push_svc = some p → migrate_ready f p l o)
    (hpull : ∀ q, bs.best_pull_svc = some q → migrate_ready f q o l) :
    ∃ st1 st2, balance_migrate f bs now = some st2 ∧
      migrate_done now f bs.best_push_svc l o st1 ∧
      migrate_done now st1 bs.best_pull_svc o l st2 := by
  have hne1 : o ≠ l := fun h => hne h.symm
  -- the push
  have h1 : ∃ st1, (match bs.best_push_svc with
        | some p => migrate f p bs.orqd now
        | none => some f) = some st1 ∧
      migrate_done now f bs.best_push_svc l o st1 ∧
      (∀ q, bs.best_pull_svc = some q → migrate_ready st1 q o l) := by
    cases hp : bs.best_push_svc with
    | none => exact ⟨f, rfl, rfl, hpull⟩
    | some p =>
      have hrp := hpush p hp
      obtain ⟨st1, e1, e2⟩ := migrate_ready_done now f p l o hne1 hrp
      refine ⟨st1, by rw [ho]; exact e1, e2, ?_⟩
      intro q hq
      have hrq := hpull q hq
      have hqp : q ≠ p := by
        intro h
        have h1 := hrq.1
        rw [h, hrp.1] at h1
        exact hne (Option.some.inj h1)
      unfold migrate_done at e2
      simp only [] at e2
      by_cases hsched : (f.heap p).flags &&& CSFLAG_scheduled ≠ 0
      · rw [if_pos hsched] at e2
        rw [e2]
        exact migrate_ready_after_flag f p q _ o l hqp ⟨rfl, rfl, rfl⟩ hrq
      · rw [if_neg hsched] at e2
        exact migrate_ready_after_move now f p q l o st1 hne e2 hrp.1
          (fun h => (hrp.2.2.2 h).1) hrq
  obtain ⟨st1, e1, d1, hpull1⟩ := h1
  unfold balance_migrate
  simp only []
  rw [e1]
  simp only []
  cases hq : bs.best_pull_svc with
  | none => exact ⟨st1, st1, rfl, d1, rfl⟩
  | some q =>
    obtain ⟨st2, e2, d2⟩ := migrate_ready_done now st1 q o l hne (hpull1 q hq)
    exact ⟨st1, st2, by rw [hl]; exact e2, d1, d2⟩

theorem loads_differ_trans (a b c : sched_state) (hab : loads_differ a b)
    (hbc : loads_differ b c) : loads_differ a c := by
  obtain ⟨a1, a2, a3, a4, a5⟩ := hab
  obtain ⟨b1, b2, b3, b4, b5⟩ := hbc
  refine ⟨b1.trans a1, b2.trans a2, b3.trans a3, fun q => ?_, fun x => ?_⟩
  · obtain ⟨u1, u2, u3, u4, u5, u6⟩ := a4 q
    obtain ⟨v1, v2, v3, v4, v5, v6⟩ := b4 q
    exact ⟨v1.trans u1, v2.trans u2, v3.trans u3, v4.trans u4, v5.trans u5, v6.trans u6⟩
  · obtain ⟨u1, u2, u3, u4, u5, u6, u7⟩ := a5 x
    obtain ⟨v1, v2, v3, v4, v5, v6, v7⟩ := b5 x
    exact ⟨v1.trans u1, v2.trans u2, v3.trans u3, v4.trans u4, v5.trans u5, v6.trans u6,
      v7.trans u7⟩

theorem loads_differ_refresh_runq (st : sched_state) (q now : Int) :
    loads_differ st (refresh_runq_load st q now) := by
  refine ⟨rfl, rfl, rfl, fun j => ?_, fun x => ⟨rfl, rfl, rfl, rfl, rfl, rfl, rfl⟩⟩
  by_cases hj : j = q
  · subst hj
    simp only [refresh_runq_load, rqd_store_same]
    obtain ⟨u1, u2, u3, u4, u5, u6, _, _⟩ := update_runq_load_lists st.prv (st.prv.rqd j) 0 now
    exact ⟨u1, u2, u3, u4, u5, u6⟩
  · simp [refresh_runq_load, rqd_store_other _ _ _ _ hj]

theorem loads_differ_extends (now : Int) (st f : sched_state) (h : refresh_extends now st f) :
    loads_differ st f := by
  obtain ⟨e1, f1⟩ := h
  have hprv : f.prv = st.prv := by rw [e1]
  refine ⟨by rw [e1], by rw [e1], by rw [hprv], fun q => by rw [hprv]; exact ⟨rfl, rfl, rfl, rfl, rfl, rfl⟩,
    fun x => ?_⟩
  rcases f1 x with h | h
  · rw [h]
    exact ⟨rfl, rfl, rfl, rfl, rfl, rfl, rfl⟩
  · rw [h, update_svc_load_frame]
    exact ⟨rfl, rfl, rfl, rfl, rfl, rfl, rfl⟩

/-- Readiness to move does not depend on loads. -/
theorem migrate_ready_of_loads_differ (st f : sched_state) (s : Nat) (q0 t : Int)
    (h : loads_differ st f) (hr : migrate_ready st s q0 t) : migrate_ready f s q0 t := by
  obtain ⟨a1, a2, a3, a4, a5⟩ := h
  obtain ⟨r1, r2, r3, r4⟩ := hr
  unfold migrate_ready
  rw [(a5 s).1, (a4 q0).2.2.2.2.1, a1, (a5 s).2.2.2.2.2.2, (a4 t).2.1, (a4 t).2.2.2.2.1,
    (a5 s).2.2.1, (a5 s).2.2.2.1, (a4 t).1, a3]
  refine ⟨r1, r2, r3, fun hm => ?_⟩
  obtain ⟨g1, g2, g3, g4, g5, g6⟩ := r4 hm
  refine ⟨g1, g2, g3, g4, g5, ?_⟩
  exact tickle_safe_of_same st f t a1 a2 (a4 t).2.1 (a4 t).2.2.1
    (fun p hp => by rw [(a4 t).2.2.2.1]; exact hp)
    (fun x => ⟨(a5 x).2.2.1, (a5 x).2.2.2.2.1, fun _ => (a5 x).2.2.2.2.2.1⟩) g6

/-- The assignment lists after `balance_load` dealt with an entity of the
runqueue in slot `q0`: the two lists hold as many entities as before together,
the list of `q0` loses at most one, the list of `t` keeps its entities, and no
other runqueue is written. -/
theorem migrate_done_lists (now : Int) (st : sched_state) (ps : Option Nat) (q0 t : Int)
    (st1 : sched_state) (hne : q0 ≠ t) (hd : migrate_done now st ps q0 t st1)
    (hmem : ∀ s, ps = some s → s ∈ (st.prv.rqd q0).svc) :
    (st1.prv.rqd q0).svc.length + (st1.prv.rqd t).svc.length
      = (st.prv.rqd q0).svc.length + (st.prv.rqd t).svc.length ∧
    (st1.prv.rqd q0).svc.length ≤ (st.prv.rqd q0).svc.length ∧
    (st.prv.rqd q0).svc.length ≤ (st1.prv.rqd q0).svc.length + 1 ∧
    (∀ x, x ∈ (st.prv.rqd t).svc → x ∈ (st1.prv.rqd t).svc) ∧
    (∀ j, j ≠ q0 → j ≠ t → st1.prv.rqd j = st.prv.rqd j) := by
  unfold migrate_done at hd
  cases ps with
  | none =>
    simp only [] at hd
    rw [hd]
    exact ⟨rfl, le_refl _, Nat.le_succ _, fun x hx => hx, fun j _ _ => rfl⟩
  | some s =>
    simp only [] at hd
    by_cases hsched : (st.heap s).flags &&& CSFLAG_scheduled ≠ 0
    · rw [if_pos hsched] at hd
      rw [hd]
      exact ⟨rfl, le_refl _, Nat.le_succ _, fun x hx => hx, fun j _ _ => rfl⟩
    · rw [if_neg hsched] at hd
      obtain ⟨heap1, rD, rA, sq, rfl, ⟨_, _, _, _, _, d6, _, _⟩,
        ⟨_, _, _, _, a5, _, _, _⟩, _, _⟩ := hd
      have hrt : (rqd_store (rqd_store st.prv q0 rD) t rA).rqd t = rA := rqd_store_same _ _ _
      have hrq : (rqd_store (rqd_store st.prv q0 rD) t rA).rqd q0 = rD := by
        rw [rqd_store_other _ _ _ _ hne, rqd_store_same]
      have hlen : rD.svc.length + 1 = (st.prv.rqd q0).svc.length := by
        rw [d6, List.length_erase_of_mem (hmem s rfl)]
        have : 0 < (st.prv.rqd q0).svc.length := List.length_pos_of_mem (hmem s rfl)
        omega
      simp only [hrt, hrq]
      refine ⟨?_, by omega, by omega, ?_, ?_⟩
      · rw [a5, List.length_append, List.length_singleton]
        omega
      · intro x hx
        rw [a5]
        exact List.mem_append_left _ hx
      · intro j hj1 hj2
        show (rqd_store (rqd_store st.prv q0 rD) t rA).rqd j = _
        rw [rqd_store_other _ _ _ _ hj2, rqd_store_other _ _ _ _ hj1]

theorem balance_search_keeps_rqd (st : sched_state) (bs : balance_state_t) (now : Int)
    (hs1 : 1 ≤ st.prv.load_window_shift) (hs : st.prv.load_window_shift ≤ 31)
    (h0 : 0 ≤ now) (h1 : now < 9223372036854775808) :
    (balance_search st bs now).2.lrqd = bs.lrqd ∧ (balance_search st bs now).2.orqd = bs.orqd := by
  rw [(balance_search_fold st bs now hs1 hs h0 h1).2]
  exact consider_foldl_keeps_rqd _ _ bs

/-- C17 (amended): on a host with two active runqueues, the local one in slot
`l` and another one in slot `o`, one pass of `balance_load` runs to its end and
moves at most one entity in each direction: the two assignment lists hold as
many entities as before together, and the local list gains or loses at most
one.  With six entities on one runqueue and none on the other, the runqueues
hold six and none or five and one afterwards.  The entities of both runqueues
are ready to move (`migrate_ready`, the checks of `migrate`), the window shift
is between 1 and 31 and `now` is a non-negative 64-bit time. -/
theorem balance_load_moves_at_most_one (fuel : Nat) (st : sched_state) (cpu : Nat)
    (now l o : Int) (a b : Nat) (hl : c2r st cpu = l) (hne : l ≠ o)
    (hact : cpumask_cpus st.nr_cpu_ids st.prv.active_queues = [a, b])
    (hab : ((a : Int) = l ∧ (b : Int) = o) ∨ ((a : Int) = o ∧ (b : Int) = l))
    (hs1 : 1 ≤ st.prv.load_window_shift) (hs : st.prv.load_window_shift ≤ 31)
    (h0 : 0 ≤ now) (h1 : now < 9223372036854775808)
    (hready_l : ∀ s ∈ (st.prv.rqd l).svc, migrate_ready st s l o)
    (hready_o : ∀ s ∈ (st.prv.rqd o).svc, migrate_ready st s o l) :
    ∃ st2, balance_load (fuel + 1) st cpu now = some st2 ∧
      (st2.prv.rqd l).svc.length + (st2.prv.rqd o).svc.length
        = (st.prv.rqd l).svc.length + (st.prv.rqd o).svc.length ∧
      (st2.prv.rqd l).svc.length ≤ (st.prv.rqd l).svc.length + 1 ∧
      (st.prv.rqd l).svc.length ≤ (st2.prv.rqd l).svc.length + 1 := by
  have hne1 : o ≠ l := fun h => hne h.symm
  have hld0 : loads_differ st (refresh_runq_load st l now) := loads_differ_refresh_runq st l now
  have hld1 : loads_differ st (refresh_runq_load (refresh_runq_load st l now) o now) :=
    loads_differ_trans _ _ _ hld0 (loads_differ_refresh_runq _ o now)
  -- a pass that ends early leaves the lists alone
  have hearly : ∀ g, loads_differ st g →
      ∃ st2, some g = some st2 ∧
        (st2.prv.rqd l).svc.length + (st2.prv.rqd o).svc.length
          = (st.prv.rqd l).svc.length + (st.prv.rqd o).svc.length ∧
        (st2.prv.rqd l).svc.length ≤ (st.prv.rqd l).svc.length + 1 ∧
        (st.prv.rqd l).svc.length ≤ (st2.prv.rqd l).svc.length + 1 := by
    intro g hg
    refine ⟨g, rfl, ?_, ?_, ?_⟩
    · rw [(hg.2.2.2.1 l).2.2.2.2.2, (hg.2.2.2.1 o).2.2.2.2.2]
    · rw [(hg.2.2.2.1 l).2.2.2.2.2]
      exact Nat.le_succ _
    · rw [(hg.2.2.2.1 l).2.2.2.2.2]
      exact Nat.le_succ _
  rw [balance_load_two fuel st cpu now l o a b hl hne hact hab]
  by_cases c1 : st.trylock_prv = false
  · rw [if_pos c1]
    exact hearly _ hld0
  rw [if_neg c1]
  by_cases c2 : st.trylock_rqd o = false
  · rw [if_pos c2]
    exact hearly _ hld0
  rw [if_neg c2]
  by_cases c3 : ¬ balance_distance (refresh_runq_load (refresh_runq_load st l now) o now) l o > 0
  · rw [if_pos c3]
    exact hearly _ hld1
  rw [if_neg c3]
  by_cases c4 : balance_within_tolerance (refresh_runq_load (refresh_runq_load st l now) o now)
      l (b : Int)
      (balance_distance (refresh_runq_load (refresh_runq_load st l now) o now) l o) = true
  · rw [if_pos c4]
    exact hearly _ hld1
  rw [if_neg c4]
  by_cases c5 : ((refresh_runq_load (refresh_runq_load st l now) o now).prv.rqd o).id < 0
  · rw [if_pos c5]
    exact hearly _ hld1
  rw [if_neg c5]
  · have hsh : (refresh_runq_load (refresh_runq_load st l now) o now).prv.load_window_shift
        = st.prv.load_window_shift := rfl
    obtain ⟨hext, hres⟩ := balance_search_result
      (refresh_runq_load (refresh_runq_load st l now) o now)
      { load_delta :=
          balance_distance (refresh_runq_load (refresh_runq_load st l now) o now) l o
        best_push_svc := none, best_pull_svc := none, lrqd := l, orqd := o } now
      (by rw [hsh]; exact hs1) (by rw [hsh]; exact hs) h0 h1 ⟨rfl, rfl⟩
    obtain ⟨hkl, hko⟩ := balance_search_keeps_rqd
      (refresh_runq_load (refresh_runq_load st l now) o now)
      { load_delta :=
          balance_distance (refresh_runq_load (refresh_runq_load st l now) o now) l o
        best_push_svc := none, best_pull_svc := none, lrqd := l, orqd := o } now
      (by rw [hsh]; exact hs1) (by rw [hsh]; exact hs) h0 h1
    have hldf := loads_differ_trans _ _ _ hld1 (loads_differ_extends now _ _ hext)
    generalize balance_search (refresh_runq_load (refresh_runq_load st l now) o now)
      { load_delta :=
          balance_distance (refresh_runq_load (refresh_runq_load st l now) o now) l o
        best_push_svc := none, best_pull_svc := none, lrqd := l, orqd := o } now = r
      at hext hres hkl hko hldf ⊢
    simp only [] at hres hkl hko
    have hsvcl : ((refresh_runq_load (refresh_runq_load st l now) o now).prv.rqd l).svc
        = (st.prv.rqd l).svc := (hld1.2.2.2.1 l).2.2.2.2.2
    have hsvco : ((refresh_runq_load (refresh_runq_load st l now) o now).prv.rqd o).svc
        = (st.prv.rqd o).svc := (hld1.2.2.2.1 o).2.2.2.2.2
    rw [hsvcl, hsvco] at hres
    -- the entities picked are entities of the two lists
    have hpm : ∀ p, r.2.best_push_svc = some p → p ∈ (st.prv.rqd l).svc := by
      intro p hp
      rcases hres with ⟨e, _, _⟩ | ⟨_, _, _, e, _⟩
      · rw [e] at hp; cases hp
      · rw [hp] at e; exact e.1
    have hqm : ∀ q, r.2.best_pull_svc = some q → q ∈ (st.prv.rqd o).svc := by
      intro q hq
      rcases hres with ⟨_, e, _⟩ | ⟨_, _, _, _, e⟩
      · rw [e] at hq; cases hq
      · rw [hq] at e; exact e.1
    obtain ⟨st1, st2, hrun, hd1, hd2⟩ := balance_migrate_runs now r.1 r.2 l o hkl hko hne
      (fun p hp => migrate_ready_of_loads_differ st r.1 p l o hldf (hready_l p (hpm p hp)))
      (fun q hq => migrate_ready_of_loads_differ st r.1 q o l hldf (hready_o q (hqm q hq)))
    have hfl : (r.1.prv.rqd l).svc = (st.prv.rqd l).svc := (hldf.2.2.2.1 l).2.2.2.2.2
    have hfo : (r.1.prv.rqd o).svc = (st.prv.rqd o).svc := (hldf.2.2.2.1 o).2.2.2.2.2
    obtain ⟨u1, u2, u3, u4, _⟩ := migrate_done_lists now r.1 r.2.best_push_svc l o st1 hne hd1
      (fun p hp => by rw [hfl]; exact hpm p hp)
    obtain ⟨v1, v2, v3, _, _⟩ := migrate_done_lists now st1 r.2.best_pull_svc o l st2 hne1 hd2
      (fun q hq => u4 q (by rw [hfo]; exact hqm q hq))
    rw [hfl, hfo] at u1
    rw [hfl] at u2 u3
    refine ⟨st2, hrun, by omega, by omega, by omega⟩

theorem balance_load_moves_at_most_one_witness :
    ∃ st2, balance_load 1 bl_state_six 0 1024000 = some st2 ∧
      (st2.prv.rqd 0).svc.length + (st2.prv.rqd 1).svc.length
        = (bl_state_six.prv.rqd 0).svc.length + (bl_state_six.prv.rqd 1).svc.length ∧
      (st2.prv.rqd 0).svc.length ≤ (bl_state_six.prv.rqd 0).svc.length + 1 ∧
      (bl_state_six.prv.rqd 0).svc.length ≤ (st2.prv.rqd 0).svc.length + 1 :=
  balance_load_moves_at_most_one 0 bl_state_six 0 1024000 0 1 0 1 (by decide) (by decide)
    (by decide) (by decide) (by decide) (by decide) (by decide) (by decide) (by decide)
    (by decide)

/-- C17 (as stated) fails: on the four-processor host with two runqueues of two
processors each, six entities of the same weight and load assigned to runqueue
0 and none to runqueue 1, one pass of `balance_load` on processor 0 moves the
entity 1 and no other; afterwards runqueue 0 holds five entities and runqueue 1
one. -/
theorem balance_load_six_to_five :
    bl_state_six.nr_cpu_ids = 4 ∧
    cpumask_cpus 4 bl_state_six.prv.active_queues = [0, 1] ∧
    cpumask_cpus 4 (bl_state_six.prv.rqd 0).active = [0, 1] ∧
    cpumask_cpus 4 (bl_state_six.prv.rqd 1).active = [2, 3] ∧
    (bl_state_six.prv.rqd 0).svc = [1, 2, 3, 4, 5, 6] ∧
    (bl_state_six.prv.rqd 1).svc = [] ∧
    (∀ i ∈ (bl_state_six.prv.rqd 0).svc,
      (bl_state_six.heap i).weight = 256 ∧ (bl_state_six.heap i).avgload = 262144) ∧
    (balance_load 1 bl_state_six 0 1024000).map
        (fun s => ((s.prv.rqd 0).svc, (s.prv.rqd 1).svc))
      = some ([2, 3, 4, 5, 6], [1]) := by
  decide

/-- The balancing averages after an entity was moved from the runqueue `q0` to
the runqueue `t`, both with their load up to date at `now`: the load average of
the entity went from one to the other.  The averages that go through a load
update are non-negative and fit the window. -/
theorem migrate_moved_loads (now : Int) (st : sched_state) (s : Nat) (q0 t : Int)
    (st1 : sched_state) (hne : q0 ≠ t) (hmv : migrate_moved now st s q0 t st1)
    (hs : st.prv.load_window_shift ≤ 62) (h0 : 0 ≤ now) (h1 : now < 9223372036854775808)
    (hq0 : (st.prv.rqd q0).load_last_update = now >>> LOADAVG_GRANULARITY_SHIFT)
    (ht : (st.prv.rqd t).load_last_update = now >>> LOADAVG_GRANULARITY_SHIFT)
    (hb0 : 0 ≤ (st.prv.rqd q0).b_avgload)
    (hb1 : (st.prv.rqd q0).b_avgload * 2 ^ st.prv.load_window_shift < 18446744073709551616)
    (hb2 : (st.prv.rqd q0).b_avgload < 9223372036854775808)
    (ha0 : 0 ≤ (st.prv.rqd t).b_avgload + (st.heap s).avgload)
    (ha1 : ((st.prv.rqd t).b_avgload + (st.heap s).avgload) * 2 ^ st.prv.load_window_shift
      < 9223372036854775808)
    (ha2 : (st.prv.rqd t).b_avgload + (st.heap s).avgload < 9223372036854775808) :
    (st1.prv.rqd q0).b_avgload = to_s64 ((st.prv.rqd q0).b_avgload - (st.heap s).avgload) ∧
    (st1.prv.rqd t).b_avgload = (st.prv.rqd t).b_avgload + (st.heap s).avgload ∧
    (st1.prv.rqd q0).load_last_update = now >>> LOADAVG_GRANULARITY_SHIFT ∧
    (st1.prv.rqd t).load_last_update = now >>> LOADAVG_GRANULARITY_SHIFT ∧
    st1.prv.load_window_shift = st.prv.load_window_shift ∧
    (∀ x, (st1.heap x).avgload = (st.heap x).avgload ∧ (st1.heap x).flags = (st.heap x).flags) := by
  obtain ⟨heap1, rD, rA, sq, rfl, ⟨_, _, _, _, _, _, d7, d8⟩,
    ⟨_, _, _, _, _, _, a7, a8⟩, hh, _⟩ := hmv
  have hrt : (rqd_store (rqd_store st.prv q0 rD) t rA).rqd t = rA := rqd_store_same _ _ _
  have hrq : (rqd_store (rqd_store st.prv q0 rD) t rA).rqd q0 = rD := by
    rw [rqd_store_other _ _ _ _ hne, rqd_store_same]
  have hsum : to_s64 ((st.prv.rqd t).b_avgload + (st.heap s).avgload)
      = (st.prv.rqd t).b_avgload + (st.heap s).avgload :=
    to_s64_of_range _ (by omega) ha2
  simp only [hrt, hrq]
  refine ⟨?_, ?_, ?_, ?_, rfl, fun x => by rw [hh x]; exact ⟨rfl, rfl⟩⟩
  · rw [d7]
    by_cases hm : s ∈ (st.prv.rqd q0).runq
    · rw [if_pos hm, update_runq_load_same_time st.prv _ (-1) now hs h0 h1 hq0 hb0 hb1 hb2]
    · rw [if_neg hm]
  · rw [a7]
    by_cases hm : s ∈ (st.prv.rqd q0).runq
    · have hupd := update_runq_load_same_time st.prv
        { st.prv.rqd t with
          b_avgload := to_s64 ((st.prv.rqd t).b_avgload + (st.heap s).avgload) }
        1 now hs h0 h1 ht
        (by show 0 ≤ to_s64 _; rw [hsum]; exact ha0)
        (by
          show to_s64 _ * _ < _
          rw [hsum]
          omega)
        (by show to_s64 _ < _; rw [hsum]; exact ha2)
      rw [if_pos hm, hupd]
      exact hsum
    · rw [if_neg hm]
      exact hsum
  · rw [d8]
    by_cases hm : s ∈ (st.prv.rqd q0).runq
    · rw [if_pos hm]
    · rw [if_neg hm]
      exact hq0
  · rw [a8]
    by_cases hm : s ∈ (st.prv.rqd q0).runq
    · rw [if_pos hm]
    · rw [if_neg hm]
      exact ht

/-- The load average `balance_load` takes into account for the entity it
picked, 0 without an entity. -/
theorem consider_delta_exact (f : sched_state) (l o : Int) (ps qs : Option Nat) (ap aq : Int)
    (hap : ap = match ps with | some p => (f.heap p).avgload | none => 0)
    (haq : aq = match qs with | some q => (f.heap q).avgload | none => 0)
    (hL : 0 ≤ (f.prv.rqd l).b_avgload) (hO : 0 ≤ (f.prv.rqd o).b_avgload)
    (hp0 : 0 ≤ ap) (hp1 : ap ≤ (f.prv.rqd l).b_avgload)
    (hq0 : 0 ≤ aq) (hq1 : aq ≤ (f.prv.rqd o).b_avgload)
    (hsum : (f.prv.rqd l).b_avgload + (f.prv.rqd o).b_avgload < 4611686018427387904) :
    consider_loads f l o ps qs
      = ((f.prv.rqd l).b_avgload - ap + aq, (f.prv.rqd o).b_avgload + ap - aq) ∧
    consider_delta f l o ps qs
      = abs (((f.prv.rqd l).b_avgload - ap + aq) - ((f.prv.rqd o).b_avgload + ap - aq)) := by
  have hloads : consider_loads f l o ps qs
      = ((f.prv.rqd l).b_avgload - ap + aq, (f.prv.rqd o).b_avgload + ap - aq) := by
    unfold consider_loads
    cases ps with
    | none =>
      simp only [] at hap
      subst hap
      cases qs with
      | none =>
        simp only [] at haq
        subst haq
        simp
      | some q =>
        simp only [] at haq
        subst haq
        simp only []
        rw [to_s64_of_range _ (by omega) (by omega), to_s64_of_range _ (by omega) (by omega)]
        simp
    | some p =>
      simp only [] at hap
      subst hap
      cases qs with
      | none =>
        simp only [] at haq
        subst haq
        simp only []
        rw [to_s64_of_range _ (by omega) (by omega), to_s64_of_range _ (by omega) (by omega)]
        simp
      | some q =>
        simp only [] at haq
        subst haq
        simp only []
        rw [to_s64_of_range ((f.prv.rqd l).b_avgload - (f.heap p).avgload) (by omega) (by omega),
          to_s64_of_range ((f.prv.rqd o).b_avgload + (f.heap p).avgload) (by omega) (by omega),
          to_s64_of_range _ (by omega) (by omega), to_s64_of_range _ (by omega) (by omega)]
  refine ⟨hloads, ?_⟩
  unfold consider_delta
  rw [hloads]
  simp only []
  rw [to_s64_of_range _ (by omega) (by omega)]
  rcases abs_cases (((f.prv.rqd l).b_avgload - ap + aq) - ((f.prv.rqd o).b_avgload + ap - aq))
    with ⟨e, h⟩ | ⟨e, h⟩
  · rw [e, if_neg (by omega)]
  · rw [e, if_pos h, to_s64_of_range _ (by omega) (by omega)]

theorem balance_distance_exact (st : sched_state) (l o : Int)
    (hL : 0 ≤ (st.prv.rqd l).b_avgload) (hO : 0 ≤ (st.prv.rqd o).b_avgload)
    (hsum : (st.prv.rqd l).b_avgload + (st.prv.rqd o).b_avgload < 4611686018427387904) :
    balance_distance st l o = abs ((st.prv.rqd l).b_avgload - (st.prv.rqd o).b_avgload) := by
  unfold balance_distance
  simp only []
  rw [to_s64_of_range _ (by omega) (by omega)]
  rcases abs_cases ((st.prv.rqd l).b_avgload - (st.prv.rqd o).b_avgload) with ⟨e, h⟩ | ⟨e, h⟩
  · rw [e, if_neg (by omega)]
  · rw [e, if_pos h, to_s64_of_range _ (by omega) (by omega)]

/-- The balancing averages after `balance_load` dealt with the entity it picked
to leave the runqueue `q0` for the runqueue `t`, when the entity is not flagged
scheduled: its load average `a` (0 without an entity) went from one to the
other. -/
theorem migrate_done_loads (now : Int) (st : sched_state) (ps : Option Nat) (q0 t : Int)
    (st1 : sched_state) (a : Int)
    (ha : a = match ps with | some s => (st.heap s).avgload | none => 0)
    (hne : q0 ≠ t) (hd : migrate_done now st ps q0 t st1)
    (hns : ∀ s, ps = some s → (st.heap s).flags &&& CSFLAG_scheduled = 0)
    (hs : st.prv.load_window_shift ≤ 62) (h0 : 0 ≤ now) (h1 : now < 9223372036854775808)
    (hq0 : (st.prv.rqd q0).load_last_update = now >>> LOADAVG_GRANULARITY_SHIFT)
    (ht : (st.prv.rqd t).load_last_update = now >>> LOADAVG_GRANULARITY_SHIFT)
    (hb0 : 0 ≤ (st.prv.rqd q0).b_avgload) (hbt : 0 ≤ (st.prv.rqd t).b_avgload)
    (ha0 : 0 ≤ a) (ha1 : a ≤ (st.prv.rqd q0).b_avgload)
    (hsum : ((st.prv.rqd q0).b_avgload + (st.prv.rqd t).b_avgload)
      * 2 ^ st.prv.load_window_shift < 9223372036854775808) :
    (st1.prv.rqd q0).b_avgload = (st.prv.rqd q0).b_avgload - a ∧
    (st1.prv.rqd t).b_avgload = (st.prv.rqd t).b_avgload + a ∧
    (st1.prv.rqd q0).load_last_update = now >>> LOADAVG_GRANULARITY_SHIFT ∧
    (st1.prv.rqd t).load_last_update = now >>> LOADAVG_GRANULARITY_SHIFT ∧
    st1.prv.load_window_shift = st.prv.load_window_shift ∧
    (∀ x, (st1.heap x).avgload = (st.heap x).avgload ∧
      (st1.heap x).flags &&& CSFLAG_scheduled = (st.heap x).flags &&& CSFLAG_scheduled) := by
  unfold migrate_done at hd
  cases ps with
  | none =>
    simp only [] at hd ha
    subst ha
    rw [hd]
    exact ⟨by omega, by omega, hq0, ht, rfl, fun x => ⟨rfl, rfl⟩⟩
  | some s =>
    simp only [] at hd ha
    rw [if_neg (by simp [hns s rfl])] at hd
    have hW1 : (1 : Int) ≤ 2 ^ st.prv.load_window_shift := one_le_pow₀ (by norm_num)
    have hW0 : (0 : Int) ≤ 2 ^ st.prv.load_window_shift := by omega
    have e1 : ((st.prv.rqd q0).b_avgload + (st.prv.rqd t).b_avgload)
        * 2 ^ st.prv.load_window_shift
        = (st.prv.rqd q0).b_avgload * 2 ^ st.prv.load_window_shift
          + (st.prv.rqd t).b_avgload * 2 ^ st.prv.load_window_shift := add_mul _ _ _
    have e2 : 0 ≤ (st.prv.rqd t).b_avgload * 2 ^ st.prv.load_window_shift :=
      mul_nonneg hbt hW0
    have e3 : ((st.prv.rqd t).b_avgload + (st.heap s).avgload) * 2 ^ st.prv.load_window_shift
        ≤ ((st.prv.rqd q0).b_avgload + (st.prv.rqd t).b_avgload)
          * 2 ^ st.prv.load_window_shift :=
      mul_le_mul_of_nonneg_right (by omega) hW0
    have e4 : (st.prv.rqd q0).b_avgload + (st.prv.rqd t).b_avgload
        ≤ ((st.prv.rqd q0).b_avgload + (st.prv.rqd t).b_avgload)
          * 2 ^ st.prv.load_window_shift :=
      le_mul_of_one_le_right (by omega) hW1
    obtain ⟨r1, r2, r3, r4, r5, r6⟩ := migrate_moved_loads now st s q0 t st1 hne hd hs h0 h1
      hq0 ht hb0 (by omega) (by omega) (by omega) (by omega) (by omega)
    refine ⟨?_, ?_, r3, r4, r5, fun x => ⟨(r6 x).1, by rw [(r6 x).2]⟩⟩
    · rw [r1, ha]
      exact to_s64_of_range _ (by omega) (by omega)
    · rw [r2, ha]

/-- C16 (amended): on a host with two active runqueues, the local one in slot
`l` and another one in slot `o`, with every lock obtained, let `st1` be the
state after the pass has refreshed the loads of both runqueues at `now` and
`(f, bs1)` the outcome of its candidate search.  If the two balancing averages
differ, their distance is not within the tolerance, the search found a
combination that predicts a strictly smaller distance (`bs1.load_delta` below
the distance), and the entities it picked are not flagged scheduled, then the
pass runs to its end and strictly reduces the distance `|L1 - L2|` of the
balancing averages.  The averages are non-negative and fit the window, the load
average of an entity picked is non-negative and at most the balancing average
of its runqueue, the entities of both runqueues are ready to move
(`migrate_ready`), the window shift is between 1 and 31 and `now` is a
non-negative 64-bit time. -/
theorem balance_load_reduces (fuel : Nat) (st : sched_state) (cpu : Nat)
    (now l o : Int) (a b : Nat) (hl : c2r st cpu = l) (hne : l ≠ o)
    (hact : cpumask_cpus st.nr_cpu_ids st.prv.active_queues = [a, b])
    (hab : ((a : Int) = l ∧ (b : Int) = o) ∨ ((a : Int) = o ∧ (b : Int) = l))
    (hs1 : 1 ≤ st.prv.load_window_shift) (hs : st.prv.load_window_shift ≤ 31)
    (h0 : 0 ≤ now) (h1 : now < 9223372036854775808)
    (hprv : st.trylock_prv = true) (hlock : st.trylock_rqd o = true)
    (st1 : sched_state)
    (hst1 : st1 = refresh_runq_load (refresh_runq_load st l now) o now)
    (f : sched_state) (bs1 : balance_state_t)
    (hsearch : balance_search st1
      { load_delta := balance_distance st1 l o, best_push_svc := none, best_pull_svc := none,
        lrqd := l, orqd := o } now = (f, bs1))
    (hL : 0 ≤ (st1.prv.rqd l).b_avgload) (hO : 0 ≤ (st1.prv.rqd o).b_avgload)
    (hsum : ((st1.prv.rqd l).b_avgload + (st1.prv.rqd o).b_avgload)
      * 2 ^ st.prv.load_window_shift < 9223372036854775808)
    (hdiff : (st1.prv.rqd l).b_avgload ≠ (st1.prv.rqd o).b_avgload)
    (hband : balance_within_tolerance st1 l (b : Int) (balance_distance st1 l o) = false)
    (hid : 0 ≤ (st.prv.rqd o).id)
    (himprove : bs1.load_delta < balance_distance st1 l o)
    (hready_l : ∀ s ∈ (st.prv.rqd l).svc, migrate_ready st s l o)
    (hready_o : ∀ s ∈ (st.prv.rqd o).svc, migrate_ready st s o l)
    (hpush : ∀ p ∈ bs1.best_push_svc,
      (f.heap p).flags &&& CSFLAG_scheduled = 0 ∧ 0 ≤ (f.heap p).avgload ∧
        (f.heap p).avgload ≤ (st1.prv.rqd l).b_avgload)
    (hpull : ∀ q ∈ bs1.best_pull_svc,
      (f.heap q).flags &&& CSFLAG_scheduled = 0 ∧ 0 ≤ (f.heap q).avgload ∧
        (f.heap q).avgload ≤ (st1.prv.rqd o).b_avgload) :
    ∃ st2, balance_load (fuel + 1) st cpu now = some st2 ∧
      abs ((st2.prv.rqd l).b_avgload - (st2.prv.rqd o).b_avgload)
        < abs ((st1.prv.rqd l).b_avgload - (st1.prv.rqd o).b_avgload) := by
  have hne1 : o ≠ l := fun h => hne h.symm
  have hld1 : loads_differ st st1 := by
    rw [hst1]
    exact loads_differ_trans _ _ _ (loads_differ_refresh_runq st l now)
      (loads_differ_refresh_runq _ o now)
  have hsh : st1.prv.load_window_shift = st.prv.load_window_shift := by rw [hst1]; rfl
  -- both runqueues are up to date at `now`
  have hllu_o : (st1.prv.rqd o).load_last_update = now >>> LOADAVG_GRANULARITY_SHIFT := by
    rw [hst1]
    simp only [refresh_runq_load, rqd_store_same]
    exact (update_runq_load_lists _ _ _ _).2.2.2.2.2.2.2
  have hllu_l : (st1.prv.rqd l).load_last_update = now >>> LOADAVG_GRANULARITY_SHIFT := by
    rw [hst1]
    simp only [refresh_runq_load, rqd_store_other _ _ _ _ hne, rqd_store_same]
    exact (update_runq_load_lists _ _ _ _).2.2.2.2.2.2.2
  -- the sum of the averages is small
  have hW2 : (2 : Int) ≤ 2 ^ st.prv.load_window_shift := by
    calc (2 : Int) = 2 ^ 1 := by norm_num
      _ ≤ 2 ^ st.prv.load_window_shift := pow_le_pow_right₀ (by norm_num) hs1
  have hsum2 : (st1.prv.rqd l).b_avgload + (st1.prv.rqd o).b_avgload < 4611686018427387904 := by
    have : ((st1.prv.rqd l).b_avgload + (st1.prv.rqd o).b_avgload) * 2
        ≤ ((st1.prv.rqd l).b_avgload + (st1.prv.rqd o).b_avgload)
          * 2 ^ st.prv.load_window_shift :=
      mul_le_mul_of_nonneg_left hW2 (by omega)
    omega
  have hdist := balance_distance_exact st1 l o hL hO hsum2
  have hpos : balance_distance st1 l o > 0 := by
    rw [hdist]
    exact abs_pos.mpr (sub_ne_zero.mpr hdiff)
  -- the search
  obtain ⟨hext, hres⟩ := balance_search_result st1
    { load_delta := balance_distance st1 l o, best_push_svc := none, best_pull_svc := none,
      lrqd := l, orqd := o } now (by rw [hsh]; exact hs1) (by rw [hsh]; exact hs) h0 h1
    ⟨rfl, rfl⟩
  obtain ⟨hkl, hko⟩ := balance_search_keeps_rqd st1
    { load_delta := balance_distance st1 l o, best_push_svc := none, best_pull_svc := none,
      lrqd := l, orqd := o } now (by rw [hsh]; exact hs1) (by rw [hsh]; exact hs) h0 h1
  rw [hsearch] at hext hres hkl hko
  simp only [] at hext hres hkl hko
  have hfprv : f.prv = st1.prv := refresh_extends_prv now _ _ hext
  have hldf := loads_differ_trans _ _ _ hld1 (loads_differ_extends now _ _ hext)
  rw [(hld1.2.2.2.1 l).2.2.2.2.2, (hld1.2.2.2.1 o).2.2.2.2.2] at hres
  rcases hres with ⟨_, _, e⟩ | ⟨_, hbest, _, hpe, hqe⟩
  · omega
  have hpm : ∀ p, bs1.best_push_svc = some p → p ∈ (st.prv.rqd l).svc := by
    intro p hp
    rw [hp] at hpe
    exact hpe.1
  have hqm : ∀ q, bs1.best_pull_svc = some q → q ∈ (st.prv.rqd o).svc := by
    intro q hq
    rw [hq] at hqe
    exact hqe.1
  obtain ⟨s1, st2, hrun, hd1, hd2⟩ := balance_migrate_runs now f bs1 l o hkl hko hne
    (fun p hp => migrate_ready_of_loads_differ st f p l o hldf (hready_l p (hpm p hp)))
    (fun q hq => migrate_ready_of_loads_differ st f q o l hldf (hready_o q (hqm q hq)))
  -- the load averages of the entities picked
  have hpa : ∀ p, bs1.best_push_svc = some p →
      (f.heap p).flags &&& CSFLAG_scheduled = 0 ∧ 0 ≤ (f.heap p).avgload ∧
        (f.heap p).avgload ≤ (st1.prv.rqd l).b_avgload := by
    intro p hp
    exact hpush p (Option.mem_def.mpr hp)
  have hqa : ∀ q, bs1.best_pull_svc = some q →
      (f.heap q).flags &&& CSFLAG_scheduled = 0 ∧ 0 ≤ (f.heap q).avgload ∧
        (f.heap q).avgload ≤ (st1.prv.rqd o).b_avgload := by
    intro q hq
    exact hpull q (Option.mem_def.mpr hq)
  obtain ⟨ap, hapd, hap0, hap1⟩ : ∃ ap : Int,
      ap = (match bs1.best_push_svc with | some p => (f.heap p).avgload | none => 0) ∧
      0 ≤ ap ∧ ap ≤ (st1.prv.rqd l).b_avgload := by
    cases hp : bs1.best_push_svc with
    | none => exact ⟨0, rfl, le_refl _, hL⟩
    | some p => exact ⟨_, rfl, (hpa p hp).2.1, (hpa p hp).2.2⟩
  obtain ⟨aq, haqd, haq0, haq1⟩ : ∃ aq : Int,
      aq = (match bs1.best_pull_svc with | some q => (f.heap q).avgload | none => 0) ∧
      0 ≤ aq ∧ aq ≤ (st1.prv.rqd o).b_avgload := by
    cases hq : bs1.best_pull_svc with
    | none => exact ⟨0, rfl, le_refl _, hO⟩
    | some q => exact ⟨_, rfl, (hqa q hq).2.1, (hqa q hq).2.2⟩
  have hfsh : f.prv.load_window_shift = st.prv.load_window_shift := by rw [hfprv, hsh]
  -- the push
  obtain ⟨p1, p2, p3, p4, p5, p6⟩ := migrate_done_loads now f bs1.best_push_svc l o s1 ap hapd
    hne hd1 (fun s hs => (hpa s hs).1) (by rw [hfsh]; omega) h0 h1
    (by rw [hfprv]; exact hllu_l) (by rw [hfprv]; exact hllu_o)
    (by rw [hfprv]; exact hL) (by rw [hfprv]; exact hO) hap0 (by rw [hfprv]; exact hap1)
    (by rw [hfprv, hsh]; exact hsum)
  rw [hfprv] at p1 p2
  -- the pull
  have haqd1 : aq = (match bs1.best_pull_svc with
      | some q => (s1.heap q).avgload | none => 0) := by
    rw [haqd]
    cases bs1.best_pull_svc with
    | none => rfl
    | some q => exact ((p6 q).1).symm
  have hsum1 : ((s1.prv.rqd o).b_avgload + (s1.prv.rqd l).b_avgload)
      * 2 ^ s1.prv.load_window_shift < 9223372036854775808 := by
    have e : (s1.prv.rqd o).b_avgload + (s1.prv.rqd l).b_avgload
        = (st1.prv.rqd l).b_avgload + (st1.prv.rqd o).b_avgload := by
      rw [p1, p2]
      ring
    rw [e, p5, hfsh]
    exact hsum
  obtain ⟨q1, q2, _, _, _, _⟩ := migrate_done_loads now s1 bs1.best_pull_svc o l st2 aq haqd1
    hne1 hd2 (fun s hs => by rw [(p6 s).2]; exact (hqa s hs).1) (by rw [p5, hfsh]; omega) h0 h1
    p4 p3 (by rw [p2]; omega) (by rw [p1]; omega) haq0 (by rw [p2]; omega) hsum1
  rw [p2] at q1
  rw [p1] at q2
  -- the prediction
  obtain ⟨_, hcd⟩ := consider_delta_exact f l o bs1.best_push_svc bs1.best_pull_svc ap aq
    hapd haqd (by rw [hfprv]; exact hL) (by rw [hfprv]; exact hO) hap0
    (by rw [hfprv]; exact hap1) haq0 (by rw [hfprv]; exact haq1)
    (by rw [hfprv]; exact hsum2)
  rw [hfprv] at hcd
  refine ⟨st2, ?_, ?_⟩
  · rw [balance_load_two fuel st cpu now l o a b hl hne hact hab, ← hst1,
      if_neg (by simp [hprv]), if_neg (by simp [hlock]), if_neg (not_not.mpr hpos),
      if_neg (by simp [hband]),
      if_neg (by rw [(hld1.2.2.2.1 o).1]; omega), hsearch]
    exact hrun
  · rw [q1, q2, ← hdist, ← hcd, ← hbest]
    exact himprove

theorem balance_load_reduces_witness :
    ∃ st2, balance_load 1 bl_state_six 0 1024000 = some st2 ∧
      abs ((st2.prv.rqd 0).b_avgload - (st2.prv.rqd 1).b_avgload)
        < abs (((refresh_runq_load (refresh_runq_load bl_state_six 0 1024000) 1
              1024000).prv.rqd 0).b_avgload
            - ((refresh_runq_load (refresh_runq_load bl_state_six 0 1024000) 1
              1024000).prv.rqd 1).b_avgload) :=
  balance_load_reduces 0 bl_state_six 0 1024000 0 1 0 1 (by decide) (by decide) (by decide)
    (by decide) (by decide) (by decide) (by decide) (by decide) (by decide) (by decide)
    (refresh_runq_load (refresh_runq_load bl_state_six 0 1024000) 1 1024000) rfl
    (balance_search (refresh_runq_load (refresh_runq_load bl_state_six 0 1024000) 1 1024000)
      { load_delta :=
          balance_distance
            (refresh_runq_load (refresh_runq_load bl_state_six 0 1024000) 1 1024000) 0 1
        best_push_svc := none, best_pull_svc := none, lrqd := 0, orqd := 1 } 1024000).1
    (balance_search (refresh_runq_load (refresh_runq_load bl_state_six 0 1024000) 1 1024000)
      { load_delta :=
          balance_distance
            (refresh_runq_load (refresh_runq_load bl_state_six 0 1024000) 1 1024000) 0 1
        best_push_svc := none, best_pull_svc := none, lrqd := 0, orqd := 1 } 1024000).2
    rfl (by decide) (by decide) (by decide) (by decide) (by decide) (by decide) (by decide)
    (by decide) (by decide) (by decide) (by decide)

/-- C16 (counterexample): two active runqueues with the balancing averages
600000 and 400000, every lock obtained, and the migrateable entity 1 waiting on
runqueue 0.  The distance 200000 is outside the tolerance, but moving the
entity, whose load average is 250000, would leave the averages 350000 and
650000, further apart; the search keeps nothing and the pass leaves both
averages as they were. -/
theorem balance_load_keeps_distance :
    c2r bl_state_heavy 0 = 0 ∧
    cpumask_cpus bl_state_heavy.nr_cpu_ids bl_state_heavy.prv.active_queues = [0, 1] ∧
    bl_state_heavy.trylock_prv = true ∧ bl_state_heavy.trylock_rqd 1 = true ∧
    (bl_state_heavy.prv.rqd 0).svc = [1] ∧
    vcpu_is_migrateable bl_state_heavy 1 1 = true ∧
    balance_distance (refresh_runq_load (refresh_runq_load bl_state_heavy 0 1024000) 1 1024000)
      0 1 = 200000 ∧
    balance_within_tolerance
      (refresh_runq_load (refresh_runq_load bl_state_heavy 0 1024000) 1 1024000) 0 1 200000
      = false ∧
    (balance_load 1 bl_state_heavy 0 1024000).map
      (fun s => ((s.prv.rqd 0).b_avgload, (s.prv.rqd 1).b_avgload, (s.prv.rqd 0).svc))
      = some (600000, 400000, [1]) := by
  decide

/-- A pass that picks a running entity does not reduce the distance either:
with entities 1 and 2 running on runqueue 0 and runqueue 1 idle, the search
picks entity 1, `migrate` only flags it, and the balancing averages 524288 and
0 stay. -/
theorem balance_load_flags_running :
    vcpu_is_migrateable bl_state_busy 1 1 = true ∧
    balance_within_tolerance
      (refresh_runq_load (refresh_runq_load bl_state_busy 0 1024000) 1 1024000) 0 1 524288
      = false ∧
    (balance_load 1 bl_state_busy 0 1024000).map
      (fun s => ((s.prv.rqd 0).b_avgload, (s.prv.rqd 1).b_avgload, (s.heap 1).migrate_rqd,
        (s.prv.rqd 0).svc))
      = some (524288, 0, some 1, [1, 2]) := by
  decide

/-! ### Two weights on one runqueue -/

/-- When the reduced credit fits the 32-bit `credit` field, `t2c_update` takes
the quotient off the credit and keeps the remainder as the residual. -/
theorem t2c_update_fits (rqd : csched2_runqueue_data) (T : Int) (svc : csched2_vcpu)
    (hT : 0 < T) (hw : 1 ≤ svc.weight) (hw32 : svc.weight < 4294967296)
    (hc : int_range svc.credit)
    (hlo : -2147483648 ≤ svc.credit - (T * rqd.max_weight + svc.residual) / svc.weight) :
    t2c_update rqd T svc = some { svc with
      residual := ((T * rqd.max_weight + svc.residual) % svc.weight).toNat
      credit := svc.credit - (T * rqd.max_weight + svc.residual) / svc.weight } := by
  have h0 := t2c_nonneg T rqd.max_weight svc.residual (le_of_lt hT)
  have h64 := val_lt_of_credit_fits _ _ _ hw hc.2 hlo
  rw [t2c_update_eq rqd T svc hw hw32 h0 (by omega)]
  have hq : 0 ≤ (T * rqd.max_weight + svc.residual) / (svc.weight : Int) :=
    Int.ediv_nonneg h0 (Int.ofNat_nonneg _)
  rw [to_int_of_range]
  unfold int_range at hc ⊢
  omega

/-- C29 (amended): on a runqueue whose maximum weight is 512, for the same run
time `T > 0` the credit `t2c_update` takes (old credit minus new credit) from
an entity of weight 256 is `2 * T` and the credit it takes from an entity of
weight 512 is `T`: the entity of the lower weight 256 burns credit twice as
fast as the one of weight 512.  The residuals are below the weights, as
`t2c_update` leaves them, and the reduced credits fit the 32-bit `credit`
field. -/
theorem t2c_update_two_weights (rqd : csched2_runqueue_data) (T : Int) (a b : csched2_vcpu)
    (hm : rqd.max_weight = 512) (ha : a.weight = 256) (hb : b.weight = 512)
    (hra : a.residual < 256) (hrb : b.residual < 512) (hT : 0 < T)
    (hca : int_range a.credit) (hcb : int_range b.credit)
    (hla : -2147483648 ≤ a.credit - 2 * T) (hlb : -2147483648 ≤ b.credit - T) :
    ∃ a1 b1, t2c_update rqd T a = some a1 ∧ t2c_update rqd T b = some b1 ∧
      b.credit - b1.credit = T ∧ a.credit - a1.credit = 2 * (b.credit - b1.credit) := by
  have hqa : (T * (rqd.max_weight : Int) + (a.residual : Int)) / (a.weight : Int) = 2 * T := by
    rw [hm, ha]
    push_cast
    omega
  have hqb : (T * (rqd.max_weight : Int) + (b.residual : Int)) / (b.weight : Int) = T := by
    rw [hm, hb]
    push_cast
    omega
  have ea := t2c_update_fits rqd T a hT (by omega) (by omega) hca (by rw [hqa]; exact hla)
  have eb := t2c_update_fits rqd T b hT (by omega) (by omega) hcb (by rw [hqb]; exact hlb)
  refine ⟨_, _, ea, eb, ?_, ?_⟩
  · show b.credit - (b.credit - _) = T
    rw [hqb]
    omega
  · show a.credit - (a.credit - _) = 2 * (b.credit - (b.credit - _))
    rw [hqa, hqb]
    omega

theorem t2c_update_two_weights_witness :
    ∃ a1 b1, t2c_update (ex_rqd_w 512) 1000000 (ex_svc 256 3 10000000) = some a1 ∧
      t2c_update (ex_rqd_w 512) 1000000 (ex_svc 512 7 10000000) = some b1 ∧
      (ex_svc 512 7 10000000).credit - b1.credit = 1000000 ∧
      (ex_svc 256 3 10000000).credit - a1.credit
        = 2 * ((ex_svc 512 7 10000000).credit - b1.credit) :=
  t2c_update_two_weights (ex_rqd_w 512) 1000000 (ex_svc 256 3 10000000)
    (ex_svc 512 7 10000000) (by decide) (by decide) (by decide) (by decide) (by decide)
    (by decide) (by decide) (by decide) (by decide) (by decide)

/-- C29 (counterexample): tenant A of weight 256 and tenant B of weight 512 on
one runqueue, both at credit 10 ms.  For the run time 10 ms `t2c_update` takes
10000000 from the entity of B and 20000000 from the entity of A: B loses half
of what A loses, not twice as much. -/
theorem t2c_update_heavier_burns_slower :
    ∃ a1 b1, t2c_update (ex_rqd_w 512) 10000000 (ex_svc 256 0 10000000) = some a1 ∧
      t2c_update (ex_rqd_w 512) 10000000 (ex_svc 512 0 10000000) = some b1 ∧
      (ex_svc 256 0 10000000).credit - a1.credit = 20000000 ∧
      (ex_svc 512 0 10000000).credit - b1.credit = 10000000 ∧
      (ex_svc 512 0 10000000).credit - b1.credit
        ≠ 2 * ((ex_svc 256 0 10000000).credit - a1.credit) :=
  ⟨_, _, rfl, rfl, by decide, by decide, by decide⟩

/-! ### Domain weight -/

theorem max_weight_search_ge (heap : vcpu_heap) (l : List Nat) (m : Nat) :
    m ≤ max_weight_search heap l m := by
  induction l generalizing m with
  | nil => exact le_refl _
  | cons a t ih =>
    unfold max_weight_search
    split_ifs with h
    · exact le_trans (le_of_lt h) (ih _)
    · exact ih _

theorem max_weight_search_upper (heap : vcpu_heap) (l : List Nat) (m : Nat) :
    ∀ s ∈ l, (heap s).weight ≤ max_weight_search heap l m := by
  induction l generalizing m with
  | nil => intro s hs; cases hs
  | cons a t ih =>
    intro s hs
    unfold max_weight_search
    rcases List.mem_cons.mp hs with rfl | hs
    · split_ifs with h
      · exact max_weight_search_ge heap t _
      · exact le_trans (Nat.le_of_not_lt h) (max_weight_search_ge heap t _)
    · split_ifs with h
      · exact ih _ s hs
      · exact ih _ s hs

theorem max_weight_search_attained (heap : vcpu_heap) (l : List Nat) (m : Nat) :
    max_weight_search heap l m = m ∨ ∃ s ∈ l, (heap s).weight = max_weight_search heap l m := by
  induction l generalizing m with
  | nil => exact Or.inl rfl
  | cons a t ih =>
    unfold max_weight_search
    split_ifs with h
    · rcases ih (heap a).weight with e | ⟨s, hs, e⟩
      · exact Or.inr ⟨a, List.mem_cons_self _ _, e.symm⟩
      · exact Or.inr ⟨s, List.mem_cons_of_mem _ hs, e⟩
    · rcases ih m with e | ⟨s, hs, e⟩
      · exact Or.inl e
      · exact Or.inr ⟨s, List.mem_cons_of_mem _ hs, e⟩

/-- Giving the entity `v` of a runqueue the weight `W` and calling
`update_max_weight` with the old weight keeps the cached largest weight
exact. -/
theorem update_max_weight_exact (heap : vcpu_heap) (r : csched2_runqueue_data)
    (W old v : Nat) (hv : v ∈ r.svc) (hW : 1 ≤ W) (hold : (heap v).weight = old)
    (hex : max_weight_exact heap r) :
    max_weight_exact (heap_store heap v { heap v with weight := W })
      (update_max_weight (heap_store heap v { heap v with weight := W }) r W old) := by
  obtain ⟨hup, s0, hs0, hs0w⟩ := hex
  have hvw : (heap_store heap v { heap v with weight := W } v).weight = W := by
    rw [heap_store_same]
  have hother : ∀ s, s ≠ v →
      (heap_store heap v { heap v with weight := W } s).weight = (heap s).weight := by
    intro s hs
    rw [heap_store_other _ _ _ _ hs]
  have holdle : old ≤ r.max_weight := hold ▸ hup v hv
  unfold update_max_weight
  by_cases c1 : W > r.max_weight
  · rw [if_pos c1]
    refine ⟨?_, v, hv, hvw⟩
    intro s hs
    by_cases e : s = v
    · rw [e, hvw]
    · rw [hother s e]
      exact le_trans (hup s hs) (le_of_lt c1)
  · rw [if_neg c1]
    by_cases c2 : old = r.max_weight
    · rw [if_pos c2]
      refine ⟨max_weight_search_upper _ r.svc 1, ?_⟩
      rcases max_weight_search_attained
        (heap_store heap v { heap v with weight := W }) r.svc 1 with e | h
      · refine ⟨v, hv, ?_⟩
        have := max_weight_search_upper (heap_store heap v { heap v with weight := W })
          r.svc 1 v hv
        show _ = max_weight_search _ r.svc 1
        rw [hvw] at this ⊢
        omega
      · exact h
    · rw [if_neg c2]
      refine ⟨?_, s0, hs0, ?_⟩
      · intro s hs
        by_cases e : s = v
        · rw [e, hvw]
          exact Nat.le_of_not_lt c1
        · rw [hother s e]
          exact hup s hs
      · have e : s0 ≠ v := by
          intro e
          rw [e, hold] at hs0w
          exact c2 hs0w
        rw [hother s0 e]
        exact hs0w

/-- The weight loop of `csched2_dom_cntl` runs through the entities `vs`, gives
each the weight `W` and keeps the cached largest weight of the runqueues `Q`
exact; it changes no other field of an entity and no assignment list. -/
theorem dom_cntl_loop_spec (W old : Nat) (hW : 1 ≤ W) (Q : List Int) (vs : List Nat) :
    ∀ st : sched_state, vs.Nodup →
      (∀ v ∈ vs, (st.heap v).rqd = some (c2r st (st.heap v).processor) ∧
        v ∈ (st.prv.rqd (c2r st (st.heap v).processor)).svc ∧
        (st.heap v).weight = old ∧ c2r st (st.heap v).processor ∈ Q) →
      (∀ v ∈ vs, ∀ q ∈ Q, v ∈ (st.prv.rqd q).svc → q = c2r st (st.heap v).processor) →
      (∀ q ∈ Q, max_weight_exact st.heap (st.prv.rqd q)) →
      ∃ st1, dom_cntl_loop W old vs st = some st1 ∧
        (∀ v ∈ vs, (st1.heap v).weight = W) ∧
        (∀ x, x ∉ vs → st1.heap x = st.heap x) ∧
        (∀ x, (st1.heap x).rqd = (st.heap x).rqd ∧
          (st1.heap x).processor = (st.heap x).processor) ∧
        (∀ q, (st1.prv.rqd q).svc = (st.prv.rqd q).svc) ∧
        st1.prv.runq_map = st.prv.runq_map ∧ st1.dom = st.dom ∧
        (∀ q ∈ Q, max_weight_exact st1.heap (st1.prv.rqd q)) := by
  induction vs with
  | nil =>
    intro st _ _ _ hex
    exact ⟨st, rfl, (fun v hv => by cases hv), fun _ _ => rfl, fun _ => ⟨rfl, rfl⟩,
      fun _ => rfl, rfl, rfl, hex⟩
  | cons v rest ih =>
    intro st hnd hB hC hex
    obtain ⟨hvr, hvs, hvw, hvQ⟩ := hB v (List.mem_cons_self _ _)
    have hvn : v ∉ rest := (List.nodup_cons.mp hnd).1
    have hndr : rest.Nodup := (List.nodup_cons.mp hnd).2
    unfold dom_cntl_loop
    rw [if_neg (not_not.mpr hvr)]
    simp only []
    generalize hq : c2r st (st.heap v).processor = q at *
    generalize hh : heap_store st.heap v { st.heap v with weight := W } = heap1
    have hsame : heap1 v = { st.heap v with weight := W } := by
      rw [← hh, heap_store_same]
    have hoth : ∀ x, x ≠ v → heap1 x = st.heap x := by
      intro x hx
      rw [← hh, heap_store_other _ _ _ _ hx]
    have hfld : ∀ x, (heap1 x).rqd = (st.heap x).rqd ∧
        (heap1 x).processor = (st.heap x).processor := by
      intro x
      by_cases e : x = v
      · rw [e, hsame]
        exact ⟨rfl, rfl⟩
      · rw [hoth x e]
        exact ⟨rfl, rfl⟩
    obtain ⟨r1, hr⟩ : ∃ r1, update_max_weight heap1 (st.prv.rqd q) W old = r1 := ⟨_, rfl⟩
    rw [hr]
    have hr1svc : r1.svc = (st.prv.rqd q).svc := by
      rw [← hr, update_max_weight_frame]
    have hr1ex : max_weight_exact heap1 r1 := by
      rw [← hr, ← hh]
      exact update_max_weight_exact st.heap (st.prv.rqd q) W old v hvs hW hvw (hex q hvQ)
    have hsvc : ∀ j, ((rqd_store st.prv q r1).rqd j).svc = (st.prv.rqd j).svc := by
      intro j
      unfold rqd_store
      simp only []
      by_cases e : j = q
      · rw [if_pos e, hr1svc, e]
      · rw [if_neg e]
    have hc2r : ∀ x, c2r { st with heap := heap1, prv := rqd_store st.prv q r1 }
        (heap1 x).processor = c2r st (st.heap x).processor := by
      intro x
      rw [(hfld x).2]
      rfl
    obtain ⟨st1, e1, h1, h2, h3, h4, h5, h6, h7⟩ :=
      ih { st with heap := heap1, prv := rqd_store st.prv q r1 } hndr
        (by
          intro u hu
          have hne : u ≠ v := fun e => hvn (e ▸ hu)
          obtain ⟨a, b, c, d⟩ := hB u (List.mem_cons_of_mem _ hu)
          show (heap1 u).rqd = some (c2r _ (heap1 u).processor) ∧
            u ∈ ((rqd_store st.prv q r1).rqd (c2r _ (heap1 u).processor)).svc ∧
            (heap1 u).weight = old ∧ c2r _ (heap1 u).processor ∈ Q
          rw [hc2r u, hsvc, (hfld u).1, hoth u hne]
          exact ⟨a, b, c, d⟩)
        (by
          intro u hu j hj hmem
          show j = c2r _ (heap1 u).processor
          rw [hc2r u]
          have hmem1 : u ∈ ((rqd_store st.prv q r1).rqd j).svc := hmem
          rw [hsvc] at hmem1
          exact hC u (List.mem_cons_of_mem _ hu) j hj hmem1)
        (by
          intro j hj
          show max_weight_exact heap1 ((rqd_store st.prv q r1).rqd j)
          unfold rqd_store
          simp only []
          by_cases e : j = q
          · rw [if_pos e]
            exact hr1ex
          · rw [if_neg e]
            obtain ⟨hup, s0, hs0, hs0w⟩ := hex j hj
            have hnv : ∀ s ∈ (st.prv.rqd j).svc, s ≠ v := by
              intro s hs es
              rw [es] at hs
              exact e ((hC v (List.mem_cons_self _ _) j hj hs).trans hq)
            refine ⟨?_, s0, hs0, ?_⟩
            · intro s hs
              rw [hoth s (hnv s hs)]
              exact hup s hs
            · rw [hoth s0 (hnv s0 hs0)]
              exact hs0w)
    refine ⟨st1, e1, ?_, ?_, ?_, ?_, ?_, h6, h7⟩
    · intro u hu
      rcases List.mem_cons.mp hu with e | hu
      · rw [e]
        by_cases hin : v ∈ rest
        · exact h1 v hin
        · rw [h2 v hin]
          show (heap1 v).weight = W
          rw [hsame]
      · exact h1 u hu
    · intro x hx
      have hxv : x ≠ v := fun e => hx (e ▸ List.mem_cons_self _ _)
      have hxr : x ∉ rest := fun e => hx (List.mem_cons_of_mem _ e)
      rw [h2 x hxr]
      exact hoth x hxv
    · intro x
      exact ⟨(h3 x).1.trans (hfld x).1, (h3 x).2.trans (hfld x).2⟩
    · intro j
      exact (h4 j).trans (hsvc j)
    · exact h5
/-- C21: `csched2_dom_cntl` with the command putinfo and a weight `W` other than
0 returns 0 and leaves the domain and every entity of the domain with the
weight `W`; each of these entities is still assigned to the runqueue of its
processor, and that runqueue caches the largest weight among the entities on
its assignment list.  The entities of the domain are placed as the loop expects
(`dom_entities_placed`). -/
theorem csched2_dom_cntl_putinfo (st : sched_state) (d W : Nat) (hW : W ≠ 0)
    (hp : dom_entities_placed st d) :
    ∃ st1, csched2_dom_cntl st d { cmd := schedop_cmd.putinfo, weight := W }
        = some (0, { cmd := schedop_cmd.putinfo, weight := W }, st1) ∧
      (st1.dom d).weight = W ∧
      ∀ v ∈ (st.dom d).vcpus, (st1.heap v).weight = W ∧
        (st1.heap v).rqd = some (c2r st1 (st1.heap v).processor) ∧
        v ∈ (st1.prv.rqd (c2r st1 (st1.heap v).processor)).svc ∧
        max_weight_exact st1.heap (st1.prv.rqd (c2r st1 (st1.heap v).processor)) := by
  obtain ⟨hnd, hB, hC⟩ := hp
  obtain ⟨st1, e1, h1, _, h3, h4, h5, h6, h7⟩ :=
    dom_cntl_loop_spec W (st.dom d).weight (by omega)
      ((st.dom d).vcpus.map (fun v => c2r st (st.heap v).processor)) (st.dom d).vcpus
      { st with dom := dom_store st.dom d { st.dom d with weight := W } } hnd
      (fun v hv => ⟨(hB v hv).1, (hB v hv).2.1, (hB v hv).2.2.1,
        List.mem_map.mpr ⟨v, hv, rfl⟩⟩)
      (by
        intro v hv q hq hmem
        obtain ⟨u, hu, rfl⟩ := List.mem_map.mp hq
        exact hC v hv u hu hmem)
      (by
        intro q hq
        obtain ⟨u, hu, rfl⟩ := List.mem_map.mp hq
        exact (hB u hu).2.2.2)
  have hdw : (dom_store st.dom d { st.dom d with weight := W } d).weight = W := by
    simp [dom_store]
  have hdv : (dom_store st.dom d { st.dom d with weight := W } d).vcpus = (st.dom d).vcpus := by
    simp [dom_store]
  refine ⟨st1, ?_, ?_, ?_⟩
  · unfold csched2_dom_cntl
    simp only []
    rw [if_pos hW, hdw, hdv, e1]
  · rw [h6]
    exact hdw
  · intro v hv
    have hq : c2r st1 (st1.heap v).processor = c2r st (st.heap v).processor := by
      unfold c2r
      rw [h5, (h3 v).2]
    rw [hq, (h3 v).1, h4]
    exact ⟨h1 v hv, (hB v hv).1, (hB v hv).2.1,
      h7 _ (List.mem_map.mpr ⟨v, hv, rfl⟩)⟩

theorem csched2_dom_cntl_putinfo_witness :
    ∃ st1, csched2_dom_cntl (dc_state [] 0) 1 { cmd := schedop_cmd.putinfo, weight := 50 }
        = some (0, { cmd := schedop_cmd.putinfo, weight := 50 }, st1) ∧
      (st1.dom 1).weight = 50 ∧
      ∀ v ∈ ((dc_state [] 0).dom 1).vcpus, (st1.heap v).weight = 50 ∧
        (st1.heap v).rqd = some (c2r st1 (st1.heap v).processor) ∧
        v ∈ (st1.prv.rqd (c2r st1 (st1.heap v).processor)).svc ∧
        max_weight_exact st1.heap (st1.prv.rqd (c2r st1 (st1.heap v).processor)) :=
  csched2_dom_cntl_putinfo (dc_state [] 0) 1 50 (by decide) (by decide)

/-- C22 (amended): for a putinfo request whose weight is 0, `csched2_dom_cntl`
returns 0, not an error code, and changes nothing: the weights of the domain
and of its entities stay as they were.  The request is ignored, not
rejected. -/
theorem csched2_dom_cntl_zero_weight (st : sched_state) (d : Nat) :
    csched2_dom_cntl st d { cmd := schedop_cmd.putinfo, weight := 0 }
      = some (0, { cmd := schedop_cmd.putinfo, weight := 0 }, st) := by
  unfold csched2_dom_cntl
  simp

/-- C22 (counterexample): a putinfo request of weight 0 for domain 1 of the
sample state comes back with the return code 0, with the domain and its
entities at their weight 256. -/
theorem csched2_dom_cntl_zero_weight_accepted :
    ∃ st1, csched2_dom_cntl (dc_state [] 0) 1 { cmd := schedop_cmd.putinfo, weight := 0 }
        = some (0, { cmd := schedop_cmd.putinfo, weight := 0 }, st1) ∧
      (st1.dom 1).weight = 256 ∧ (st1.heap 1).weight = 256 ∧ (st1.heap 2).weight = 256 :=
  ⟨_, rfl, by decide, by decide, by decide⟩

/-! ### Removing an entity -/

/-- C23: for an entity that is not idle, `csched2_vcpu_remove` ends in a `BUG_ON`
when the entity is on a runnable list or flagged scheduled.  Otherwise, for an
entity with a domain record that is assigned to the runqueue of its processor,
it takes the entity off the assignment list of that runqueue, clears the
runqueue reference of the entity and lowers the entity count of the domain by
one (the count is a `uint16_t` and at least 1). -/
theorem csched2_vcpu_remove_spec (st : sched_state) (svc : Nat) :
    ((st.heap svc).is_idle = false →
      (__vcpu_on_runq st svc = true ∨ (st.heap svc).flags &&& CSFLAG_scheduled ≠ 0) →
      csched2_vcpu_remove st svc = none) ∧
    ((st.heap svc).is_idle = false → __vcpu_on_runq st svc = false →
      (st.heap svc).flags &&& CSFLAG_scheduled = 0 →
      ∀ d q, (st.heap svc).sdom = some d → (st.heap svc).rqd = some q →
        q = c2r st (st.heap svc).processor →
        1 ≤ (st.dom d).nr_vcpus → (st.dom d).nr_vcpus < 65536 →
        ∃ st1, csched2_vcpu_remove st svc = some st1 ∧
          (st1.prv.rqd q).svc = (st.prv.rqd q).svc.erase svc ∧
          (st1.heap svc).rqd = none ∧
          (st1.dom d).nr_vcpus + 1 = (st.dom d).nr_vcpus ∧
          (st1.dom d).weight = (st.dom d).weight) := by
  constructor
  · intro hidle h
    unfold csched2_vcpu_remove
    cases hs : (st.heap svc).sdom with
    | none => rfl
    | some d =>
      simp only []
      rcases h with h | h
      · rw [if_pos h]
      · by_cases hon : __vcpu_on_runq st svc = true
        · rw [if_pos hon]
        · rw [if_neg hon, hidle]
          have hd : runq_deassign st svc = none := by
            unfold runq_deassign
            split_ifs
            · rfl
            · unfold __runq_deassign
              rw [if_neg hon, if_pos h]
          simp [hd]
  · intro hidle hon hfl d q hs hr hq h1 h16
    have hoff : svc ∉ (st.prv.rqd q).runq := by
      unfold __vcpu_on_runq at hon
      rw [hr] at hon
      simpa using hon
    obtain ⟨rD, e, _, _, _, _, _, hsvc, _, _⟩ := runq_deassign_runs st svc q hfl hr hoff
    have hd : runq_deassign st svc = some { st with
        heap := heap_store st.heap svc { st.heap svc with rqd := none }
        prv := rqd_store st.prv q rD } := by
      unfold runq_deassign
      rw [if_neg (by rw [hr, hq]; simp), e]
    unfold csched2_vcpu_remove
    rw [hs]
    simp only []
    rw [if_neg (by simp [hon]), hidle]
    simp only [Bool.not_false, if_true, hd]
    have hs1 : (heap_store st.heap svc { st.heap svc with rqd := none } svc).sdom = some d := by
      rw [heap_store_same]
      exact hs
    rw [hs1]
    refine ⟨_, rfl, ?_, ?_, ?_, ?_⟩
    · show ((rqd_store st.prv q rD).rqd q).svc = _
      simp [rqd_store, hsvc]
    · show (heap_store st.heap svc { st.heap svc with rqd := none } svc).rqd = none
      rw [heap_store_same]
    · show (dom_store st.dom d _ d).nr_vcpus + 1 = _
      simp only [dom_store, if_true]
      omega
    · show (dom_store st.dom d _ d).weight = _
      simp [dom_store]

theorem csched2_vcpu_remove_spec_witness :
    csched2_vcpu_remove (dc_state [1] 0) 1 = none ∧
    csched2_vcpu_remove (dc_state [] CSFLAG_scheduled) 2 = none ∧
    ∃ st1, csched2_vcpu_remove (dc_state [] 0) 1 = some st1 ∧
      (st1.prv.rqd 0).svc = ((dc_state [] 0).prv.rqd 0).svc.erase 1 ∧
      (st1.heap 1).rqd = none ∧
      (st1.dom 1).nr_vcpus + 1 = ((dc_state [] 0).dom 1).nr_vcpus ∧
      (st1.dom 1).weight = ((dc_state [] 0).dom 1).weight :=
  ⟨(csched2_vcpu_remove_spec (dc_state [1] 0) 1).1 (by decide) (Or.inl (by decide)),
    (csched2_vcpu_remove_spec (dc_state [] CSFLAG_scheduled) 2).1 (by decide)
      (Or.inr (by decide)),
    (csched2_vcpu_remove_spec (dc_state [] 0) 1).2 (by decide) (by decide) (by decide) 1 0
      (by decide) (by decide) (by decide) (by decide) (by decide)⟩

/-! ### What the scheduler leaves alone -/

theorem runq_shrinks_refl (st : sched_state) : runq_shrinks st st :=
  ⟨fun _ => rfl, fun _ _ h => h⟩

theorem runq_shrinks_trans (a b c : sched_state) (h1 : runq_shrinks a b)
    (h2 : runq_shrinks b c) : runq_shrinks a c :=
  ⟨fun x => (h2.1 x).trans (h1.1 x), fun x q h => h1.2 x q (h2.2 x q h)⟩

theorem runq_others_kept_trans (svc : Nat) (a b c : sched_state)
    (h1 : runq_others_kept svc a b) (h2 : runq_others_kept svc b c) :
    runq_others_kept svc a c :=
  ⟨fun x => (h2.1 x).trans (h1.1 x), fun x hx q h => h1.2 x hx q (h2.2 x hx q h)⟩

theorem runq_others_kept_of_shrinks (svc : Nat) (a b : sched_state) (h : runq_shrinks a b) :
    runq_others_kept svc a b :=
  ⟨h.1, fun x _ q hx => h.2 x q hx⟩

theorem runq_shrinks_of_same (st st1 : sched_state)
    (hf : ∀ x, (st1.heap x).flags = (st.heap x).flags)
    (hr : ∀ q, (st1.prv.rqd q).runq = (st.prv.rqd q).runq) : runq_shrinks st st1 :=
  ⟨hf, fun _ q h => (hr q) ▸ h⟩

theorem update_load_prv (st : sched_state) (q : Int) (svc : Option Nat) (change now : Int) :
    (update_load st q svc change now).prv
      = rqd_store st.prv q (__update_runq_load st.prv (st.prv.rqd q) change now) := by
  unfold update_load
  cases svc <;> rfl

theorem update_load_shrinks (st : sched_state) (q : Int) (svc : Option Nat)
    (change now : Int) : runq_shrinks st (update_load st q svc change now) := by
  apply runq_shrinks_of_same
  · intro x
    unfold update_load
    cases svc with
    | none => rfl
    | some s =>
      simp only []
      by_cases e : x = s
      · rw [e, heap_store_same, update_svc_load_frame]
      · rw [heap_store_other _ _ _ _ e]
  · intro j
    rw [update_load_prv]
    by_cases e : j = q
    · rw [e, rqd_store_same, (update_runq_load_lists _ _ _ _).2.2.2.2.1]
    · rw [rqd_store_other _ _ _ _ e]

theorem refresh_runq_load_shrinks (st : sched_state) (q now : Int) :
    runq_shrinks st (refresh_runq_load st q now) :=
  update_load_shrinks st q none 0 now

theorem refresh_svc_load_shrinks (st : sched_state) (s : Nat) (now : Int) :
    runq_shrinks st (refresh_svc_load st s now) := by
  apply runq_shrinks_of_same
  · intro x
    unfold refresh_svc_load
    by_cases e : x = s
    · simp only [e, heap_store_same]
      rw [update_svc_load_frame]
    · simp only [heap_store_other _ _ _ _ e]
  · intro j
    rfl

theorem runq_remove_shrinks (st st1 : sched_state) (svc : Nat)
    (h : __runq_remove st svc = some st1) : runq_shrinks st st1 := by
  unfold __runq_remove at h
  split_ifs at h
  cases hr : (st.heap svc).rqd with
  | none => rw [hr] at h; cases h
  | some q =>
    rw [hr] at h
    simp only [Option.some.injEq] at h
    subst h
    refine ⟨fun _ => rfl, fun x j hx => ?_⟩
    by_cases e : j = q
    · rw [e] at hx ⊢
      simp only [rqd_store_same] at hx
      exact List.mem_of_mem_erase hx
    · simp only [rqd_store_other _ _ _ _ e] at hx
      exact hx

theorem runq_deassign_shrinks (st st1 : sched_state) (svc : Nat)
    (h : __runq_deassign st svc = some st1) : runq_shrinks st st1 := by
  unfold __runq_deassign at h
  split_ifs at h
  cases hr : (st.heap svc).rqd with
  | none => rw [hr] at h; cases h
  | some q =>
    rw [hr] at h
    simp only [Option.some.injEq] at h
    subst h
    apply runq_shrinks_of_same
    · intro x
      by_cases e : x = svc
      · simp only [e, heap_store_same]
      · simp only [heap_store_other _ _ _ _ e]
    · intro j
      by_cases e : j = q
      · simp only [e, rqd_store_same]
        rw [update_max_weight_frame]
      · simp only [rqd_store_other _ _ _ _ e]

theorem runq_assign_shrinks (st : sched_state) (svc : Nat) (q : Int) :
    runq_shrinks st (__runq_assign st svc q) := by
  obtain ⟨rA, e, _, _, _, _, hrunq, _⟩ := runq_assign_state st svc q
  rw [e]
  apply runq_shrinks_of_same
  · intro x
    by_cases e : x = svc
    · simp only [e, heap_store_same]
    · simp only [heap_store_other _ _ _ _ e]
  · intro j
    by_cases e : j = q
    · simp only [e, rqd_store_same, hrunq]
    · simp only [rqd_store_other _ _ _ _ e]

theorem runq_insert_others_kept (st st1 : sched_state) (cpu svc : Nat)
    (h : runq_insert st cpu svc = some st1) : runq_others_kept svc st st1 := by
  unfold runq_insert at h
  split_ifs at h
  cases hi : __runq_insert st.heap (RQD st cpu) svc with
  | none => rw [hi] at h; cases h
  | some r =>
    rw [hi] at h
    simp only [Option.some.injEq] at h
    subst h
    unfold __runq_insert at hi
    split_ifs at hi
    simp only [Option.some.injEq] at hi
    refine ⟨fun _ => rfl, fun x hx j hmem => ?_⟩
    by_cases e : j = c2r st cpu
    · rw [e] at hmem ⊢
      simp only [rqd_store_same] at hmem
      rw [← hi] at hmem
      rcases (runq_insert_scan_mem _ _ _ _ _).mp hmem with h1 | h1
      · exact absurd h1 hx
      · exact h1
    · simp only [rqd_store_other _ _ _ _ e] at hmem
      exact hmem

theorem burn_credits_flags (rqd : csched2_runqueue_data) (now : Int) (s c : csched2_vcpu)
    (h : burn_credits rqd s now = some c) : c.flags = s.flags := by
  rw [(burn_credits_frame rqd now s c h).1]

theorem runq_tickle_scan_flags (rqd : csched2_runqueue_data) (curr : Nat → Nat) (cpu : Nat)
    (now : Int) :
    ∀ (l : List Nat) (h h2 : vcpu_heap) (ipid ipid2 : Option Nat) (lowest lowest2 : Int),
      runq_tickle_scan rqd curr cpu now l h ipid lowest = some (h2, ipid2, lowest2) →
      ∀ x, (h2 x).flags = (h x).flags := by
  intro l
  induction l with
  | nil =>
    intro h h2 ipid ipid2 lowest lowest2 e x
    unfold runq_tickle_scan at e
    simp only [Option.some.injEq, Prod.mk.injEq] at e
    rw [e.1]
  | cons i rest ih =>
    intro h h2 ipid ipid2 lowest lowest2 e x
    unfold runq_tickle_scan at e
    by_cases hi : i = cpu
    · rw [if_pos hi] at e
      exact ih _ _ _ _ _ _ e x
    · rw [if_neg hi] at e
      split_ifs at e
      cases hb : burn_credits rqd (h (curr i)) now with
      | none => rw [hb] at e; cases e
      | some cur =>
        rw [hb] at e
        simp only [] at e
        have hst : ∀ y, (heap_store h (curr i) cur y).flags = (h y).flags := by
          intro y
          by_cases ey : y = curr i
          · rw [ey, heap_store_same, burn_credits_flags _ _ _ _ hb]
          · rw [heap_store_other _ _ _ _ ey]
        split_ifs at e
        · rw [ih _ _ _ _ _ _ e x, hst]
        · rw [ih _ _ _ _ _ _ e x, hst]

theorem tickle_cpu_shrinks (st : sched_state) (q : Int) (ipid : Nat) :
    runq_shrinks st (tickle_cpu st q ipid) := by
  apply runq_shrinks_of_same
  · intro x
    rfl
  · intro j
    unfold tickle_cpu
    by_cases e : j = q
    · simp only [e, rqd_store_same]
    · simp only [rqd_store_other _ _ _ _ e]

theorem runq_shrinks_heap (st : sched_state) (heap1 : vcpu_heap)
    (h : ∀ x, (heap1 x).flags = (st.heap x).flags) :
    runq_shrinks st { st with heap := heap1 } :=
  runq_shrinks_of_same _ _ h (fun _ => rfl)

theorem runq_tickle_shrinks (st st1 : sched_state) (cpu new : Nat) (now : Int)
    (h : runq_tickle st cpu new now = some st1) : runq_shrinks st st1 := by
  unfold runq_tickle at h
  simp only [] at h
  split_ifs at h
  cases hb : burn_credits (st.prv.rqd (c2r st cpu)) (st.heap (st.curr_on_cpu cpu)) now with
  | none => rw [hb] at h; cases h
  | some cur =>
    rw [hb] at h
    simp only [] at h
    have hst : ∀ y, (heap_store st.heap (st.curr_on_cpu cpu) cur y).flags
        = (st.heap y).flags := by
      intro y
      by_cases ey : y = st.curr_on_cpu cpu
      · rw [ey, heap_store_same, burn_credits_flags _ _ _ _ hb]
      · rw [heap_store_other _ _ _ _ ey]
    have h1 := runq_shrinks_heap st _ hst
    split_ifs at h
    · simp only [Option.some.injEq] at h
      rw [← h]
      exact runq_shrinks_trans _ _ _ h1 (tickle_cpu_shrinks _ _ _)
    · simp only [Option.some.injEq] at h
      rw [← h]
      exact runq_shrinks_trans _ _ _ h1 (tickle_cpu_shrinks _ _ _)
    · revert h
      generalize hs : runq_tickle_scan _ _ _ _ _ _ _ _ = r
      intro h
      cases r with
      | none => cases h
      | some r =>
        obtain ⟨heap2, ipid, lowest⟩ := r
        have hfl := runq_tickle_scan_flags _ _ _ _ _ _ _ _ _ _ _ hs
        have h2 : runq_shrinks st { st with heap := heap2 } :=
          runq_shrinks_heap st _ (fun x => (hfl x).trans (hst x))
        cases ipid with
        | none =>
          simp only [Option.some.injEq] at h
          rw [← h]
          exact h2
        | some ip =>
          simp only [] at h
          split_ifs at h
          · simp only [Option.some.injEq] at h
            rw [← h]
            exact h2
          · simp only [Option.some.injEq] at h
            rw [← h]
            exact runq_shrinks_trans _ _ _ h2 (tickle_cpu_shrinks _ _ _)
theorem requeue_kept_refl (st : sched_state) : requeue_kept st st :=
  ⟨fun _ => rfl, fun _ h => h⟩

theorem requeue_kept_trans (a b c : sched_state) (h1 : requeue_kept a b)
    (h2 : requeue_kept b c) : requeue_kept a c :=
  ⟨fun x => (h2.1 x).trans (h1.1 x), fun x h => h1.2 x (h2.2 x h)⟩

theorem requeue_kept_of_shrinks (a b : sched_state) (h : runq_shrinks a b) :
    requeue_kept a b :=
  ⟨fun x => by rw [h.1 x], fun x ⟨q, hq⟩ => ⟨q, h.2 x q hq⟩⟩

theorem requeue_kept_of_others (svc : Nat) (a b : sched_state)
    (h : runq_others_kept svc a b) (hq : ∃ q, svc ∈ (a.prv.rqd q).runq) :
    requeue_kept a b := by
  refine ⟨fun x => by rw [h.1 x], fun x hx => ?_⟩
  by_cases e : x = svc
  · rw [e]
    exact hq
  · obtain ⟨q, hq1⟩ := hx
    exact ⟨q, h.2 x e q hq1⟩

theorem runq_shrinks_store (st : sched_state) (svc : Nat) (v : csched2_vcpu)
    (hv : v.flags = (st.heap svc).flags) :
    runq_shrinks st { st with heap := heap_store st.heap svc v } := by
  apply runq_shrinks_heap
  intro x
  by_cases e : x = svc
  · rw [e, heap_store_same, hv]
  · rw [heap_store_other _ _ _ _ e]

theorem migrate_detach_shrinks (st st1 : sched_state) (svc : Nat) (now : Int)
    (h : migrate_detach st svc now = some st1) : runq_shrinks st st1 := by
  unfold migrate_detach at h
  simp only [] at h
  by_cases hon : __vcpu_on_runq st svc = true
  · rw [if_pos hon] at h
    cases hr : __runq_remove st svc with
    | none => rw [hr] at h; cases h
    | some s1 =>
      rw [hr] at h
      simp only [] at h
      cases hq : (s1.heap svc).rqd with
      | none => rw [hq] at h; cases h
      | some q =>
        rw [hq] at h
        simp only [] at h
        exact runq_shrinks_trans _ _ _
          (runq_shrinks_trans _ _ _ (runq_remove_shrinks _ _ _ hr) (update_load_shrinks _ _ _ _ _))
          (runq_deassign_shrinks _ _ _ h)
  · rw [if_neg hon] at h
    simp only [] at h
    exact runq_deassign_shrinks _ _ _ h

theorem migrate_attach_kept (st st1 : sched_state) (svc : Nat) (t now : Int) (on_runq : Bool)
    (h : migrate_attach st svc t now on_runq = some st1) :
    runq_others_kept svc st st1 ∧ (on_runq = false → runq_shrinks st st1) := by
  unfold migrate_attach at h
  simp only [] at h
  split_ifs at h with h1 h2
  · -- inserted and tickled
    revert h
    generalize hst5 : __runq_assign _ svc t = s5
    intro h
    have k5 : runq_shrinks st s5 := by
      rw [← hst5]
      exact runq_shrinks_trans _ _ _ (runq_shrinks_store st svc _ (by rfl)) (runq_assign_shrinks _ _ _)
    have k6 := runq_shrinks_trans _ _ _ k5 (update_load_shrinks s5 t none 1 now)
    cases hi : runq_insert (update_load s5 t none 1 now) (cpumask_any st.nr_cpu_ids
        (cpumask_and (st.heap svc).cpu_hard_affinity (st.prv.rqd t).active)) svc with
    | none => rw [hi] at h; cases h
    | some s7 =>
      rw [hi] at h
      simp only [] at h
      refine ⟨?_, fun e => by rw [h2] at e; cases e⟩
      exact runq_others_kept_trans _ _ _ _
        (runq_others_kept_trans _ _ _ _ (runq_others_kept_of_shrinks _ _ _ k6)
          (runq_insert_others_kept _ _ _ _ hi))
        (runq_others_kept_of_shrinks _ _ _ (runq_tickle_shrinks _ _ _ _ _ h))
  · simp only [Option.some.injEq] at h
    have k5 : runq_shrinks st st1 := by
      rw [← h]
      exact runq_shrinks_trans _ _ _ (runq_shrinks_store st svc _ (by rfl)) (runq_assign_shrinks _ _ _)
    exact ⟨runq_others_kept_of_shrinks _ _ _ k5, fun _ => k5⟩

theorem and_or_delayed (f : Nat) :
    (f ||| CSFLAG_runq_migrate_request) &&& CSFLAG_delayed_runq_add
      = f &&& CSFLAG_delayed_runq_add := by
  apply Nat.eq_of_testBit_eq
  intro i
  simp only [Nat.testBit_and, Nat.testBit_or]
  have h8 : CSFLAG_runq_migrate_request = 2 ^ 3 := by decide
  have h4 : CSFLAG_delayed_runq_add = 2 ^ 2 := by decide
  rw [h8, h4, Nat.testBit_two_pow, Nat.testBit_two_pow]
  by_cases e3 : 3 = i
  · subst e3
    simp
  · simp [e3]

/-- A move or a move request leaves the delayed-requeue flag of every entity
alone and puts no entity on a runnable list that was on none. -/
theorem migrate_requeue_kept (st st1 : sched_state) (svc : Nat) (t now : Int)
    (h : migrate st svc t now = some st1) : requeue_kept st st1 := by
  unfold migrate at h
  by_cases hs : (st.heap svc).flags &&& CSFLAG_scheduled ≠ 0
  · rw [if_pos hs] at h
    simp only [Option.some.injEq] at h
    subst h
    refine ⟨fun x => ?_, fun x hx => hx⟩
    by_cases e : x = svc
    · simp only [e, heap_store_same]
      exact and_or_delayed _
    · simp only [heap_store_other _ _ _ _ e]
  · rw [if_neg hs] at h
    cases hd : migrate_detach st svc now with
    | none => rw [hd] at h; cases h
    | some s3 =>
      rw [hd] at h
      simp only [] at h
      have kd := migrate_detach_shrinks _ _ _ _ hd
      obtain ⟨ka, kb⟩ := migrate_attach_kept _ _ _ _ _ _ h
      by_cases hon : __vcpu_on_runq st svc = true
      · refine requeue_kept_of_others svc _ _
          (runq_others_kept_trans _ _ _ _ (runq_others_kept_of_shrinks _ _ _ kd) ka) ?_
        unfold __vcpu_on_runq at hon
        cases hr : (st.heap svc).rqd with
        | none => rw [hr] at hon; cases hon
        | some q =>
          rw [hr] at hon
          exact ⟨q, by simpa using hon⟩
      · exact requeue_kept_of_shrinks _ _
          (runq_shrinks_trans _ _ _ kd (kb (by simpa using hon)))
theorem balance_scan_shrinks (lrqd now : Int) :
    ∀ (l : List Nat) (st : sched_state) (ld md : Int) (o : Option Int),
      runq_shrinks st (balance_scan lrqd now l st ld md o).1 := by
  intro l
  induction l with
  | nil =>
    intro st ld md o
    exact runq_shrinks_refl st
  | cons i rest ih =>
    intro st ld md o
    unfold balance_scan
    simp only []
    split_ifs
    · exact ih _ _ _ _
    · exact runq_shrinks_trans _ _ _ (refresh_runq_load_shrinks st i now) (ih _ _ _ _)
    · exact runq_shrinks_trans _ _ _ (refresh_runq_load_shrinks st i now) (ih _ _ _ _)

theorem balance_pull_loop_shrinks (push_svc : Nat) (now : Int) :
    ∀ (l : List Nat) (st : sched_state) (bs : balance_state_t),
      runq_shrinks st (balance_pull_loop push_svc now l st bs).1 := by
  intro l
  induction l with
  | nil =>
    intro st bs
    exact runq_shrinks_refl st
  | cons p rest ih =>
    intro st bs
    unfold balance_pull_loop
    simp only []
    split_ifs
    · exact runq_shrinks_trans _ _ _ (refresh_svc_load_shrinks st p now) (ih _ _)
    · exact runq_shrinks_trans _ _ _ (refresh_svc_load_shrinks st p now) (ih _ _)

theorem balance_push_loop_shrinks (pull_list : List Nat) (now : Int) :
    ∀ (l : List Nat) (st : sched_state) (bs : balance_state_t),
      runq_shrinks st (balance_push_loop pull_list now l st bs).1 := by
  intro l
  induction l with
  | nil =>
    intro st bs
    exact runq_shrinks_refl st
  | cons p rest ih =>
    intro st bs
    unfold balance_push_loop
    simp only []
    split_ifs
    · exact runq_shrinks_trans _ _ _
        (runq_shrinks_trans _ _ _ (refresh_svc_load_shrinks st p now)
          (balance_pull_loop_shrinks p now pull_list _ _)) (ih _ _)
    · exact runq_shrinks_trans _ _ _ (refresh_svc_load_shrinks st p now) (ih _ _)

theorem balance_search_shrinks (st : sched_state) (bs : balance_state_t) (now : Int) :
    runq_shrinks st (balance_search st bs now).1 :=
  balance_push_loop_shrinks _ now _ st bs

theorem balance_migrate_requeue_kept (st st1 : sched_state) (bs : balance_state_t) (now : Int)
    (h : balance_migrate st bs now = some st1) : requeue_kept st st1 := by
  have hpull : ∀ s, (match bs.best_pull_svc with
      | some p => migrate s p bs.lrqd now
      | none => some s) = some st1 → requeue_kept s st1 := by
    intro s hs
    cases hb : bs.best_pull_svc with
    | none =>
      rw [hb] at hs
      simp only [Option.some.injEq] at hs
      rw [← hs]
      exact requeue_kept_refl s
    | some p =>
      rw [hb] at hs
      exact migrate_requeue_kept _ _ _ _ _ hs
  unfold balance_migrate at h
  simp only [] at h
  cases hb : bs.best_push_svc with
  | none =>
    rw [hb] at h
    exact hpull st h
  | some p =>
    rw [hb] at h
    simp only [] at h
    cases hm : migrate st p bs.orqd now with
    | none => rw [hm] at h; cases h
    | some s =>
      rw [hm] at h
      exact requeue_kept_trans _ _ _ (migrate_requeue_kept _ _ _ _ _ hm) (hpull s h)

theorem balance_load_retry_requeue_kept (lrqd now : Int) :
    ∀ (fuel : Nat) (st st1 : sched_state) (md : Int) (o : Option Int),
      balance_load_retry lrqd now fuel st md o = some st1 → requeue_kept st st1 := by
  intro fuel
  induction fuel with
  | zero =>
    intro st st1 md o h
    unfold balance_load_retry at h
    cases h
  | succ n ih =>
    intro st st1 md o h
    unfold balance_load_retry at h
    by_cases c0 : st.trylock_prv = false
    · rw [if_pos c0] at h
      simp only [Option.some.injEq] at h
      rw [← h]
      exact requeue_kept_refl st
    · rw [if_neg c0] at h
      simp only [] at h
      have ks := requeue_kept_of_shrinks _ _
        (balance_scan_shrinks lrqd now (cpumask_cpus st.nr_cpu_ids st.prv.active_queues)
          st 0 md o)
      revert h ks
      generalize balance_scan lrqd now (cpumask_cpus st.nr_cpu_ids st.prv.active_queues)
        st 0 md o = r
      intro h ks
      by_cases c1 : r.2.2.1 = -1
      · rw [if_pos c1] at h
        simp only [Option.some.injEq] at h
        rw [← h]
        exact ks
      · rw [if_neg c1] at h
        cases hl : r.2.2.2 with
        | none => rw [hl] at h; cases h
        | some last =>
          rw [hl] at h
          simp only [] at h
          split_ifs at h
          · simp only [Option.some.injEq] at h
            rw [← h]
            exact ks
          · exact requeue_kept_trans _ _ _ ks (ih _ _ _ _ h)
          · simp only [Option.some.injEq] at h
            rw [← h]
            exact ks
          · exact requeue_kept_trans _ _ _ ks
              (requeue_kept_trans _ _ _
                (requeue_kept_of_shrinks _ _ (balance_search_shrinks _ _ _))
                (balance_migrate_requeue_kept _ _ _ _ h))

/-- A pass of the balancer leaves the delayed-requeue flag of every entity alone
and puts no entity on a runnable list that was on none. -/
theorem balance_load_requeue_kept (fuel : Nat) (st st1 : sched_state) (cpu : Nat) (now : Int)
    (h : balance_load fuel st cpu now = some st1) : requeue_kept st st1 := by
  unfold balance_load at h
  exact requeue_kept_trans _ _ _
    (requeue_kept_of_shrinks _ _ (refresh_runq_load_shrinks st (c2r st cpu) now))
    (balance_load_retry_requeue_kept _ _ _ _ _ _ _ h)

theorem reset_credit_loop_flags (rqd_id m now : Int) :
    ∀ (l : List Nat) (heap heap1 : vcpu_heap),
      reset_credit_loop rqd_id m now l heap = some heap1 →
      ∀ x, (heap1 x).flags = (heap x).flags := by
  intro l
  induction l with
  | nil =>
    intro heap heap1 h x
    unfold reset_credit_loop at h
    simp only [Option.some.injEq] at h
    rw [h]
  | cons a rest ih =>
    intro heap heap1 h x
    unfold reset_credit_loop at h
    split_ifs at h
    rw [ih _ _ h x]
    by_cases e : x = a
    · rw [e, heap_store_same]
    · rw [heap_store_other _ _ _ _ e]

theorem and_or_scheduled (f : Nat) :
    (f ||| CSFLAG_scheduled) &&& CSFLAG_delayed_runq_add = f &&& CSFLAG_delayed_runq_add := by
  apply Nat.eq_of_testBit_eq
  intro i
  simp only [Nat.testBit_and, Nat.testBit_or]
  have h2 : CSFLAG_scheduled = 2 ^ 1 := by decide
  have h4 : CSFLAG_delayed_runq_add = 2 ^ 2 := by decide
  rw [h2, h4, Nat.testBit_two_pow, Nat.testBit_two_pow]
  by_cases e1 : 1 = i
  · subst e1
    simp
  · simp [e1]

theorem requeue_kept_store (st : sched_state) (svc : Nat) (v : csched2_vcpu)
    (hv : v.flags &&& CSFLAG_delayed_runq_add
      = (st.heap svc).flags &&& CSFLAG_delayed_runq_add) :
    requeue_kept st { st with heap := heap_store st.heap svc v } := by
  refine ⟨fun x => ?_, fun x hx => hx⟩
  by_cases e : x = svc
  · rw [e]
    simp only [heap_store_same]
    exact hv
  · simp only [heap_store_other _ _ _ _ e]

theorem requeue_kept_rqd (st : sched_state) (q : Int) (r : csched2_runqueue_data)
    (hr : r.runq = (st.prv.rqd q).runq) :
    requeue_kept st { st with prv := rqd_store st.prv q r } := by
  apply requeue_kept_of_shrinks
  apply runq_shrinks_of_same
  · intro x
    rfl
  · intro j
    by_cases e : j = q
    · simp only [e, rqd_store_same, hr]
    · simp only [rqd_store_other _ _ _ _ e]
theorem schedule_switch_requeue_kept (st s : sched_state) (q : Int) (scurr snext : Nat)
    (h : schedule_switch st q scurr snext = some s) : requeue_kept st s := by
  unfold schedule_switch at h
  by_cases c1 : snext ≠ scurr
  · rw [if_pos c1] at h
    split_ifs at h
    cases hr : __runq_remove st snext with
    | none => rw [hr] at h; cases h
    | some s1 =>
      rw [hr] at h
      simp only [] at h
      split_ifs at h
      simp only [Option.some.injEq] at h
      rw [← h]
      exact requeue_kept_trans _ _ _
        (requeue_kept_of_shrinks _ _ (runq_remove_shrinks _ _ _ hr))
        (requeue_kept_store s1 snext _ (and_or_scheduled _))
  · rw [if_neg c1] at h
    simp only [Option.some.injEq] at h
    rw [← h]
    exact requeue_kept_refl st

theorem schedule_reset_requeue_kept (fuel : Nat) (st s : sched_state) (snext cpu : Nat)
    (now : Int) (h : schedule_reset fuel st snext cpu now = some s) : requeue_kept st s := by
  unfold schedule_reset at h
  split_ifs at h
  · cases hr : reset_credit st.heap (RQD st cpu) now snext with
    | none => rw [hr] at h; cases h
    | some heap1 =>
      rw [hr] at h
      simp only [] at h
      unfold reset_credit at hr
      exact requeue_kept_trans _ _ _
        (requeue_kept_of_shrinks _ _
          (runq_shrinks_heap st heap1 (reset_credit_loop_flags _ _ _ _ _ _ hr)))
        (balance_load_requeue_kept _ _ _ _ _ h)
  · simp only [Option.some.injEq] at h
    rw [← h]
    exact requeue_kept_refl st

theorem schedule_start_requeue_kept (st : sched_state) (q : Int) (snext cpu : Nat) (now : Int) :
    requeue_kept st (schedule_start st q snext cpu now).1 := by
  unfold schedule_start
  simp only []
  by_cases c1 : cpumask_test_cpu cpu (st.prv.rqd q).idle = true
  · simp only [if_pos c1]
    split_ifs
    · exact requeue_kept_trans _ _ _ (requeue_kept_rqd st q _ (by rfl))
        (requeue_kept_trans _ _ _ (requeue_kept_store _ snext _ (by rfl))
          (requeue_kept_store _ snext _ (by rfl)))
    · exact requeue_kept_trans _ _ _ (requeue_kept_rqd st q _ (by rfl))
        (requeue_kept_store _ snext _ (by rfl))
  · simp only [if_neg c1]
    split_ifs
    · exact requeue_kept_trans _ _ _ (requeue_kept_store _ snext _ (by rfl))
        (requeue_kept_store _ snext _ (by rfl))
    · exact requeue_kept_store _ snext _ rfl
theorem schedule_account_requeue_kept (fuel : Nat) (st s : sched_state) (q : Int)
    (scurr snext cpu : Nat) (now : Int) (m : Bool)
    (h : schedule_account fuel st q scurr snext cpu now = some (s, m)) :
    requeue_kept st s := by
  unfold schedule_account at h
  cases h1 : schedule_switch st q scurr snext with
  | none => rw [h1] at h; cases h
  | some s2 =>
    rw [h1] at h
    simp only [] at h
    cases h2 : schedule_reset fuel s2 snext cpu now with
    | none => rw [h2] at h; cases h
    | some s3 =>
      rw [h2] at h
      simp only [Option.some.injEq] at h
      have e : s = (schedule_start s3 q snext cpu now).1 := by rw [h]
      rw [e]
      exact requeue_kept_trans _ _ _ (schedule_switch_requeue_kept _ _ _ _ _ h1)
        (requeue_kept_trans _ _ _ (schedule_reset_requeue_kept _ _ _ _ _ _ h2)
          (schedule_start_requeue_kept _ _ _ _ _))

theorem schedule_idle_requeue_kept (st : sched_state) (q : Int) (cpu : Nat) (now : Int) :
    requeue_kept st (schedule_idle st q cpu now) := by
  unfold schedule_idle
  simp only []
  split_ifs
  · exact requeue_kept_trans _ _ _ (requeue_kept_rqd st q _ (by rfl))
      (requeue_kept_of_shrinks _ _ (update_load_shrinks _ _ _ _ _))
  · exact requeue_kept_of_shrinks _ _ (update_load_shrinks _ _ _ _ _)

theorem schedule_burn_requeue_kept (st s : sched_state) (q : Int) (scurr cpu : Nat) (now : Int)
    (h : schedule_burn st q scurr cpu now = some s) :
    requeue_kept st s ∧ (s.heap scurr).is_idle = (st.heap scurr).is_idle ∧
      (s.heap scurr).runnable = (st.heap scurr).runnable := by
  unfold schedule_burn at h
  simp only [] at h
  by_cases c1 : cpumask_test_cpu cpu (st.prv.rqd q).tickled = true
  · simp only [if_pos c1] at h
    revert h
    generalize hb : burn_credits _ _ now = r
    intro h
    cases r with
    | none => cases h
    | some cur =>
      simp only [Option.some.injEq] at h
      have hfr := (burn_credits_frame _ _ _ _ hb).1
      rw [← h]
      refine ⟨requeue_kept_trans _ _ _ (requeue_kept_rqd st q _ (by rfl))
        (requeue_kept_store _ scurr cur (by rw [hfr])), ?_, ?_⟩
      · simp only [heap_store_same]
        rw [hfr]
      · simp only [heap_store_same]
        rw [hfr]
  · simp only [if_neg c1] at h
    revert h
    generalize hb : burn_credits _ _ now = r
    intro h
    cases r with
    | none => cases h
    | some cur =>
      simp only [Option.some.injEq] at h
      have hfr := (burn_credits_frame _ _ _ _ hb).1
      rw [← h]
      refine ⟨requeue_kept_store _ scurr cur (by rw [hfr]), ?_, ?_⟩
      · simp only [heap_store_same]
        rw [hfr]
      · simp only [heap_store_same]
        rw [hfr]

theorem or_delayed_set (f : Nat) :
    (f ||| CSFLAG_delayed_runq_add) &&& CSFLAG_delayed_runq_add ≠ 0 := by
  have h4 : CSFLAG_delayed_runq_add = 2 ^ 2 := by decide
  intro h
  have h2 := congrArg (fun n => Nat.testBit n 2) h
  simp only [Nat.testBit_and, Nat.testBit_or, h4, Nat.testBit_two_pow, Nat.zero_testBit] at h2
  simp at h2

theorem schedule_flag_prv (st : sched_state) (scurr snext : Nat) :
    (schedule_flag st scurr snext).prv = st.prv := by
  unfold schedule_flag
  split_ifs <;> rfl

/-- C25: when `csched2_schedule` returns, the current entity `scurr` of the
processor carries the delayed-requeue flag if the selected entity `ret.task` is
another one and `scurr` is neither idle nor blocked; in every other case the
delayed-requeue flag of `scurr` is as it was before the call.  In both cases an
entity `scurr` that was on no runnable list is on none afterwards: the
decision does not insert it. -/
theorem csched2_schedule_delayed_requeue (fuel : Nat) (st st1 : sched_state) (cpu : Nat)
    (now : Int) (tasklet_work_scheduled : Bool) (ret : task_slice)
    (h : csched2_schedule fuel st cpu now tasklet_work_scheduled = some (st1, ret))
    (hoff : ∀ q, st.curr_on_cpu cpu ∉ (st.prv.rqd q).runq) :
    (if ret.task ≠ st.curr_on_cpu cpu ∧ (st.heap (st.curr_on_cpu cpu)).is_idle = false ∧
          (st.heap (st.curr_on_cpu cpu)).runnable = true then
        (st1.heap (st.curr_on_cpu cpu)).flags &&& CSFLAG_delayed_runq_add ≠ 0
      else
        (st1.heap (st.curr_on_cpu cpu)).flags &&& CSFLAG_delayed_runq_add
          = (st.heap (st.curr_on_cpu cpu)).flags &&& CSFLAG_delayed_runq_add) ∧
    ∀ q, st.curr_on_cpu cpu ∉ (st1.prv.rqd q).runq := by
  unfold csched2_schedule at h
  simp only [] at h
  by_cases g1 : (!cpumask_test_cpu cpu st.prv.initialized) = true
  · rw [if_pos g1] at h
    cases h
  rw [if_neg g1] at h
  by_cases g2 : (!cpumask_test_cpu cpu (st.prv.rqd (c2r st cpu)).active) = true
  · rw [if_pos g2] at h
    cases h
  rw [if_neg g2] at h
  by_cases g3 : (!(st.heap (st.curr_on_cpu cpu)).is_idle) = true ∧
      (st.heap (st.curr_on_cpu cpu)).rqd ≠ some (c2r st cpu)
  · rw [if_pos g3] at h
    cases h
  rw [if_neg g3] at h
  generalize hsc : st.curr_on_cpu cpu = scurr at *
  cases hb : schedule_burn st (c2r st cpu) scurr cpu now with
  | none => rw [hb] at h; cases h
  | some s2 =>
    rw [hb] at h
    simp only [] at h
    obtain ⟨kb, hidle, hrun⟩ := schedule_burn_requeue_kept _ _ _ _ _ _ hb
    revert h
    generalize (if tasklet_work_scheduled = true then s2.idle_vcpu cpu
      else runq_candidate s2 (c2r st cpu) scurr cpu now) = snext
    intro h
    -- the state after the accounting keeps what the flagged state has
    have key : ∃ m, requeue_kept (schedule_flag s2 scurr snext) st1 ∧
        ret = { time := ret.time, task := snext, migrated := m } := by
      by_cases ci : (!((schedule_flag s2 scurr snext).heap snext).is_idle) = true
      · rw [if_pos ci] at h
        cases ha : schedule_account fuel (schedule_flag s2 scurr snext) (c2r st cpu)
            scurr snext cpu now with
        | none => rw [ha] at h; cases h
        | some r =>
          obtain ⟨s5, m⟩ := r
          rw [ha] at h
          simp only [] at h
          cases ht : csched2_runtime s5.heap (RQD s5 cpu) snext with
          | none => rw [ht] at h; cases h
          | some time =>
            rw [ht] at h
            simp only [Option.some.injEq, Prod.mk.injEq] at h
            refine ⟨m, ?_, ?_⟩
            · rw [← h.1]
              exact schedule_account_requeue_kept _ _ _ _ _ _ _ _ _ ha
            · rw [← h.2]
      · rw [if_neg ci] at h
        simp only [] at h
        cases ht : csched2_runtime (schedule_idle (schedule_flag s2 scurr snext)
            (c2r st cpu) cpu now).heap
            (RQD (schedule_idle (schedule_flag s2 scurr snext) (c2r st cpu) cpu now) cpu)
            snext with
        | none => rw [ht] at h; cases h
        | some time =>
          rw [ht] at h
          simp only [Option.some.injEq, Prod.mk.injEq] at h
          refine ⟨false, ?_, ?_⟩
          · rw [← h.1]
            exact schedule_idle_requeue_kept _ _ _ _
          · rw [← h.2]
    obtain ⟨m, kacc, hret⟩ := key
    have htask : ret.task = snext := by rw [hret]
    constructor
    · rw [htask, kacc.1 scurr]
      by_cases c : snext ≠ scurr ∧ (st.heap scurr).is_idle = false ∧
          (st.heap scurr).runnable = true
      · rw [if_pos c]
        unfold schedule_flag
        rw [if_pos ⟨c.1, by rw [hidle, c.2.1]; rfl, by rw [hrun, c.2.2]⟩]
        simp only [heap_store_same]
        exact or_delayed_set _
      · rw [if_neg c]
        unfold schedule_flag
        rw [if_neg (by
          intro c2
          apply c
          refine ⟨c2.1, ?_, ?_⟩
          · have := c2.2.1
            rw [hidle] at this
            simpa using this
          · rw [← hrun]
            exact c2.2.2)]
        exact kb.1 scurr
    · intro q hq
      obtain ⟨q1, h1⟩ := kacc.2 scurr ⟨q, hq⟩
      rw [schedule_flag_prv] at h1
      obtain ⟨q0, h0⟩ := kb.2 scurr ⟨q1, h1⟩
      exact hoff q0 h0
theorem csched2_schedule_delayed_requeue_witness :
    (∃ st1 ret, csched2_schedule 1 (sd_state [1, 2]) 0 1000 false = some (st1, ret) ∧
      (if ret.task ≠ (sd_state [1, 2]).curr_on_cpu 0 ∧
            ((sd_state [1, 2]).heap ((sd_state [1, 2]).curr_on_cpu 0)).is_idle = false ∧
            ((sd_state [1, 2]).heap ((sd_state [1, 2]).curr_on_cpu 0)).runnable = true then
          (st1.heap ((sd_state [1, 2]).curr_on_cpu 0)).flags &&& CSFLAG_delayed_runq_add ≠ 0
        else
          (st1.heap ((sd_state [1, 2]).curr_on_cpu 0)).flags &&& CSFLAG_delayed_runq_add
            = ((sd_state [1, 2]).heap ((sd_state [1, 2]).curr_on_cpu 0)).flags
              &&& CSFLAG_delayed_runq_add) ∧
      ∀ q, (sd_state [1, 2]).curr_on_cpu 0 ∉ (st1.prv.rqd q).runq) ∧
    (∃ st1 ret, csched2_schedule 1 (sd_state []) 0 1000 false = some (st1, ret) ∧
      (if ret.task ≠ (sd_state []).curr_on_cpu 0 ∧
            ((sd_state []).heap ((sd_state []).curr_on_cpu 0)).is_idle = false ∧
            ((sd_state []).heap ((sd_state []).curr_on_cpu 0)).runnable = true then
          (st1.heap ((sd_state []).curr_on_cpu 0)).flags &&& CSFLAG_delayed_runq_add ≠ 0
        else
          (st1.heap ((sd_state []).curr_on_cpu 0)).flags &&& CSFLAG_delayed_runq_add
            = ((sd_state []).heap ((sd_state []).curr_on_cpu 0)).flags
              &&& CSFLAG_delayed_runq_add) ∧
      ∀ q, (sd_state []).curr_on_cpu 0 ∉ (st1.prv.rqd q).runq) :=
  ⟨⟨_, _, rfl, csched2_schedule_delayed_requeue 1 (sd_state [1, 2]) _ 0 1000 false _ rfl
      (fun _ => (by decide : (10 : Nat) ∉ [1, 2]))⟩,
    ⟨_, _, rfl, csched2_schedule_delayed_requeue 1 (sd_state []) _ 0 1000 false _ rfl
      (fun _ => (by decide : (10 : Nat) ∉ []))⟩⟩

/-- On the sample state the decision of processor 0 selects the waiting entity
1, flags the current entity 10 for a delayed requeue, and leaves the runnable
list with entity 2 alone. -/
theorem csched2_schedule_sample :
    (csched2_schedule 1 (sd_state [1, 2]) 0 1000 false).map
      (fun r => (r.2, (r.1.heap 10).flags, (r.1.prv.rqd 0).runq, (r.1.heap 1).credit))
      = some ({ time := 850000, task := 1, migrated := true },
          CSFLAG_scheduled ||| CSFLAG_delayed_runq_add, [2], 2050000) := by
  decide
/-! ### Selecting the next entity -/

/-- The loop of `runq_candidate` returns the default candidate or an entity of
the list that may run on `cpu`, has more credit than the default and, if it was
last placed on another processor, at least the migration resistance more. -/
theorem runq_candidate_scan_spec (st : sched_state) (cpu snext : Nat) (l : List Nat) :
    runq_candidate_scan st cpu snext l = snext ∨
      (runq_candidate_scan st cpu snext l ∈ l ∧
        cpumask_test_cpu cpu
          (st.heap (runq_candidate_scan st cpu snext l)).cpu_hard_affinity = true ∧
        (st.heap snext).credit < (st.heap (runq_candidate_scan st cpu snext l)).credit ∧
        ((st.heap (runq_candidate_scan st cpu snext l)).processor = cpu ∨
          (st.heap snext).credit + CSCHED2_MIGRATE_RESIST st.opt_migrate_resist
            ≤ (st.heap (runq_candidate_scan st cpu snext l)).credit)) := by
  induction l with
  | nil => exact Or.inl rfl
  | cons a rest ih =>
    have hrest : runq_candidate_scan st cpu snext rest = snext ∨
        (runq_candidate_scan st cpu snext rest ∈ a :: rest ∧
          cpumask_test_cpu cpu
            (st.heap (runq_candidate_scan st cpu snext rest)).cpu_hard_affinity = true ∧
          (st.heap snext).credit < (st.heap (runq_candidate_scan st cpu snext rest)).credit ∧
          ((st.heap (runq_candidate_scan st cpu snext rest)).processor = cpu ∨
            (st.heap snext).credit + CSCHED2_MIGRATE_RESIST st.opt_migrate_resist
              ≤ (st.heap (runq_candidate_scan st cpu snext rest)).credit)) := by
      rcases ih with h | ⟨h1, h2⟩
      · exact Or.inl h
      · exact Or.inr ⟨List.mem_cons_of_mem _ h1, h2⟩
    unfold runq_candidate_scan
    by_cases c1 : (!cpumask_test_cpu cpu (st.heap a).cpu_hard_affinity) = true
    · rw [if_pos c1]
      exact hrest
    · rw [if_neg c1]
      by_cases c2 : (st.heap a).processor ≠ cpu ∧
          (st.heap snext).credit + CSCHED2_MIGRATE_RESIST st.opt_migrate_resist
            > (st.heap a).credit
      · rw [if_pos c2]
        exact hrest
      · rw [if_neg c2]
        by_cases c3 : (st.heap a).credit > (st.heap snext).credit
        · rw [if_pos c3]
          refine Or.inr ⟨List.mem_cons_self _ _, by simpa using c1, c3, ?_⟩
          by_cases hp : (st.heap a).processor = cpu
          · exact Or.inl hp
          · right
            by_contra hlt
            exact c2 ⟨hp, by omega⟩
        · rw [if_neg c3]
          exact Or.inl rfl

/-- C24: when `runq_candidate` returns an entity of the runnable list that was
last placed on a processor other than `cpu`, the credit of that entity is at
least `CSCHED2_MIGRATE_RESIST` above the credit of the default candidate (the
current entity if it is runnable, the idle entity of `cpu` otherwise).  The
default candidate itself is not on the runnable list. -/
theorem runq_candidate_resists (st : sched_state) (q : Int) (scurr cpu : Nat) (now : Int)
    (hd : runq_candidate_default st scurr cpu ∉ (st.prv.rqd q).runq)
    (hr : runq_candidate st q scurr cpu now ∈ (st.prv.rqd q).runq)
    (hp : (st.heap (runq_candidate st q scurr cpu now)).processor ≠ cpu) :
    (st.heap (runq_candidate_default st scurr cpu)).credit
        + CSCHED2_MIGRATE_RESIST st.opt_migrate_resist
      ≤ (st.heap (runq_candidate st q scurr cpu now)).credit := by
  unfold runq_candidate at hr hp ⊢
  rcases runq_candidate_scan_spec st cpu (runq_candidate_default st scurr cpu)
    (st.prv.rqd q).runq with h | ⟨_, _, _, h | h⟩
  · rw [h] at hr
    exact absurd hr hd
  · exact absurd h hp
  · exact h

theorem runq_candidate_resists_witness :
    runq_candidate (sd_state [1, 2]) 0 10 0 1000 = 1 ∧
    ((sd_state [1, 2]).heap (runq_candidate_default (sd_state [1, 2]) 10 0)).credit
        + CSCHED2_MIGRATE_RESIST (sd_state [1, 2]).opt_migrate_resist
      ≤ ((sd_state [1, 2]).heap (runq_candidate (sd_state [1, 2]) 0 10 0 1000)).credit :=
  ⟨by decide, runq_candidate_resists (sd_state [1, 2]) 0 10 0 1000 (by decide) (by decide)
    (by decide)⟩

/-! ### Completing a context switch -/

theorem clear_flag_testBit (f b i : Nat) :
    (clear_flag f b).testBit i = (f.testBit i && !b.testBit i) := by
  unfold clear_flag
  rw [Nat.testBit_xor, Nat.testBit_and]
  cases f.testBit i <;> cases b.testBit i <;> rfl

theorem clear_flag_and_self (f b : Nat) : clear_flag f b &&& b = 0 := by
  apply Nat.eq_of_testBit_eq
  intro i
  rw [Nat.testBit_and, clear_flag_testBit, Nat.zero_testBit]
  cases f.testBit i <;> cases b.testBit i <;> rfl

theorem clear_flag_and_comm (f a b : Nat) :
    clear_flag (clear_flag f a) b &&& a = 0 := by
  apply Nat.eq_of_testBit_eq
  intro i
  rw [Nat.testBit_and, clear_flag_testBit, clear_flag_testBit, Nat.zero_testBit]
  cases f.testBit i <;> cases a.testBit i <;> cases b.testBit i <;> rfl

theorem clear_scheduled_keeps_delayed (f : Nat) :
    clear_flag f CSFLAG_scheduled &&& CSFLAG_delayed_runq_add = f &&& CSFLAG_delayed_runq_add := by
  apply Nat.eq_of_testBit_eq
  intro i
  rw [Nat.testBit_and, Nat.testBit_and, clear_flag_testBit]
  have h2 : CSFLAG_scheduled = 2 ^ 1 := by decide
  have h4 : CSFLAG_delayed_runq_add = 2 ^ 2 := by decide
  rw [h2, h4, Nat.testBit_two_pow, Nat.testBit_two_pow]
  by_cases e1 : 1 = i
  · subst e1
    simp
  · simp [e1]

theorem runq_sorted_congr (h1 h2 : vcpu_heap) (l : List Nat)
    (hc : ∀ x, (h2 x).credit = (h1 x).credit) (hs : runq_sorted h1 l) : runq_sorted h2 l := by
  unfold runq_sorted at hs ⊢
  refine hs.imp ?_
  intro a b hab
  rw [hc a, hc b]
  exact hab

/-- With the checks of `runq_insert` passed, the runnable list of the runqueue
of `cpu` becomes the list the insertion scan returns. -/
theorem runq_insert_exact (st : sched_state) (cpu svc : Nat)
    (hproc : (st.heap svc).processor = cpu)
    (hrqd : (st.heap svc).rqd = some (c2r st cpu))
    (hid : (st.prv.rqd (c2r st cpu)).id = c2r st cpu)
    (hidle : (st.heap svc).is_idle = false)
    (hrun : (st.heap svc).is_running = false)
    (hsched : (st.heap svc).flags &&& CSFLAG_scheduled = 0)
    (hoff : svc ∉ (st.prv.rqd (c2r st cpu)).runq) :
    runq_insert st cpu svc = some
      { st with
        prv := rqd_store st.prv (c2r st cpu)
          { st.prv.rqd (c2r st cpu) with
            runq := (runq_insert_scan st.heap svc (st.prv.rqd (c2r st cpu)).runq 0).1 } } := by
  have hon : __vcpu_on_runq st svc = false := by
    unfold __vcpu_on_runq
    rw [hrqd]
    simpa using hoff
  unfold runq_insert
  rw [if_neg (by simp [hon]), if_neg (by simp [hproc])]
  unfold __runq_insert RQD
  rw [if_neg (by simp [hrqd, hid]), if_neg (by simp [hidle]), if_neg (by simp [hrun]),
    if_neg (by simp [hsched])]

theorem context_saved_cleared_heap (st : sched_state) (svc x : Nat) :
    (context_saved_cleared st svc).heap x =
      { st.heap x with flags := ((context_saved_cleared st svc).heap x).flags } := by
  unfold context_saved_cleared
  by_cases e : x = svc
  · simp only [e, heap_store_same]
  · simp only [heap_store_other _ _ _ _ e]

theorem context_saved_cleared_flags (st : sched_state) (svc : Nat) :
    ((context_saved_cleared st svc).heap svc).flags &&& CSFLAG_scheduled = 0 ∧
    ((context_saved_cleared st svc).heap svc).flags &&& CSFLAG_delayed_runq_add = 0 := by
  unfold context_saved_cleared
  simp only [heap_store_same]
  exact ⟨clear_flag_and_comm _ _ _, clear_flag_and_self _ _⟩

theorem context_saved_cleared_prv (st : sched_state) (svc : Nat) :
    (context_saved_cleared st svc).prv = st.prv := rfl
/-- C26: `csched2_context_saved` leaves the entity without the scheduled and the
delayed-requeue flag.  If the delayed-requeue flag was set and the entity is
runnable (and ready to be queued, `requeue_ready`), it runs `runq_insert` and
then `runq_tickle`: the runnable list of the runqueue gains the entity, stays
sorted by the credits at the time of the insertion, and the load of the
runqueue is unchanged.  Otherwise, for an entity that is not idle, the load of
the runqueue goes down by one (the load is an `int` above its minimum) and no
runnable list changes; for an idle entity no runqueue is written. -/
theorem csched2_context_saved_spec (st : sched_state) (svc : Nat) (now : Int) :
    ((st.heap svc).flags &&& CSFLAG_delayed_runq_add ≠ 0 → (st.heap svc).runnable = true →
      requeue_ready st svc →
      ∃ s2 st1, runq_insert (context_saved_cleared st svc) (st.heap svc).processor svc = some s2 ∧
        runq_tickle s2 (st.heap svc).processor svc now = some st1 ∧
        csched2_context_saved st svc now = some st1 ∧
        (st1.heap svc).flags &&& CSFLAG_scheduled = 0 ∧
        (st1.heap svc).flags &&& CSFLAG_delayed_runq_add = 0 ∧
        (st1.prv.rqd (c2r st (st.heap svc).processor)).runq.Perm
          (svc :: (st.prv.rqd (c2r st (st.heap svc).processor)).runq) ∧
        (runq_sorted st.heap (st.prv.rqd (c2r st (st.heap svc).processor)).runq →
          runq_sorted st.heap (st1.prv.rqd (c2r st (st.heap svc).processor)).runq) ∧
        (st1.prv.rqd (c2r st (st.heap svc).processor)).load
          = (st.prv.rqd (c2r st (st.heap svc).processor)).load) ∧
    (¬((st.heap svc).flags &&& CSFLAG_delayed_runq_add ≠ 0 ∧ (st.heap svc).runnable = true) →
      (st.heap svc).is_idle = false →
      (st.heap svc).rqd = some (c2r st (st.heap svc).processor) →
      int_range ((st.prv.rqd (c2r st (st.heap svc).processor)).load - 1) →
      ∃ st1, csched2_context_saved st svc now = some st1 ∧
        (st1.heap svc).flags &&& CSFLAG_scheduled = 0 ∧
        (st1.heap svc).flags &&& CSFLAG_delayed_runq_add = 0 ∧
        (st1.prv.rqd (c2r st (st.heap svc).processor)).load
          = (st.prv.rqd (c2r st (st.heap svc).processor)).load - 1 ∧
        ∀ q, (st1.prv.rqd q).runq = (st.prv.rqd q).runq) ∧
    (¬((st.heap svc).flags &&& CSFLAG_delayed_runq_add ≠ 0 ∧ (st.heap svc).runnable = true) →
      (st.heap svc).is_idle = true →
      ∃ st1, csched2_context_saved st svc now = some st1 ∧
        (st1.heap svc).flags &&& CSFLAG_scheduled = 0 ∧
        (st1.heap svc).flags &&& CSFLAG_delayed_runq_add = 0 ∧ st1.prv = st.prv) := by
  have hfl := context_saved_cleared_flags st svc
  have hsv : (context_saved_cleared st svc).heap svc =
      { st.heap svc with flags := ((context_saved_cleared st svc).heap svc).flags } :=
    context_saved_cleared_heap st svc svc
  have hproc : ((context_saved_cleared st svc).heap svc).processor = (st.heap svc).processor := by
    rw [hsv]
  have hrunb : ((context_saved_cleared st svc).heap svc).runnable = (st.heap svc).runnable := by
    rw [hsv]
  have hidl : ((context_saved_cleared st svc).heap svc).is_idle = (st.heap svc).is_idle := by
    rw [hsv]
  have hrq : ((context_saved_cleared st svc).heap svc).rqd = (st.heap svc).rqd := by
    rw [hsv]
  have hunf : csched2_context_saved st svc now =
      if !(st.heap svc).is_idle ∧ (st.heap svc).rqd ≠ some (c2r st (st.heap svc).processor)
      then none
      else if clear_flag (st.heap svc).flags CSFLAG_scheduled &&& CSFLAG_delayed_runq_add ≠ 0 ∧
          ((context_saved_cleared st svc).heap svc).runnable then
        if __vcpu_on_runq (context_saved_cleared st svc) svc then none
        else
          match runq_insert (context_saved_cleared st svc)
              ((context_saved_cleared st svc).heap svc).processor svc with
          | none => none
          | some s2 => runq_tickle s2 (s2.heap svc).processor svc now
      else if !((context_saved_cleared st svc).heap svc).is_idle then
        match ((context_saved_cleared st svc).heap svc).rqd with
        | none => none
        | some q => some (update_load (context_saved_cleared st svc) q (some svc) (-1) now)
      else some (context_saved_cleared st svc) := rfl
  refine ⟨?_, ?_, ?_⟩
  · intro hd hr ⟨r1, r2, r3, r4, r5, r6, r7⟩
    generalize hp : (st.heap svc).processor = p at *
    have hins := runq_insert_exact (context_saved_cleared st svc) p svc hproc
      (by rw [hrq]; exact r3) r4 (by rw [hidl]; exact r1) (by rw [hsv]; exact r2) hfl.1 r5
    obtain ⟨heap1, tk, sq, htk, g1, _, _⟩ := runq_tickle_runs
      { context_saved_cleared st svc with
        prv := rqd_store (context_saved_cleared st svc).prv
          (c2r (context_saved_cleared st svc) p)
          { (context_saved_cleared st svc).prv.rqd (c2r (context_saved_cleared st svc) p) with
            runq := (runq_insert_scan (context_saved_cleared st svc).heap svc
              ((context_saved_cleared st svc).prv.rqd
                (c2r (context_saved_cleared st svc) p)).runq 0).1 } }
      p svc now hproc (by rw [hrq]; exact r3)
      (by
        simp only [c2r, rqd_store_runq_map, rqd_store_same]
        exact r6)
      (tickle_safe_of_same st _ _ rfl rfl
        (by simp only [c2r, rqd_store_runq_map, rqd_store_same]; rfl)
        (by simp only [c2r, rqd_store_runq_map, rqd_store_same]; rfl)
        (by
          intro x hx
          simp only [c2r, rqd_store_runq_map, rqd_store_same]
          exact hx)
        (by
          intro x
          show ((context_saved_cleared st svc).heap x).is_idle = _ ∧
            ((context_saved_cleared st svc).heap x).weight = _ ∧
            (_ → ((context_saved_cleared st svc).heap x).credit = _)
          rw [context_saved_cleared_heap st svc x]
          exact ⟨rfl, rfl, fun _ => rfl⟩) r7)
    refine ⟨_, _, hins, htk, ?_, ?_, ?_, ?_, ?_, ?_⟩
    · rw [hunf, if_neg (by simp [r1, r3]),
        if_pos ⟨by rw [clear_scheduled_keeps_delayed]; exact hd, by rw [hrunb]; exact hr⟩,
        if_neg (by
          unfold __vcpu_on_runq
          rw [hrq, r3]
          simpa using r5),
        hproc, hins]
      simp only []
      rw [hproc]
      exact htk
    · show (heap1 svc).flags &&& CSFLAG_scheduled = 0
      rw [g1 svc]
      exact hfl.1
    · show (heap1 svc).flags &&& CSFLAG_delayed_runq_add = 0
      rw [g1 svc]
      exact hfl.2
    · simp only [c2r, rqd_store_runq_map, rqd_store_same, context_saved_cleared_prv]
      exact runq_insert_scan_perm _ _ _ _
    · intro hs
      simp only [c2r, rqd_store_runq_map, rqd_store_same, context_saved_cleared_prv]
      refine runq_sorted_congr (context_saved_cleared st svc).heap st.heap _ ?_
        (runq_insert_scan_sorted _ svc _ 0
          (runq_sorted_congr st.heap (context_saved_cleared st svc).heap _ ?_ hs))
      · intro x
        rw [context_saved_cleared_heap st svc x]
      · intro x
        rw [context_saved_cleared_heap st svc x]
    · simp only [c2r, rqd_store_runq_map, rqd_store_same, context_saved_cleared_prv]
  · intro hnd hi hr hload
    refine ⟨update_load (context_saved_cleared st svc) (c2r st (st.heap svc).processor)
      (some svc) (-1) now, ?_, ?_, ?_, ?_, ?_⟩
    · rw [hunf, if_neg (by simp [hi, hr]),
        if_neg (by
          rw [clear_scheduled_keeps_delayed, hrunb]
          exact hnd),
        if_pos (by rw [hidl, hi]; rfl), hrq, hr]
    · have := (update_load_shrinks (context_saved_cleared st svc)
        (c2r st (st.heap svc).processor) (some svc) (-1) now).1 svc
      rw [this]
      exact hfl.1
    · have := (update_load_shrinks (context_saved_cleared st svc)
        (c2r st (st.heap svc).processor) (some svc) (-1) now).1 svc
      rw [this]
      exact hfl.2
    · rw [update_load_prv, rqd_store_same]
      show (__update_runq_load st.prv (st.prv.rqd (c2r st (st.heap svc).processor)) (-1) now).load
        = _
      unfold __update_runq_load
      simp only []
      split_ifs
      · exact to_int_of_range _ hload
      · exact to_int_of_range _ hload
    · intro q
      by_cases e : q = c2r st (st.heap svc).processor
      · rw [update_load_prv, e, rqd_store_same]
        exact (update_runq_load_lists _ _ _ _).2.2.2.2.1
      · rw [update_load_prv, rqd_store_other _ _ _ _ e]
        rfl
  · intro hnd hi
    refine ⟨context_saved_cleared st svc, ?_, hfl.1, hfl.2, rfl⟩
    rw [hunf, if_neg (by simp [hi]),
      if_neg (by
        rw [clear_scheduled_keeps_delayed, hrunb]
        exact hnd),
      if_neg (by rw [hidl, hi]; simp)]
theorem csched2_context_saved_spec_witness :
    (∃ s2 st1,
      runq_insert (context_saved_cleared (cs_state 6 true) 3)
        ((cs_state 6 true).heap 3).processor 3 = some s2 ∧
      runq_tickle s2 ((cs_state 6 true).heap 3).processor 3 2000 = some st1 ∧
      csched2_context_saved (cs_state 6 true) 3 2000 = some st1 ∧
      (st1.heap 3).flags &&& CSFLAG_scheduled = 0 ∧
      (st1.heap 3).flags &&& CSFLAG_delayed_runq_add = 0 ∧
      (st1.prv.rqd (c2r (cs_state 6 true) ((cs_state 6 true).heap 3).processor)).runq.Perm
        (3 :: ((cs_state 6 true).prv.rqd
          (c2r (cs_state 6 true) ((cs_state 6 true).heap 3).processor)).runq) ∧
      runq_sorted (cs_state 6 true).heap
        (st1.prv.rqd (c2r (cs_state 6 true) ((cs_state 6 true).heap 3).processor)).runq ∧
      (st1.prv.rqd (c2r (cs_state 6 true) ((cs_state 6 true).heap 3).processor)).load
        = ((cs_state 6 true).prv.rqd
          (c2r (cs_state 6 true) ((cs_state 6 true).heap 3).processor)).load) ∧
    (∃ st1, csched2_context_saved (cs_state 2 false) 3 2000 = some st1 ∧
      (st1.heap 3).flags &&& CSFLAG_scheduled = 0 ∧
      (st1.heap 3).flags &&& CSFLAG_delayed_runq_add = 0 ∧
      (st1.prv.rqd (c2r (cs_state 2 false) ((cs_state 2 false).heap 3).processor)).load
        = ((cs_state 2 false).prv.rqd
          (c2r (cs_state 2 false) ((cs_state 2 false).heap 3).processor)).load - 1 ∧
      ∀ q, (st1.prv.rqd q).runq = ((cs_state 2 false).prv.rqd q).runq) ∧
    (∃ st1, csched2_context_saved (cs_state 2 false) 20 2000 = some st1 ∧
      (st1.heap 20).flags &&& CSFLAG_scheduled = 0 ∧
      (st1.heap 20).flags &&& CSFLAG_delayed_runq_add = 0 ∧
      st1.prv = (cs_state 2 false).prv) :=
  ⟨match (csched2_context_saved_spec (cs_state 6 true) 3 2000).1 (by decide) (by decide)
      (by decide) with
    | ⟨s2, st1, a, b, c, d, e, f, g, h⟩ => ⟨s2, st1, a, b, c, d, e, f, g (by decide), h⟩,
    (csched2_context_saved_spec (cs_state 2 false) 3 2000).2.1 (by decide) (by decide)
      (by decide) (by decide),
    (csched2_context_saved_spec (cs_state 2 false) 20 2000).2.2 (by decide) (by decide)⟩

/-- On the sample state the entity 3, switched out with the delayed-requeue
flag, is inserted between the entities 1 and 2 of the runnable list and
processor 0, whose entity 10 has less credit, is tickled; the load stays 3. -/
theorem csched2_context_saved_sample :
    (csched2_context_saved (cs_state 6 true) 3 2000).map
      (fun s => ((s.heap 3).flags, (s.prv.rqd 0).runq, (s.prv.rqd 0).load, (s.prv.rqd 0).tickled))
      = some (0, [1, 3, 2], 3, [0]) := by
  decide

/-! ### The runqueue registry -/

theorem mem_cpumask_clear_cpu (c cpu : Nat) (m : List Nat) :
    c ∈ cpumask_clear_cpu cpu m ↔ c ∈ m ∧ c ≠ cpu := by
  unfold cpumask_clear_cpu
  simp [List.mem_filter]

theorem cpumask_empty_false_iff (nr : Nat) (m : List Nat) :
    cpumask_empty nr m = false ↔ ∃ c ∈ m, c < nr := by
  unfold cpumask_empty
  rw [List.isEmpty_eq_false]
  constructor
  · intro hne
    obtain ⟨c, hc⟩ := List.exists_mem_of_ne_nil _ hne
    rw [mem_cpumask_cpus] at hc
    exact ⟨c, hc.2, hc.1⟩
  · rintro ⟨c, hc, hlt⟩ hnil
    have : c ∈ cpumask_cpus nr m := (mem_cpumask_cpus nr c m).mpr ⟨hlt, hc⟩
    rw [hnil] at this
    cases this

theorem cpu_to_runqueue_lt (h : host_info) (prv : csched2_private) (cpu rqi : Nat)
    (hr : cpu_to_runqueue h prv cpu = some rqi) : rqi < h.nr_cpu_ids := by
  unfold cpu_to_runqueue at hr
  cases hl : cpu_to_runqueue_loop h prv cpu (List.range h.nr_cpu_ids) with
  | none => rw [hl] at hr; cases hr
  | some r =>
    rw [hl] at hr
    simp only [] at hr
    split_ifs at hr with hge
    simp only [Option.some.injEq] at hr
    omega

theorem natCast_ne (a b : Nat) (h : a ≠ b) : (a : Int) ≠ (b : Int) := by
  intro e
  exact h (Int.ofNat_inj.mp e)
/-- What `init_pdata` writes: the map entry of `cpu`, the active mask of the
runqueue it picked, the initialized mask, and, when the runqueue was not
active, its `id` and the mask of active runqueues. -/
theorem init_pdata_fields (h : host_info) (prv prv1 : csched2_private) (cpu rqi : Nat)
    (hi : init_pdata h prv cpu = some (prv1, rqi))
    (hid : rqi ∈ prv.active_queues → (prv.rqd rqi).id ≠ -1) :
    rqi < h.nr_cpu_ids ∧
    prv1.initialized = cpumask_set_cpu cpu prv.initialized ∧
    (∀ c, prv1.runq_map c = if c = cpu then (rqi : Int) else prv.runq_map c) ∧
    (∀ q, q ∈ prv1.active_queues ↔ q = rqi ∨ q ∈ prv.active_queues) ∧
    (prv1.rqd rqi).active = cpumask_set_cpu cpu (prv.rqd rqi).active ∧
    (prv1.rqd rqi).id ≠ -1 ∧
    (∀ q : Nat, q ≠ rqi → prv1.rqd q = prv.rqd q) := by
  unfold init_pdata at hi
  cases hc : cpu_to_runqueue h prv cpu with
  | none => rw [hc] at hi; cases hi
  | some r =>
    rw [hc] at hi
    simp only [] at hi
    have hlt := cpu_to_runqueue_lt h prv cpu r hc
    by_cases ha : (!cpumask_test_cpu r prv.active_queues) = true
    · rw [if_pos ha] at hi
      unfold activate_runqueue at hi
      split_ifs at hi
      simp only [Option.some.injEq, Prod.mk.injEq] at hi
      obtain ⟨hp, hr⟩ := hi
      subst hr
      subst hp
      refine ⟨hlt, rfl, fun _ => rfl, ?_, ?_, ?_, ?_⟩
      · intro q
        exact mem_cpumask_set_cpu q r prv.active_queues
      · simp only [rqd_store_same]
      · simp only [rqd_store_same]
        omega
      · intro q hq
        simp only [rqd_store_other _ _ _ _ (natCast_ne q r hq)]
    · rw [if_neg ha] at hi
      simp only [Option.some.injEq, Prod.mk.injEq] at hi
      obtain ⟨hp, hr⟩ := hi
      subst hr
      subst hp
      have hmem : r ∈ prv.active_queues := by
        unfold cpumask_test_cpu at ha
        simpa using ha
      refine ⟨hlt, rfl, fun _ => rfl, ?_, ?_, ?_, ?_⟩
      · intro q
        constructor
        · exact fun hq => Or.inr hq
        · rintro (e | hq)
          · rw [e]
            exact hmem
          · exact hq
      · simp only [rqd_store_same]
      · simp only [rqd_store_same]
        exact hid hmem
      · intro q hq
        simp only [rqd_store_other _ _ _ _ (natCast_ne q r hq)]

/-- An activation of a processor that is not initialized keeps the registry
invariant. -/
theorem init_pdata_inv (h : host_info) (prv prv1 : csched2_private) (cpu rqi : Nat)
    (hinv : registry_inv h.nr_cpu_ids prv) (hcpu : cpu < h.nr_cpu_ids)
    (hnew : cpu ∉ prv.initialized)
    (hi : init_pdata h prv cpu = some (prv1, rqi)) : registry_inv h.nr_cpu_ids prv1 := by
  obtain ⟨i1, i2, i3⟩ := hinv
  obtain ⟨hlt, f1, f2, f3, f4, f5, f6⟩ := init_pdata_fields h prv prv1 cpu rqi hi
    (fun hm => ((i3 rqi (cpu_to_runqueue_lt h prv cpu rqi (by
      unfold init_pdata at hi
      cases hc : cpu_to_runqueue h prv cpu with
      | none => rw [hc] at hi; cases hi
      | some r =>
        rw [hc] at hi
        simp only [] at hi
        split_ifs at hi
        · cases ha : activate_runqueue h.nr_cpu_ids prv r with
          | none => rw [ha] at hi; cases hi
          | some p =>
            rw [ha] at hi
            simp only [Option.some.injEq, Prod.mk.injEq] at hi
            rw [hi.2]
        · simp only [Option.some.injEq, Prod.mk.injEq] at hi
          rw [hi.2]))).2).mp hm)
  have hact : ∀ q : Nat, ∀ c, c ∈ (prv1.rqd q).active ↔
      (q = rqi ∧ c = cpu) ∨ c ∈ (prv.rqd q).active := by
    intro q c
    by_cases e : q = rqi
    · rw [e, f4, mem_cpumask_set_cpu]
      constructor
      · rintro (h1 | h1)
        · exact Or.inl ⟨rfl, h1⟩
        · exact Or.inr h1
      · rintro (⟨_, h1⟩ | h1)
        · exact Or.inl h1
        · exact Or.inr h1
    · rw [f6 q e]
      constructor
      · exact fun h1 => Or.inr h1
      · rintro (⟨h1, _⟩ | h1)
        · exact absurd h1 e
        · exact h1
  refine ⟨?_, ?_, ?_⟩
  · intro c hc
    rw [f1, mem_cpumask_set_cpu] at hc
    by_cases e : c = cpu
    · refine ⟨e ▸ hcpu, rqi, hlt, ?_, ?_⟩
      · rw [f2, if_pos e]
      · rw [hact]
        exact Or.inl ⟨rfl, e⟩
    · have hc0 : c ∈ prv.initialized := hc.resolve_left e
      obtain ⟨h1, q, hq, hm, ha⟩ := i1 c hc0
      refine ⟨h1, q, hq, ?_, ?_⟩
      · rw [f2, if_neg e]
        exact hm
      · rw [hact]
        exact Or.inr ha
  · intro q hq c hc
    rw [hact] at hc
    rw [f1, mem_cpumask_set_cpu, f2]
    rcases hc with ⟨e1, e2⟩ | hc
    · exact ⟨Or.inl e2, by rw [if_pos e2, e1]⟩
    · obtain ⟨h1, h2⟩ := i2 q hq c hc
      have hne : c ≠ cpu := fun e => hnew (e ▸ h1)
      exact ⟨Or.inr h1, by rw [if_neg hne]; exact h2⟩
  · intro q hq
    by_cases e : q = rqi
    · rw [e]
      refine ⟨⟨fun _ => ?_, fun _ => (f3 rqi).mpr (Or.inl rfl)⟩,
        ⟨fun _ => f5, fun _ => (f3 rqi).mpr (Or.inl rfl)⟩⟩
      rw [cpumask_empty_false_iff]
      exact ⟨cpu, (hact rqi cpu).mpr (Or.inl ⟨rfl, rfl⟩), hcpu⟩
    · rw [f3, f6 q e]
      obtain ⟨j1, j2⟩ := i3 q hq
      constructor
      · rw [← j1]
        constructor
        · rintro (h1 | h1)
          · exact absurd h1 e
          · exact h1
        · exact fun h1 => Or.inr h1
      · rw [← j2]
        constructor
        · rintro (h1 | h1)
          · exact absurd h1 e
          · exact h1
        · exact fun h1 => Or.inr h1
/-- A deactivation of an initialized processor keeps the registry invariant. -/
theorem deinit_pdata_inv (nr : Nat) (prv prv1 : csched2_private) (cpu : Nat)
    (hinv : registry_inv nr prv) (hold : cpu ∈ prv.initialized)
    (hd : csched2_deinit_pdata nr prv cpu = some prv1) : registry_inv nr prv1 := by
  obtain ⟨i1, i2, i3⟩ := hinv
  obtain ⟨hcpu, r, hr, hmap, hmem⟩ := i1 cpu hold
  unfold csched2_deinit_pdata at hd
  rw [if_neg (by rw [hmap]; omega)] at hd
  simp only [] at hd
  have htn : (prv.runq_map cpu).toNat = r := by rw [hmap]; rfl
  rw [htn] at hd
  split_ifs at hd with hidle hempty
  · -- the runqueue loses its last processor
    unfold deactivate_runqueue at hd
    rw [if_neg (by simp [hempty])] at hd
    simp only [Option.some.injEq] at hd
    subst hd
    simp only [rqd_store_same] at hempty
    have hact : ∀ q : Nat, ∀ c, c ∈ ((rqd_store (rqd_store prv r
        { prv.rqd r with
          idle := cpumask_clear_cpu cpu (prv.rqd r).idle
          active := cpumask_clear_cpu cpu (prv.rqd r).active }) r
        { (rqd_store prv r
            { prv.rqd r with
              idle := cpumask_clear_cpu cpu (prv.rqd r).idle
              active := cpumask_clear_cpu cpu (prv.rqd r).active }).rqd r with
          id := -1 }).rqd q).active ↔ c ∈ (prv.rqd q).active ∧ ¬(q = r ∧ c = cpu) := by
      intro q c
      by_cases e : q = r
      · rw [e]
        simp only [rqd_store_same, mem_cpumask_clear_cpu]
        constructor
        · exact fun h1 => ⟨h1.1, fun h2 => h1.2 h2.2⟩
        · exact fun h1 => ⟨h1.1, fun h2 => h1.2 ⟨trivial, h2⟩⟩
      · simp only [rqd_store_other _ _ _ _ (natCast_ne q r e)]
        constructor
        · exact fun h1 => ⟨h1, fun h2 => e h2.1⟩
        · exact fun h1 => h1.1
    refine ⟨?_, ?_, ?_⟩
    · intro c hc
      simp only [mem_cpumask_clear_cpu] at hc
      obtain ⟨h1, q, hq, hm, ha⟩ := i1 c hc.1
      exact ⟨h1, q, hq, hm, (hact q c).mpr ⟨ha, fun h2 => hc.2 h2.2⟩⟩
    · intro q hq c hc
      rw [hact] at hc
      obtain ⟨h1, h2⟩ := i2 q hq c hc.1
      refine ⟨?_, h2⟩
      simp only [mem_cpumask_clear_cpu]
      refine ⟨h1, fun e => hc.2 ⟨?_, e⟩⟩
      rw [e, hmap] at h2
      exact (Int.ofNat_inj.mp h2).symm
    · intro q hq
      by_cases e : q = r
      · rw [e]
        simp only [rqd_store_same, mem_cpumask_clear_cpu]
        constructor
        · constructor
          · exact fun h1 => absurd rfl h1.2
          · intro h1
            rw [h1] at hempty
            cases hempty
        · constructor
          · exact fun h1 => absurd rfl h1.2
          · exact fun h1 => absurd rfl h1
      · simp only [rqd_store_other _ _ _ _ (natCast_ne q r e), mem_cpumask_clear_cpu]
        obtain ⟨j1, j2⟩ := i3 q hq
        constructor
        · rw [← j1]
          exact ⟨fun h1 => h1.1, fun h1 => ⟨h1, e⟩⟩
        · rw [← j2]
          exact ⟨fun h1 => h1.1, fun h1 => ⟨h1, e⟩⟩
  · -- other processors stay on the runqueue
    simp only [Option.some.injEq] at hd
    subst hd
    simp only [rqd_store_same] at hempty
    have hact : ∀ q : Nat, ∀ c, c ∈ ((rqd_store prv r
        { prv.rqd r with
          idle := cpumask_clear_cpu cpu (prv.rqd r).idle
          active := cpumask_clear_cpu cpu (prv.rqd r).active }).rqd q).active ↔
        c ∈ (prv.rqd q).active ∧ ¬(q = r ∧ c = cpu) := by
      intro q c
      by_cases e : q = r
      · rw [e]
        simp only [rqd_store_same, mem_cpumask_clear_cpu]
        constructor
        · exact fun h1 => ⟨h1.1, fun h2 => h1.2 h2.2⟩
        · exact fun h1 => ⟨h1.1, fun h2 => h1.2 ⟨trivial, h2⟩⟩
      · simp only [rqd_store_other _ _ _ _ (natCast_ne q r e)]
        constructor
        · exact fun h1 => ⟨h1, fun h2 => e h2.1⟩
        · exact fun h1 => h1.1
    refine ⟨?_, ?_, ?_⟩
    · intro c hc
      simp only [mem_cpumask_clear_cpu] at hc
      obtain ⟨h1, q, hq, hm, ha⟩ := i1 c hc.1
      exact ⟨h1, q, hq, hm, (hact q c).mpr ⟨ha, fun h2 => hc.2 h2.2⟩⟩
    · intro q hq c hc
      rw [hact] at hc
      obtain ⟨h1, h2⟩ := i2 q hq c hc.1
      refine ⟨?_, h2⟩
      simp only [mem_cpumask_clear_cpu]
      refine ⟨h1, fun e => hc.2 ⟨?_, e⟩⟩
      rw [e, hmap] at h2
      exact (Int.ofNat_inj.mp h2).symm
    · intro q hq
      by_cases e : q = r
      · rw [e]
        simp only [rqd_store_same]
        have hin : r ∈ prv.active_queues :=
          ((i3 r hr).1).mpr ((cpumask_empty_false_iff nr _).mpr ⟨cpu, hmem, hcpu⟩)
        refine ⟨⟨fun _ => by simpa using hempty, fun _ => hin⟩, ?_⟩
        exact (i3 r hr).2
      · simp only [rqd_store_other _ _ _ _ (natCast_ne q r e)]
        exact i3 q hq

theorem csched2_init_inv (nr shift : Nat) : registry_inv nr (csched2_init nr shift) := by
  refine ⟨?_, ?_, ?_⟩
  · intro c hc
    cases hc
  · intro q _ c hc
    cases hc
  · intro q hq
    refine ⟨⟨(fun h1 => by cases h1), fun h1 => ?_⟩, ⟨(fun h1 => by cases h1), fun h1 => ?_⟩⟩
    · exfalso
      have : cpumask_empty nr ((csched2_init nr shift).rqd q).active = true := by
        unfold cpumask_empty cpumask_cpus csched2_init
        simp
      rw [this] at h1
      cases h1
    · exfalso
      apply h1
      unfold csched2_init
      simp only []
      rw [if_pos ⟨by omega, by omega⟩]

theorem registry_run_inv (h : host_info) (calls : List pdata_call) :
    ∀ prv prv1, registry_inv h.nr_cpu_ids prv → registry_run h calls prv = some prv1 →
      registry_inv h.nr_cpu_ids prv1 := by
  induction calls with
  | nil =>
    intro prv prv1 hinv hr
    unfold registry_run at hr
    simp only [Option.some.injEq] at hr
    rw [← hr]
    exact hinv
  | cons c rest ih =>
    intro prv prv1 hinv hr
    unfold registry_run at hr
    cases hs : registry_step h prv c with
    | none => rw [hs] at hr; cases hr
    | some p =>
      rw [hs] at hr
      simp only [] at hr
      refine ih p prv1 ?_ hr
      cases c with
      | init cpu =>
        simp only [registry_step] at hs
        split_ifs at hs with hc
        cases hi : init_pdata h prv cpu with
        | none => rw [hi] at hs; cases hs
        | some r =>
          rw [hi] at hs
          simp only [Option.some.injEq] at hs
          rw [← hs]
          exact init_pdata_inv h prv r.1 cpu r.2 hinv hc.1 hc.2 hi
      | deinit cpu =>
        simp only [registry_step] at hs
        split_ifs at hs with hc
        exact deinit_pdata_inv h.nr_cpu_ids prv p cpu hinv hc hs

/-- C27: after `csched2_init` and any sequence of `init_pdata` and
`csched2_deinit_pdata` calls that return, each made as the `ASSERT`s of the
callee require (an activation for a processor that is not initialized, a
deactivation for an initialized one), the registry invariant holds: every
initialized processor is in the active mask of the runqueue `runq_map` records
for it and of no other runqueue, and a slot is in `active_queues` exactly when
the active mask of its runqueue is not empty, which is exactly when the `id` of
the runqueue is not -1. -/
theorem registry_invariant (h : host_info) (shift : Nat) (calls : List pdata_call)
    (prv : csched2_private)
    (hr : registry_run h calls (csched2_init h.nr_cpu_ids shift) = some prv) :
    (∀ cpu ∈ prv.initialized,
      ∃ q, q < h.nr_cpu_ids ∧ prv.runq_map cpu = (q : Int) ∧ cpu ∈ (prv.rqd q).active ∧
        ∀ j, j < h.nr_cpu_ids → cpu ∈ (prv.rqd j).active → j = q) ∧
    (∀ q, q < h.nr_cpu_ids →
      (q ∈ prv.active_queues ↔ cpumask_empty h.nr_cpu_ids (prv.rqd q).active = false) ∧
      (q ∈ prv.active_queues ↔ (prv.rqd q).id ≠ -1)) := by
  obtain ⟨i1, i2, i3⟩ := registry_run_inv h calls _ prv (csched2_init_inv _ _) hr
  refine ⟨?_, i3⟩
  intro cpu hc
  obtain ⟨_, q, hq, hm, ha⟩ := i1 cpu hc
  refine ⟨q, hq, hm, ha, ?_⟩
  intro j hj hmem
  have := (i2 j hj cpu hmem).2
  rw [hm] at this
  exact (Int.ofNat_inj.mp this).symm
theorem registry_invariant_witness :
    ∃ prv, registry_run rg_host
        [pdata_call.init 0, pdata_call.init 2, pdata_call.init 1, pdata_call.deinit 0,
          pdata_call.deinit 2]
        (csched2_init rg_host.nr_cpu_ids 18) = some prv ∧
      ((∀ cpu ∈ prv.initialized,
        ∃ q, q < rg_host.nr_cpu_ids ∧ prv.runq_map cpu = (q : Int) ∧
          cpu ∈ (prv.rqd q).active ∧
          ∀ j, j < rg_host.nr_cpu_ids → cpu ∈ (prv.rqd j).active → j = q) ∧
      (∀ q, q < rg_host.nr_cpu_ids →
        (q ∈ prv.active_queues ↔
          cpumask_empty rg_host.nr_cpu_ids (prv.rqd q).active = false) ∧
        (q ∈ prv.active_queues ↔ (prv.rqd q).id ≠ -1))) :=
  ⟨_, rfl, registry_invariant rg_host 18
    [pdata_call.init 0, pdata_call.init 2, pdata_call.init 1, pdata_call.deinit 0,
      pdata_call.deinit 2] _ rfl⟩

/-- On the sample host the calls of the witness leave processor 1 alone, on
runqueue 0; runqueue 1 is inactive again. -/
theorem registry_run_sample :
    (registry_run rg_host
        [pdata_call.init 0, pdata_call.init 2, pdata_call.init 1, pdata_call.deinit 0,
          pdata_call.deinit 2]
        (csched2_init rg_host.nr_cpu_ids 18)).map
      (fun prv => (prv.initialized, prv.active_queues, (prv.rqd 0).active, (prv.rqd 0).id,
        (prv.rqd 1).active, (prv.rqd 1).id, prv.runq_map 1))
      = some ([1], [0], [1], 0, [], -1, 0) := by
  rfl

/-- C28 (failing input): processors 0 and 2 are activated, which gives the
runqueues 0 (core 0) and 1 (core 1), then processor 0 is deactivated, which
leaves slot 0 inactive below the active runqueue 1.  For the new processor 3
the runqueue 1 is active and its first processor 2 is on the core of processor
3, yet `init_pdata` stops at the inactive slot 0 and activates a fresh runqueue
there: processor 3 ends on runqueue 0, processor 2 stays alone on runqueue
1. -/
theorem init_pdata_skips_matching_runqueue :
    ∃ prv, registry_run rg_host [pdata_call.init 0, pdata_call.init 2, pdata_call.deinit 0]
        (csched2_init rg_host.nr_cpu_ids 18) = some prv ∧
      3 ∉ prv.initialized ∧ 1 ∈ prv.active_queues ∧ 0 ∉ prv.active_queues ∧
      cpumask_first rg_host.nr_cpu_ids (prv.rqd 1).active = 2 ∧
      runqueue_matches rg_host (cpumask_first rg_host.nr_cpu_ids (prv.rqd 1).active) 3 = true ∧
      (init_pdata rg_host prv 3).map
        (fun r => (r.2, (r.1.rqd 0).active, (r.1.rqd 1).active, r.1.active_queues))
        = some (0, [3], [2], [0, 1]) :=
  ⟨_, rfl, by decide, by decide, by decide, by decide, by decide, by decide⟩

/-! ### Burning credit once -/

/-- C40: when `burn_credits` returns, it has left credit, residual and start
time as they were if the entity is idle or `now` is not after its start time,
and it has set the start time to `now` otherwise; a second call with the same
`now` changes nothing.  The difference `now - start_time` fits 64 bits. -/
theorem burn_credits_once (rqd : csched2_runqueue_data) (now : Int) (s c : csched2_vcpu)
    (h : burn_credits rqd s now = some c)
    (hr : -9223372036854775808 ≤ now - s.start_time ∧ now - s.start_time < 9223372036854775808) :
    ((s.is_idle = true ∨ now ≤ s.start_time) →
      c.credit = s.credit ∧ c.residual = s.residual ∧ c.start_time = s.start_time) ∧
    (s.is_idle = false → s.start_time < now → c.start_time = now) ∧
    burn_credits rqd c now = some c := by
  have hd : to_s64 (now - s.start_time) = now - s.start_time :=
    to_s64_of_range _ hr.1 hr.2
  refine ⟨?_, ?_, (burn_credits_idem rqd now s c h).1⟩
  · intro hc
    unfold burn_credits at h
    by_cases hi : s.is_idle = true
    · rw [if_pos hi] at h
      split_ifs at h
      simp only [Option.some.injEq] at h
      rw [← h]
      exact ⟨rfl, rfl, rfl⟩
    · rw [if_neg hi] at h
      have hle : now ≤ s.start_time := hc.resolve_left hi
      simp only [hd] at h
      rw [if_neg (by omega)] at h
      simp only [Option.some.injEq] at h
      rw [← h]
      exact ⟨rfl, rfl, rfl⟩
  · intro hi hlt
    unfold burn_credits at h
    rw [if_neg (by simp [hi])] at h
    simp only [hd] at h
    rw [if_pos (by omega)] at h
    cases ht : t2c_update rqd (now - s.start_time) s with
    | none => rw [ht] at h; cases h
    | some s1 =>
      rw [ht] at h
      simp only [Option.some.injEq] at h
      rw [← h]

theorem burn_credits_once_witness :
    (∃ c, burn_credits (ex_rqd_w 512) (ex_svc 256 3 10000000) 1000 = some c ∧
      c.start_time = 1000 ∧ burn_credits (ex_rqd_w 512) c 1000 = some c) ∧
    (∃ c, burn_credits (ex_rqd_w 512) (ex_svc 256 3 10000000) (-5) = some c ∧
      c.credit = (ex_svc 256 3 10000000).credit ∧
      c.residual = (ex_svc 256 3 10000000).residual ∧
      c.start_time = (ex_svc 256 3 10000000).start_time) :=
  ⟨⟨_, rfl,
      (burn_credits_once (ex_rqd_w 512) 1000 (ex_svc 256 3 10000000) _ rfl
        (by decide)).2.1 (by decide) (by decide),
      (burn_credits_once (ex_rqd_w 512) 1000 (ex_svc 256 3 10000000) _ rfl
        (by decide)).2.2⟩,
    ⟨ex_svc 256 3 10000000, by decide,
      (burn_credits_once (ex_rqd_w 512) (-5) (ex_svc 256 3 10000000) (ex_svc 256 3 10000000)
        (by decide) (by decide)).1 (Or.inr (by decide))⟩⟩
/-! ### The selection and its specification -/

theorem runq_candidate_scan_find (st : sched_state) (cpu snext : Nat) (l : List Nat) :
    runq_candidate_scan st cpu snext l =
      match l.find? (candidate_eligible st cpu snext) with
      | none => snext
      | some svc => if (st.heap svc).credit > (st.heap snext).credit then svc else snext := by
  induction l with
  | nil => rfl
  | cons a rest ih =>
    unfold runq_candidate_scan
    by_cases c1 : (!cpumask_test_cpu cpu (st.heap a).cpu_hard_affinity) = true
    · rw [if_pos c1, ih]
      have he : candidate_eligible st cpu snext a = false := by
        unfold candidate_eligible
        simp only [Bool.not_eq_true', Bool.and_eq_false_imp] at c1 ⊢
        intro h
        rw [c1] at h
        cases h
      rw [List.find?_cons, he]
    · rw [if_neg c1]
      by_cases c2 : (st.heap a).processor ≠ cpu ∧
          (st.heap snext).credit + CSCHED2_MIGRATE_RESIST st.opt_migrate_resist
            > (st.heap a).credit
      · rw [if_pos c2, ih]
        have he : candidate_eligible st cpu snext a = false := by
          unfold candidate_eligible
          simp [c2.1, c2.2]
        rw [List.find?_cons, he]
      · rw [if_neg c2]
        have he : candidate_eligible st cpu snext a = true := by
          unfold candidate_eligible
          simp only [Bool.not_eq_true', Bool.not_eq_false] at c1
          simp only [c1, Bool.true_and, Bool.not_eq_true', Bool.and_eq_false_imp,
            decide_eq_true_eq, decide_eq_false_iff_not]
          intro hp hc
          exact c2 ⟨hp, hc⟩
        rw [List.find?_cons, he]

/-- C35: `runq_candidate` returns the default candidate (the current entity if
it is runnable, the idle entity otherwise) or the first entity of the runnable
list that may run on `cpu` and is not held back by the migration resistance,
and that one only if it has strictly more credit than the default candidate.
The credit of the result is never below the credit of the default candidate,
and a result other than the default candidate is on the runnable list and has
`cpu` in its hard affinity. -/
theorem runq_candidate_first_eligible (st : sched_state) (q : Int) (scurr cpu : Nat)
    (now : Int) :
    runq_candidate st q scurr cpu now = runq_candidate_spec st q scurr cpu ∧
    (st.heap (runq_candidate_default st scurr cpu)).credit
      ≤ (st.heap (runq_candidate st q scurr cpu now)).credit ∧
    (runq_candidate st q scurr cpu now ≠ runq_candidate_default st scurr cpu →
      runq_candidate st q scurr cpu now ∈ (st.prv.rqd q).runq ∧
      (st.heap (runq_candidate_default st scurr cpu)).credit
        < (st.heap (runq_candidate st q scurr cpu now)).credit ∧
      cpumask_test_cpu cpu
        (st.heap (runq_candidate st q scurr cpu now)).cpu_hard_affinity = true) := by
  refine ⟨?_, ?_, ?_⟩
  · unfold runq_candidate runq_candidate_spec
    exact runq_candidate_scan_find st cpu _ _
  · unfold runq_candidate
    rcases runq_candidate_scan_spec st cpu (runq_candidate_default st scurr cpu)
      (st.prv.rqd q).runq with h | ⟨_, _, h, _⟩
    · rw [h]
    · exact le_of_lt h
  · intro hne
    unfold runq_candidate at hne ⊢
    rcases runq_candidate_scan_spec st cpu (runq_candidate_default st scurr cpu)
      (st.prv.rqd q).runq with h | ⟨h1, h2, h3, _⟩
    · exact absurd h hne
    · exact ⟨h1, h3, h2⟩

theorem runq_candidate_first_eligible_witness :
    runq_candidate (sd_state [1, 2]) 0 10 0 1000 = runq_candidate_spec (sd_state [1, 2]) 0 10 0 ∧
    ((sd_state [1, 2]).heap (runq_candidate_default (sd_state [1, 2]) 10 0)).credit
      ≤ ((sd_state [1, 2]).heap (runq_candidate (sd_state [1, 2]) 0 10 0 1000)).credit ∧
    runq_candidate (sd_state [1, 2]) 0 10 0 1000 ∈ ((sd_state [1, 2]).prv.rqd 0).runq ∧
    ((sd_state [1, 2]).heap (runq_candidate_default (sd_state [1, 2]) 10 0)).credit
      < ((sd_state [1, 2]).heap (runq_candidate (sd_state [1, 2]) 0 10 0 1000)).credit ∧
    cpumask_test_cpu 0
      ((sd_state [1, 2]).heap (runq_candidate (sd_state [1, 2]) 0 10 0 1000)).cpu_hard_affinity
      = true :=
  match runq_candidate_first_eligible (sd_state [1, 2]) 0 10 0 1000 with
  | ⟨a, b, c⟩ => ⟨a, b, c (by decide)⟩
/-! ### The reset and the entity that triggered it -/

/-- C32 (amended): for an entity `snext` of the runqueue whose credit is at most
`CSCHED2_CREDIT_RESET` and above `INT_MIN`, `reset_credit` leaves `snext` with a
credit that is not negative, and strictly positive unless its credit was
exactly `-CSCHED2_CREDIT_INIT`.  The list of the runqueue holds no entity twice
and the two `BUG_ON` checks of the loop pass. -/
theorem reset_credit_not_negative (heap : vcpu_heap) (rqd : csched2_runqueue_data) (now : Int)
    (snext : Nat)
    (hnodup : rqd.svc.Nodup)
    (hok : ∀ i ∈ rqd.svc, (heap i).is_idle = false ∧ (heap i).rqd = some rqd.id)
    (hin : snext ∈ rqd.svc)
    (hlo : -2147483648 < (heap snext).credit)
    (hhi : (heap snext).credit ≤ CSCHED2_CREDIT_RESET) :
    ∃ heap1, reset_credit heap rqd now snext = some heap1 ∧
      0 ≤ (heap1 snext).credit ∧
      ((heap snext).credit ≠ -CSCHED2_CREDIT_INIT → CSCHED2_CREDIT_RESET < (heap1 snext).credit) := by
  obtain ⟨heap1, hrun, hin1, _⟩ := reset_credit_loop_spec rqd.id
    (reset_credit_m (heap snext).credit) now rqd.svc heap hnodup hok
  refine ⟨heap1, hrun, ?_⟩
  rw [hin1 snext hin]
  show 0 ≤ reset_credit_one _ _ ∧ (_ → _ < reset_credit_one _ _)
  rw [reset_credit_m_eq _ hlo]
  have hreset : CSCHED2_CREDIT_RESET = 0 := rfl
  rw [hreset] at hhi ⊢
  generalize (heap snext).credit = c at *
  have hsum : 0 ≤ c + spec_reset_m c * CSCHED2_CREDIT_INIT ∧
      c + spec_reset_m c * CSCHED2_CREDIT_INIT ≤ 10000000 ∧
      (c ≠ -10000000 → 0 < c + spec_reset_m c * CSCHED2_CREDIT_INIT) := by
    unfold spec_reset_m
    rw [credit_init_eq]
    split_ifs with hc
    · refine ⟨by omega, by omega, fun _ => by omega⟩
    · refine ⟨by omega, by omega, fun _ => by omega⟩
  rw [reset_credit_one_eq _ _ (by unfold int_range; omega), credit_init_eq, carryover_max_eq]
  rw [credit_init_eq] at hsum
  refine ⟨?_, ?_⟩
  · rw [min_def]
    split_ifs <;> omega
  · intro hne
    have := hsum.2.2 hne
    rw [min_def]
    split_ifs <;> omega

theorem reset_credit_not_negative_witness :
    ∃ heap1, reset_credit rst_heap ovf_rqd 0 1 = some heap1 ∧
      0 ≤ (heap1 1).credit ∧ CSCHED2_CREDIT_RESET < (heap1 1).credit :=
  match reset_credit_not_negative rst_heap ovf_rqd 0 1 (by decide) (by decide) (by decide)
      (by decide) (by decide) with
  | ⟨heap1, a, b, c⟩ => ⟨heap1, a, b, c (by decide)⟩

/-- C32 (counterexample): the entity 1 triggers the reset with a credit of
exactly -10000000, minus the initial credit.  The multiplier is 1 and the
reset leaves it at credit 0: the reset condition `credit <= CSCHED2_CREDIT_RESET`
still holds for it. -/
theorem reset_credit_leaves_zero :
    (edge_heap 1).credit ≤ CSCHED2_CREDIT_RESET ∧ 1 ∈ ovf_rqd.svc ∧
    ∃ heap1, reset_credit edge_heap ovf_rqd 0 1 = some heap1 ∧ (heap1 1).credit = 0 ∧
      (heap1 1).credit ≤ CSCHED2_CREDIT_RESET :=
  ⟨by decide, by decide, _, rfl, by decide, by decide⟩

/-! ### The processor picked stays in the hard affinity -/

theorem clear_migrate_request_svc (st : sched_state) (svc : Nat) :
    (clear_migrate_request st svc).heap svc =
      { st.heap svc with flags := ((clear_migrate_request st svc).heap svc).flags } := by
  unfold clear_migrate_request
  simp only [heap_store_same]

/-- The processor `get_fallback_cpu` returns is in the hard affinity of the
entity when that affinity intersects the processors of its cpupool. -/
theorem get_fallback_cpu_affine (st : sched_state) (svc cpu : Nat)
    (hint : cpumask_intersects st.nr_cpu_ids (st.heap svc).cpu_hard_affinity
      (st.cpupool_domain_cpumask svc) = true)
    (h : get_fallback_cpu st svc = some cpu) :
    cpu ∈ (st.heap svc).cpu_hard_affinity := by
  unfold get_fallback_cpu at h
  by_cases c1 : cpumask_test_cpu (st.heap svc).processor (st.heap svc).cpu_hard_affinity = true
  · rw [if_pos c1] at h
    simp only [Option.some.injEq] at h
    rw [← h]
    unfold cpumask_test_cpu at c1
    simpa using c1
  · rw [if_neg c1] at h
    cases hr : (st.heap svc).rqd with
    | none => rw [hr] at h; cases h
    | some q =>
      rw [hr] at h
      simp only [] at h
      split_ifs at h with c2
      · simp only [Option.some.injEq] at h
        rw [← h]
        rcases cpumask_first_spec st.nr_cpu_ids
          (cpumask_and (st.heap svc).cpu_hard_affinity (st.prv.rqd q).active) with ⟨e, _⟩ | ⟨_, hm, _⟩
        · omega
        · exact ((mem_cpumask_and _ _ _).mp hm).1
      · simp only [Option.some.injEq] at h
        rw [← h]
        exact (cpumask_any_of_intersects _ _ _ hint).2.1

theorem get_fallback_cpu_runs (st : sched_state) (svc : Nat)
    (hr : (st.heap svc).rqd ≠ none) : ∃ cpu, get_fallback_cpu st svc = some cpu := by
  unfold get_fallback_cpu
  split_ifs
  · exact ⟨_, rfl⟩
  · cases hq : (st.heap svc).rqd with
    | none => exact absurd hq hr
    | some q =>
      simp only []
      split_ifs
      · exact ⟨_, rfl⟩
      · exact ⟨_, rfl⟩

/-- The loop of `choose_cpu` returns -1 or the slot of a runqueue whose active
processors intersect the hard affinity of the entity. -/
theorem choose_cpu_scan_intersects (st : sched_state) (svc : Nat) (l : List Nat) :
    (choose_cpu_scan st svc l MAX_LOAD (-1)).2 = -1 ∨
      cpumask_intersects st.nr_cpu_ids (st.heap svc).cpu_hard_affinity
        (st.prv.rqd (choose_cpu_scan st svc l MAX_LOAD (-1)).2).active = true := by
  rcases (choose_cpu_scan_spec st svc l MAX_LOAD (-1)).2.2 with ⟨_, h⟩ | ⟨i, _, h1, h2, h3⟩
  · exact Or.inl h
  · right
    rw [h1]
    rw [← h2] at h3
    unfold choose_cpu_avgload at h3
    by_contra hni
    simp only [hni, Bool.false_eq_true, if_false, ite_self, lt_irrefl] at h3


/-- The search of `choose_cpu` over the runqueues, with its fallback: the
processor is in the hard affinity, and a processor is returned. -/
theorem choose_cpu_search_affine (st : sched_state) (svc : Nat)
    (hint : cpumask_intersects st.nr_cpu_ids (st.heap svc).cpu_hard_affinity
      (st.cpupool_domain_cpumask svc) = true) :
    (∀ r, (if (choose_cpu_scan st svc (cpumask_cpus st.nr_cpu_ids st.prv.active_queues)
          MAX_LOAD (-1)).2 = -1 then
        match get_fallback_cpu st svc with
        | none => none
        | some cpu => some (st, cpu)
      else
        if cpumask_any st.nr_cpu_ids
          (cpumask_and (st.heap svc).cpu_hard_affinity (st.prv.rqd
            (choose_cpu_scan st svc (cpumask_cpus st.nr_cpu_ids st.prv.active_queues)
              MAX_LOAD (-1)).2).active) ≥ st.nr_cpu_ids then none
        else some (st, cpumask_any st.nr_cpu_ids
          (cpumask_and (st.heap svc).cpu_hard_affinity (st.prv.rqd
            (choose_cpu_scan st svc (cpumask_cpus st.nr_cpu_ids st.prv.active_queues)
              MAX_LOAD (-1)).2).active))) = some r →
      r.2 ∈ (st.heap svc).cpu_hard_affinity) ∧
    ((st.heap svc).rqd ≠ none →
      ∃ r, (if (choose_cpu_scan st svc (cpumask_cpus st.nr_cpu_ids st.prv.active_queues)
          MAX_LOAD (-1)).2 = -1 then
        match get_fallback_cpu st svc with
        | none => none
        | some cpu => some (st, cpu)
      else
        if cpumask_any st.nr_cpu_ids
          (cpumask_and (st.heap svc).cpu_hard_affinity (st.prv.rqd
            (choose_cpu_scan st svc (cpumask_cpus st.nr_cpu_ids st.prv.active_queues)
              MAX_LOAD (-1)).2).active) ≥ st.nr_cpu_ids then none
        else some (st, cpumask_any st.nr_cpu_ids
          (cpumask_and (st.heap svc).cpu_hard_affinity (st.prv.rqd
            (choose_cpu_scan st svc (cpumask_cpus st.nr_cpu_ids st.prv.active_queues)
              MAX_LOAD (-1)).2).active))) = some r) := by
  by_cases d1 : (choose_cpu_scan st svc (cpumask_cpus st.nr_cpu_ids st.prv.active_queues)
      MAX_LOAD (-1)).2 = -1
  · rw [if_pos d1]
    constructor
    · intro r h
      cases hf : get_fallback_cpu st svc with
      | none => rw [hf] at h; cases h
      | some c =>
        rw [hf] at h
        simp only [Option.some.injEq] at h
        rw [← h]
        exact get_fallback_cpu_affine st svc c hint hf
    · intro hr
      obtain ⟨fb, hfbe⟩ := get_fallback_cpu_runs st svc hr
      rw [hfbe]
      exact ⟨_, rfl⟩
  · rw [if_neg d1]
    have e : cpumask_intersects st.nr_cpu_ids (st.heap svc).cpu_hard_affinity
        (st.prv.rqd (choose_cpu_scan st svc (cpumask_cpus st.nr_cpu_ids st.prv.active_queues)
          MAX_LOAD (-1)).2).active = true := by
      rcases choose_cpu_scan_intersects st svc
        (cpumask_cpus st.nr_cpu_ids st.prv.active_queues) with e | e
      · exact absurd e d1
      · exact e
    have hany := cpumask_any_of_intersects _ _ _ e
    rw [if_neg (by have := hany.1; omega)]
    constructor
    · intro r h
      simp only [Option.some.injEq] at h
      rw [← h]
      exact hany.2.1
    · intro _
      exact ⟨_, rfl⟩

/-- C36: when the hard affinity of the entity intersects the processors of its
cpupool, every processor `choose_cpu` returns is in the hard affinity, whether
it comes from the fallback after a failed attempt on the private lock, from a
pending migration request, or from the search over the runqueues (with or
without contended remote locks).  `choose_cpu` then returns: its
`BUG_ON(new_cpu >= nr_cpu_ids)` does not fire.  The other ways to end the
execution are excluded: some runqueue is active, the entity has a runqueue,
and a pending migration request comes with its runqueue. -/
theorem choose_cpu_in_affinity (st : sched_state) (svc : Nat)
    (hint : cpumask_intersects st.nr_cpu_ids (st.heap svc).cpu_hard_affinity
      (st.cpupool_domain_cpumask svc) = true) :
    (∀ st1 cpu, choose_cpu st svc = some (st1, cpu) →
      cpu ∈ (st.heap svc).cpu_hard_affinity) ∧
    (cpumask_empty st.nr_cpu_ids st.prv.active_queues = false → (st.heap svc).rqd ≠ none →
      ((st.heap svc).flags &&& CSFLAG_runq_migrate_request ≠ 0 →
        (st.heap svc).migrate_rqd ≠ none) →
      ∃ r, choose_cpu st svc = some r) := by
  have haff : ((clear_migrate_request st svc).heap svc).cpu_hard_affinity
      = (st.heap svc).cpu_hard_affinity := by rw [clear_migrate_request_svc]
  have hrqd : ((clear_migrate_request st svc).heap svc).rqd = (st.heap svc).rqd := by
    rw [clear_migrate_request_svc]
  have hmig : ((clear_migrate_request st svc).heap svc).migrate_rqd
      = (st.heap svc).migrate_rqd := by rw [clear_migrate_request_svc]
  have hint1 : cpumask_intersects (clear_migrate_request st svc).nr_cpu_ids
      ((clear_migrate_request st svc).heap svc).cpu_hard_affinity
      ((clear_migrate_request st svc).cpupool_domain_cpumask svc) = true := by
    rw [haff]
    exact hint
  have hs := choose_cpu_search_affine (clear_migrate_request st svc) svc hint1
  rw [haff, hrqd] at hs
  have hfb : ∀ cpu, get_fallback_cpu (clear_migrate_request st svc) svc = some cpu →
      cpu ∈ (st.heap svc).cpu_hard_affinity := by
    intro cpu h
    rw [← haff]
    exact get_fallback_cpu_affine _ svc cpu hint1 h
  unfold choose_cpu
  by_cases c0 : cpumask_empty st.nr_cpu_ids st.prv.active_queues = true
  · rw [if_pos c0]
    exact ⟨(fun _ _ h => by cases h), (fun h => by rw [c0] at h; cases h)⟩
  rw [if_neg c0]
  by_cases c1 : (!st.trylock_prv) = true
  · rw [if_pos c1]
    constructor
    · intro st1 cpu h
      cases hf : get_fallback_cpu (clear_migrate_request st svc) svc with
      | none => rw [hf] at h; cases h
      | some c =>
        rw [hf] at h
        simp only [Option.some.injEq, Prod.mk.injEq] at h
        rw [← h.2]
        exact hfb c hf
    · intro _ hr _
      obtain ⟨fb, hfbe⟩ := get_fallback_cpu_runs (clear_migrate_request st svc) svc
        (by rw [hrqd]; exact hr)
      rw [hfbe]
      exact ⟨_, rfl⟩
  rw [if_neg c1]
  simp only []
  by_cases c2 : (st.heap svc).flags &&& CSFLAG_runq_migrate_request ≠ 0
  · rw [if_pos c2]
    cases hm : ((clear_migrate_request st svc).heap svc).migrate_rqd with
    | none =>
      simp only []
      refine ⟨(fun _ _ h => by cases h), fun _ _ h => ?_⟩
      rw [hmig] at hm
      exact absurd hm (h c2)
    | some m =>
      simp only []
      by_cases d1 : ((clear_migrate_request st svc).prv.rqd m).id < 0
      · rw [if_pos d1]
        simp only []
        rw [haff]
        exact ⟨fun st1 cpu h => hs.1 (st1, cpu) h, fun _ hr _ => hs.2 hr⟩
      · rw [if_neg d1]
        by_cases d2 : cpumask_any (clear_migrate_request st svc).nr_cpu_ids
            (cpumask_and ((clear_migrate_request st svc).heap svc).cpu_hard_affinity
              ((clear_migrate_request st svc).prv.rqd m).active)
            < (clear_migrate_request st svc).nr_cpu_ids
        · rw [if_pos d2]
          simp only []
          refine ⟨fun st1 cpu h => ?_, fun _ _ _ => ⟨_, rfl⟩⟩
          simp only [Option.some.injEq, Prod.mk.injEq] at h
          rw [← h.2, ← haff]
          rcases cpumask_first_spec (clear_migrate_request st svc).nr_cpu_ids
            (cpumask_and ((clear_migrate_request st svc).heap svc).cpu_hard_affinity
              ((clear_migrate_request st svc).prv.rqd m).active) with ⟨e, _⟩ | ⟨_, hmem, _⟩
          · unfold cpumask_any at d2
            omega
          · exact ((mem_cpumask_and _ _ _).mp hmem).1
        · rw [if_neg d2]
          simp only []
          rw [haff]
          exact ⟨fun st1 cpu h => hs.1 (st1, cpu) h, fun _ hr _ => hs.2 hr⟩
  · rw [if_neg c2]
    simp only []
    rw [haff]
    exact ⟨fun st1 cpu h => hs.1 (st1, cpu) h, fun _ hr _ => hs.2 hr⟩
theorem choose_cpu_in_affinity_witness :
    cpumask_intersects bl_state_pick.nr_cpu_ids (bl_state_pick.heap 1).cpu_hard_affinity
      (bl_state_pick.cpupool_domain_cpumask 1) = true ∧
    (∃ r, choose_cpu bl_state_pick 1 = some r) ∧
    (∀ st1 cpu, choose_cpu bl_state_pick 1 = some (st1, cpu) →
      cpu ∈ (bl_state_pick.heap 1).cpu_hard_affinity) :=
  ⟨by decide,
    (choose_cpu_in_affinity bl_state_pick 1 (by decide)).2 (by decide) (by decide) (by decide),
    (choose_cpu_in_affinity bl_state_pick 1 (by decide)).1⟩

/-! ### The cached largest weight -/

theorem max_weight_spec_ge_one (heap : vcpu_heap) (l : List Nat) :
    1 ≤ max_weight_spec heap l := by
  induction l with
  | nil => exact le_refl _
  | cons a t ih =>
    unfold max_weight_spec at ih ⊢
    simp only [List.map_cons, List.foldr_cons]
    exact le_trans ih (le_max_right _ _)

theorem max_weight_spec_upper (heap : vcpu_heap) (l : List Nat) :
    ∀ s ∈ l, (heap s).weight ≤ max_weight_spec heap l := by
  induction l with
  | nil => intro s hs; cases hs
  | cons a t ih =>
    intro s hs
    unfold max_weight_spec at ih ⊢
    simp only [List.map_cons, List.foldr_cons]
    rcases List.mem_cons.mp hs with rfl | hs
    · exact le_max_left _ _
    · exact le_trans (ih s hs) (le_max_right _ _)

theorem max_weight_spec_attained (heap : vcpu_heap) (l : List Nat) :
    max_weight_spec heap l = 1 ∨ ∃ s ∈ l, (heap s).weight = max_weight_spec heap l := by
  induction l with
  | nil => exact Or.inl rfl
  | cons a t ih =>
    unfold max_weight_spec at ih ⊢
    simp only [List.map_cons, List.foldr_cons]
    rcases le_total (heap a).weight
        (List.foldr max 1 (List.map (fun s => (heap s).weight) t)) with c | c
    · rw [max_eq_right c]
      rcases ih with e | ⟨s, hs, e⟩
      · exact Or.inl e
      · exact Or.inr ⟨s, List.mem_cons_of_mem _ hs, e⟩
    · rw [max_eq_left c]
      exact Or.inr ⟨a, List.mem_cons_self _ _, rfl⟩

/-- The three properties that single out the largest weight of a list. -/
theorem max_weight_spec_unique (heap : vcpu_heap) (l : List Nat) (m : Nat) (h1 : 1 ≤ m)
    (hup : ∀ s ∈ l, (heap s).weight ≤ m)
    (hat : m = 1 ∨ ∃ s ∈ l, (heap s).weight = m) : m = max_weight_spec heap l := by
  apply le_antisymm
  · rcases hat with e | ⟨s, hs, e⟩
    · rw [e]
      exact max_weight_spec_ge_one heap l
    · rw [← e]
      exact max_weight_spec_upper heap l s hs
  · rcases max_weight_spec_attained heap l with e | ⟨s, hs, e⟩
    · rw [e]
      exact h1
    · rw [← e]
      exact hup s hs

theorem max_weight_spec_congr (h1 h2 : vcpu_heap) (l : List Nat)
    (h : ∀ s ∈ l, (h1 s).weight = (h2 s).weight) :
    max_weight_spec h1 l = max_weight_spec h2 l := by
  unfold max_weight_spec
  congr 1
  exact List.map_congr_left h

theorem max_weight_search_eq_spec (heap : vcpu_heap) (l : List Nat) :
    max_weight_search heap l 1 = max_weight_spec heap l := by
  apply max_weight_spec_unique
  · exact max_weight_search_ge heap l 1
  · exact max_weight_search_upper heap l 1
  · rcases max_weight_search_attained heap l 1 with e | ⟨s, hs, e⟩
    · exact Or.inl e
    · exact Or.inr ⟨s, hs, e⟩

/-- Appending an entity and calling `update_max_weight` with its weight keeps
the cached largest weight exact. -/
theorem update_max_weight_append (heap : vcpu_heap) (r : csched2_runqueue_data) (v : Nat)
    (hinv : r.max_weight = max_weight_spec heap r.svc) :
    (update_max_weight heap { r with svc := r.svc ++ [v] } (heap v).weight 0).max_weight
      = max_weight_spec heap (r.svc ++ [v]) := by
  have h1 : 1 ≤ r.max_weight := hinv ▸ max_weight_spec_ge_one heap r.svc
  have hup : ∀ s ∈ r.svc, (heap s).weight ≤ r.max_weight :=
    hinv ▸ max_weight_spec_upper heap r.svc
  have hat : r.max_weight = 1 ∨ ∃ s ∈ r.svc, (heap s).weight = r.max_weight := by
    rcases max_weight_spec_attained heap r.svc with e | ⟨s, hs, e⟩
    · exact Or.inl (hinv.trans e)
    · exact Or.inr ⟨s, hs, e.trans hinv.symm⟩
  unfold update_max_weight
  simp only []
  by_cases c1 : (heap v).weight > r.max_weight
  · rw [if_pos c1]
    apply max_weight_spec_unique
    · exact le_trans h1 (le_of_lt c1)
    · intro s hs
      rcases List.mem_append.mp hs with hs | hs
      · exact le_trans (hup s hs) (le_of_lt c1)
      · rw [List.mem_singleton.mp hs]
    · exact Or.inr ⟨v, List.mem_append_right _ (List.mem_singleton_self v), rfl⟩
  · rw [if_neg c1, if_neg (by omega)]
    apply max_weight_spec_unique
    · exact h1
    · intro s hs
      rcases List.mem_append.mp hs with hs | hs
      · exact hup s hs
      · rw [List.mem_singleton.mp hs]
        exact Nat.le_of_not_lt c1
    · rcases hat with e | ⟨s, hs, e⟩
      · exact Or.inl e
      · exact Or.inr ⟨s, List.mem_append_left _ hs, e⟩

/-- Taking an entity off the list and calling `update_max_weight` with its
weight as the old weight keeps the cached largest weight exact. -/
theorem update_max_weight_erase (heap : vcpu_heap) (r : csched2_runqueue_data) (v : Nat)
    (hinv : r.max_weight = max_weight_spec heap r.svc) :
    (update_max_weight heap { r with svc := r.svc.erase v } 0 (heap v).weight).max_weight
      = max_weight_spec heap (r.svc.erase v) := by
  have h1 : 1 ≤ r.max_weight := hinv ▸ max_weight_spec_ge_one heap r.svc
  have hup : ∀ s ∈ r.svc, (heap s).weight ≤ r.max_weight :=
    hinv ▸ max_weight_spec_upper heap r.svc
  have hat : r.max_weight = 1 ∨ ∃ s ∈ r.svc, (heap s).weight = r.max_weight := by
    rcases max_weight_spec_attained heap r.svc with e | ⟨s, hs, e⟩
    · exact Or.inl (hinv.trans e)
    · exact Or.inr ⟨s, hs, e.trans hinv.symm⟩
  unfold update_max_weight
  simp only []
  rw [if_neg (by omega)]
  by_cases c2 : (heap v).weight = r.max_weight
  · rw [if_pos c2]
    exact max_weight_search_eq_spec heap _
  · rw [if_neg c2]
    apply max_weight_spec_unique
    · exact h1
    · intro s hs
      exact hup s (List.mem_of_mem_erase hs)
    · rcases hat with e | ⟨s, hs, e⟩
      · exact Or.inl e
      · refine Or.inr ⟨s, (List.mem_erase_of_ne ?_).mpr hs, e⟩
        intro hsv
        rw [hsv] at e
        exact c2 e

/-- Giving an entity of the list the weight `W` and calling
`update_max_weight` with its earlier weight keeps the cached largest weight
exact. -/
theorem update_max_weight_reweigh (heap : vcpu_heap) (r : csched2_runqueue_data) (v W : Nat)
    (hv : v ∈ r.svc) (hinv : r.max_weight = max_weight_spec heap r.svc) :
    (update_max_weight (heap_store heap v { heap v with weight := W }) r W
        (heap v).weight).max_weight
      = max_weight_spec (heap_store heap v { heap v with weight := W }) r.svc := by
  have h1 : 1 ≤ r.max_weight := hinv ▸ max_weight_spec_ge_one heap r.svc
  have hup : ∀ s ∈ r.svc, (heap s).weight ≤ r.max_weight :=
    hinv ▸ max_weight_spec_upper heap r.svc
  have hat : r.max_weight = 1 ∨ ∃ s ∈ r.svc, (heap s).weight = r.max_weight := by
    rcases max_weight_spec_attained heap r.svc with e | ⟨s, hs, e⟩
    · exact Or.inl (hinv.trans e)
    · exact Or.inr ⟨s, hs, e.trans hinv.symm⟩
  have hvw : (heap_store heap v { heap v with weight := W } v).weight = W := by
    rw [heap_store_same]
  have hother : ∀ s, s ≠ v →
      (heap_store heap v { heap v with weight := W } s).weight = (heap s).weight := by
    intro s hs
    rw [heap_store_other _ _ _ _ hs]
  have hnew : ∀ s ∈ r.svc, ∀ m, W ≤ m → r.max_weight ≤ m →
      (heap_store heap v { heap v with weight := W } s).weight ≤ m := by
    intro s hs m hW hm
    by_cases e : s = v
    · rw [e, hvw]
      exact hW
    · rw [hother s e]
      exact le_trans (hup s hs) hm
  unfold update_max_weight
  by_cases c1 : W > r.max_weight
  · rw [if_pos c1]
    apply max_weight_spec_unique
    · exact le_trans h1 (le_of_lt c1)
    · intro s hs
      exact hnew s hs W (le_refl _) (le_of_lt c1)
    · exact Or.inr ⟨v, hv, hvw⟩
  · rw [if_neg c1]
    by_cases c2 : (heap v).weight = r.max_weight
    · rw [if_pos c2]
      exact max_weight_search_eq_spec _ _
    · rw [if_neg c2]
      apply max_weight_spec_unique
      · exact h1
      · intro s hs
        exact hnew s hs r.max_weight (Nat.le_of_not_lt c1) (le_refl _)
      · rcases hat with e | ⟨s, hs, e⟩
        · exact Or.inl e
        · refine Or.inr ⟨s, hs, ?_⟩
          rw [hother s ?_]
          · exact e
          · intro hsv
            rw [hsv] at e
            exact c2 e

/-- The loop of `csched2_dom_cntl` keeps the cached largest weight of the
runqueue `j` exact. -/
theorem dom_cntl_loop_max_weight (W old : Nat) (j : Int) (vs : List Nat) :
    ∀ st st1 : sched_state, vs.Nodup →
      (∀ v ∈ vs, (st.heap v).weight = old ∧
        (v ∈ (st.prv.rqd j).svc ↔ c2r st (st.heap v).processor = j)) →
      (st.prv.rqd j).max_weight = max_weight_spec st.heap (st.prv.rqd j).svc →
      dom_cntl_loop W old vs st = some st1 →
      (st1.prv.rqd j).max_weight = max_weight_spec st1.heap (st1.prv.rqd j).svc := by
  induction vs with
  | nil =>
    intro st st1 _ _ hinv h
    unfold dom_cntl_loop at h
    simp only [Option.some.injEq] at h
    rw [← h]
    exact hinv
  | cons v rest ih =>
    intro st st1 hnd hB hinv h
    unfold dom_cntl_loop at h
    split_ifs at h with c1
    simp only [] at h
    have hvr : v ∉ rest := (List.nodup_cons.mp hnd).1
    obtain ⟨hvw, hvj⟩ := hB v (List.mem_cons_self _ _)
    refine ih _ st1 (List.nodup_cons.mp hnd).2 ?_ ?_ h
    · intro u hu
      have huv : u ≠ v := fun e => hvr (e ▸ hu)
      obtain ⟨huw, huj⟩ := hB u (List.mem_cons_of_mem _ hu)
      have hq : c2r { st with
            heap := heap_store st.heap v { st.heap v with weight := W }
            prv := rqd_store st.prv (c2r st (st.heap v).processor)
              (update_max_weight (heap_store st.heap v { st.heap v with weight := W })
                (st.prv.rqd (c2r st (st.heap v).processor)) W old) }
            ((heap_store st.heap v { st.heap v with weight := W }) u).processor
          = c2r st (st.heap u).processor := by
        unfold c2r
        simp only [rqd_store_runq_map, heap_store_other _ _ _ _ huv]
      simp only [] at hq ⊢
      rw [hq, heap_store_other _ _ _ _ huv]
      refine ⟨huw, ?_⟩
      rw [← huj]
      by_cases e : j = c2r st (st.heap v).processor
      · rw [e, rqd_store_same, update_max_weight_frame]
      · rw [rqd_store_other _ _ _ _ e]
    · simp only []
      by_cases e : j = c2r st (st.heap v).processor
      · rw [e, rqd_store_same]
        rw [update_max_weight_frame]
        simp only []
        rw [← hvw]
        apply update_max_weight_reweigh
        · rw [← e]
          exact hvj.mpr e.symm
        · rw [← e]
          exact hinv
      · rw [rqd_store_other _ _ _ _ e, hinv]
        apply max_weight_spec_congr
        intro s hs
        have hsv : s ≠ v := by
          intro e1
          rw [e1] at hs
          exact e (hvj.mp hs).symm
        rw [heap_store_other _ _ _ _ hsv]

/-- C33: the cached `max_weight` of a runqueue is the largest weight among the
entities on its assignment list, and at least 1 (`max_weight_spec`).  This
holds for the runqueue `activate_runqueue` has set up, and from a state in
which it holds for the runqueue `j` it still holds for `j` after
`__runq_assign`, after `__runq_deassign`, and after `csched2_dom_cntl` for a
domain whose entities carry the weight of the domain and are on the assignment
list of `j` exactly when `j` is the runqueue of their processor.  Where it
holds, `max_weight` is at least 1, no entity on the list has a weight above
it, and `c2t` does not divide by zero. -/
theorem max_weight_invariant (st : sched_state) (j : Int) :
    (∀ (rqi : Nat) prv1, activate_runqueue st.nr_cpu_ids st.prv rqi = some prv1 →
      (prv1.rqd rqi).max_weight = max_weight_spec st.heap (prv1.rqd rqi).svc) ∧
    ((st.prv.rqd j).max_weight = max_weight_spec st.heap (st.prv.rqd j).svc →
      (∀ svc q, ((__runq_assign st svc q).prv.rqd j).max_weight
          = max_weight_spec (__runq_assign st svc q).heap
              ((__runq_assign st svc q).prv.rqd j).svc) ∧
      (∀ svc st1, __runq_deassign st svc = some st1 →
        (st1.prv.rqd j).max_weight = max_weight_spec st1.heap (st1.prv.rqd j).svc) ∧
      (∀ d op r, csched2_dom_cntl st d op = some r →
        (st.dom d).vcpus.Nodup →
        (∀ v ∈ (st.dom d).vcpus, (st.heap v).weight = (st.dom d).weight ∧
          (v ∈ (st.prv.rqd j).svc ↔ c2r st (st.heap v).processor = j)) →
        (r.2.2.prv.rqd j).max_weight = max_weight_spec r.2.2.heap (r.2.2.prv.rqd j).svc) ∧
      1 ≤ (st.prv.rqd j).max_weight ∧
      (∀ s ∈ (st.prv.rqd j).svc, (st.heap s).weight ≤ (st.prv.rqd j).max_weight) ∧
      (∀ credit svc, ∃ t, c2t (st.prv.rqd j) credit svc = some t)) := by
  constructor
  · intro rqi prv1 h
    unfold activate_runqueue at h
    split_ifs at h
    simp only [Option.some.injEq] at h
    rw [← h]
    simp only [rqd_store_same]
    rfl
  intro hinv
  have h1 : 1 ≤ (st.prv.rqd j).max_weight := hinv ▸ max_weight_spec_ge_one _ _
  refine ⟨?_, ?_, ?_, h1, hinv ▸ max_weight_spec_upper _ _, ?_⟩
  · intro svc q
    unfold __runq_assign
    simp only []
    by_cases e : j = q
    · rw [e, rqd_store_same]
      rw [e] at hinv
      have hc : max_weight_spec (heap_store st.heap svc { st.heap svc with rqd := some q })
          (st.prv.rqd q).svc = max_weight_spec st.heap (st.prv.rqd q).svc := by
        apply max_weight_spec_congr
        intro s _
        by_cases es : s = svc
        · rw [es, heap_store_same]
        · rw [heap_store_other _ _ _ _ es]
      have := update_max_weight_append
        (heap_store st.heap svc { st.heap svc with rqd := some q }) (st.prv.rqd q) svc
        (hinv.trans hc.symm)
      rw [update_max_weight_frame]
      simp only []
      rw [update_max_weight_frame] at this
      exact this
    · rw [rqd_store_other _ _ _ _ e, hinv]
      apply max_weight_spec_congr
      intro s _
      by_cases es : s = svc
      · rw [es, heap_store_same]
      · rw [heap_store_other _ _ _ _ es]
  · intro svc st1 h
    unfold __runq_deassign at h
    split_ifs at h with c1 c2
    cases hq : (st.heap svc).rqd with
    | none => rw [hq] at h; cases h
    | some q =>
      rw [hq] at h
      simp only [Option.some.injEq] at h
      rw [← h]
      simp only []
      have hc : ∀ l, max_weight_spec (heap_store st.heap svc { st.heap svc with rqd := none }) l
          = max_weight_spec st.heap l := by
        intro l
        apply max_weight_spec_congr
        intro s _
        by_cases es : s = svc
        · rw [es, heap_store_same]
        · rw [heap_store_other _ _ _ _ es]
      rw [hc]
      by_cases e : j = q
      · rw [e, rqd_store_same]
        rw [e] at hinv
        have := update_max_weight_erase st.heap (st.prv.rqd q) svc hinv
        rw [update_max_weight_frame]
        simp only []
        rw [update_max_weight_frame] at this
        exact this
      · rw [rqd_store_other _ _ _ _ e]
        exact hinv
  · intro d op r h hnd hB
    unfold csched2_dom_cntl at h
    cases hc : op.cmd with
    | getinfo =>
      rw [hc] at h
      simp only [Option.some.injEq] at h
      rw [← h]
      exact hinv
    | other =>
      rw [hc] at h
      simp only [Option.some.injEq] at h
      rw [← h]
      exact hinv
    | putinfo =>
      rw [hc] at h
      simp only [] at h
      split_ifs at h with cw
      · have hdw : (dom_store st.dom d { st.dom d with weight := op.weight } d).weight
            = op.weight := by simp [dom_store]
        have hdv : (dom_store st.dom d { st.dom d with weight := op.weight } d).vcpus
            = (st.dom d).vcpus := by simp [dom_store]
        rw [hdw, hdv] at h
        cases hl : dom_cntl_loop op.weight (st.dom d).weight (st.dom d).vcpus
            { st with dom := dom_store st.dom d { st.dom d with weight := op.weight } } with
        | none => rw [hl] at h; cases h
        | some st2 =>
          rw [hl] at h
          simp only [Option.some.injEq] at h
          rw [← h]
          exact dom_cntl_loop_max_weight op.weight (st.dom d).weight j (st.dom d).vcpus
            { st with dom := dom_store st.dom d { st.dom d with weight := op.weight } } st2
            hnd hB hinv hl
      · simp only [Option.some.injEq] at h
        rw [← h]
        exact hinv
  · intro credit svc
    unfold c2t
    rw [if_neg (by omega)]
    exact ⟨_, rfl⟩
theorem max_weight_invariant_witness :
    ((dc_state [] 0).prv.rqd 0).max_weight
        = max_weight_spec (dc_state [] 0).heap ((dc_state [] 0).prv.rqd 0).svc ∧
    (∃ st1, __runq_deassign (dc_state [] 0) 1 = some st1 ∧
      (st1.prv.rqd 0).max_weight = max_weight_spec st1.heap (st1.prv.rqd 0).svc) ∧
    (∃ r, csched2_dom_cntl (dc_state [] 0) 1 { cmd := schedop_cmd.putinfo, weight := 50 }
        = some r ∧
      (r.2.2.prv.rqd 0).max_weight = max_weight_spec r.2.2.heap (r.2.2.prv.rqd 0).svc) ∧
    1 ≤ ((dc_state [] 0).prv.rqd 0).max_weight :=
  ⟨by decide,
    ⟨_, rfl, ((max_weight_invariant (dc_state [] 0) 0).2 (by decide)).2.1 1 _ (by rfl)⟩,
    ⟨_, rfl, ((max_weight_invariant (dc_state [] 0) 0).2 (by decide)).2.2.1 1
      { cmd := schedop_cmd.putinfo, weight := 50 } _ (by rfl) (by decide) (by decide)⟩,
    ((max_weight_invariant (dc_state [] 0) 0).2 (by decide)).2.2.2.1⟩

/-! ### The decayed average stays between the old average and the sample -/

/-- C38 (divergence): `balance_load` on processor 2, whose runqueue is in slot
1, with the runqueue in slot 0 the only other one.  The first loop finds slot 0
as the runqueue with the largest distance, 131072, and leaves `st.orqd` at the
slot it looked at last, which is the local slot 1.  The capacity test then
reads the load and the processors of the local runqueue alone: 458752 is below
the capacity 524288 of two processors, the under-load tolerance 262144 applies
and the pass stops with nothing moved.  With the runqueue in slot 0 the larger
load is 589824, above the capacity, the over-load tolerance 32768 applies, and
the search that follows pulls entity 1 to the local runqueue. -/
theorem balance_load_capacity_last_scanned :
    c2r bl_state_cap 2 = 1 ∧
    cpumask_cpus bl_state_cap.nr_cpu_ids bl_state_cap.prv.active_queues = [0, 1] ∧
    ((balance_scan 1 1024000 [0, 1] (refresh_runq_load bl_state_cap 1 1024000)
        0 (-1) none).2.1,
      (balance_scan 1 1024000 [0, 1] (refresh_runq_load bl_state_cap 1 1024000)
        0 (-1) none).2.2.1,
      (balance_scan 1 1024000 [0, 1] (refresh_runq_load bl_state_cap 1 1024000)
        0 (-1) none).2.2.2) = (131072, 0, some 1) ∧
    balance_within_tolerance
      (balance_scan 1 1024000 [0, 1] (refresh_runq_load bl_state_cap 1 1024000)
        0 (-1) none).1 1 1 131072 = true ∧
    balance_within_tolerance
      (balance_scan 1 1024000 [0, 1] (refresh_runq_load bl_state_cap 1 1024000)
        0 (-1) none).1 1 0 131072 = false ∧
    (balance_load 1 bl_state_cap 2 1024000).map
      (fun s => ((s.prv.rqd 0).svc, (s.prv.rqd 1).svc)) = some ([1], []) ∧
    (balance_migrate
      (balance_search
        (balance_scan 1 1024000 [0, 1] (refresh_runq_load bl_state_cap 1 1024000)
          0 (-1) none).1
        { load_delta := 131072, best_push_svc := none, best_pull_svc := none,
          lrqd := 1, orqd := 0 } 1024000).1
      (balance_search
        (balance_scan 1 1024000 [0, 1] (refresh_runq_load bl_state_cap 1 1024000)
          0 (-1) none).1
        { load_delta := 131072, best_push_svc := none, best_pull_svc := none,
          lrqd := 1, orqd := 0 } 1024000).2 1024000).map
      (fun s => ((s.prv.rqd 0).svc, (s.prv.rqd 1).svc)) = some ([], [1]) := by
  decide

/-! ### What the steps of the scheduler leave alone -/

theorem bookkeeping_only_refl (st : sched_state) : bookkeeping_only st st :=
  ⟨rfl, rfl, rfl, rfl, rfl, fun _ => rfl, fun _ => rfl⟩

theorem bookkeeping_only_trans (a b c : sched_state) (h1 : bookkeeping_only a b)
    (h2 : bookkeeping_only b c) : bookkeeping_only a c :=
  ⟨h2.1.trans h1.1, h2.2.1.trans h1.2.1, h2.2.2.1.trans h1.2.2.1,
    h2.2.2.2.1.trans h1.2.2.2.1, h2.2.2.2.2.1.trans h1.2.2.2.2.1,
    fun q => (h2.2.2.2.2.2.1 q).trans (h1.2.2.2.2.2.1 q),
    fun x => (h2.2.2.2.2.2.2 x).trans (h1.2.2.2.2.2.2 x)⟩

theorem placement_kept_refl (st : sched_state) : placement_kept st st :=
  ⟨rfl, rfl, rfl, rfl, rfl, fun _ => ⟨rfl, rfl, rfl, rfl⟩, fun _ => ⟨rfl, rfl, rfl⟩⟩

theorem placement_kept_trans (a b c : sched_state) (h1 : placement_kept a b)
    (h2 : placement_kept b c) : placement_kept a c :=
  ⟨h2.1.trans h1.1, h2.2.1.trans h1.2.1, h2.2.2.1.trans h1.2.2.1,
    h2.2.2.2.1.trans h1.2.2.2.1, h2.2.2.2.2.1.trans h1.2.2.2.2.1,
    fun q => ⟨(h2.2.2.2.2.2.1 q).1.trans (h1.2.2.2.2.2.1 q).1,
      (h2.2.2.2.2.2.1 q).2.1.trans (h1.2.2.2.2.2.1 q).2.1,
      (h2.2.2.2.2.2.1 q).2.2.1.trans (h1.2.2.2.2.2.1 q).2.2.1,
      (h2.2.2.2.2.2.1 q).2.2.2.trans (h1.2.2.2.2.2.1 q).2.2.2⟩,
    fun x => ⟨(h2.2.2.2.2.2.2 x).1.trans (h1.2.2.2.2.2.2 x).1,
      (h2.2.2.2.2.2.2 x).2.1.trans (h1.2.2.2.2.2.2 x).2.1,
      (h2.2.2.2.2.2.2 x).2.2.trans (h1.2.2.2.2.2.2 x).2.2⟩⟩

theorem idle_kept_refl (st : sched_state) : idle_kept st st :=
  ⟨rfl, rfl, rfl, rfl, rfl, fun _ => ⟨rfl, rfl, rfl⟩, fun _ => ⟨rfl, rfl⟩⟩

theorem idle_kept_trans (a b c : sched_state) (h1 : idle_kept a b)
    (h2 : idle_kept b c) : idle_kept a c :=
  ⟨h2.1.trans h1.1, h2.2.1.trans h1.2.1, h2.2.2.1.trans h1.2.2.1,
    h2.2.2.2.1.trans h1.2.2.2.1, h2.2.2.2.2.1.trans h1.2.2.2.2.1,
    fun q => ⟨(h2.2.2.2.2.2.1 q).1.trans (h1.2.2.2.2.2.1 q).1,
      (h2.2.2.2.2.2.1 q).2.1.trans (h1.2.2.2.2.2.1 q).2.1,
      (h2.2.2.2.2.2.1 q).2.2.trans (h1.2.2.2.2.2.1 q).2.2⟩,
    fun x => ⟨(h2.2.2.2.2.2.2 x).1.trans (h1.2.2.2.2.2.2 x).1,
      (h2.2.2.2.2.2.2 x).2.trans (h1.2.2.2.2.2.2 x).2⟩⟩

theorem vcpu_fixed_fields (a b : csched2_vcpu) (h : vcpu_fixed a = vcpu_fixed b) :
    a.is_idle = b.is_idle ∧ a.cpu_hard_affinity = b.cpu_hard_affinity ∧ a.rqd = b.rqd ∧
    a.flags = b.flags ∧ a.processor = b.processor ∧ a.is_running = b.is_running ∧
    a.weight = b.weight ∧ a.runnable = b.runnable := by
  have h1 := congrArg csched2_vcpu.is_idle h
  have h2 := congrArg csched2_vcpu.cpu_hard_affinity h
  have h3 := congrArg csched2_vcpu.rqd h
  have h4 := congrArg csched2_vcpu.flags h
  have h5 := congrArg csched2_vcpu.processor h
  have h6 := congrArg csched2_vcpu.is_running h
  have h7 := congrArg csched2_vcpu.weight h
  have h8 := congrArg csched2_vcpu.runnable h
  exact ⟨h1, h2, h3, h4, h5, h6, h7, h8⟩

theorem rqd_fixed_fields (a b : csched2_runqueue_data) (h : rqd_fixed a = rqd_fixed b) :
    a.id = b.id ∧ a.active = b.active ∧ a.idle = b.idle ∧ a.svc = b.svc ∧ a.runq = b.runq ∧
    a.max_weight = b.max_weight := by
  have h1 := congrArg csched2_runqueue_data.id h
  have h2 := congrArg csched2_runqueue_data.active h
  have h3 := congrArg csched2_runqueue_data.idle h
  have h4 := congrArg csched2_runqueue_data.svc h
  have h5 := congrArg csched2_runqueue_data.runq h
  have h6 := congrArg csched2_runqueue_data.max_weight h
  exact ⟨h1, h2, h3, h4, h5, h6⟩

theorem placement_of_bookkeeping (a b : sched_state) (h : bookkeeping_only a b) :
    placement_kept a b :=
  ⟨h.1, h.2.1, h.2.2.1, h.2.2.2.1, h.2.2.2.2.1,
    fun q => ⟨(rqd_fixed_fields _ _ (h.2.2.2.2.2.1 q)).1,
      (rqd_fixed_fields _ _ (h.2.2.2.2.2.1 q)).2.1,
      (rqd_fixed_fields _ _ (h.2.2.2.2.2.1 q)).2.2.1,
      (rqd_fixed_fields _ _ (h.2.2.2.2.2.1 q)).2.2.2.1⟩,
    fun x => ⟨(vcpu_fixed_fields _ _ (h.2.2.2.2.2.2 x)).1,
      (vcpu_fixed_fields _ _ (h.2.2.2.2.2.2 x)).2.1,
      (vcpu_fixed_fields _ _ (h.2.2.2.2.2.2 x)).2.2.1⟩⟩

theorem idle_of_placement (a b : sched_state) (h : placement_kept a b) : idle_kept a b :=
  ⟨h.1, h.2.1, h.2.2.1, h.2.2.2.1, h.2.2.2.2.1,
    fun q => ⟨(h.2.2.2.2.2.1 q).1, (h.2.2.2.2.2.1 q).2.1, (h.2.2.2.2.2.1 q).2.2.1⟩,
    fun x => ⟨(h.2.2.2.2.2.2 x).1, (h.2.2.2.2.2.2 x).2.1⟩⟩

theorem idle_of_bookkeeping (a b : sched_state) (h : bookkeeping_only a b) : idle_kept a b :=
  idle_of_placement a b (placement_of_bookkeeping a b h)

theorem bookkeeping_flags (a b : sched_state) (h : bookkeeping_only a b) (x : Nat) :
    (b.heap x).flags = (a.heap x).flags :=
  (vcpu_fixed_fields _ _ (h.2.2.2.2.2.2 x)).2.2.2.1

theorem bookkeeping_runq (a b : sched_state) (h : bookkeeping_only a b) (q : Int) :
    (b.prv.rqd q).runq = (a.prv.rqd q).runq :=
  (rqd_fixed_fields _ _ (h.2.2.2.2.2.1 q)).2.2.2.2.1

/-- Rewriting the records of entities in their bookkeeping fields. -/
theorem bookkeeping_heap (st : sched_state) (heap1 : vcpu_heap)
    (h : ∀ x, vcpu_fixed (heap1 x) = vcpu_fixed (st.heap x)) :
    bookkeeping_only st { st with heap := heap1 } :=
  ⟨rfl, rfl, rfl, rfl, rfl, fun _ => rfl, h⟩

theorem bookkeeping_store (st : sched_state) (s : Nat) (v : csched2_vcpu)
    (h : vcpu_fixed v = vcpu_fixed (st.heap s)) :
    bookkeeping_only st { st with heap := heap_store st.heap s v } := by
  apply bookkeeping_heap
  intro x
  by_cases e : x = s
  · rw [e, heap_store_same, h]
  · rw [heap_store_other _ _ _ _ e]

/-- Rewriting the record of a runqueue in its bookkeeping fields. -/
theorem bookkeeping_rqd (st : sched_state) (q : Int) (r : csched2_runqueue_data)
    (h : rqd_fixed r = rqd_fixed (st.prv.rqd q)) :
    bookkeeping_only st { st with prv := rqd_store st.prv q r } := by
  refine ⟨rfl, rfl, rfl, rfl, rfl, fun j => ?_, fun _ => rfl⟩
  by_cases e : j = q
  · simp only [e, rqd_store_same, h]
  · simp only [rqd_store_other _ _ _ _ e]

theorem update_svc_load_fixed (prv : csched2_private) (s : csched2_vcpu) (change now : Int) :
    vcpu_fixed (__update_svc_load prv s change now) = vcpu_fixed s := by
  rw [update_svc_load_frame]
  rfl

theorem update_runq_load_fixed (prv : csched2_private) (r : csched2_runqueue_data)
    (change now : Int) : rqd_fixed (__update_runq_load prv r change now) = rqd_fixed r := by
  rw [update_runq_load_frame]
  rfl

theorem refresh_runq_load_bookkeeping (st : sched_state) (q now : Int) :
    bookkeeping_only st (refresh_runq_load st q now) :=
  bookkeeping_rqd st q _ (update_runq_load_fixed _ _ _ _)

theorem refresh_svc_load_bookkeeping (st : sched_state) (s : Nat) (now : Int) :
    bookkeeping_only st (refresh_svc_load st s now) :=
  bookkeeping_store st s _ (update_svc_load_fixed _ _ _ _)

theorem update_load_bookkeeping (st : sched_state) (q : Int) (svc : Option Nat)
    (change now : Int) : bookkeeping_only st (update_load st q svc change now) := by
  have h1 : bookkeeping_only st
      { st with prv := rqd_store st.prv q (__update_runq_load st.prv (st.prv.rqd q) change now) } :=
    bookkeeping_rqd st q _ (update_runq_load_fixed _ _ _ _)
  unfold update_load
  cases svc with
  | none => exact h1
  | some s =>
    exact bookkeeping_only_trans _ _ _ h1 (bookkeeping_store _ s _ (update_svc_load_fixed _ _ _ _))

theorem burn_credits_fixed (rqd : csched2_runqueue_data) (now : Int) (s c : csched2_vcpu)
    (h : burn_credits rqd s now = some c) : vcpu_fixed c = vcpu_fixed s := by
  rw [(burn_credits_frame rqd now s c h).1]
  rfl

theorem runq_tickle_scan_fixed (rqd : csched2_runqueue_data) (curr : Nat → Nat) (cpu : Nat)
    (now : Int) :
    ∀ (l : List Nat) (h h2 : vcpu_heap) (ipid ipid2 : Option Nat) (lowest lowest2 : Int),
      runq_tickle_scan rqd curr cpu now l h ipid lowest = some (h2, ipid2, lowest2) →
      ∀ x, vcpu_fixed (h2 x) = vcpu_fixed (h x) := by
  intro l
  induction l with
  | nil =>
    intro h h2 ipid ipid2 lowest lowest2 e x
    unfold runq_tickle_scan at e
    simp only [Option.some.injEq, Prod.mk.injEq] at e
    rw [e.1]
  | cons i rest ih =>
    intro h h2 ipid ipid2 lowest lowest2 e x
    unfold runq_tickle_scan at e
    by_cases hi : i = cpu
    · rw [if_pos hi] at e
      exact ih _ _ _ _ _ _ e x
    · rw [if_neg hi] at e
      split_ifs at e
      cases hb : burn_credits rqd (h (curr i)) now with
      | none => rw [hb] at e; cases e
      | some cur =>
        rw [hb] at e
        simp only [] at e
        have hst : ∀ y, vcpu_fixed (heap_store h (curr i) cur y) = vcpu_fixed (h y) := by
          intro y
          by_cases ey : y = curr i
          · rw [ey, heap_store_same, burn_credits_fixed _ _ _ _ hb]
          · rw [heap_store_other _ _ _ _ ey]
        split_ifs at e
        · rw [ih _ _ _ _ _ _ e x, hst]
        · rw [ih _ _ _ _ _ _ e x, hst]

theorem tickle_cpu_bookkeeping (st : sched_state) (q : Int) (ipid : Nat) :
    bookkeeping_only st (tickle_cpu st q ipid) := by
  unfold tickle_cpu
  refine ⟨rfl, rfl, rfl, rfl, rfl, fun j => ?_, fun _ => rfl⟩
  by_cases e : j = q
  · simp only [e, rqd_store_same]
    rfl
  · simp only [rqd_store_other _ _ _ _ e]

theorem runq_tickle_bookkeeping (st st1 : sched_state) (cpu new : Nat) (now : Int)
    (h : runq_tickle st cpu new now = some st1) : bookkeeping_only st st1 := by
  unfold runq_tickle at h
  simp only [] at h
  split_ifs at h
  cases hb : burn_credits (st.prv.rqd (c2r st cpu)) (st.heap (st.curr_on_cpu cpu)) now with
  | none => rw [hb] at h; cases h
  | some cur =>
    rw [hb] at h
    simp only [] at h
    have hst : ∀ y, vcpu_fixed (heap_store st.heap (st.curr_on_cpu cpu) cur y)
        = vcpu_fixed (st.heap y) := by
      intro y
      by_cases ey : y = st.curr_on_cpu cpu
      · rw [ey, heap_store_same, burn_credits_fixed _ _ _ _ hb]
      · rw [heap_store_other _ _ _ _ ey]
    have h1 := bookkeeping_heap st _ hst
    split_ifs at h
    · simp only [Option.some.injEq] at h
      rw [← h]
      exact bookkeeping_only_trans _ _ _ h1 (tickle_cpu_bookkeeping _ _ _)
    · simp only [Option.some.injEq] at h
      rw [← h]
      exact bookkeeping_only_trans _ _ _ h1 (tickle_cpu_bookkeeping _ _ _)
    · revert h
      generalize hs : runq_tickle_scan _ _ _ _ _ _ _ _ = r
      intro h
      cases r with
      | none => cases h
      | some r =>
        obtain ⟨heap2, ipid, lowest⟩ := r
        have hfl := runq_tickle_scan_fixed _ _ _ _ _ _ _ _ _ _ _ hs
        have h2 : bookkeeping_only st { st with heap := heap2 } :=
          bookkeeping_heap st _ (fun x => (hfl x).trans (hst x))
        cases ipid with
        | none =>
          simp only [Option.some.injEq] at h
          rw [← h]
          exact h2
        | some ip =>
          simp only [] at h
          split_ifs at h
          · simp only [Option.some.injEq] at h
            rw [← h]
            exact h2
          · simp only [Option.some.injEq] at h
            rw [← h]
            exact bookkeeping_only_trans _ _ _ h2 (tickle_cpu_bookkeeping _ _ _)

theorem reset_credit_loop_fixed (rqd_id m now : Int) :
    ∀ (l : List Nat) (heap heap1 : vcpu_heap),
      reset_credit_loop rqd_id m now l heap = some heap1 →
      ∀ x, vcpu_fixed (heap1 x) = vcpu_fixed (heap x) := by
  intro l
  induction l with
  | nil =>
    intro heap heap1 h x
    unfold reset_credit_loop at h
    simp only [Option.some.injEq] at h
    rw [h]
  | cons a rest ih =>
    intro heap heap1 h x
    unfold reset_credit_loop at h
    split_ifs at h
    rw [ih _ _ h x]
    by_cases e : x = a
    · rw [e, heap_store_same]
      rfl
    · rw [heap_store_other _ _ _ _ e]

theorem balance_scan_bookkeeping (lrqd now : Int) :
    ∀ (l : List Nat) (st : sched_state) (d m : Int) (o : Option Int),
      bookkeeping_only st (balance_scan lrqd now l st d m o).1 := by
  intro l
  induction l with
  | nil =>
    intro st d m o
    unfold balance_scan
    exact bookkeeping_only_refl st
  | cons i rest ih =>
    intro st d m o
    unfold balance_scan
    simp only []
    split_ifs
    · exact ih _ _ _ _
    · exact bookkeeping_only_trans _ _ _ (refresh_runq_load_bookkeeping st _ now) (ih _ _ _ _)
    · exact bookkeeping_only_trans _ _ _ (refresh_runq_load_bookkeeping st _ now) (ih _ _ _ _)

theorem balance_pull_loop_bookkeeping (push_svc : Nat) (now : Int) :
    ∀ (l : List Nat) (st : sched_state) (bs : balance_state_t),
      bookkeeping_only st (balance_pull_loop push_svc now l st bs).1 := by
  intro l
  induction l with
  | nil =>
    intro st bs
    unfold balance_pull_loop
    exact bookkeeping_only_refl st
  | cons a rest ih =>
    intro st bs
    unfold balance_pull_loop
    simp only []
    split_ifs
    · exact bookkeeping_only_trans _ _ _ (refresh_svc_load_bookkeeping st a now) (ih _ _)
    · exact bookkeeping_only_trans _ _ _ (refresh_svc_load_bookkeeping st a now) (ih _ _)

theorem balance_push_loop_bookkeeping (pull_list : List Nat) (now : Int) :
    ∀ (l : List Nat) (st : sched_state) (bs : balance_state_t),
      bookkeeping_only st (balance_push_loop pull_list now l st bs).1 := by
  intro l
  induction l with
  | nil =>
    intro st bs
    unfold balance_push_loop
    exact bookkeeping_only_refl st
  | cons a rest ih =>
    intro st bs
    unfold balance_push_loop
    simp only []
    split_ifs
    · exact bookkeeping_only_trans _ _ _ (refresh_svc_load_bookkeeping st a now)
        (bookkeeping_only_trans _ _ _ (balance_pull_loop_bookkeeping a now pull_list _ bs)
          (ih _ _))
    · exact bookkeeping_only_trans _ _ _ (refresh_svc_load_bookkeeping st a now) (ih _ _)

theorem balance_search_bookkeeping (st : sched_state) (bs : balance_state_t) (now : Int) :
    bookkeeping_only st (balance_search st bs now).1 :=
  balance_push_loop_bookkeeping _ now _ st bs

/-- Rewriting the runnable list of a runqueue. -/
theorem placement_runq (st : sched_state) (q : Int) (l : List Nat) :
    placement_kept st
      { st with prv := rqd_store st.prv q { st.prv.rqd q with runq := l } } := by
  refine ⟨rfl, rfl, rfl, rfl, rfl, fun j => ?_, fun _ => ⟨rfl, rfl, rfl⟩⟩
  by_cases e : j = q
  · simp only [e, rqd_store_same]
    exact ⟨trivial, trivial, trivial, trivial⟩
  · simp only [rqd_store_other _ _ _ _ e]
    exact ⟨trivial, trivial, trivial, trivial⟩

theorem runq_remove_placement (st st1 : sched_state) (svc : Nat)
    (h : __runq_remove st svc = some st1) : placement_kept st st1 := by
  unfold __runq_remove at h
  split_ifs at h
  cases hr : (st.heap svc).rqd with
  | none => rw [hr] at h; cases h
  | some q =>
    rw [hr] at h
    simp only [Option.some.injEq] at h
    rw [← h]
    exact placement_runq st q _

theorem runq_insert_placement (st st1 : sched_state) (cpu svc : Nat)
    (h : runq_insert st cpu svc = some st1) : placement_kept st st1 := by
  unfold runq_insert at h
  split_ifs at h
  cases hi : __runq_insert st.heap (RQD st cpu) svc with
  | none => rw [hi] at h; cases h
  | some r =>
    rw [hi] at h
    simp only [Option.some.injEq] at h
    rw [← h]
    unfold __runq_insert at hi
    split_ifs at hi
    simp only [Option.some.injEq] at hi
    rw [← hi]
    exact placement_runq st (c2r st cpu) _

/-- Rewriting the record of an entity without moving it. -/
theorem placement_store (st : sched_state) (s : Nat) (v : csched2_vcpu)
    (h1 : v.is_idle = (st.heap s).is_idle)
    (h2 : v.cpu_hard_affinity = (st.heap s).cpu_hard_affinity)
    (h3 : v.rqd = (st.heap s).rqd) :
    placement_kept st { st with heap := heap_store st.heap s v } := by
  refine ⟨rfl, rfl, rfl, rfl, rfl, fun _ => ⟨rfl, rfl, rfl, rfl⟩, fun x => ?_⟩
  by_cases e : x = s
  · simp only [e, heap_store_same]
    exact ⟨h1, h2, h3⟩
  · simp only [heap_store_other _ _ _ _ e]
    exact ⟨trivial, trivial, trivial⟩

theorem runq_deassign_idle_kept (st st1 : sched_state) (svc : Nat)
    (h : __runq_deassign st svc = some st1) : idle_kept st st1 := by
  unfold __runq_deassign at h
  split_ifs at h
  cases hr : (st.heap svc).rqd with
  | none => rw [hr] at h; cases h
  | some q =>
    rw [hr] at h
    simp only [Option.some.injEq] at h
    rw [← h]
    refine ⟨rfl, rfl, rfl, rfl, rfl, fun j => ?_, fun x => ?_⟩
    · by_cases e : j = q
      · simp only [e, rqd_store_same]
        rw [update_max_weight_frame]
        exact ⟨rfl, rfl, rfl⟩
      · simp only [rqd_store_other _ _ _ _ e]
        exact ⟨trivial, trivial, trivial⟩
    · by_cases e : x = svc
      · simp only [e, heap_store_same]
        exact ⟨trivial, trivial⟩
      · simp only [heap_store_other _ _ _ _ e]
        exact ⟨trivial, trivial⟩

theorem runq_assign_idle_kept (st : sched_state) (svc : Nat) (q : Int) :
    idle_kept st (__runq_assign st svc q) := by
  obtain ⟨rA, e, h1, h2, h3, _⟩ := runq_assign_state st svc q
  rw [e]
  refine ⟨rfl, rfl, rfl, rfl, rfl, fun j => ?_, fun x => ?_⟩
  · by_cases e : j = q
    · simp only [e, rqd_store_same]
      exact ⟨h1, h2, h3⟩
    · simp only [rqd_store_other _ _ _ _ e]
      exact ⟨trivial, trivial, trivial⟩
  · by_cases e : x = svc
    · simp only [e, heap_store_same]
      exact ⟨trivial, trivial⟩
    · simp only [heap_store_other _ _ _ _ e]
      exact ⟨trivial, trivial⟩

theorem idle_kept_store (st : sched_state) (s : Nat) (v : csched2_vcpu)
    (h1 : v.is_idle = (st.heap s).is_idle)
    (h2 : v.cpu_hard_affinity = (st.heap s).cpu_hard_affinity) :
    idle_kept st { st with heap := heap_store st.heap s v } := by
  refine ⟨rfl, rfl, rfl, rfl, rfl, fun _ => ⟨rfl, rfl, rfl⟩, fun x => ?_⟩
  by_cases e : x = s
  · simp only [e, heap_store_same]
    exact ⟨h1, h2⟩
  · simp only [heap_store_other _ _ _ _ e]
    exact ⟨trivial, trivial⟩

theorem migrate_detach_idle_kept (st st1 : sched_state) (svc : Nat) (now : Int)
    (h : migrate_detach st svc now = some st1) : idle_kept st st1 := by
  unfold migrate_detach at h
  simp only [] at h
  by_cases c : __vcpu_on_runq st svc = true
  · rw [if_pos c] at h
    cases hr : __runq_remove st svc with
    | none => rw [hr] at h; cases h
    | some s1 =>
      rw [hr] at h
      simp only [] at h
      cases hq : (s1.heap svc).rqd with
      | none => rw [hq] at h; cases h
      | some q =>
        rw [hq] at h
        simp only [] at h
        exact idle_kept_trans _ _ _
          (idle_of_placement _ _ (runq_remove_placement _ _ _ hr))
          (idle_kept_trans _ _ _ (idle_of_bookkeeping _ _ (update_load_bookkeeping s1 q none (-1) now))
            (runq_deassign_idle_kept _ _ _ h))
  · rw [if_neg c] at h
    simp only [] at h
    exact runq_deassign_idle_kept _ _ _ h

theorem migrate_attach_idle_kept (st st1 : sched_state) (svc : Nat) (t now : Int)
    (on_runq : Bool) (h : migrate_attach st svc t now on_runq = some st1) :
    idle_kept st st1 := by
  unfold migrate_attach at h
  simp only [] at h
  split_ifs at h with c1 c2
  · revert h
    generalize hs5 : __runq_assign _ svc t = s5
    intro h
    have hA : idle_kept st s5 := by
      rw [← hs5]
      exact idle_kept_trans _ _ _ (idle_kept_store st svc _ (by rfl) (by rfl))
        (runq_assign_idle_kept _ svc t)
    cases hi : runq_insert (update_load s5 t none 1 now)
        (cpumask_any st.nr_cpu_ids
          (cpumask_and (st.heap svc).cpu_hard_affinity (st.prv.rqd t).active)) svc with
    | none => rw [hi] at h; cases h
    | some s7 =>
      rw [hi] at h
      simp only [] at h
      exact idle_kept_trans _ _ _ hA
        (idle_kept_trans _ _ _ (idle_of_bookkeeping _ _ (update_load_bookkeeping s5 t none 1 now))
          (idle_kept_trans _ _ _ (idle_of_placement _ _ (runq_insert_placement _ _ _ _ hi))
            (idle_of_bookkeeping _ _ (runq_tickle_bookkeeping _ _ _ _ _ h))))
  · simp only [Option.some.injEq] at h
    rw [← h]
    exact idle_kept_trans _ _ _ (idle_kept_store st svc _ (by rfl) (by rfl))
      (runq_assign_idle_kept _ svc t)

theorem migrate_idle_kept (st st1 : sched_state) (svc : Nat) (t now : Int)
    (h : migrate st svc t now = some st1) : idle_kept st st1 := by
  unfold migrate at h
  split_ifs at h
  · simp only [Option.some.injEq] at h
    rw [← h]
    exact idle_kept_store st svc _ (by rfl) (by rfl)
  · cases hd : migrate_detach st svc now with
    | none => rw [hd] at h; cases h
    | some s3 =>
      rw [hd] at h
      simp only [] at h
      exact idle_kept_trans _ _ _ (migrate_detach_idle_kept _ _ _ _ hd)
        (migrate_attach_idle_kept _ _ _ _ _ _ h)

theorem balance_migrate_idle_kept (st st1 : sched_state) (bs : balance_state_t) (now : Int)
    (h : balance_migrate st bs now = some st1) : idle_kept st st1 := by
  unfold balance_migrate at h
  simp only [] at h
  have hpull : ∀ s1, idle_kept st s1 →
      (match bs.best_pull_svc with
        | some p => migrate s1 p bs.lrqd now
        | none => some s1) = some st1 → idle_kept st st1 := by
    intro s1 hk e
    cases hb : bs.best_pull_svc with
    | none =>
      rw [hb] at e
      simp only [Option.some.injEq] at e
      rw [← e]
      exact hk
    | some p =>
      rw [hb] at e
      exact idle_kept_trans _ _ _ hk (migrate_idle_kept _ _ _ _ _ e)
  cases hp : bs.best_push_svc with
  | none =>
    rw [hp] at h
    exact hpull st (idle_kept_refl st) h
  | some p =>
    rw [hp] at h
    simp only [] at h
    cases hm : migrate st p bs.orqd now with
    | none => rw [hm] at h; cases h
    | some s1 =>
      rw [hm] at h
      exact hpull s1 (migrate_idle_kept _ _ _ _ _ hm) h

/-! ### The shape of a balancing pass -/

theorem consider_picks (st : sched_state) (bs : balance_state_t) (l o : Int)
    (ps qs : List Nat) (push pull : Option Nat) (h : balance_picks l o ps qs bs)
    (hp : ∀ p, push = some p → p ∈ ps) (hq : ∀ p, pull = some p → p ∈ qs) :
    balance_picks l o ps qs (consider st bs push pull) := by
  unfold consider
  split_ifs
  · exact ⟨h.1, h.2.1, hp, hq⟩
  · exact h

theorem balance_pull_loop_picks (push_svc : Nat) (now : Int) (l o : Int) (ps qs : List Nat)
    (hp : push_svc ∈ ps) :
    ∀ (lst : List Nat) (st : sched_state) (bs : balance_state_t),
      (∀ x ∈ lst, x ∈ qs) → balance_picks l o ps qs bs →
      balance_picks l o ps qs (balance_pull_loop push_svc now lst st bs).2 := by
  intro lst
  induction lst with
  | nil =>
    intro st bs _ h
    unfold balance_pull_loop
    exact h
  | cons a rest ih =>
    intro st bs hl h
    unfold balance_pull_loop
    simp only []
    split_ifs
    · refine ih _ _ (fun x hx => hl x (List.mem_cons_of_mem _ hx)) ?_
      apply consider_picks _ _ _ _ _ _ _ _ h
      · intro p e
        simp only [Option.some.injEq] at e
        rw [← e]
        exact hp
      · intro p e
        simp only [Option.some.injEq] at e
        rw [← e]
        exact hl a (List.mem_cons_self _ _)
    · exact ih _ _ (fun x hx => hl x (List.mem_cons_of_mem _ hx)) h

theorem balance_push_loop_picks (pull_list : List Nat) (now : Int) (l o : Int)
    (ps qs : List Nat) (hq : ∀ x ∈ pull_list, x ∈ qs) :
    ∀ (lst : List Nat) (st : sched_state) (bs : balance_state_t),
      (∀ x ∈ lst, x ∈ ps) → balance_picks l o ps qs bs →
      balance_picks l o ps qs (balance_push_loop pull_list now lst st bs).2 := by
  intro lst
  induction lst with
  | nil =>
    intro st bs _ h
    unfold balance_push_loop
    exact h
  | cons a rest ih =>
    intro st bs hl h
    unfold balance_push_loop
    simp only []
    split_ifs
    · refine ih _ _ (fun x hx => hl x (List.mem_cons_of_mem _ hx)) ?_
      apply consider_picks
      · exact balance_pull_loop_picks a now l o ps qs (hl a (List.mem_cons_self _ _))
          pull_list _ bs hq h
      · intro p e
        simp only [Option.some.injEq] at e
        rw [← e]
        exact hl a (List.mem_cons_self _ _)
      · intro p e
        cases e
    · exact ih _ _ (fun x hx => hl x (List.mem_cons_of_mem _ hx)) h

theorem balance_pull_only_loop_picks (st : sched_state) (l o : Int) (ps qs : List Nat) :
    ∀ (lst : List Nat) (bs : balance_state_t),
      (∀ x ∈ lst, x ∈ qs) → balance_picks l o ps qs bs →
      balance_picks l o ps qs (balance_pull_only_loop st lst bs) := by
  intro lst
  induction lst with
  | nil =>
    intro bs _ h
    unfold balance_pull_only_loop
    exact h
  | cons a rest ih =>
    intro bs hl h
    unfold balance_pull_only_loop
    split_ifs
    · refine ih _ (fun x hx => hl x (List.mem_cons_of_mem _ hx)) ?_
      apply consider_picks _ _ _ _ _ _ _ _ h
      · intro p e
        cases e
      · intro p e
        simp only [Option.some.injEq] at e
        rw [← e]
        exact hl a (List.mem_cons_self _ _)
    · exact ih _ (fun x hx => hl x (List.mem_cons_of_mem _ hx)) h

/-- The candidate search holds entities of the assignment lists of its two
runqueues only, and keeps the two runqueues. -/
theorem balance_search_picks (st : sched_state) (bs : balance_state_t) (now : Int)
    (hn : bs.best_push_svc = none ∧ bs.best_pull_svc = none) :
    balance_picks bs.lrqd bs.orqd (st.prv.rqd bs.lrqd).svc (st.prv.rqd bs.orqd).svc
      (balance_search st bs now).2 := by
  unfold balance_search
  simp only []
  have h0 : balance_picks bs.lrqd bs.orqd (st.prv.rqd bs.lrqd).svc (st.prv.rqd bs.orqd).svc bs :=
    ⟨rfl, rfl, (fun p e => by rw [hn.1] at e; cases e), (fun p e => by rw [hn.2] at e; cases e)⟩
  apply balance_pull_only_loop_picks
  · intro x hx
    rw [balance_push_loop_prv] at hx
    exact hx
  · exact balance_push_loop_picks _ now _ _ _ _ (fun x hx => hx) _ st bs (fun x hx => hx) h0

/-- The first loop of `balance_load` keeps `max_delta_rqi` at -1 or at a slot
of the list `act` other than the local one. -/
theorem balance_scan_other (lrqd now : Int) (act : List Nat) :
    ∀ (l : List Nat) (st : sched_state) (d m : Int) (o : Option Int),
      (∀ x ∈ l, x ∈ act) →
      (m = -1 ∨ (m ≠ lrqd ∧ ∃ i ∈ act, (i : Int) = m)) →
      (balance_scan lrqd now l st d m o).2.2.1 = -1 ∨
        ((balance_scan lrqd now l st d m o).2.2.1 ≠ lrqd ∧
          ∃ i ∈ act, (i : Int) = (balance_scan lrqd now l st d m o).2.2.1) := by
  intro l
  induction l with
  | nil =>
    intro st d m o _ h
    unfold balance_scan
    exact h
  | cons i rest ih =>
    intro st d m o hl h
    have hrest : ∀ x ∈ rest, x ∈ act := fun x hx => hl x (List.mem_cons_of_mem _ hx)
    unfold balance_scan
    simp only []
    split_ifs with c1 c2
    · exact ih _ _ _ _ hrest h
    · refine ih _ _ _ _ hrest (Or.inr ⟨?_, i, hl i (List.mem_cons_self _ _), rfl⟩)
      intro e
      exact c1 (Or.inl e)
    · exact ih _ _ _ _ hrest h

/-- The load of a runqueue after a refresh: the old one, converted to `int`. -/
theorem refresh_runq_load_value (st : sched_state) (q now : Int) (j : Int) :
    ((refresh_runq_load st q now).prv.rqd j).load = (st.prv.rqd j).load ∨
      ((refresh_runq_load st q now).prv.rqd j).load = to_int (st.prv.rqd j).load := by
  unfold refresh_runq_load
  by_cases e : j = q
  · right
    simp only [e, rqd_store_same]
    rw [update_runq_load_frame]
    simp only [add_zero]
  · left
    simp only [rqd_store_other _ _ _ _ e]

theorem to_int_idem (x : Int) : to_int (to_int x) = to_int x :=
  to_int_of_range _ (to_int_range x)

theorem load_value_trans (a b c : Int) (h1 : b = a ∨ b = to_int a) (h2 : c = b ∨ c = to_int b) :
    c = a ∨ c = to_int a := by
  rcases h1 with rfl | rfl
  · exact h2
  · rcases h2 with rfl | rfl
    · exact Or.inr rfl
    · exact Or.inr (to_int_idem _)

theorem balance_scan_load (lrqd now : Int) :
    ∀ (l : List Nat) (st : sched_state) (d m : Int) (o : Option Int) (j : Int),
      ((balance_scan lrqd now l st d m o).1.prv.rqd j).load = (st.prv.rqd j).load ∨
        ((balance_scan lrqd now l st d m o).1.prv.rqd j).load = to_int (st.prv.rqd j).load := by
  intro l
  induction l with
  | nil =>
    intro st d m o j
    unfold balance_scan
    exact Or.inl rfl
  | cons i rest ih =>
    intro st d m o j
    unfold balance_scan
    simp only []
    split_ifs
    · exact ih _ _ _ _ j
    · exact load_value_trans _ _ _ (refresh_runq_load_value st _ now j) (ih _ _ _ _ j)
    · exact load_value_trans _ _ _ (refresh_runq_load_value st _ now j) (ih _ _ _ _ j)

/-- A pass of `balance_load` from its label `retry`: it refreshes loads, and
then either stops or migrates the entities its search picked, which are on the
assignment lists of the local runqueue and of one other runqueue, an active
one. -/
theorem balance_load_retry_shape (lrqd now : Int) :
    ∀ (fuel : Nat) (st st1 : sched_state) (m : Int) (o : Option Int),
      (m = -1 ∨ (m ≠ lrqd ∧
        ∃ i ∈ cpumask_cpus st.nr_cpu_ids st.prv.active_queues, (i : Int) = m)) →
      balance_load_retry lrqd now fuel st m o = some st1 →
      ∃ f, bookkeeping_only st f ∧
        (∀ j, (f.prv.rqd j).load = (st.prv.rqd j).load ∨
          (f.prv.rqd j).load = to_int (st.prv.rqd j).load) ∧
        (st1 = f ∨ ∃ bs, bs.orqd ≠ lrqd ∧
          (∃ i ∈ cpumask_cpus st.nr_cpu_ids st.prv.active_queues, (i : Int) = bs.orqd) ∧
          balance_picks lrqd bs.orqd (f.prv.rqd lrqd).svc (f.prv.rqd bs.orqd).svc bs ∧
          balance_migrate f bs now = some st1) := by
  intro fuel
  induction fuel with
  | zero =>
    intro st st1 m o _ h
    unfold balance_load_retry at h
    cases h
  | succ n ih =>
    intro st st1 m o hm h
    unfold balance_load_retry at h
    by_cases c0 : st.trylock_prv = false
    · rw [if_pos c0] at h
      simp only [Option.some.injEq] at h
      exact ⟨st, bookkeeping_only_refl st, fun _ => Or.inl rfl, Or.inl h.symm⟩
    rw [if_neg c0] at h
    simp only [] at h
    have hk := balance_scan_bookkeeping lrqd now
      (cpumask_cpus st.nr_cpu_ids st.prv.active_queues) st 0 m o
    have hl := balance_scan_load lrqd now
      (cpumask_cpus st.nr_cpu_ids st.prv.active_queues) st 0 m o
    have ho := balance_scan_other lrqd now (cpumask_cpus st.nr_cpu_ids st.prv.active_queues)
      (cpumask_cpus st.nr_cpu_ids st.prv.active_queues) st 0 m o (fun _ hx => hx) hm
    revert h
    generalize balance_scan lrqd now (cpumask_cpus st.nr_cpu_ids st.prv.active_queues) st 0
      m o = r at hk hl ho
    intro h
    have hstop : some r.1 = some st1 →
        ∃ f, bookkeeping_only st f ∧
          (∀ j, (f.prv.rqd j).load = (st.prv.rqd j).load ∨
            (f.prv.rqd j).load = to_int (st.prv.rqd j).load) ∧
          (st1 = f ∨ ∃ bs, bs.orqd ≠ lrqd ∧
            (∃ i ∈ cpumask_cpus st.nr_cpu_ids st.prv.active_queues, (i : Int) = bs.orqd) ∧
            balance_picks lrqd bs.orqd (f.prv.rqd lrqd).svc (f.prv.rqd bs.orqd).svc bs ∧
            balance_migrate f bs now = some st1) := by
      intro e
      simp only [Option.some.injEq] at e
      exact ⟨r.1, hk, hl, Or.inl e.symm⟩
    by_cases c1 : r.2.2.1 = -1
    · rw [if_pos c1] at h
      exact hstop h
    rw [if_neg c1] at h
    have hne : r.2.2.1 ≠ lrqd ∧
        ∃ i ∈ cpumask_cpus st.nr_cpu_ids st.prv.active_queues, (i : Int) = r.2.2.1 := by
      rcases ho with e | e
      · exact absurd e c1
      · exact e
    cases hlast : r.2.2.2 with
    | none => rw [hlast] at h; cases h
    | some last =>
      rw [hlast] at h
      simp only [] at h
      by_cases c2 : balance_within_tolerance r.1 lrqd last r.2.1 = true
      · rw [if_pos c2] at h
        exact hstop h
      rw [if_neg c2] at h
      by_cases c3 : r.1.trylock_rqd r.2.2.1 = false
      · rw [if_pos c3] at h
        rw [← hlast] at h
        obtain ⟨f, g1, g2, g3⟩ := ih r.1 st1 r.2.2.1 r.2.2.2
          (Or.inr (by rw [hk.1, hk.2.2.2.2.1]; exact hne)) h
        refine ⟨f, bookkeeping_only_trans _ _ _ hk g1,
          fun j => load_value_trans _ _ _ (hl j) (g2 j), ?_⟩
        rw [hk.1, hk.2.2.2.2.1] at g3
        exact g3
      rw [if_neg c3] at h
      by_cases c4 : (r.1.prv.rqd r.2.2.1).id < 0
      · rw [if_pos c4] at h
        exact hstop h
      rw [if_neg c4] at h
      have hs := balance_search_bookkeeping r.1
        { load_delta := r.2.1, best_push_svc := none, best_pull_svc := none,
          lrqd := lrqd, orqd := r.2.2.1 } now
      have hp := balance_search_picks r.1
        { load_delta := r.2.1, best_push_svc := none, best_pull_svc := none,
          lrqd := lrqd, orqd := r.2.2.1 } now ⟨rfl, rfl⟩
      have hprv : (balance_search r.1
        { load_delta := r.2.1, best_push_svc := none, best_pull_svc := none,
          lrqd := lrqd, orqd := r.2.2.1 } now).1.prv = r.1.prv := by
        unfold balance_search
        simp only []
        rw [balance_push_loop_prv]
      revert h
      generalize balance_search r.1
        { load_delta := r.2.1, best_push_svc := none, best_pull_svc := none,
          lrqd := lrqd, orqd := r.2.2.1 } now = s at hs hp hprv
      intro h
      simp only [] at hp
      refine ⟨s.1, bookkeeping_only_trans _ _ _ hk hs, fun j => ?_,
        Or.inr ⟨s.2, ?_, ?_, ?_, h⟩⟩
      · rw [hprv]
        exact hl j
      · rw [hp.2.1]
        exact hne.1
      · rw [hp.2.1]
        exact hne.2
      · rw [hprv, hp.2.1]
        exact hp

/-- The shape of `balance_load`. -/
theorem balance_load_shape (fuel : Nat) (st st1 : sched_state) (cpu : Nat) (now : Int)
    (h : balance_load fuel st cpu now = some st1) :
    ∃ f, bookkeeping_only st f ∧
      (∀ j, (f.prv.rqd j).load = (st.prv.rqd j).load ∨
        (f.prv.rqd j).load = to_int (st.prv.rqd j).load) ∧
      (st1 = f ∨ ∃ bs, bs.orqd ≠ c2r st cpu ∧
        (∃ i ∈ cpumask_cpus st.nr_cpu_ids st.prv.active_queues, (i : Int) = bs.orqd) ∧
        balance_picks (c2r st cpu) bs.orqd (f.prv.rqd (c2r st cpu)).svc
          (f.prv.rqd bs.orqd).svc bs ∧
        balance_migrate f bs now = some st1) := by
  unfold balance_load at h
  obtain ⟨f, g1, g2, g3⟩ := balance_load_retry_shape (c2r st cpu) now fuel _ st1 (-1) none
    (Or.inl rfl) h
  exact ⟨f, bookkeeping_only_trans _ _ _ (refresh_runq_load_bookkeeping st _ now) g1,
    fun j => load_value_trans _ _ _ (refresh_runq_load_value st _ now j) (g2 j), g3⟩

theorem balance_load_idle_kept (fuel : Nat) (st st1 : sched_state) (cpu : Nat) (now : Int)
    (h : balance_load fuel st cpu now = some st1) : idle_kept st st1 := by
  obtain ⟨f, g1, _, g3⟩ := balance_load_shape fuel st st1 cpu now h
  rcases g3 with e | ⟨bs, _, _, _, e⟩
  · rw [e]
    exact idle_of_bookkeeping _ _ g1
  · exact idle_kept_trans _ _ _ (idle_of_bookkeeping _ _ g1)
      (balance_migrate_idle_kept _ _ _ _ e)

/-! ### The idle and tickled masks after a scheduling decision -/

/-- The steps a returning `csched2_schedule` went through: the processor is
active on its runqueue, the credit of the current entity was burned, the
entity returned is the one selected, and the state returned comes from the
accounting of an entity that is not idle or from the idle branch. -/
theorem csched2_schedule_steps (fuel : Nat) (st st1 : sched_state) (cpu : Nat) (now : Int)
    (tw : Bool) (ret : task_slice)
    (h : csched2_schedule fuel st cpu now tw = some (st1, ret)) :
    ∃ s2, schedule_burn st (c2r st cpu) (st.curr_on_cpu cpu) cpu now = some s2 ∧
      ret.task = (if tw = true then s2.idle_vcpu cpu
        else runq_candidate s2 (c2r st cpu) (st.curr_on_cpu cpu) cpu now) ∧
      ((((schedule_flag s2 (st.curr_on_cpu cpu) ret.task).heap ret.task).is_idle = false ∧
          ∃ m, schedule_account fuel (schedule_flag s2 (st.curr_on_cpu cpu) ret.task)
            (c2r st cpu) (st.curr_on_cpu cpu) ret.task cpu now = some (st1, m)) ∨
        (((schedule_flag s2 (st.curr_on_cpu cpu) ret.task).heap ret.task).is_idle = true ∧
          st1 = schedule_idle (schedule_flag s2 (st.curr_on_cpu cpu) ret.task)
            (c2r st cpu) cpu now)) := by
  unfold csched2_schedule at h
  simp only [] at h
  by_cases g1 : (!cpumask_test_cpu cpu st.prv.initialized) = true
  · rw [if_pos g1] at h
    cases h
  rw [if_neg g1] at h
  by_cases g2 : (!cpumask_test_cpu cpu (st.prv.rqd (c2r st cpu)).active) = true
  · rw [if_pos g2] at h
    cases h
  rw [if_neg g2] at h
  by_cases g3 : (!(st.heap (st.curr_on_cpu cpu)).is_idle) = true ∧
      (st.heap (st.curr_on_cpu cpu)).rqd ≠ some (c2r st cpu)
  · rw [if_pos g3] at h
    cases h
  rw [if_neg g3] at h
  generalize hsc : st.curr_on_cpu cpu = scurr at *
  cases hb : schedule_burn st (c2r st cpu) scurr cpu now with
  | none => rw [hb] at h; cases h
  | some s2 =>
    rw [hb] at h
    simp only [] at h
    refine ⟨s2, rfl, ?_⟩
    revert h
    generalize (if tw = true then s2.idle_vcpu cpu
      else runq_candidate s2 (c2r st cpu) scurr cpu now) = snext
    intro h
    by_cases ci : (!((schedule_flag s2 scurr snext).heap snext).is_idle) = true
    · rw [if_pos ci] at h
      cases ha : schedule_account fuel (schedule_flag s2 scurr snext) (c2r st cpu)
          scurr snext cpu now with
      | none => rw [ha] at h; cases h
      | some r =>
        obtain ⟨s5, m⟩ := r
        rw [ha] at h
        simp only [] at h
        cases ht : csched2_runtime s5.heap (RQD s5 cpu) snext with
        | none => rw [ht] at h; cases h
        | some time =>
          rw [ht] at h
          simp only [Option.some.injEq, Prod.mk.injEq] at h
          have htask : ret.task = snext := by rw [← h.2]
          rw [htask]
          refine ⟨rfl, Or.inl ⟨by simpa using ci, m, ?_⟩⟩
          rw [ha, h.1]
    · rw [if_neg ci] at h
      simp only [] at h
      cases ht : csched2_runtime (schedule_idle (schedule_flag s2 scurr snext)
          (c2r st cpu) cpu now).heap
          (RQD (schedule_idle (schedule_flag s2 scurr snext) (c2r st cpu) cpu now) cpu)
          snext with
      | none => rw [ht] at h; cases h
      | some time =>
        rw [ht] at h
        simp only [Option.some.injEq, Prod.mk.injEq] at h
        have htask : ret.task = snext := by rw [← h.2]
        rw [htask]
        exact ⟨rfl, Or.inr ⟨by simpa using ci, h.1.symm⟩⟩

theorem schedule_burn_bookkeeping (st s : sched_state) (q : Int) (scurr cpu : Nat) (now : Int)
    (h : schedule_burn st q scurr cpu now = some s) :
    bookkeeping_only st s ∧ cpu ∉ (s.prv.rqd q).tickled ∧
      (∀ j, (s.prv.rqd j).load = (st.prv.rqd j).load) := by
  unfold schedule_burn at h
  simp only [] at h
  by_cases c1 : cpumask_test_cpu cpu (st.prv.rqd q).tickled = true
  · simp only [if_pos c1] at h
    revert h
    generalize hb : burn_credits _ _ now = r
    intro h
    cases r with
    | none => cases h
    | some cur =>
      simp only [Option.some.injEq] at h
      rw [← h]
      refine ⟨bookkeeping_only_trans _ _ _ (bookkeeping_rqd st q _ (by rfl))
        (bookkeeping_store _ scurr cur (burn_credits_fixed _ _ _ _ hb)), ?_, ?_⟩
      · simp only [rqd_store_same]
        intro hm
        exact ((mem_cpumask_clear_cpu _ _ _).mp hm).2 rfl
      · intro j
        by_cases e : j = q
        · simp only [e, rqd_store_same]
        · simp only [rqd_store_other _ _ _ _ e]
  · simp only [if_neg c1] at h
    revert h
    generalize hb : burn_credits _ _ now = r
    intro h
    cases r with
    | none => cases h
    | some cur =>
      simp only [Option.some.injEq] at h
      rw [← h]
      refine ⟨bookkeeping_store _ scurr cur (burn_credits_fixed _ _ _ _ hb), ?_, fun _ => rfl⟩
      unfold cpumask_test_cpu at c1
      simpa using c1

/-- The statement that flags the current entity writes its flags only. -/
theorem schedule_flag_frame (st : sched_state) (scurr snext : Nat) :
    (schedule_flag st scurr snext).prv = st.prv ∧
    placement_kept st (schedule_flag st scurr snext) ∧
    ∀ x, (schedule_flag st scurr snext).heap x
      = { st.heap x with flags := ((schedule_flag st scurr snext).heap x).flags } := by
  unfold schedule_flag
  split_ifs
  · refine ⟨rfl, placement_store st scurr _ (by rfl) (by rfl) (by rfl), fun x => ?_⟩
    by_cases e : x = scurr
    · simp only [e, heap_store_same]
    · simp only [heap_store_other _ _ _ _ e]
  · exact ⟨rfl, placement_kept_refl st, fun _ => rfl⟩

/-- The switch to the selected entity writes its flags and the runnable list
it leaves. -/
theorem schedule_switch_frame (st s : sched_state) (q : Int) (scurr snext : Nat)
    (h : schedule_switch st q scurr snext = some s) :
    placement_kept st s ∧ (∀ j, (s.prv.rqd j).tickled = (st.prv.rqd j).tickled) ∧
    ∀ x, s.heap x = { st.heap x with flags := (s.heap x).flags } := by
  unfold schedule_switch at h
  by_cases c1 : snext ≠ scurr
  · rw [if_pos c1] at h
    split_ifs at h
    cases hr : __runq_remove st snext with
    | none => rw [hr] at h; cases h
    | some s1 =>
      rw [hr] at h
      simp only [] at h
      split_ifs at h
      simp only [Option.some.injEq] at h
      rw [← h]
      have hp := runq_remove_placement _ _ _ hr
      unfold __runq_remove at hr
      split_ifs at hr
      cases hq : (st.heap snext).rqd with
      | none => rw [hq] at hr; cases hr
      | some q0 =>
        rw [hq] at hr
        simp only [Option.some.injEq] at hr
        refine ⟨placement_kept_trans _ _ _ hp
          (placement_store s1 snext _ (by rfl) (by rfl) (by rfl)), fun j => ?_, fun x => ?_⟩
        · rw [← hr]
          by_cases e : j = q0
          · simp only [e, rqd_store_same]
          · simp only [rqd_store_other _ _ _ _ e]
        · rw [← hr]
          by_cases e : x = snext
          · simp only [e, heap_store_same]
          · simp only [heap_store_other _ _ _ _ e]
  · rw [if_neg c1] at h
    simp only [Option.some.injEq] at h
    rw [← h]
    exact ⟨placement_kept_refl st, fun _ => rfl, fun _ => rfl⟩

theorem schedule_reset_idle_kept (fuel : Nat) (st s : sched_state) (snext cpu : Nat)
    (now : Int) (h : schedule_reset fuel st snext cpu now = some s) :
    idle_kept st s ∧ (CSCHED2_CREDIT_RESET < (st.heap snext).credit → s = st) := by
  unfold schedule_reset at h
  by_cases c : (st.heap snext).credit ≤ CSCHED2_CREDIT_RESET
  · rw [if_pos c] at h
    cases hr : reset_credit st.heap (RQD st cpu) now snext with
    | none => rw [hr] at h; cases h
    | some heap1 =>
      rw [hr] at h
      simp only [] at h
      unfold reset_credit at hr
      refine ⟨idle_kept_trans _ _ _
        (idle_of_bookkeeping _ _
          (bookkeeping_heap st heap1 (reset_credit_loop_fixed _ _ _ _ _ _ hr)))
        (balance_load_idle_kept _ _ _ _ _ h), fun hc => ?_⟩
      omega
  · rw [if_neg c] at h
    simp only [Option.some.injEq] at h
    rw [← h]
    exact ⟨idle_kept_refl st, fun _ => rfl⟩

/-- The end of the accounting clears the idle bit of the processor and leaves
the tickled masks and the idle flags of the entities alone. -/
theorem schedule_start_masks (st : sched_state) (q : Int) (snext cpu : Nat) (now : Int) :
    cpu ∉ ((schedule_start st q snext cpu now).1.prv.rqd q).idle ∧
    (∀ j, ((schedule_start st q snext cpu now).1.prv.rqd j).tickled
      = (st.prv.rqd j).tickled) := by
  have hprv : (schedule_start st q snext cpu now).1.prv
      = if cpumask_test_cpu cpu (st.prv.rqd q).idle = true then
          rqd_store st.prv q
            { st.prv.rqd q with idle := cpumask_clear_cpu cpu (st.prv.rqd q).idle }
        else st.prv := by
    unfold schedule_start
    simp only []
    split_ifs <;> rfl
  rw [hprv]
  by_cases c1 : cpumask_test_cpu cpu (st.prv.rqd q).idle = true
  · rw [if_pos c1]
    refine ⟨?_, fun j => ?_⟩
    · simp only [rqd_store_same]
      intro hm
      exact ((mem_cpumask_clear_cpu _ _ _).mp hm).2 rfl
    · by_cases e : j = q
      · simp only [e, rqd_store_same]
      · simp only [rqd_store_other _ _ _ _ e]
  · rw [if_neg c1]
    refine ⟨?_, fun _ => rfl⟩
    unfold cpumask_test_cpu at c1
    simpa using c1

/-- The idle branch sets the idle bit of the processor and leaves the tickled
masks alone. -/
theorem schedule_idle_masks (st : sched_state) (q : Int) (cpu : Nat) (now : Int) :
    cpu ∈ ((schedule_idle st q cpu now).prv.rqd q).idle ∧
    (∀ j, ((schedule_idle st q cpu now).prv.rqd j).tickled = (st.prv.rqd j).tickled) := by
  unfold schedule_idle
  simp only []
  rw [update_load_prv]
  by_cases c1 : (!cpumask_test_cpu cpu (st.prv.rqd q).idle) = true
  · simp only [if_pos c1, rqd_store_same]
    rw [update_runq_load_frame]
    refine ⟨(mem_cpumask_set_cpu _ _ _).mpr (Or.inl rfl), fun j => ?_⟩
    by_cases e : j = q
    · simp only [e, rqd_store_same]
    · simp only [rqd_store_other _ _ _ _ e]
  · simp only [if_neg c1, rqd_store_same]
    rw [update_runq_load_frame]
    refine ⟨?_, fun j => ?_⟩
    · unfold cpumask_test_cpu at c1
      simpa using c1
    · by_cases e : j = q
      · simp only [e, rqd_store_same]
      · simp only [rqd_store_other _ _ _ _ e]

/-- C34 (amended): when `csched2_schedule` returns on a processor, the
processor is in the idle mask of its runqueue exactly when the entity returned
is an idle entity, and with tasklet work pending the entity returned is the
idle entity of the processor.  The processor is not in the tickled mask of its
runqueue when the entity returned is idle or has, at the check for the reset
condition, more credit than `CSCHED2_CREDIT_RESET`, so that no balancing pass
runs.  `s2` is the state after the credit of the current entity was burned. -/
theorem csched2_schedule_masks (fuel : Nat) (st st1 : sched_state) (cpu : Nat) (now : Int)
    (tw : Bool) (ret : task_slice)
    (h : csched2_schedule fuel st cpu now tw = some (st1, ret)) :
    (cpu ∈ (st1.prv.rqd (c2r st cpu)).idle ↔ (st.heap ret.task).is_idle = true) ∧
    (tw = true → ret.task = st.idle_vcpu cpu) ∧
    (∀ s2, schedule_burn st (c2r st cpu) (st.curr_on_cpu cpu) cpu now = some s2 →
      ((st.heap ret.task).is_idle = true ∨
        CSCHED2_CREDIT_RESET < (s2.heap ret.task).credit) →
      cpu ∉ (st1.prv.rqd (c2r st cpu)).tickled) := by
  obtain ⟨s2, hb, htask, hacc⟩ := csched2_schedule_steps fuel st st1 cpu now tw ret h
  obtain ⟨kb, htk2, _⟩ := schedule_burn_bookkeeping _ _ _ _ _ _ hb
  obtain ⟨kfp, kf, kfh⟩ := schedule_flag_frame s2 (st.curr_on_cpu cpu) ret.task
  have hidle3 : ((schedule_flag s2 (st.curr_on_cpu cpu) ret.task).heap ret.task).is_idle
      = (st.heap ret.task).is_idle := by
    rw [(kf.2.2.2.2.2.2 ret.task).1, (vcpu_fixed_fields _ _ (kb.2.2.2.2.2.2 ret.task)).1]
  have htk3 : cpu ∉ ((schedule_flag s2 (st.curr_on_cpu cpu) ret.task).prv.rqd
      (c2r st cpu)).tickled := by
    rw [kfp]
    exact htk2
  rw [hidle3] at hacc
  refine ⟨?_, ?_, ?_⟩
  · rcases hacc with ⟨hi, m, ha⟩ | ⟨hi, e⟩
    · unfold schedule_account at ha
      cases h1 : schedule_switch (schedule_flag s2 (st.curr_on_cpu cpu) ret.task) (c2r st cpu)
          (st.curr_on_cpu cpu) ret.task with
      | none => rw [h1] at ha; cases ha
      | some s4 =>
        rw [h1] at ha
        simp only [] at ha
        cases h2 : schedule_reset fuel s4 ret.task cpu now with
        | none => rw [h2] at ha; cases ha
        | some s5 =>
          rw [h2] at ha
          simp only [Option.some.injEq] at ha
          have e : st1 = (schedule_start s5 (c2r st cpu) ret.task cpu now).1 := by rw [ha]
          rw [e, hi]
          constructor
          · intro hm
            exact absurd hm (schedule_start_masks s5 (c2r st cpu) ret.task cpu now).1
          · intro hf
            cases hf
    · rw [e, hi]
      constructor
      · intro _
        rfl
      · intro _
        exact (schedule_idle_masks _ (c2r st cpu) cpu now).1
  · intro htw
    rw [htask, if_pos htw, kb.2.2.1]
  · intro s2' hb' hcond
    rw [hb] at hb'
    simp only [Option.some.injEq] at hb'
    rw [← hb'] at hcond
    rcases hacc with ⟨hi, m, ha⟩ | ⟨hi, e⟩
    · rcases hcond with hc | hc
      · rw [hi] at hc
        cases hc
      · unfold schedule_account at ha
        cases h1 : schedule_switch (schedule_flag s2 (st.curr_on_cpu cpu) ret.task)
            (c2r st cpu) (st.curr_on_cpu cpu) ret.task with
        | none => rw [h1] at ha; cases ha
        | some s4 =>
          rw [h1] at ha
          simp only [] at ha
          obtain ⟨_, ktk, kh⟩ := schedule_switch_frame _ _ _ _ _ h1
          have hcred : (s4.heap ret.task).credit = (s2.heap ret.task).credit := by
            rw [kh ret.task, kfh ret.task]
          cases h2 : schedule_reset fuel s4 ret.task cpu now with
          | none => rw [h2] at ha; cases ha
          | some s5 =>
            rw [h2] at ha
            simp only [Option.some.injEq] at ha
            have e5 : s5 = s4 :=
              (schedule_reset_idle_kept _ _ _ _ _ _ h2).2 (by rw [hcred]; exact hc)
            have e : st1 = (schedule_start s5 (c2r st cpu) ret.task cpu now).1 := by rw [ha]
            rw [e, (schedule_start_masks s5 (c2r st cpu) ret.task cpu now).2, e5, ktk]
            exact htk3
    · rw [e, (schedule_idle_masks _ (c2r st cpu) cpu now).2]
      exact htk3

theorem csched2_schedule_masks_witness :
    (∃ st1 ret, csched2_schedule 1 (sd_state [1, 2]) 0 1000 false = some (st1, ret) ∧
      (0 ∈ (st1.prv.rqd (c2r (sd_state [1, 2]) 0)).idle
        ↔ ((sd_state [1, 2]).heap ret.task).is_idle = true) ∧
      0 ∉ (st1.prv.rqd (c2r (sd_state [1, 2]) 0)).tickled) ∧
    (∃ st1 ret, csched2_schedule 1 (sd_state [1, 2]) 0 1000 true = some (st1, ret) ∧
      ret.task = (sd_state [1, 2]).idle_vcpu 0 ∧
      0 ∉ (st1.prv.rqd (c2r (sd_state [1, 2]) 0)).tickled) :=
  ⟨⟨_, _, rfl,
      (csched2_schedule_masks 1 (sd_state [1, 2]) _ 0 1000 false _ (by rfl)).1,
      (csched2_schedule_masks 1 (sd_state [1, 2]) _ 0 1000 false _ (by rfl)).2.2 _ (by rfl)
        (Or.inr (by decide))⟩,
    ⟨_, _, rfl,
      (csched2_schedule_masks 1 (sd_state [1, 2]) _ 0 1000 true _ (by rfl)).2.1 rfl,
      (csched2_schedule_masks 1 (sd_state [1, 2]) _ 0 1000 true _ (by rfl)).2.2 _ (by rfl)
        (Or.inl (by decide))⟩⟩

/-- C34 (as stated) fails: processor 0 of the sample state is idle and entity
1, which is out of credit, waits on its runqueue, while runqueue 1 carries more
load.  `csched2_schedule` selects entity 1, resets the credit and balances the
load: the pass pulls entity 2 to runqueue 0, places it on processor 0, and
`runq_tickle` finds the idle entity still current there and tickles processor
0.  When `csched2_schedule` returns entity 1, processor 0 is in the tickled
mask of its runqueue. -/
theorem csched2_schedule_tickles_itself :
    c2r bl_state_pull 0 = 0 ∧ (bl_state_pull.prv.rqd 0).tickled = [] ∧
    (bl_state_pull.heap 1).is_idle = false ∧
    (csched2_schedule 1 bl_state_pull 0 1024000 false).map
      (fun r => (r.2.task, (r.1.prv.rqd 0).tickled, (r.1.prv.rqd 0).idle, (r.1.prv.rqd 0).svc,
        (r.1.prv.rqd 1).svc, r.1.softirq))
      = some (1, [0], [1], [1, 2], [12, 13], [0]) :=
  ⟨rfl, rfl, rfl, rfl⟩

/-! ### The assignment lists after a balancing pass -/

theorem runq_deassign_lists (st st1 : sched_state) (svc : Nat)
    (h : __runq_deassign st svc = some st1) :
    ∃ q0, (st.heap svc).rqd = some q0 ∧
      (∀ j, (st1.prv.rqd j).svc
        = if j = q0 then (st.prv.rqd j).svc.erase svc else (st.prv.rqd j).svc) ∧
      (∀ x, x ≠ svc → (st1.heap x).rqd = (st.heap x).rqd) := by
  unfold __runq_deassign at h
  split_ifs at h
  cases hr : (st.heap svc).rqd with
  | none => rw [hr] at h; cases h
  | some q =>
    rw [hr] at h
    simp only [Option.some.injEq] at h
    rw [← h]
    refine ⟨q, rfl, fun j => ?_, fun x hx => ?_⟩
    · by_cases e : j = q
      · simp only [e, rqd_store_same, if_true]
        rw [update_max_weight_frame]
      · simp only [rqd_store_other _ _ _ _ e, if_neg e]
    · simp only [heap_store_other _ _ _ _ hx]

theorem runq_assign_lists (st : sched_state) (svc : Nat) (q : Int) :
    (∀ j, ((__runq_assign st svc q).prv.rqd j).svc
      = if j = q then (st.prv.rqd j).svc ++ [svc] else (st.prv.rqd j).svc) ∧
    (∀ x, x ≠ svc → ((__runq_assign st svc q).heap x).rqd = (st.heap x).rqd) ∧
    ((__runq_assign st svc q).heap svc).rqd = some q := by
  obtain ⟨rA, e, _, _, _, _, _, hsvc, _⟩ := runq_assign_state st svc q
  rw [e]
  refine ⟨fun j => ?_, fun x hx => ?_, ?_⟩
  · by_cases e : j = q
    · simp only [e, rqd_store_same, if_true, hsvc]
    · simp only [rqd_store_other _ _ _ _ e, if_neg e]
  · simp only [heap_store_other _ _ _ _ hx]
  · simp only [heap_store_same]

theorem migrate_detach_lists (st st1 : sched_state) (svc : Nat) (now : Int)
    (h : migrate_detach st svc now = some st1) :
    ∃ q0, (st.heap svc).rqd = some q0 ∧
      (∀ j, (st1.prv.rqd j).svc
        = if j = q0 then (st.prv.rqd j).svc.erase svc else (st.prv.rqd j).svc) ∧
      (∀ x, x ≠ svc → (st1.heap x).rqd = (st.heap x).rqd) := by
  unfold migrate_detach at h
  simp only [] at h
  by_cases c : __vcpu_on_runq st svc = true
  · rw [if_pos c] at h
    cases hr : __runq_remove st svc with
    | none => rw [hr] at h; cases h
    | some s1 =>
      rw [hr] at h
      simp only [] at h
      cases hq : (s1.heap svc).rqd with
      | none => rw [hq] at h; cases h
      | some q =>
        rw [hq] at h
        simp only [] at h
        have k : placement_kept st (update_load s1 q none (-1) now) :=
          placement_kept_trans _ _ _ (runq_remove_placement _ _ _ hr)
            (placement_of_bookkeeping _ _ (update_load_bookkeeping s1 q none (-1) now))
        obtain ⟨q0, g1, g2, g3⟩ := runq_deassign_lists _ _ _ h
        refine ⟨q0, ?_, fun j => ?_, fun x hx => ?_⟩
        · rw [← (k.2.2.2.2.2.2 svc).2.2]
          exact g1
        · rw [g2 j, (k.2.2.2.2.2.1 j).2.2.2]
        · rw [g3 x hx, (k.2.2.2.2.2.2 x).2.2]
  · rw [if_neg c] at h
    simp only [] at h
    exact runq_deassign_lists _ _ _ h

theorem migrate_attach_lists (st st1 : sched_state) (svc : Nat) (t now : Int)
    (on_runq : Bool) (h : migrate_attach st svc t now on_runq = some st1) :
    (∀ j, (st1.prv.rqd j).svc
      = if j = t then (st.prv.rqd j).svc ++ [svc] else (st.prv.rqd j).svc) ∧
    (∀ x, x ≠ svc → (st1.heap x).rqd = (st.heap x).rqd) := by
  unfold migrate_attach at h
  simp only [] at h
  split_ifs at h with c1 c2
  · revert h
    generalize hs5 : __runq_assign _ svc t = s5
    intro h
    have hA : (∀ j, (s5.prv.rqd j).svc
          = if j = t then (st.prv.rqd j).svc ++ [svc] else (st.prv.rqd j).svc) ∧
        (∀ x, x ≠ svc → (s5.heap x).rqd = (st.heap x).rqd) := by
      rw [← hs5]
      refine ⟨fun j => (runq_assign_lists _ svc t).1 j, fun x hx => ?_⟩
      rw [(runq_assign_lists _ svc t).2.1 x hx]
      simp only [heap_store_other _ _ _ _ hx]
    cases hi : runq_insert (update_load s5 t none 1 now)
        (cpumask_any st.nr_cpu_ids
          (cpumask_and (st.heap svc).cpu_hard_affinity (st.prv.rqd t).active)) svc with
    | none => rw [hi] at h; cases h
    | some s7 =>
      rw [hi] at h
      simp only [] at h
      have k : placement_kept s5 st1 :=
        placement_kept_trans _ _ _
          (placement_of_bookkeeping _ _ (update_load_bookkeeping s5 t none 1 now))
          (placement_kept_trans _ _ _ (runq_insert_placement _ _ _ _ hi)
            (placement_of_bookkeeping _ _ (runq_tickle_bookkeeping _ _ _ _ _ h)))
      refine ⟨fun j => ?_, fun x hx => ?_⟩
      · rw [(k.2.2.2.2.2.1 j).2.2.2, hA.1 j]
      · rw [(k.2.2.2.2.2.2 x).2.2, hA.2 x hx]
  · simp only [Option.some.injEq] at h
    rw [← h]
    refine ⟨fun j => (runq_assign_lists _ svc t).1 j, fun x hx => ?_⟩
    rw [(runq_assign_lists _ svc t).2.1 x hx]
    simp only [heap_store_other _ _ _ _ hx]

/-- The assignment lists after `migrate`: an entity that is flagged scheduled
stays where it is; any other entity leaves the list of the runqueue it points
to and joins the tail of the list of the target.  No other entity changes its
runqueue. -/
theorem migrate_lists (st st1 : sched_state) (svc : Nat) (t now : Int)
    (h : migrate st svc t now = some st1) :
    (∀ x, x ≠ svc → (st1.heap x).rqd = (st.heap x).rqd) ∧
    ((∀ j, (st1.prv.rqd j).svc = (st.prv.rqd j).svc) ∨
      ∃ q0, (st.heap svc).rqd = some q0 ∧
        ∀ j, (st1.prv.rqd j).svc
          = svc_with (svc_without (st.prv.rqd j).svc (if j = q0 then some svc else none))
              (if j = t then some svc else none)) := by
  unfold migrate at h
  split_ifs at h
  · simp only [Option.some.injEq] at h
    rw [← h]
    refine ⟨fun x hx => ?_, Or.inl (fun _ => rfl)⟩
    simp only [heap_store_other _ _ _ _ hx]
  · cases hd : migrate_detach st svc now with
    | none => rw [hd] at h; cases h
    | some s3 =>
      rw [hd] at h
      simp only [] at h
      obtain ⟨q0, d1, d2, d3⟩ := migrate_detach_lists _ _ _ _ hd
      obtain ⟨a1, a2⟩ := migrate_attach_lists _ _ _ _ _ _ h
      refine ⟨fun x hx => by rw [a2 x hx, d3 x hx], Or.inr ⟨q0, d1, fun j => ?_⟩⟩
      rw [a1 j, d2 j]
      unfold svc_with svc_without
      split_ifs <;> rfl

/-- C37: one pass of `balance_load` takes at most one entity, `push`, off the
assignment list of the local runqueue and puts at most one entity, `pull`, on
it; both moves are with the same other runqueue, in the slot `o`, whose list
gains `push` and loses `pull`.  The assignment list of every other runqueue is
as before.  The entities on the assignment lists of the local runqueue and of
the active runqueues point to the runqueue that lists them. -/
theorem balance_load_one_remote (fuel : Nat) (st st1 : sched_state) (cpu : Nat) (now : Int)
    (hloc : ∀ s ∈ (st.prv.rqd (c2r st cpu)).svc, (st.heap s).rqd = some (c2r st cpu))
    (hrem : ∀ i ∈ cpumask_cpus st.nr_cpu_ids st.prv.active_queues,
      ∀ s ∈ (st.prv.rqd (i : Int)).svc, (st.heap s).rqd = some (i : Int))
    (h : balance_load fuel st cpu now = some st1) :
    ∃ (o : Int) (push pull : Option Nat), o ≠ c2r st cpu ∧
      (∀ p, push = some p → p ∈ (st.prv.rqd (c2r st cpu)).svc) ∧
      (∀ p, pull = some p → p ∈ (st.prv.rqd o).svc) ∧
      (st1.prv.rqd (c2r st cpu)).svc
        = svc_with (svc_without (st.prv.rqd (c2r st cpu)).svc push) pull ∧
      (st1.prv.rqd o).svc = svc_without (svc_with (st.prv.rqd o).svc push) pull ∧
      ∀ j, j ≠ c2r st cpu → j ≠ o → (st1.prv.rqd j).svc = (st.prv.rqd j).svc := by
  obtain ⟨f, kf, _, hsh⟩ := balance_load_shape fuel st st1 cpu now h
  have kp := placement_of_bookkeeping _ _ kf
  have hsvc : ∀ j, (f.prv.rqd j).svc = (st.prv.rqd j).svc := fun j => (kp.2.2.2.2.2.1 j).2.2.2
  have hrqd : ∀ x, (f.heap x).rqd = (st.heap x).rqd := fun x => (kp.2.2.2.2.2.2 x).2.2
  rcases hsh with e | ⟨bs, hne, ⟨i, hi, hio⟩, hpk, hmig⟩
  · refine ⟨c2r st cpu + 1, none, none, by omega, (fun p e => by cases e),
      (fun p e => by cases e), ?_, ?_, fun j _ _ => ?_⟩
    · rw [e]
      exact hsvc _
    · rw [e]
      exact hsvc _
    · rw [e]
      exact hsvc _
  · obtain ⟨hl, _, hpush, hpull⟩ := hpk
    rw [hsvc] at hpush hpull
    have hne1 : c2r st cpu ≠ bs.orqd := fun e => hne e.symm
    unfold balance_migrate at hmig
    simp only [] at hmig
    rw [hl] at hmig
    -- the state after the push
    have hpushed : ∀ s1, (match bs.best_push_svc with
          | some p => migrate f p bs.orqd now
          | none => some f) = some s1 →
        ∃ pe : Option Nat, (∀ p, pe = some p → p ∈ (st.prv.rqd (c2r st cpu)).svc) ∧
          (∀ x, (st.heap x).rqd ≠ some (c2r st cpu) → (s1.heap x).rqd = (st.heap x).rqd) ∧
          (s1.prv.rqd (c2r st cpu)).svc = svc_without (st.prv.rqd (c2r st cpu)).svc pe ∧
          (s1.prv.rqd bs.orqd).svc = svc_with (st.prv.rqd bs.orqd).svc pe ∧
          ∀ j, j ≠ c2r st cpu → j ≠ bs.orqd → (s1.prv.rqd j).svc = (st.prv.rqd j).svc := by
      intro s1 e1
      cases hb : bs.best_push_svc with
      | none =>
        rw [hb] at e1
        simp only [Option.some.injEq] at e1
        rw [← e1]
        exact ⟨none, (fun p e => by cases e), fun x _ => hrqd x, hsvc _, hsvc _,
          fun j _ _ => hsvc j⟩
      | some p =>
        rw [hb] at e1
        simp only [] at e1
        have hp : p ∈ (st.prv.rqd (c2r st cpu)).svc := hpush p hb
        have hpr : (f.heap p).rqd = some (c2r st cpu) := by
          rw [hrqd]
          exact hloc p hp
        obtain ⟨m1, m2⟩ := migrate_lists _ _ _ _ _ e1
        have hoth : ∀ x, (st.heap x).rqd ≠ some (c2r st cpu) →
            (s1.heap x).rqd = (st.heap x).rqd := by
          intro x hx
          have hxp : x ≠ p := by
            intro e
            rw [e] at hx
            exact hx (hloc p hp)
          rw [m1 x hxp, hrqd]
        rcases m2 with m2 | ⟨q0, hq0, m2⟩
        · refine ⟨none, (fun p e => by cases e), hoth, ?_, ?_, fun j _ _ => ?_⟩
          · rw [m2, hsvc]
            rfl
          · rw [m2, hsvc]
            rfl
          · rw [m2, hsvc]
        · have hq : q0 = c2r st cpu := by
            rw [hpr] at hq0
            simp only [Option.some.injEq] at hq0
            exact hq0.symm
          rw [hq] at m2
          refine ⟨some p, fun x e => ?_, hoth, ?_, ?_, fun j hj1 hj2 => ?_⟩
          · simp only [Option.some.injEq] at e
            rw [← e]
            exact hp
          · rw [m2, hsvc]
            simp only [if_true, if_neg hne1, svc_with, svc_without]
          · rw [m2, hsvc]
            simp only [if_true, if_neg hne, svc_with, svc_without]
          · rw [m2, hsvc]
            simp only [if_neg hj1, if_neg hj2, svc_with, svc_without]
    have hpulled : ∀ s1 (pe : Option Nat),
        (∀ p, pe = some p → p ∈ (st.prv.rqd (c2r st cpu)).svc) →
        (∀ x, (st.heap x).rqd ≠ some (c2r st cpu) → (s1.heap x).rqd = (st.heap x).rqd) →
        (s1.prv.rqd (c2r st cpu)).svc = svc_without (st.prv.rqd (c2r st cpu)).svc pe →
        (s1.prv.rqd bs.orqd).svc = svc_with (st.prv.rqd bs.orqd).svc pe →
        (∀ j, j ≠ c2r st cpu → j ≠ bs.orqd → (s1.prv.rqd j).svc = (st.prv.rqd j).svc) →
        (match bs.best_pull_svc with
          | some p => migrate s1 p (c2r st cpu) now
          | none => some s1) = some st1 →
        ∃ (o : Int) (push pull : Option Nat), o ≠ c2r st cpu ∧
          (∀ p, push = some p → p ∈ (st.prv.rqd (c2r st cpu)).svc) ∧
          (∀ p, pull = some p → p ∈ (st.prv.rqd o).svc) ∧
          (st1.prv.rqd (c2r st cpu)).svc
            = svc_with (svc_without (st.prv.rqd (c2r st cpu)).svc push) pull ∧
          (st1.prv.rqd o).svc = svc_without (svc_with (st.prv.rqd o).svc push) pull ∧
          ∀ j, j ≠ c2r st cpu → j ≠ o → (st1.prv.rqd j).svc = (st.prv.rqd j).svc := by
      intro s1 pe hpe hoth hL hO hJ hmig
      cases hb : bs.best_pull_svc with
      | none =>
        rw [hb] at hmig
        simp only [Option.some.injEq] at hmig
        rw [← hmig]
        exact ⟨bs.orqd, pe, none, hne, hpe, (fun p e => by cases e), hL, hO, hJ⟩
      | some u =>
        rw [hb] at hmig
        simp only [] at hmig
        have hu : u ∈ (st.prv.rqd bs.orqd).svc := hpull u hb
        have hur : (st.heap u).rqd = some bs.orqd := by
          have := hrem i hi u (by rw [hio]; exact hu)
          rw [hio] at this
          exact this
        have hur1 : (s1.heap u).rqd = some bs.orqd := by
          rw [hoth u (by rw [hur]; intro e; simp only [Option.some.injEq] at e; exact hne e)]
          exact hur
        obtain ⟨_, m2⟩ := migrate_lists _ _ _ _ _ hmig
        rcases m2 with m2 | ⟨q0, hq0, m2⟩
        · refine ⟨bs.orqd, pe, none, hne, hpe, (fun p e => by cases e), ?_, ?_,
            fun j hj1 hj2 => ?_⟩
          · rw [m2, hL]
            rfl
          · rw [m2, hO]
            rfl
          · rw [m2, hJ j hj1 hj2]
        · have hq : q0 = bs.orqd := by
            rw [hur1] at hq0
            simp only [Option.some.injEq] at hq0
            exact hq0.symm
          rw [hq] at m2
          refine ⟨bs.orqd, pe, some u, hne, hpe, fun x e => ?_, ?_, ?_, fun j hj1 hj2 => ?_⟩
          · simp only [Option.some.injEq] at e
            rw [← e]
            exact hu
          · rw [m2, hL]
            simp only [if_true, if_neg hne1, svc_with, svc_without]
          · rw [m2, hO]
            simp only [if_true, if_neg hne, svc_with, svc_without]
          · rw [m2, hJ j hj1 hj2]
            simp only [if_neg hj1, if_neg hj2, svc_with, svc_without]
    cases hb : bs.best_push_svc with
    | none =>
      rw [hb] at hmig
      simp only [] at hmig
      obtain ⟨pe, hpe, hoth, hL, hO, hJ⟩ := hpushed f (by rw [hb])
      exact hpulled f pe hpe hoth hL hO hJ hmig
    | some p =>
      rw [hb] at hmig
      simp only [] at hmig
      cases hm : migrate f p bs.orqd now with
      | none => rw [hm] at hmig; cases hmig
      | some s1 =>
        rw [hm] at hmig
        simp only [] at hmig
        obtain ⟨pe, hpe, hoth, hL, hO, hJ⟩ := hpushed s1 (by rw [hb]; exact hm)
        exact hpulled s1 pe hpe hoth hL hO hJ hmig

theorem balance_load_one_remote_witness :
    ∃ st1, balance_load 1 bl_state_pull 0 1024000 = some st1 ∧
      ∃ (o : Int) (push pull : Option Nat), o ≠ c2r bl_state_pull 0 ∧
        (∀ p, push = some p → p ∈ (bl_state_pull.prv.rqd (c2r bl_state_pull 0)).svc) ∧
        (∀ p, pull = some p → p ∈ (bl_state_pull.prv.rqd o).svc) ∧
        (st1.prv.rqd (c2r bl_state_pull 0)).svc
          = svc_with (svc_without (bl_state_pull.prv.rqd (c2r bl_state_pull 0)).svc push) pull ∧
        (st1.prv.rqd o).svc = svc_without (svc_with (bl_state_pull.prv.rqd o).svc push) pull ∧
        ∀ j, j ≠ c2r bl_state_pull 0 → j ≠ o →
          (st1.prv.rqd j).svc = (bl_state_pull.prv.rqd j).svc :=
  ⟨_, rfl, balance_load_one_remote 1 bl_state_pull _ 0 1024000 (by decide) (by decide) (by rfl)⟩

/-- On the sample state the pass of processor 0 pulls entity 2 from runqueue 1
and pushes nothing. -/
theorem balance_load_pull_sample :
    (balance_load 1 bl_state_pull 0 1024000).map
      (fun s => ((s.prv.rqd 0).svc, (s.prv.rqd 1).svc, (s.heap 2).rqd))
      = some ([1, 2], [12, 13], some 0) := by
  rfl

/-! ### The instantaneous load -/

theorem sched_or_delayed (f : Nat) :
    (f ||| CSFLAG_delayed_runq_add) &&& CSFLAG_scheduled = f &&& CSFLAG_scheduled := by
  apply Nat.eq_of_testBit_eq
  intro i
  simp only [Nat.testBit_and, Nat.testBit_or]
  have h2 : CSFLAG_scheduled = 2 ^ 1 := by decide
  have h4 : CSFLAG_delayed_runq_add = 2 ^ 2 := by decide
  rw [h2, h4, Nat.testBit_two_pow, Nat.testBit_two_pow]
  by_cases e1 : 1 = i
  · subst e1
    simp
  · simp [e1]

theorem sched_or_migrate (f : Nat) :
    (f ||| CSFLAG_runq_migrate_request) &&& CSFLAG_scheduled = f &&& CSFLAG_scheduled := by
  apply Nat.eq_of_testBit_eq
  intro i
  simp only [Nat.testBit_and, Nat.testBit_or]
  have h2 : CSFLAG_scheduled = 2 ^ 1 := by decide
  have h8 : CSFLAG_runq_migrate_request = 2 ^ 3 := by decide
  rw [h2, h8, Nat.testBit_two_pow, Nat.testBit_two_pow]
  by_cases e1 : 1 = i
  · subst e1
    simp
  · simp [e1]

theorem sched_or_scheduled (f : Nat) : (f ||| CSFLAG_scheduled) &&& CSFLAG_scheduled ≠ 0 := by
  have h2 : CSFLAG_scheduled = 2 ^ 1 := by decide
  intro h
  have h1 := congrArg (fun n => Nat.testBit n 1) h
  simp only [Nat.testBit_and, Nat.testBit_or, h2, Nat.testBit_two_pow, Nat.zero_testBit] at h1
  simp at h1

theorem sched_clear_delayed (f : Nat) :
    clear_flag f CSFLAG_delayed_runq_add &&& CSFLAG_scheduled = f &&& CSFLAG_scheduled := by
  apply Nat.eq_of_testBit_eq
  intro i
  rw [Nat.testBit_and, Nat.testBit_and, clear_flag_testBit]
  have h2 : CSFLAG_scheduled = 2 ^ 1 := by decide
  have h4 : CSFLAG_delayed_runq_add = 2 ^ 2 := by decide
  rw [h2, h4, Nat.testBit_two_pow, Nat.testBit_two_pow]
  by_cases e1 : 1 = i
  · subst e1
    simp
  · simp [e1]

theorem filter_length_flip_on (p q : Nat → Bool) (s : Nat) (hp : p s = false)
    (hq : q s = true) (hoth : ∀ x, x ≠ s → q x = p x) (l : List Nat) :
    (l.filter q).length = (l.filter p).length + l.count s := by
  induction l with
  | nil => rfl
  | cons a t ih =>
    by_cases e : a = s
    · subst e
      simp only [List.filter_cons, hp, hq, if_true, List.length_cons, List.count_cons_self,
        Bool.false_eq_true, if_false]
      omega
    · have e1 : (a == s) = false := by simpa using e
      simp only [List.filter_cons, hoth a e, List.count_cons, e1, Bool.false_eq_true, if_false,
        Nat.add_zero]
      split_ifs
      · simp only [List.length_cons]
        omega
      · exact ih

theorem filter_length_flip_off (p q : Nat → Bool) (s : Nat) (hp : p s = true)
    (hq : q s = false) (hoth : ∀ x, x ≠ s → q x = p x) (l : List Nat) :
    (l.filter q).length + l.count s = (l.filter p).length :=
  (filter_length_flip_on q p s hq hp (fun x hx => (hoth x hx).symm) l).symm

theorem filter_erase_of_false (p : Nat → Bool) (s : Nat) (hp : p s = false) (l : List Nat) :
    (l.erase s).filter p = l.filter p := by
  induction l with
  | nil => rfl
  | cons a t ih =>
    by_cases e : a = s
    · subst e
      simp only [List.erase_cons_head, List.filter_cons, hp, Bool.false_eq_true, if_false]
    · have e1 : (a == s) = false := by simpa using e
      rw [List.erase_cons_tail (by simpa using e)]
      simp only [List.filter_cons, ih]

theorem filter_append_of_false (p : Nat → Bool) (s : Nat) (hp : p s = false) (l : List Nat) :
    (l ++ [s]).filter p = l.filter p := by
  simp [List.filter_append, hp]

/-- The instantaneous load depends on the two lists of the runqueue and on the
idle and scheduled marks of the entities on its assignment list. -/
theorem load_counts_congr (a b : sched_state) (j : Int)
    (hr : (b.prv.rqd j).runq = (a.prv.rqd j).runq)
    (hs : (b.prv.rqd j).svc = (a.prv.rqd j).svc)
    (hc : ∀ s, counts_running b s = counts_running a s) :
    load_counts b j = load_counts a j := by
  have hf : counts_running b = counts_running a := funext hc
  unfold load_counts
  rw [hr, hs, hf]

theorem counts_running_congr (a b : sched_state) (s : Nat)
    (hi : (b.heap s).is_idle = (a.heap s).is_idle)
    (hf : (b.heap s).flags &&& CSFLAG_scheduled = (a.heap s).flags &&& CSFLAG_scheduled) :
    counts_running b s = counts_running a s := by
  unfold counts_running
  rw [hi, hf]

theorem load_counts_bookkeeping (a b : sched_state) (j : Int) (h : bookkeeping_only a b) :
    load_counts b j = load_counts a j :=
  load_counts_congr a b j (rqd_fixed_fields _ _ (h.2.2.2.2.2.1 j)).2.2.2.2.1
    (rqd_fixed_fields _ _ (h.2.2.2.2.2.1 j)).2.2.2.1
    (fun s => counts_running_congr a b s (vcpu_fixed_fields _ _ (h.2.2.2.2.2.2 s)).1
      (by rw [(vcpu_fixed_fields _ _ (h.2.2.2.2.2.2 s)).2.2.2.1]))

theorem to_int_add_to_int (x c : Int) : to_int (to_int x + c) = to_int (x + c) := by
  unfold to_int
  omega

/-- A step that keeps the instantaneous load and the field `load`, or converts
the field to `int` again, keeps the offset. -/
theorem load_off_same (a b : sched_state) (j d : Int) (h : load_off a j d)
    (hc : load_counts b j = load_counts a j)
    (hl : (b.prv.rqd j).load = (a.prv.rqd j).load ∨
      (b.prv.rqd j).load = to_int (a.prv.rqd j).load) : load_off b j d := by
  unfold load_off at h ⊢
  rw [hc]
  rcases hl with e | e
  · rw [e, h]
  · rw [e, h, to_int_idem]

/-- A step that takes `c` off the instantaneous load and keeps the field
`load` adds `c` to the offset. -/
theorem load_off_shift (a b : sched_state) (j d c : Int) (h : load_off a j d)
    (hc : (load_counts a j : Int) = (load_counts b j : Int) + c)
    (hl : (b.prv.rqd j).load = (a.prv.rqd j).load) : load_off b j (d + c) := by
  unfold load_off at h ⊢
  rw [hl, h, hc]
  congr 1
  ring

theorem load_off_update_load (st : sched_state) (q : Int) (svc : Option Nat) (c now : Int)
    (j d : Int) (h : load_off st j d) :
    load_off (update_load st q svc c now) j (if j = q then d + c else d) := by
  have hc := load_counts_bookkeeping _ _ j (update_load_bookkeeping st q svc c now)
  unfold load_off at h ⊢
  rw [hc, update_load_prv]
  by_cases e : j = q
  · rw [if_pos e, e, rqd_store_same, update_runq_load_frame]
    simp only []
    rw [← e, h, to_int_add_to_int, add_assoc]
  · rw [if_neg e, rqd_store_other _ _ _ _ e]
    exact h

theorem load_off_bookkeeping_heap (st : sched_state) (heap1 : vcpu_heap) (j d : Int)
    (hh : ∀ x, vcpu_fixed (heap1 x) = vcpu_fixed (st.heap x)) (h : load_off st j d) :
    load_off { st with heap := heap1 } j d :=
  load_off_same st _ j d h (load_counts_bookkeeping _ _ j (bookkeeping_heap st heap1 hh))
    (Or.inl rfl)

/-- A store into the record of an entity that keeps its idle and scheduled
marks keeps the offset. -/
theorem load_off_store (st : sched_state) (s : Nat) (v : csched2_vcpu) (j d : Int)
    (hi : v.is_idle = (st.heap s).is_idle)
    (hf : v.flags &&& CSFLAG_scheduled = (st.heap s).flags &&& CSFLAG_scheduled)
    (h : load_off st j d) :
    load_off { st with heap := heap_store st.heap s v } j d := by
  refine load_off_same st _ j d h (load_counts_congr _ _ j rfl rfl (fun x => ?_)) (Or.inl rfl)
  by_cases e : x = s
  · apply counts_running_congr
    · simp only [e, heap_store_same, hi]
    · simp only [e, heap_store_same, hf]
  · apply counts_running_congr
    · simp only [heap_store_other _ _ _ _ e]
    · simp only [heap_store_other _ _ _ _ e]

theorem load_off_runq_tickle (st st1 : sched_state) (cpu new : Nat) (now : Int) (j d : Int)
    (h1 : runq_tickle st cpu new now = some st1) (h : load_off st j d) : load_off st1 j d := by
  refine load_off_same st st1 j d h
    (load_counts_bookkeeping _ _ j (runq_tickle_bookkeeping _ _ _ _ _ h1)) (Or.inl ?_)
  obtain ⟨heap1, tk, sq, e, _⟩ : ∃ heap1 tk sq,
      st1 = { st with
        heap := heap1
        prv := rqd_store st.prv (c2r st cpu) { st.prv.rqd (c2r st cpu) with tickled := tk }
        softirq := sq } ∧ True := by
    unfold runq_tickle at h1
    simp only [] at h1
    split_ifs at h1
    cases hb : burn_credits (st.prv.rqd (c2r st cpu)) (st.heap (st.curr_on_cpu cpu)) now with
    | none => rw [hb] at h1; cases h1
    | some cur =>
      rw [hb] at h1
      simp only [] at h1
      split_ifs at h1
      · simp only [Option.some.injEq] at h1
        exact ⟨_, _, _, h1.symm, trivial⟩
      · simp only [Option.some.injEq] at h1
        exact ⟨_, _, _, h1.symm, trivial⟩
      · revert h1
        generalize runq_tickle_scan _ _ _ _ _ _ _ _ = r
        intro h1
        cases r with
        | none => cases h1
        | some r =>
          obtain ⟨heap2, ipid, lowest⟩ := r
          cases ipid with
          | none =>
            simp only [Option.some.injEq] at h1
            refine ⟨heap2, (st.prv.rqd (c2r st cpu)).tickled, st.softirq, ?_, trivial⟩
            rw [← h1]
            have : rqd_store st.prv (c2r st cpu)
                { st.prv.rqd (c2r st cpu) with tickled := (st.prv.rqd (c2r st cpu)).tickled }
                = st.prv := by
              unfold rqd_store
              congr 1
              funext k
              split_ifs with ek
              · rw [ek]
              · rfl
            rw [this]
          | some ip =>
            simp only [] at h1
            split_ifs at h1
            · simp only [Option.some.injEq] at h1
              refine ⟨heap2, (st.prv.rqd (c2r st cpu)).tickled, st.softirq, ?_, trivial⟩
              rw [← h1]
              have : rqd_store st.prv (c2r st cpu)
                  { st.prv.rqd (c2r st cpu) with tickled := (st.prv.rqd (c2r st cpu)).tickled }
                  = st.prv := by
                unfold rqd_store
                congr 1
                funext k
                split_ifs with ek
                · rw [ek]
                · rfl
              rw [this]
            · simp only [Option.some.injEq] at h1
              exact ⟨_, _, _, h1.symm, trivial⟩
  rw [e]
  by_cases ej : j = c2r st cpu
  · simp only [ej, rqd_store_same]
  · simp only [rqd_store_other _ _ _ _ ej]
/-- Rewriting the runnable list of a runqueue moves its offset by the
difference of the lengths. -/
theorem load_off_runq_set (st : sched_state) (q : Int) (l : List Nat) (j d : Int)
    (h : load_off st j d) :
    load_off
      { st with
        prv := rqd_store st.prv q { st.prv.rqd q with runq := l } }
      j (if j = q then d + (((st.prv.rqd q).runq.length : Int) - (l.length : Int)) else d) := by
  by_cases e : j = q
  · rw [if_pos e]
    apply load_off_shift st _ j d _ h
    · unfold load_counts
      simp only [e, rqd_store_same]
      have hf : counts_running
          { st with
            prv := rqd_store st.prv q { st.prv.rqd q with runq := l } }
          = counts_running st := rfl
      rw [hf]
      push_cast
      ring
    · simp only [e, rqd_store_same]
  · rw [if_neg e]
    refine load_off_same st _ j d h ?_ (Or.inl ?_)
    · apply load_counts_congr
      · simp only [rqd_store_other _ _ _ _ e]
      · simp only [rqd_store_other _ _ _ _ e]
      · intro s
        rfl
    · simp only [rqd_store_other _ _ _ _ e]

theorem load_off_runq_remove (st st1 : sched_state) (svc : Nat) (j d : Int)
    (h1 : __runq_remove st svc = some st1) (h : load_off st j d) :
    load_off st1 j (if (st.heap svc).rqd = some j then d + 1 else d) := by
  unfold __runq_remove at h1
  by_cases c : (!__vcpu_on_runq st svc) = true
  · rw [if_pos c] at h1
    cases h1
  rw [if_neg c] at h1
  cases hr : (st.heap svc).rqd with
  | none => rw [hr] at h1; cases h1
  | some q =>
    rw [hr] at h1
    simp only [Option.some.injEq] at h1
    rw [← h1]
    have hon : svc ∈ (st.prv.rqd q).runq := by
      unfold __vcpu_on_runq at c
      rw [hr] at c
      simpa using c
    have hpos : 0 < (st.prv.rqd q).runq.length := List.length_pos_of_mem hon
    have k := load_off_runq_set st q ((st.prv.rqd q).runq.erase svc) j d h
    rw [List.length_erase_of_mem hon] at k
    by_cases e : j = q
    · rw [if_pos e] at k
      rw [if_pos (by rw [e])]
      have e0 : d + (((st.prv.rqd q).runq.length : Int)
          - (((st.prv.rqd q).runq.length - 1 : Nat) : Int)) = d + 1 := by
        push_cast [Nat.cast_sub hpos]
        ring
      rw [e0] at k
      exact k
    · rw [if_neg e] at k
      rw [if_neg (by intro e1; simp only [Option.some.injEq] at e1; exact e e1.symm)]
      exact k

theorem load_off_runq_insert (st st1 : sched_state) (cpu svc : Nat) (j d : Int)
    (h1 : runq_insert st cpu svc = some st1) (h : load_off st j d) :
    load_off st1 j (if j = c2r st cpu then d - 1 else d) := by
  unfold runq_insert at h1
  split_ifs at h1
  cases hi : __runq_insert st.heap (RQD st cpu) svc with
  | none => rw [hi] at h1; cases h1
  | some r =>
    rw [hi] at h1
    simp only [Option.some.injEq] at h1
    rw [← h1]
    unfold __runq_insert at hi
    split_ifs at hi
    simp only [Option.some.injEq] at hi
    rw [← hi]
    have hlen : (runq_insert_scan st.heap svc (RQD st cpu).runq 0).1.length
        = (st.prv.rqd (c2r st cpu)).runq.length + 1 := by
      rw [(runq_insert_scan_perm st.heap svc (RQD st cpu).runq 0).length_eq]
      rfl
    have k := load_off_runq_set st (c2r st cpu)
      (runq_insert_scan st.heap svc (RQD st cpu).runq 0).1 j d h
    rw [hlen] at k
    by_cases e : j = c2r st cpu
    · rw [if_pos e] at k
      rw [if_pos e]
      have e0 : d + (((st.prv.rqd (c2r st cpu)).runq.length : Int)
          - (((st.prv.rqd (c2r st cpu)).runq.length + 1 : Nat) : Int)) = d - 1 := by
        push_cast
        ring
      rw [e0] at k
      exact k
    · rw [if_neg e] at k
      rw [if_neg e]
      exact k

/-- Rewriting the assignment list of a runqueue and the record of an entity
that is not flagged scheduled, before and after: the offset stays when the new
list differs from the old one by that entity only. -/
theorem load_off_svc_set (st : sched_state) (q : Int) (r : csched2_runqueue_data) (s : Nat)
    (v : csched2_vcpu) (j d : Int)
    (hr : r.runq = (st.prv.rqd q).runq) (hl : r.load = (st.prv.rqd q).load)
    (hs : r.svc = (st.prv.rqd q).svc.erase s ∨ r.svc = (st.prv.rqd q).svc ++ [s])
    (hi : v.is_idle = (st.heap s).is_idle) (hv : v.flags = (st.heap s).flags)
    (hf : (st.heap s).flags &&& CSFLAG_scheduled = 0) (h : load_off st j d) :
    load_off { st with heap := heap_store st.heap s v, prv := rqd_store st.prv q r } j d := by
  have hcr : counts_running st s = false := by
    unfold counts_running
    rw [hf]
    simp
  have hsame : counts_running
      { st with heap := heap_store st.heap s v, prv := rqd_store st.prv q r }
      = counts_running st := by
    funext x
    apply counts_running_congr
    · by_cases e : x = s
      · simp only [e, heap_store_same, hi]
      · simp only [heap_store_other _ _ _ _ e]
    · by_cases e : x = s
      · simp only [e, heap_store_same, hv]
      · simp only [heap_store_other _ _ _ _ e]
  refine load_off_same st _ j d h ?_ (Or.inl ?_)
  · unfold load_counts
    rw [hsame]
    by_cases e : j = q
    · simp only [e, rqd_store_same, hr]
      rcases hs with hs | hs
      · rw [hs, filter_erase_of_false _ _ hcr]
      · rw [hs, filter_append_of_false _ _ hcr]
    · simp only [rqd_store_other _ _ _ _ e]
  · by_cases e : j = q
    · simp only [e, rqd_store_same, hl]
    · simp only [rqd_store_other _ _ _ _ e]

theorem load_off_runq_deassign (st st1 : sched_state) (svc : Nat) (j d : Int)
    (h1 : __runq_deassign st svc = some st1) (h : load_off st j d) : load_off st1 j d := by
  unfold __runq_deassign at h1
  by_cases c1 : __vcpu_on_runq st svc = true
  · rw [if_pos c1] at h1
    cases h1
  rw [if_neg c1] at h1
  by_cases c2 : (st.heap svc).flags &&& CSFLAG_scheduled ≠ 0
  · rw [if_pos c2] at h1
    cases h1
  rw [if_neg c2] at h1
  cases hr : (st.heap svc).rqd with
  | none => rw [hr] at h1; cases h1
  | some q =>
    rw [hr] at h1
    simp only [Option.some.injEq] at h1
    rw [← h1]
    have hf : (st.heap svc).flags &&& CSFLAG_scheduled = 0 := by
      by_contra hne
      exact c2 hne
    apply load_off_svc_set st q _ svc _ j d _ _ _ (by rfl) (by rfl) hf h
    · simp only []
      rw [update_max_weight_frame]
    · simp only []
      rw [update_max_weight_frame]
    · left
      simp only []
      rw [update_max_weight_frame]

theorem load_off_runq_assign (st : sched_state) (svc : Nat) (q : Int) (j d : Int)
    (hf : (st.heap svc).flags &&& CSFLAG_scheduled = 0) (h : load_off st j d) :
    load_off (__runq_assign st svc q) j d := by
  obtain ⟨rA, e, _, _, _, _, hrunq, hsvc, _, _, hload⟩ := runq_assign_state st svc q
  rw [e]
  exact load_off_svc_set st q rA svc _ j d hrunq hload (Or.inr hsvc) (by rfl) (by rfl) hf h

/-- Flagging an entity scheduled that is not idle and was not flagged adds its
occurrences on the assignment list to the instantaneous load. -/
theorem load_off_set_scheduled (st : sched_state) (s : Nat) (v : csched2_vcpu) (j d : Int)
    (hi : (st.heap s).is_idle = false) (hf : (st.heap s).flags &&& CSFLAG_scheduled = 0)
    (hv : v.is_idle = false ∧ v.flags &&& CSFLAG_scheduled ≠ 0)
    (h : load_off st j d) :
    load_off { st with heap := heap_store st.heap s v } j
      (d - ((st.prv.rqd j).svc.count s : Nat)) := by
  have hp : counts_running st s = false := by
    unfold counts_running
    rw [hf]
    simp
  have hq : counts_running { st with heap := heap_store st.heap s v } s = true := by
    unfold counts_running
    simp only [heap_store_same, hv.1]
    simpa using hv.2
  have hoth : ∀ x, x ≠ s →
      counts_running { st with heap := heap_store st.heap s v } x = counts_running st x := by
    intro x hx
    unfold counts_running
    simp only [heap_store_other _ _ _ _ hx]
  have hlen := filter_length_flip_on _ _ s hp hq hoth (st.prv.rqd j).svc
  have := load_off_shift st { st with heap := heap_store st.heap s v } j d
    (-((st.prv.rqd j).svc.count s : Nat)) h (by
      unfold load_counts
      simp only []
      rw [hlen]
      push_cast
      ring) rfl
  exact this

/-- Clearing the scheduled flag of an entity that is not idle and was flagged
takes its occurrences on the assignment list off the instantaneous load. -/
theorem load_off_clear_scheduled (st : sched_state) (s : Nat) (v : csched2_vcpu) (j d : Int)
    (hi : (st.heap s).is_idle = false) (hf : (st.heap s).flags &&& CSFLAG_scheduled ≠ 0)
    (hv : v.flags &&& CSFLAG_scheduled = 0)
    (h : load_off st j d) :
    load_off { st with heap := heap_store st.heap s v } j
      (d + ((st.prv.rqd j).svc.count s : Nat)) := by
  have hp : counts_running st s = true := by
    unfold counts_running
    rw [hi]
    simpa using hf
  have hq : counts_running { st with heap := heap_store st.heap s v } s = false := by
    unfold counts_running
    simp only [heap_store_same, hv]
    simp
  have hoth : ∀ x, x ≠ s →
      counts_running { st with heap := heap_store st.heap s v } x = counts_running st x := by
    intro x hx
    unfold counts_running
    simp only [heap_store_other _ _ _ _ hx]
  have hlen := filter_length_flip_off _ _ s hp hq hoth (st.prv.rqd j).svc
  have := load_off_shift st { st with heap := heap_store st.heap s v } j d
    ((st.prv.rqd j).svc.count s : Nat) h (by
      unfold load_counts
      simp only []
      rw [← hlen]
      push_cast
      ring) rfl
  exact this

theorem maps_to_of_idle_kept (a b : sched_state) (t : Int) (h : idle_kept a b)
    (hm : maps_to a t) : maps_to b t := by
  intro p hp
  rw [h.1, (h.2.2.2.2.2.1 t).2.1] at hp
  unfold c2r
  rw [h.2.2.2.1]
  exact hm p hp

theorem load_off_migrate_detach (st st1 : sched_state) (svc : Nat) (now : Int) (j d : Int)
    (h1 : migrate_detach st svc now = some st1) (h : load_off st j d) : load_off st1 j d := by
  unfold migrate_detach at h1
  simp only [] at h1
  by_cases c : __vcpu_on_runq st svc = true
  · rw [if_pos c] at h1
    cases hr : __runq_remove st svc with
    | none => rw [hr] at h1; cases h1
    | some s1 =>
      rw [hr] at h1
      simp only [] at h1
      cases hq : (s1.heap svc).rqd with
      | none => rw [hq] at h1; cases h1
      | some q =>
        rw [hq] at h1
        simp only [] at h1
        have hsame : (s1.heap svc).rqd = (st.heap svc).rqd :=
          ((runq_remove_placement _ _ _ hr).2.2.2.2.2.2 svc).2.2
        have k1 := load_off_runq_remove _ _ _ j d hr h
        have k2 := load_off_update_load s1 q none (-1) now j _ k1
        have k3 : load_off (update_load s1 q none (-1) now) j d := by
          rw [← hsame, hq] at k2
          by_cases e : j = q
          · rw [if_pos e, if_pos (by rw [e])] at k2
            have e0 : d + 1 + -1 = d := by ring
            rw [e0] at k2
            exact k2
          · rw [if_neg e, if_neg (by
              intro e1
              simp only [Option.some.injEq] at e1
              exact e e1.symm)] at k2
            exact k2
        exact load_off_runq_deassign _ _ _ j d h1 k3
  · rw [if_neg c] at h1
    simp only [] at h1
    exact load_off_runq_deassign _ _ _ j d h1 h

theorem load_off_migrate_attach (st st1 : sched_state) (svc : Nat) (t now : Int)
    (on_runq : Bool) (j d : Int)
    (hf : (st.heap svc).flags &&& CSFLAG_scheduled = 0) (hm : maps_to st t)
    (h1 : migrate_attach st svc t now on_runq = some st1) (h : load_off st j d) :
    load_off st1 j d := by
  unfold migrate_attach at h1
  simp only [] at h1
  by_cases c1 : cpumask_any st.nr_cpu_ids
      (cpumask_and (st.heap svc).cpu_hard_affinity (st.prv.rqd t).active) ≥ st.nr_cpu_ids
  · rw [if_pos c1] at h1
    cases h1
  rw [if_neg c1] at h1
  have hp : cpumask_any st.nr_cpu_ids
      (cpumask_and (st.heap svc).cpu_hard_affinity (st.prv.rqd t).active)
      ∈ cpumask_cpus st.nr_cpu_ids (st.prv.rqd t).active := by
    rcases cpumask_first_spec st.nr_cpu_ids
      (cpumask_and (st.heap svc).cpu_hard_affinity (st.prv.rqd t).active) with ⟨e, _⟩ | ⟨e1, e2, _⟩
    · unfold cpumask_any at c1
      omega
    · exact (mem_cpumask_cpus _ _ _).mpr ⟨e1, ((mem_cpumask_and _ _ _).mp e2).2⟩
  have hpt := hm _ hp
  revert h1
  generalize hs5 : __runq_assign _ svc t = s5
  intro h1
  have k5 : load_off s5 j d := by
    rw [← hs5]
    apply load_off_runq_assign
    · simp only [heap_store_same]
      exact hf
    · exact load_off_store st svc _ j d (by rfl) (by rfl) h
  have hk5 : idle_kept st s5 := by
    rw [← hs5]
    exact idle_kept_trans _ _ _ (idle_kept_store st svc _ (by rfl) (by rfl))
      (runq_assign_idle_kept _ svc t)
  by_cases c2 : on_runq = true
  · rw [if_pos c2] at h1
    cases hi : runq_insert (update_load s5 t none 1 now)
        (cpumask_any st.nr_cpu_ids
          (cpumask_and (st.heap svc).cpu_hard_affinity (st.prv.rqd t).active)) svc with
    | none => rw [hi] at h1; cases h1
    | some s7 =>
      rw [hi] at h1
      simp only [] at h1
      have k6 := load_off_update_load s5 t none 1 now j d k5
      have k7 := load_off_runq_insert _ _ _ _ j _ hi k6
      have hmap : c2r (update_load s5 t none 1 now)
          (cpumask_any st.nr_cpu_ids
            (cpumask_and (st.heap svc).cpu_hard_affinity (st.prv.rqd t).active)) = t := by
        unfold c2r
        rw [(update_load_bookkeeping s5 t none 1 now).2.2.2.1, hk5.2.2.2.1]
        exact hpt
      rw [hmap] at k7
      have k8 : load_off s7 j d := by
        by_cases e : j = t
        · rw [if_pos e, if_pos e] at k7
          have e0 : d + 1 - 1 = d := by ring
          rw [e0] at k7
          exact k7
        · rw [if_neg e, if_neg e] at k7
          exact k7
      exact load_off_runq_tickle _ _ _ _ _ j d h1 k8
  · rw [if_neg c2] at h1
    simp only [Option.some.injEq] at h1
    rw [← h1]
    exact k5

/-- The move of an entity, or the request for its move, keeps the offset of
every runqueue; the active processors of the target map to it. -/
theorem load_off_migrate (st st1 : sched_state) (svc : Nat) (t now : Int) (j d : Int)
    (hm : maps_to st t) (h1 : migrate st svc t now = some st1) (h : load_off st j d) :
    load_off st1 j d := by
  unfold migrate at h1
  by_cases c : (st.heap svc).flags &&& CSFLAG_scheduled ≠ 0
  · rw [if_pos c] at h1
    simp only [Option.some.injEq] at h1
    rw [← h1]
    exact load_off_store st svc _ j d (by rfl) (sched_or_migrate _) h
  · rw [if_neg c] at h1
    have hf : (st.heap svc).flags &&& CSFLAG_scheduled = 0 := by
      by_contra hne
      exact c hne
    cases hd : migrate_detach st svc now with
    | none => rw [hd] at h1; cases h1
    | some s3 =>
      rw [hd] at h1
      simp only [] at h1
      have kd := migrate_detach_idle_kept _ _ _ _ hd
      have hf3 : (s3.heap svc).flags &&& CSFLAG_scheduled = 0 := by
        have := (migrate_detach_shrinks _ _ _ _ hd).1 svc
        rw [this]
        exact hf
      exact load_off_migrate_attach s3 st1 svc t now _ j d hf3
        (maps_to_of_idle_kept _ _ t kd hm) h1 (load_off_migrate_detach _ _ _ _ j d hd h)
theorem load_off_balance_migrate (st st1 : sched_state) (bs : balance_state_t) (now : Int)
    (j d : Int) (ho : maps_to st bs.orqd) (hl : maps_to st bs.lrqd)
    (h1 : balance_migrate st bs now = some st1) (h : load_off st j d) : load_off st1 j d := by
  unfold balance_migrate at h1
  simp only [] at h1
  have hpull : ∀ s1, idle_kept st s1 → load_off s1 j d →
      (match bs.best_pull_svc with
        | some p => migrate s1 p bs.lrqd now
        | none => some s1) = some st1 → load_off st1 j d := by
    intro s1 hk k e
    cases hb : bs.best_pull_svc with
    | none =>
      rw [hb] at e
      simp only [Option.some.injEq] at e
      rw [← e]
      exact k
    | some p =>
      rw [hb] at e
      exact load_off_migrate _ _ _ _ _ j d (maps_to_of_idle_kept _ _ _ hk hl) e k
  cases hp : bs.best_push_svc with
  | none =>
    rw [hp] at h1
    exact hpull st (idle_kept_refl st) h h1
  | some p =>
    rw [hp] at h1
    simp only [] at h1
    cases hm : migrate st p bs.orqd now with
    | none => rw [hm] at h1; cases h1
    | some s1 =>
      rw [hm] at h1
      exact hpull s1 (migrate_idle_kept _ _ _ _ _ hm)
        (load_off_migrate _ _ _ _ _ j d ho hm h) h1

theorem load_off_balance_load (fuel : Nat) (st st1 : sched_state) (cpu : Nat) (now : Int)
    (j d : Int) (hl : maps_to st (c2r st cpu))
    (ha : ∀ i ∈ cpumask_cpus st.nr_cpu_ids st.prv.active_queues, maps_to st (i : Int))
    (h1 : balance_load fuel st cpu now = some st1) (h : load_off st j d) :
    load_off st1 j d := by
  obtain ⟨f, kf, hload, hsh⟩ := balance_load_shape fuel st st1 cpu now h1
  have k : load_off f j d :=
    load_off_same st f j d h (load_counts_bookkeeping _ _ j kf) (hload j)
  rcases hsh with e | ⟨bs, _, ⟨i, hi, hio⟩, hpk, hmig⟩
  · rw [e]
    exact k
  · have hki := idle_of_bookkeeping _ _ kf
    refine load_off_balance_migrate f st1 bs now j d ?_ ?_ hmig k
    · rw [← hio]
      exact maps_to_of_idle_kept _ _ _ hki (ha i hi)
    · rw [hpk.1]
      exact maps_to_of_idle_kept _ _ _ hki hl

/-- Rewriting the record of a runqueue without touching its lists and its
load keeps the offset. -/
theorem load_off_rqd_same (st : sched_state) (q : Int) (r : csched2_runqueue_data) (j d : Int)
    (hr : r.runq = (st.prv.rqd q).runq) (hs : r.svc = (st.prv.rqd q).svc)
    (hl : r.load = (st.prv.rqd q).load) (h : load_off st j d) :
    load_off { st with prv := rqd_store st.prv q r } j d := by
  refine load_off_same st _ j d h ?_ (Or.inl ?_)
  · apply load_counts_congr
    · by_cases e : j = q
      · simp only [e, rqd_store_same, hr]
      · simp only [rqd_store_other _ _ _ _ e]
    · by_cases e : j = q
      · simp only [e, rqd_store_same, hs]
      · simp only [rqd_store_other _ _ _ _ e]
    · intro s
      rfl
  · by_cases e : j = q
    · simp only [e, rqd_store_same, hl]
    · simp only [rqd_store_other _ _ _ _ e]

theorem load_off_schedule_flag (st : sched_state) (scurr snext : Nat) (j d : Int)
    (h : load_off st j d) : load_off (schedule_flag st scurr snext) j d := by
  unfold schedule_flag
  split_ifs
  · exact load_off_store st scurr _ j d (by rfl) (sched_or_delayed _) h
  · exact h

theorem schedule_start_heap (st : sched_state) (q : Int) (snext cpu : Nat) (now : Int)
    (x : Nat) :
    ((schedule_start st q snext cpu now).1.heap x).is_idle = (st.heap x).is_idle ∧
    ((schedule_start st q snext cpu now).1.heap x).flags = (st.heap x).flags := by
  unfold schedule_start
  simp only []
  by_cases e : x = snext
  · rw [e]
    split_ifs <;> simp only [heap_store_same] <;> exact ⟨trivial, trivial⟩
  · split_ifs <;> simp only [heap_store_other _ _ _ _ e] <;> exact ⟨trivial, trivial⟩

theorem schedule_start_prv (st : sched_state) (q : Int) (snext cpu : Nat) (now : Int) :
    (schedule_start st q snext cpu now).1.prv
      = if cpumask_test_cpu cpu (st.prv.rqd q).idle = true then
          rqd_store st.prv q
            { st.prv.rqd q with idle := cpumask_clear_cpu cpu (st.prv.rqd q).idle }
        else st.prv := by
  unfold schedule_start
  simp only []
  split_ifs <;> rfl

theorem load_off_schedule_start (st : sched_state) (q : Int) (snext cpu : Nat) (now : Int)
    (j d : Int) (h : load_off st j d) :
    load_off (schedule_start st q snext cpu now).1 j d := by
  have hrec : ((schedule_start st q snext cpu now).1.prv.rqd j).runq = (st.prv.rqd j).runq ∧
      ((schedule_start st q snext cpu now).1.prv.rqd j).svc = (st.prv.rqd j).svc ∧
      ((schedule_start st q snext cpu now).1.prv.rqd j).load = (st.prv.rqd j).load := by
    rw [schedule_start_prv]
    split_ifs
    · by_cases e : j = q
      · simp only [e, rqd_store_same]
        exact ⟨trivial, trivial, trivial⟩
      · simp only [rqd_store_other _ _ _ _ e]
        exact ⟨trivial, trivial, trivial⟩
    · exact ⟨rfl, rfl, rfl⟩
  refine load_off_same st _ j d h (load_counts_congr _ _ j hrec.1 hrec.2.1 (fun s => ?_))
    (Or.inl hrec.2.2)
  apply counts_running_congr
  · exact (schedule_start_heap st q snext cpu now s).1
  · rw [(schedule_start_heap st q snext cpu now s).2]

theorem load_off_schedule_idle (st : sched_state) (q : Int) (cpu : Nat) (now : Int)
    (j d : Int) (h : load_off st j d) : load_off (schedule_idle st q cpu now) j d := by
  unfold schedule_idle
  simp only []
  have h4 : load_off
      (if (!cpumask_test_cpu cpu (st.prv.rqd q).idle) = true then
        { st with
          prv := rqd_store st.prv q
            { st.prv.rqd q with idle := cpumask_set_cpu cpu (st.prv.rqd q).idle } }
      else st) j d := by
    split_ifs
    · exact load_off_rqd_same st q _ j d (by rfl) (by rfl) (by rfl) h
    · exact h
  have k := load_off_update_load _ q none 0 now j d h4
  have e : (if j = q then d + 0 else d) = d := by
    split_ifs
    · ring
    · rfl
  rw [e] at k
  exact k

/-- The switch to the selected entity keeps the offset of the runqueue in slot
`j`: the entity leaves the runnable list and counts as flagged from then on.
The entity is not flagged scheduled before, and is on the assignment list of
`j` once if `j` is the runqueue of the processor and not at all otherwise. -/
theorem load_off_schedule_switch (st s : sched_state) (q : Int) (scurr snext : Nat)
    (j d : Int) (hi : (st.heap snext).is_idle = false)
    (hq : snext ≠ scurr → snext ∈ (st.prv.rqd q).runq →
      (st.heap snext).flags &&& CSFLAG_scheduled = 0 ∧
      (st.prv.rqd j).svc.count snext = if j = q then 1 else 0)
    (h1 : schedule_switch st q scurr snext = some s) (h : load_off st j d) :
    load_off s j d := by
  unfold schedule_switch at h1
  by_cases c1 : snext ≠ scurr
  · rw [if_pos c1] at h1
    by_cases c2 : (st.heap snext).rqd ≠ some q
    · rw [if_pos c2] at h1
      cases h1
    rw [if_neg c2] at h1
    have hrq : (st.heap snext).rqd = some q := by
      by_contra hne
      exact c2 hne
    cases hr : __runq_remove st snext with
    | none => rw [hr] at h1; cases h1
    | some s1 =>
      rw [hr] at h1
      simp only [] at h1
      split_ifs at h1
      simp only [Option.some.injEq] at h1
      rw [← h1]
      have hon : snext ∈ (st.prv.rqd q).runq := by
        unfold __runq_remove at hr
        by_cases c : (!__vcpu_on_runq st snext) = true
        · rw [if_pos c] at hr
          cases hr
        · unfold __vcpu_on_runq at c
          rw [hrq] at c
          simpa using c
      obtain ⟨hfl, hcnt⟩ := hq c1 hon
      have k1 := load_off_runq_remove _ _ _ j d hr h
      have hp := runq_remove_placement _ _ _ hr
      have hsh := runq_remove_shrinks _ _ _ hr
      have k2 := load_off_set_scheduled s1 snext
        { s1.heap snext with flags := (s1.heap snext).flags ||| CSFLAG_scheduled } j _
        (by rw [(hp.2.2.2.2.2.2 snext).1]; exact hi)
        (by rw [hsh.1 snext]; exact hfl)
        ⟨by
          show (s1.heap snext).is_idle = false
          rw [(hp.2.2.2.2.2.2 snext).1]
          exact hi, sched_or_scheduled _⟩ k1
      rw [(hp.2.2.2.2.2.1 j).2.2.2, hcnt, hrq] at k2
      by_cases e : j = q
      · rw [if_pos (by rw [e]), if_pos e] at k2
        have e0 : d + 1 - ((1 : Nat) : Int) = d := by
          push_cast
          ring
        rw [e0] at k2
        exact k2
      · rw [if_neg (by
          intro e1
          simp only [Option.some.injEq] at e1
          exact e e1.symm), if_neg e] at k2
        have e0 : d - ((0 : Nat) : Int) = d := by
          push_cast
          ring
        rw [e0] at k2
        exact k2
  · rw [if_neg c1] at h1
    simp only [Option.some.injEq] at h1
    rw [← h1]
    exact h

theorem load_off_schedule_reset (fuel : Nat) (st s : sched_state) (snext cpu : Nat)
    (now : Int) (j d : Int) (hl : maps_to st (c2r st cpu))
    (ha : ∀ i ∈ cpumask_cpus st.nr_cpu_ids st.prv.active_queues, maps_to st (i : Int))
    (h1 : schedule_reset fuel st snext cpu now = some s) (h : load_off st j d) :
    load_off s j d := by
  unfold schedule_reset at h1
  by_cases c : (st.heap snext).credit ≤ CSCHED2_CREDIT_RESET
  · rw [if_pos c] at h1
    cases hr : reset_credit st.heap (RQD st cpu) now snext with
    | none => rw [hr] at h1; cases h1
    | some heap1 =>
      rw [hr] at h1
      simp only [] at h1
      unfold reset_credit at hr
      have hfix := reset_credit_loop_fixed _ _ _ _ _ _ hr
      have hk := idle_of_bookkeeping _ _ (bookkeeping_heap st heap1 hfix)
      exact load_off_balance_load fuel _ s cpu now j d
        (maps_to_of_idle_kept _ _ _ hk hl)
        (fun i hi => maps_to_of_idle_kept _ _ _ hk (ha i hi)) h1
        (load_off_bookkeeping_heap st heap1 j d hfix h)
  · rw [if_neg c] at h1
    simp only [Option.some.injEq] at h1
    rw [← h1]
    exact h
theorem schedule_flag_sched (st : sched_state) (scurr snext : Nat) (x : Nat) :
    ((schedule_flag st scurr snext).heap x).flags &&& CSFLAG_scheduled
      = (st.heap x).flags &&& CSFLAG_scheduled := by
  unfold schedule_flag
  split_ifs
  · by_cases e : x = scurr
    · simp only [e, heap_store_same]
      exact sched_or_delayed _
    · simp only [heap_store_other _ _ _ _ e]
  · rfl

/-- A scheduling decision keeps the offset of the runqueue in slot `j`.  The
entities on the runnable list of the processor are not flagged scheduled and
are on the assignment list of `j` once if `j` is the runqueue of the processor
and not at all otherwise; the active processors of the local and of the active
runqueues map to them. -/
theorem load_off_schedule (fuel : Nat) (st st1 : sched_state) (cpu : Nat) (now : Int)
    (tw : Bool) (ret : task_slice) (j d : Int)
    (hq : ∀ s ∈ (st.prv.rqd (c2r st cpu)).runq,
      (st.heap s).flags &&& CSFLAG_scheduled = 0 ∧
      (st.prv.rqd j).svc.count s = if j = c2r st cpu then 1 else 0)
    (hl : maps_to st (c2r st cpu))
    (ha : ∀ i ∈ cpumask_cpus st.nr_cpu_ids st.prv.active_queues, maps_to st (i : Int))
    (h1 : csched2_schedule fuel st cpu now tw = some (st1, ret)) (h : load_off st j d) :
    load_off st1 j d := by
  obtain ⟨s2, hb, _, hacc⟩ := csched2_schedule_steps fuel st st1 cpu now tw ret h1
  obtain ⟨kb, _, hload⟩ := schedule_burn_bookkeeping _ _ _ _ _ _ hb
  have k2 : load_off s2 j d :=
    load_off_same st s2 j d h (load_counts_bookkeeping _ _ j kb) (Or.inl (hload j))
  have k3 := load_off_schedule_flag s2 (st.curr_on_cpu cpu) ret.task j d k2
  obtain ⟨kfp, kf, _⟩ := schedule_flag_frame s2 (st.curr_on_cpu cpu) ret.task
  have hk3 : idle_kept st (schedule_flag s2 (st.curr_on_cpu cpu) ret.task) :=
    idle_kept_trans _ _ _ (idle_of_bookkeeping _ _ kb) (idle_of_placement _ _ kf)
  rcases hacc with ⟨hi, m, hacc⟩ | ⟨_, e⟩
  · unfold schedule_account at hacc
    cases hsw : schedule_switch (schedule_flag s2 (st.curr_on_cpu cpu) ret.task) (c2r st cpu)
        (st.curr_on_cpu cpu) ret.task with
    | none => rw [hsw] at hacc; cases hacc
    | some s4 =>
      rw [hsw] at hacc
      simp only [] at hacc
      cases hrs : schedule_reset fuel s4 ret.task cpu now with
      | none => rw [hrs] at hacc; cases hacc
      | some s5 =>
        rw [hrs] at hacc
        simp only [Option.some.injEq] at hacc
        have e : st1 = (schedule_start s5 (c2r st cpu) ret.task cpu now).1 := by rw [hacc]
        rw [e]
        apply load_off_schedule_start
        have hk4 : idle_kept st s4 :=
          idle_kept_trans _ _ _ hk3
            (idle_of_placement _ _ (schedule_switch_frame _ _ _ _ _ hsw).1)
        have hc4 : c2r s4 cpu = c2r st cpu := by
          unfold c2r
          rw [hk4.2.2.2.1]
        refine load_off_schedule_reset fuel s4 s5 ret.task cpu now j d ?_ ?_ hrs ?_
        · rw [hc4]
          exact maps_to_of_idle_kept _ _ _ hk4 hl
        · intro i hi4
          rw [hk4.1, hk4.2.2.2.2.1] at hi4
          exact maps_to_of_idle_kept _ _ _ hk4 (ha i hi4)
        · refine load_off_schedule_switch _ s4 (c2r st cpu) (st.curr_on_cpu cpu) ret.task j d
            hi ?_ hsw k3
          intro _ hon
          rw [kfp, bookkeeping_runq _ _ kb] at hon
          obtain ⟨g1, g2⟩ := hq _ hon
          refine ⟨?_, ?_⟩
          · rw [schedule_flag_sched, bookkeeping_flags _ _ kb]
            exact g1
          · rw [kfp, (rqd_fixed_fields _ _ (kb.2.2.2.2.2.1 j)).2.2.2.1]
            exact g2
  · rw [e]
    exact load_off_schedule_idle _ _ _ _ j d k3

theorem load_off_wake (st st1 : sched_state) (svc : Nat) (now : Int) (j d : Int)
    (h1 : csched2_vcpu_wake st svc now = some st1) (h : load_off st j d) :
    load_off st1 j d := by
  unfold csched2_vcpu_wake at h1
  by_cases c0 : (st.heap svc).is_idle = true
  · rw [if_pos c0] at h1
    cases h1
  rw [if_neg c0] at h1
  by_cases c1 : st.curr_on_cpu (st.heap svc).processor = svc
  · rw [if_pos c1] at h1
    simp only [Option.some.injEq] at h1
    rw [← h1]
    exact h
  rw [if_neg c1] at h1
  by_cases c2 : __vcpu_on_runq st svc = true
  · rw [if_pos c2] at h1
    simp only [Option.some.injEq] at h1
    rw [← h1]
    exact h
  rw [if_neg c2] at h1
  by_cases c3 : (st.heap svc).flags &&& CSFLAG_scheduled ≠ 0
  · rw [if_pos c3] at h1
    simp only [Option.some.injEq] at h1
    rw [← h1]
    exact load_off_store st svc _ j d (by rfl) (sched_or_delayed _) h
  rw [if_neg c3] at h1
  simp only [] at h1
  have hf : (st.heap svc).flags &&& CSFLAG_scheduled = 0 := by
    by_contra hne
    exact c3 hne
  -- the state after the assignment
  have hassigned : ∀ sA, (if (st.heap svc).rqd = none then runq_assign st svc
        else if some (c2r st (st.heap svc).processor) ≠ (st.heap svc).rqd then none
        else some st) = some sA →
      load_off sA j d ∧ (sA.heap svc).rqd = some (c2r sA (sA.heap svc).processor) := by
    intro sA e
    by_cases a1 : (st.heap svc).rqd = none
    · rw [if_pos a1] at e
      unfold runq_assign at e
      rw [if_neg (by rw [a1]; simp)] at e
      simp only [Option.some.injEq] at e
      rw [← e]
      refine ⟨load_off_runq_assign st svc _ j d hf h, ?_⟩
      obtain ⟨rA, eA, _⟩ := runq_assign_state st svc (c2r st (st.heap svc).processor)
      rw [eA]
      simp only [heap_store_same]
      rfl
    · rw [if_neg a1] at e
      by_cases a2 : some (c2r st (st.heap svc).processor) ≠ (st.heap svc).rqd
      · rw [if_pos a2] at e
        cases e
      · rw [if_neg a2] at e
        simp only [Option.some.injEq] at e
        rw [← e]
        refine ⟨h, ?_⟩
        by_contra hne
        exact a2 (fun e1 => hne e1.symm)
  revert h1
  generalize hA : (if (st.heap svc).rqd = none then runq_assign st svc
      else if some (c2r st (st.heap svc).processor) ≠ (st.heap svc).rqd then none
      else some st) = assigned
  intro h1
  cases assigned with
  | none => cases h1
  | some sA =>
    simp only [] at h1
    obtain ⟨kA, hrA⟩ := hassigned sA hA
    rw [hrA] at h1
    simp only [] at h1
    have kU := load_off_update_load sA (c2r sA (sA.heap svc).processor) (some svc) 1 now j d kA
    have hbk := update_load_bookkeeping sA (c2r sA (sA.heap svc).processor) (some svc) 1 now
    revert h1
    generalize update_load sA (c2r sA (sA.heap svc).processor) (some svc) 1 now = s2 at kU hbk
    intro h1
    cases hi : runq_insert s2 (s2.heap svc).processor svc with
    | none => rw [hi] at h1; cases h1
    | some s3 =>
      rw [hi] at h1
      simp only [] at h1
      have kI := load_off_runq_insert _ _ _ _ j _ hi kU
      have hc : c2r s2 (s2.heap svc).processor = c2r sA (sA.heap svc).processor := by
        unfold c2r
        rw [hbk.2.2.2.1, (vcpu_fixed_fields _ _ (hbk.2.2.2.2.2.2 svc)).2.2.2.2.1]
      rw [hc] at kI
      have k3 : load_off s3 j d := by
        by_cases e : j = c2r sA (sA.heap svc).processor
        · rw [if_pos e, if_pos e] at kI
          have e0 : d + 1 - 1 = d := by ring
          rw [e0] at kI
          exact kI
        · rw [if_neg e, if_neg e] at kI
          exact kI
      exact load_off_runq_tickle _ _ _ _ _ j d h1 k3

theorem load_off_sleep (st st1 : sched_state) (svc : Nat) (now : Int) (j d : Int)
    (h1 : csched2_vcpu_sleep st svc now = some st1) (h : load_off st j d) :
    load_off st1 j d := by
  unfold csched2_vcpu_sleep at h1
  by_cases c0 : (st.heap svc).is_idle = true
  · rw [if_pos c0] at h1
    cases h1
  rw [if_neg c0] at h1
  by_cases c1 : st.curr_on_cpu (st.heap svc).processor = svc
  · rw [if_pos c1] at h1
    simp only [Option.some.injEq] at h1
    rw [← h1]
    exact h
  rw [if_neg c1] at h1
  by_cases c2 : __vcpu_on_runq st svc = true
  · rw [if_pos c2] at h1
    by_cases c3 : (st.heap svc).rqd ≠ some (c2r st (st.heap svc).processor)
    · rw [if_pos c3] at h1
      cases h1
    rw [if_neg c3] at h1
    cases hr : (st.heap svc).rqd with
    | none => rw [hr] at h1; cases h1
    | some q =>
      rw [hr] at h1
      simp only [] at h1
      have kU := load_off_update_load st q (some svc) (-1) now j d h
      have hbk := update_load_bookkeeping st q (some svc) (-1) now
      have kR := load_off_runq_remove _ _ _ j _ h1 kU
      rw [(vcpu_fixed_fields _ _ (hbk.2.2.2.2.2.2 svc)).2.2.1, hr] at kR
      by_cases e : j = q
      · rw [if_pos (by rw [e]), if_pos e] at kR
        have e0 : d + -1 + 1 = d := by ring
        rw [e0] at kR
        exact kR
      · rw [if_neg (by
          intro e1
          simp only [Option.some.injEq] at e1
          exact e e1.symm), if_neg e] at kR
        exact kR
  rw [if_neg c2] at h1
  by_cases c4 : (st.heap svc).flags &&& CSFLAG_delayed_runq_add ≠ 0
  · rw [if_pos c4] at h1
    simp only [Option.some.injEq] at h1
    rw [← h1]
    exact load_off_store st svc _ j d (by rfl) (sched_clear_delayed _) h
  · rw [if_neg c4] at h1
    simp only [Option.some.injEq] at h1
    rw [← h1]
    exact h

/-- A store into the record of an idle entity keeps the offset. -/
theorem load_off_store_idle (st : sched_state) (s : Nat) (v : csched2_vcpu) (j d : Int)
    (hi : (st.heap s).is_idle = true) (hv : v.is_idle = true) (h : load_off st j d) :
    load_off { st with heap := heap_store st.heap s v } j d := by
  refine load_off_same st _ j d h (load_counts_congr _ _ j rfl rfl (fun x => ?_)) (Or.inl rfl)
  unfold counts_running
  by_cases e : x = s
  · simp only [e, heap_store_same, hi, hv]
    rfl
  · simp only [heap_store_other _ _ _ _ e]

theorem runq_insert_not_idle (st st1 : sched_state) (cpu svc : Nat)
    (h : runq_insert st cpu svc = some st1) : (st.heap svc).is_idle = false := by
  unfold runq_insert at h
  split_ifs at h
  cases hi : __runq_insert st.heap (RQD st cpu) svc with
  | none => rw [hi] at h; cases h
  | some r =>
    unfold __runq_insert at hi
    split_ifs at hi with a1 a2
    simpa using a2

/-- The steps of `csched2_context_saved` after the flags of the entity are
cleared, over the state `s1` with the cleared flags. -/
theorem context_saved_after_clear (st s1 : sched_state) (svc : Nat) (now : Int)
    (hs1 : s1 = { st with
      heap := heap_store st.heap svc
        { st.heap svc with
          flags := clear_flag (clear_flag (st.heap svc).flags CSFLAG_scheduled)
            CSFLAG_delayed_runq_add } })
    (c0 : ¬((!(st.heap svc).is_idle) = true ∧
      (st.heap svc).rqd ≠ some (c2r st (st.heap svc).processor))) :
    csched2_context_saved st svc now =
      if clear_flag (st.heap svc).flags CSFLAG_scheduled &&& CSFLAG_delayed_runq_add ≠ 0 ∧
          (s1.heap svc).runnable = true then
        if __vcpu_on_runq s1 svc = true then none
        else
          match runq_insert s1 (s1.heap svc).processor svc with
          | none => none
          | some s2 => runq_tickle s2 (s2.heap svc).processor svc now
      else if (!(s1.heap svc).is_idle) = true then
        match (s1.heap svc).rqd with
        | none => none
        | some q => some (update_load s1 q (some svc) (-1) now)
      else some s1 := by
  subst hs1
  unfold csched2_context_saved
  exact (if_neg c0).trans rfl

/-- Saving the context of an entity keeps the offset of the runqueue in slot
`j`.  An entity that is not idle is flagged scheduled, and is on the
assignment list of `j` once if `j` is the runqueue of its processor and not at
all otherwise. -/
theorem load_off_context_saved (st st1 : sched_state) (svc : Nat) (now : Int) (j d : Int)
    (hs : (st.heap svc).is_idle = false →
      (st.heap svc).flags &&& CSFLAG_scheduled ≠ 0 ∧
      (st.prv.rqd j).svc.count svc = if j = c2r st (st.heap svc).processor then 1 else 0)
    (h1 : csched2_context_saved st svc now = some st1) (h : load_off st j d) :
    load_off st1 j d := by
  by_cases c0 : (!(st.heap svc).is_idle) = true ∧
      (st.heap svc).rqd ≠ some (c2r st (st.heap svc).processor)
  · unfold csched2_context_saved at h1
    rw [if_pos c0] at h1
    cases h1
  -- the state with the flags cleared
  obtain ⟨s1, hs1⟩ : ∃ s1, s1 = { st with
      heap := heap_store st.heap svc
        { st.heap svc with
          flags := clear_flag (clear_flag (st.heap svc).flags CSFLAG_scheduled)
            CSFLAG_delayed_runq_add } } := ⟨_, rfl⟩
  rw [context_saved_after_clear st s1 svc now hs1 c0] at h1
  have hprv : s1.prv = st.prv := by rw [hs1]
  have hrec : (s1.heap svc).is_idle = (st.heap svc).is_idle ∧
      (s1.heap svc).rqd = (st.heap svc).rqd ∧
      (s1.heap svc).processor = (st.heap svc).processor := by
    rw [hs1]
    simp only [heap_store_same]
    exact ⟨trivial, trivial, trivial⟩
  have hc1 : c2r s1 (s1.heap svc).processor = c2r st (st.heap svc).processor := by
    unfold c2r
    rw [hprv, hrec.2.2]
  by_cases ci : (st.heap svc).is_idle = true
  · -- an idle entity
    have k1 : load_off s1 j d := by
      rw [hs1]
      exact load_off_store_idle st svc _ j d ci ci h
    by_cases b1 : clear_flag (st.heap svc).flags CSFLAG_scheduled &&& CSFLAG_delayed_runq_add ≠ 0 ∧
        (s1.heap svc).runnable = true
    · rw [if_pos b1] at h1
      split_ifs at h1
      cases hi : runq_insert s1 (s1.heap svc).processor svc with
      | none => rw [hi] at h1; cases h1
      | some s2 =>
        have := runq_insert_not_idle _ _ _ _ hi
        rw [hrec.1, ci] at this
        cases this
    · rw [if_neg b1] at h1
      rw [if_neg (by rw [hrec.1, ci]; simp)] at h1
      simp only [Option.some.injEq] at h1
      rw [← h1]
      exact k1
  · -- an entity that is not idle
    have ci' : (st.heap svc).is_idle = false := by simpa using ci
    obtain ⟨hfl, hcnt⟩ := hs ci'
    have hrq : (st.heap svc).rqd = some (c2r st (st.heap svc).processor) := by
      by_contra hne
      exact c0 ⟨by rw [ci']; rfl, hne⟩
    have k1 : load_off s1 j (d + ((st.prv.rqd j).svc.count svc : Nat)) := by
      rw [hs1]
      exact load_off_clear_scheduled st svc _ j d ci' hfl (clear_flag_and_comm _ _ _) h
    rw [hcnt] at k1
    by_cases b1 : clear_flag (st.heap svc).flags CSFLAG_scheduled &&& CSFLAG_delayed_runq_add ≠ 0 ∧
        (s1.heap svc).runnable = true
    · rw [if_pos b1] at h1
      split_ifs at h1
      cases hi : runq_insert s1 (s1.heap svc).processor svc with
      | none => rw [hi] at h1; cases h1
      | some s2 =>
        rw [hi] at h1
        simp only [] at h1
        have kI := load_off_runq_insert _ _ _ _ j _ hi k1
        rw [hc1] at kI
        have k2 : load_off s2 j d := by
          by_cases e : j = c2r st (st.heap svc).processor
          · rw [if_pos e, if_pos e] at kI
            have e0 : d + ((1 : Nat) : Int) - 1 = d := by
              push_cast
              ring
            rw [e0] at kI
            exact kI
          · rw [if_neg e, if_neg e] at kI
            have e0 : d + ((0 : Nat) : Int) = d := by
              push_cast
              ring
            rw [e0] at kI
            exact kI
        exact load_off_runq_tickle _ _ _ _ _ j d h1 k2
    · rw [if_neg b1] at h1
      rw [if_pos (by rw [hrec.1, ci']; rfl)] at h1
      rw [hrec.2.1, hrq] at h1
      simp only [Option.some.injEq] at h1
      rw [← h1]
      have kU := load_off_update_load s1 (c2r st (st.heap svc).processor) (some svc) (-1) now
        j _ k1
      by_cases e : j = c2r st (st.heap svc).processor
      · rw [if_pos e, if_pos e] at kU
        have e0 : d + ((1 : Nat) : Int) + -1 = d := by
          push_cast
          ring
        rw [e0] at kU
        exact kU
      · rw [if_neg e, if_neg e] at kU
        have e0 : d + ((0 : Nat) : Int) = d := by
          push_cast
          ring
        rw [e0] at kU
        exact kU

theorem load_exact_iff_off (st : sched_state) (j : Int) : load_exact st j ↔ load_off st j 0 := by
  unfold load_exact load_off
  rw [add_zero]

/-- C31: the field `load` of a runqueue holds its instantaneous load, the
number of entities on its runnable list plus the number of entities on its
assignment list that are not idle and flagged scheduled, and this is preserved
by `csched2_vcpu_wake`, `csched2_vcpu_sleep`, `csched2_schedule`,
`csched2_context_saved` and `migrate`, for the runqueue in any slot `j`.  The
field is an `int`; a load below 2^31 is held as it is.  The entities that the
calls flag or clear are placed as the scheduler keeps them: the entities
waiting on the runnable list of the processor are not flagged scheduled, the
entity whose context is saved is flagged scheduled unless it is idle, each is
on the assignment list of its own runqueue once and on no other, and the
active processors of a runqueue that receives an entity map to it. -/
theorem load_invariant (st : sched_state) (j : Int) (hinv : load_exact st j) :
    (∀ svc now st1, csched2_vcpu_wake st svc now = some st1 → load_exact st1 j) ∧
    (∀ svc now st1, csched2_vcpu_sleep st svc now = some st1 → load_exact st1 j) ∧
    (∀ fuel cpu now tw st1 ret, csched2_schedule fuel st cpu now tw = some (st1, ret) →
      (∀ s ∈ (st.prv.rqd (c2r st cpu)).runq,
        (st.heap s).flags &&& CSFLAG_scheduled = 0 ∧
        (st.prv.rqd j).svc.count s = if j = c2r st cpu then 1 else 0) →
      maps_to st (c2r st cpu) →
      (∀ i ∈ cpumask_cpus st.nr_cpu_ids st.prv.active_queues, maps_to st (i : Int)) →
      load_exact st1 j) ∧
    (∀ svc now st1, csched2_context_saved st svc now = some st1 →
      ((st.heap svc).is_idle = false →
        (st.heap svc).flags &&& CSFLAG_scheduled ≠ 0 ∧
        (st.prv.rqd j).svc.count svc
          = if j = c2r st (st.heap svc).processor then 1 else 0) →
      load_exact st1 j) ∧
    (∀ svc t now st1, migrate st svc t now = some st1 → maps_to st t → load_exact st1 j) ∧
    (load_counts st j < 2147483648 → (st.prv.rqd j).load = (load_counts st j : Int)) := by
  have h0 := (load_exact_iff_off st j).mp hinv
  refine ⟨?_, ?_, ?_, ?_, ?_, ?_⟩
  · intro svc now st1 h1
    exact (load_exact_iff_off st1 j).mpr (load_off_wake _ _ _ _ j 0 h1 h0)
  · intro svc now st1 h1
    exact (load_exact_iff_off st1 j).mpr (load_off_sleep _ _ _ _ j 0 h1 h0)
  · intro fuel cpu now tw st1 ret h1 hq hl ha
    exact (load_exact_iff_off st1 j).mpr (load_off_schedule _ _ _ _ _ _ _ j 0 hq hl ha h1 h0)
  · intro svc now st1 h1 hs
    exact (load_exact_iff_off st1 j).mpr (load_off_context_saved _ _ _ _ j 0 hs h1 h0)
  · intro svc t now st1 h1 hm
    exact (load_exact_iff_off st1 j).mpr (load_off_migrate _ _ _ _ _ j 0 hm h1 h0)
  · intro hfit
    unfold load_exact at hinv
    rw [hinv]
    exact to_int_of_range _ (by unfold int_range; omega)
theorem load_invariant_witness :
    load_exact bl_state_pull 1 ∧
    (∃ st1, csched2_vcpu_wake bl_state_pull 2 1024000 = some st1 ∧ load_exact st1 1) ∧
    (∃ st1, csched2_vcpu_sleep bl_state_pull 2 1024000 = some st1 ∧ load_exact st1 1) ∧
    (∃ r, csched2_schedule 1 bl_state_pull 0 1024000 false = some r ∧ load_exact r.1 1) ∧
    (∃ st1, csched2_context_saved bl_state_pull 12 1024000 = some st1 ∧ load_exact st1 1) ∧
    (∃ st1, migrate bl_state_pull 2 0 1024000 = some st1 ∧ load_exact st1 1) ∧
    (bl_state_pull.prv.rqd 1).load = 3 :=
  ⟨by decide,
    ⟨_, rfl, (load_invariant bl_state_pull 1 (by decide)).1 2 1024000 _ (by rfl)⟩,
    ⟨_, rfl, (load_invariant bl_state_pull 1 (by decide)).2.1 2 1024000 _ (by rfl)⟩,
    ⟨_, rfl, (load_invariant bl_state_pull 1 (by decide)).2.2.1 1 0 1024000 false _ _ (by rfl)
      (by decide) (by decide) (by decide)⟩,
    ⟨_, rfl, (load_invariant bl_state_pull 1 (by decide)).2.2.2.1 12 1024000 _ (by rfl)
      (by decide)⟩,
    ⟨_, rfl, (load_invariant bl_state_pull 1 (by decide)).2.2.2.2.1 2 0 1024000 _ (by rfl)
      (by decide)⟩,
    (load_invariant bl_state_pull 1 (by decide)).2.2.2.2.2 (by decide)⟩

/-- On the sample state the loads of the two runqueues after each of the calls:
putting entity 2 to sleep, a scheduling decision on processor 0 (which pulls
entity 2 over), saving the context of entity 12, and moving entity 2 to
runqueue 0. -/
theorem load_invariant_sample :
    ((csched2_vcpu_sleep bl_state_pull 2 1024000).map
        (fun s => ((s.prv.rqd 0).load, (s.prv.rqd 1).load, load_counts s 0, load_counts s 1))
      = some (1, 2, 1, 2)) ∧
    ((csched2_schedule 1 bl_state_pull 0 1024000 false).map
        (fun r => ((r.1.prv.rqd 0).load, (r.1.prv.rqd 1).load, load_counts r.1 0,
          load_counts r.1 1))
      = some (2, 2, 2, 2)) ∧
    ((csched2_context_saved bl_state_pull 12 1024000).map
        (fun s => ((s.prv.rqd 0).load, (s.prv.rqd 1).load, load_counts s 0, load_counts s 1))
      = some (1, 2, 1, 2)) ∧
    ((migrate bl_state_pull 2 0 1024000).map
        (fun s => ((s.prv.rqd 0).load, (s.prv.rqd 1).load, load_counts s 0, load_counts s 1))
      = some (2, 2, 2, 2)) :=
  ⟨rfl, rfl, rfl, rfl⟩

end Credit2
